import Mathlib

/-!
# GoCC limiter: a shallow embedding and its specification

The per-key rate limiter actor of `pkg/limiter/limiter_instance/limiter_instance.go`
and the shard of `pkg/limiter/limiter_manager/limiter_manager.go` that owns the
instances of its keys are embedded as step functions on explicit states.

Modelling conventions.

* Go `int` values are `Int`.  The counters `nApprovedThisWindow` and
  `nDeniedThisWindow` count messages handled by one instance within one window: they
  grow by one per handled message (or by the queue length on a flush) and are reset by
  every tick, so they stay far below `2 ^ 63` and their arithmetic is written without
  wrap-around.  Products of configuration values with time units can leave the 64-bit
  range and are wrapped with `wrapInt64`.
* A channel is identified by a number.  Sending on a channel is recorded as an
  `Effect`; the list of effects of a step is in sending order.
* `time.Now()` is an input of every step: an event carries its clock readings
  (nanoseconds).
* A Go panic is the result `none`.
* The platform has 64 bits: `int` has 64 bits, and the runtime refuses an allocation of
  more than `maxAlloc = 2 ^ 48` bytes.
* `state.throttled` is a `List`; the in-place element copies of the slice helpers
  are kept as explicit loops (`shiftLoop`).
* The shard's `loop` is `managerLoopStep` (both Go functions are called `loop`); the
  regular expression library used by `MatchesKey` is a parameter `compile`.  A shard with
  its instances is `systemState`: every goroutine has its mailbox as a queue and
  `systemStep` lets one of them take one step.
* One iteration of the `for { select { ... } }` of `loop` is `loopStep`; `loop` runs it
  over a finite sequence of events and `loopSteps` records every iteration (state before,
  event, state after, what was sent), from which the logs used by the run-level
  statements are read off.
-/

namespace GoCC

/-! ## limiter_api -/

/-- Response codes `limiter_api.ExtRespCode`. -/
inductive ExtRespCode where
  | Approved
  | Denied
  | ClientGaveUp
  deriving DecidableEq, Repr

/-- The struct `limiter_api.Config`. -/
structure Config where
  WindowMillis : Int
  MaxRequestsPerWindow : Int
  MaxRequestsInQueue : Int
  deriving DecidableEq, Repr

/-- The struct `limiter_api.PermissionRequest` (the logging context `Ctx` is left out;
`RespChan` is the identity of the response channel). -/
structure PermissionRequest where
  ReqID : String
  Key : String
  RespChan : Nat
  CanWait : Bool
  MaxRequests : Int
  MaxRequestsInQueue : Int
  deriving DecidableEq, Repr

/-- The constant `limiter_api.NoChange`. -/
def NoChange : Int := -1000000000

/-- The struct `limiter_api.InstanceDebugSnapshot`. -/
structure InstanceDebugSnapshot where
  Key : String
  Config : Config
  NumApprovedThisWindow : Int
  NumDeniedThisWindow : Int
  NumWaiting : Int
  Found : Bool
  deriving DecidableEq, Repr

/-! ## limiter_instance_api: the messages an instance receives -/

/-- The closed set of types implementing `limiter_instance_api.Request`. -/
inductive Request where
  | ConfigUpdateNotification (cfg : Config)
  | Kill
  | ClientGaveUpNotification (OriginalRequest : PermissionRequest)
  | PermissionRequest (r : PermissionRequest)
  | ReleaseRequest (ReqID : String) (Key : String)
  | DebugSnapshotRequest (Key : String) (RespChan : Nat)
  deriving DecidableEq, Repr

/-- What one iteration of the `select` in `loop` receives: a tick of the window
ticker (with the clock readings of `flushQueued` and of `time.Since`), or a message
from the mailbox (with the clock reading of its handler). -/
inductive Event where
  | tick (tFlush : Int) (tCheck : Int)
  | recv (now : Int) (req : Request)
  deriving DecidableEq, Repr

/-- A value sent on a channel by the instance. -/
inductive Effect where
  | PermissionResponse (req : PermissionRequest) (RespCode : ExtRespCode)
  | DebugSnapshot (RespChan : Nat) (snapshot : InstanceDebugSnapshot)
  | InstanceExpiredNotification (Key : String) (InstanceMailbox : Nat)
  | InstanceDiedNotification (Key : String)
  deriving DecidableEq, Repr

/-! ## limiter_instance -/

/-- Two's complement wrap-around of a Go `int64`. -/
def wrapInt64 (x : Int) : Int := (x + 2 ^ 63) % 2 ^ 64 - 2 ^ 63

/-- The duration `time.Duration(millis) * time.Millisecond`, in nanoseconds. -/
def durationOfMillis (millis : Int) : Int := wrapInt64 (millis * 1000000)

/-- The struct `internalState` (`mailbox` and `parent` are channel identities). -/
structure internalState where
  key : String
  config : Config
  nApprovedThisWindow : Int
  nDeniedThisWindow : Int
  timeLastUsed : Int
  throttled : List PermissionRequest
  mailbox : Nat
  parent : Nat
  deriving DecidableEq, Repr

/-- The state of a running `loop`: the `internalState`, the local variables
`ticker` (its period) and `expiryNotificationSent`, and whether `loop` has returned. -/
structure loopState where
  state : internalState
  ticker : Int
  expiryNotificationSent : Bool
  returned : Bool
  deriving DecidableEq, Repr

/-- The constant `maxAlloc` of the Go runtime on a 64-bit platform with 48 bits of heap
addresses (`1 << heapAddrBits`): the largest allocation `makeslice` lets through. -/
def maxAlloc : Int := 281474976710656

/-- The function `New`: the initial `internalState` and the start of `loop`.
`make([]*PermissionRequest, 0, cap)` panics in `makeslice` with a negative capacity and
with a capacity whose 8-byte pointers take more than `maxAlloc` bytes (a capacity above
`2 ^ 45`), and so does `time.NewTicker` with a non-positive period.  (The channel of
`min(1_000, cap)` slots panics for a negative capacity only.  Below `maxAlloc` the
allocation is taken to succeed: the memory of the machine is not part of the model.) -/
def New (key : String) (config : Config) (parent : Nat) (mailbox : Nat) (now : Int) :
    Option loopState :=
  if config.MaxRequestsPerWindow < 0 ∨ 8 * config.MaxRequestsPerWindow > maxAlloc then none
  else if durationOfMillis config.WindowMillis ≤ 0 then none
  else some {
    state := {
      key := key
      config := config
      nApprovedThisWindow := 0
      nDeniedThisWindow := 0
      timeLastUsed := now
      throttled := []
      mailbox := mailbox
      parent := parent }
    ticker := durationOfMillis config.WindowMillis
    expiryNotificationSent := false
    returned := false }

/-- The copy loop of the slice helpers: `k` iterations of `slice[i] = slice[i+n]; i++`
starting at index `i`.  An index out of range panics. -/
def shiftLoop {α : Type} (n : Nat) : Nat → Nat → List α → Option (List α)
  | 0, _, slice => some slice
  | k + 1, i, slice =>
    match slice[i + n]? with
    | none => none
    | some v => shiftLoop n k (i + 1) (slice.set i v)

/-- The function `discardFirstItems`. -/
def discardFirstItems {α : Type} (slice : List α) (n : Int) : Option (List α) :=
  if n = 0 then some slice
  else if n < 0 then none
  else if n > slice.length then none
  else
    (shiftLoop n.toNat (slice.length - n.toNat) 0 slice).map
      (fun s => s.take (slice.length - n.toNat))

/-- The function `discardItemAt`. -/
def discardItemAt {α : Type} (slice : List α) (i : Int) : Option (List α) :=
  if i < 0 then none
  else if i ≥ slice.length then none
  else
    (shiftLoop 1 (slice.length - 1 - i.toNat) i.toNat slice).map
      (fun s => s.take (slice.length - 1))

/-- The scan of `lo.FindIndexOf` from index `i` on. -/
def FindIndexOf.scan {α : Type} (predicate : α → Bool) : List α → Nat → Int × Bool
  | [], _ => (-1, false)
  | item :: rest, i => if predicate item then ((i : Int), true) else FindIndexOf.scan predicate rest (i + 1)

/-- The library function `lo.FindIndexOf`: index of the first item satisfying the
predicate and `true`, or `-1` and `false`. -/
def FindIndexOf {α : Type} (collection : List α) (predicate : α → Bool) : Int × Bool :=
  FindIndexOf.scan predicate collection 0

/-- The method `flushQueued`: answers the first `min(nMax, len(throttled))` waiters
with `Approved` and drops them from the queue. -/
def flushQueued (state : internalState) (now : Int) (nMax : Int) :
    Option (internalState × List Effect) :=
  let n := min nMax (state.throttled.length : Int)
  if n > 0 then
    let numToFlush := min (state.throttled.length : Int) n
    let sent := (state.throttled.take numToFlush.toNat).map
      (fun r => Effect.PermissionResponse r ExtRespCode.Approved)
    match discardFirstItems state.throttled numToFlush with
    | none => none
    | some rest =>
      some ({ state with
                timeLastUsed := now
                nApprovedThisWindow := state.nApprovedThisWindow + numToFlush
                throttled := rest }, sent)
  else some (state, [])

/-- The `case <-ticker.C` of `loop`. -/
def loopTick (ls : loopState) (tFlush : Int) (tCheck : Int) : Option (loopState × List Effect) :=
  let st0 := { ls.state with nApprovedThisWindow := 0, nDeniedThisWindow := 0 }
  match flushQueued st0 tFlush st0.config.MaxRequestsPerWindow with
  | none => none
  | some (st1, sent) =>
    if tCheck - st1.timeLastUsed > wrapInt64 (wrapInt64 (3 * st1.config.WindowMillis) * 1000000)
        ∧ ls.expiryNotificationSent = false then
      some ({ ls with state := st1, expiryNotificationSent := true },
            sent ++ [Effect.InstanceExpiredNotification st1.key st1.mailbox])
    else some ({ ls with state := st1 }, sent)

/-- The `case *limiter_instance_api.ConfigUpdateNotification` of `loop`. -/
def loopConfigUpdate (ls : loopState) (r : Config) : Option (loopState × List Effect) :=
  let changeWindow : Bool :=
    r.WindowMillis ≠ 0 ∧ r.WindowMillis ≠ NoChange ∧ ls.state.config.WindowMillis ≠ r.WindowMillis
  if changeWindow ∧ durationOfMillis r.WindowMillis ≤ 0 then none
  else
    let ticker1 := if changeWindow then durationOfMillis r.WindowMillis else ls.ticker
    let c1 : Config :=
      if changeWindow then { ls.state.config with WindowMillis := r.WindowMillis }
      else ls.state.config
    let c2 : Config :=
      if r.MaxRequestsInQueue ≠ 0 ∧ r.MaxRequestsInQueue ≠ NoChange
          ∧ c1.MaxRequestsInQueue ≠ r.MaxRequestsInQueue then
        { c1 with MaxRequestsInQueue := r.MaxRequestsInQueue }
      else c1
    let c3 : Config :=
      if r.MaxRequestsPerWindow ≠ 0 ∧ r.MaxRequestsPerWindow ≠ NoChange
          ∧ c2.MaxRequestsPerWindow ≠ r.MaxRequestsPerWindow then
        { c2 with MaxRequestsPerWindow := r.MaxRequestsPerWindow }
      else c2
    some ({ ls with state := { ls.state with config := c3 }, ticker := ticker1 }, [])

/-- The `case *limiter_instance_api.Kill` of `loop`. -/
def loopKill (ls : loopState) (now : Int) : Option (loopState × List Effect) :=
  match flushQueued ls.state now (ls.state.throttled.length : Int) with
  | none => none
  | some (st1, sent) =>
    some ({ ls with state := st1, returned := true },
          sent ++ [Effect.InstanceDiedNotification st1.key])

/-- The `case *limiter_api.ClientGaveUpNotification` of `loop`. -/
def loopClientGaveUp (ls : loopState) (OriginalRequest : PermissionRequest) :
    Option (loopState × List Effect) :=
  match FindIndexOf ls.state.throttled (fun item => item.ReqID == OriginalRequest.ReqID) with
  | (idx, true) =>
    match discardItemAt ls.state.throttled idx with
    | none => none
    | some rest => some ({ ls with state := { ls.state with throttled := rest } }, [])
  | (_, false) => some (ls, [])

/-- The `case *limiter_api.PermissionRequest` of `loop`, on the `internalState`. -/
def handlePermissionRequest (state : internalState) (now : Int) (r : PermissionRequest) :
    internalState × List Effect :=
  let c1 : Config :=
    if r.MaxRequests ≠ NoChange then { state.config with MaxRequestsPerWindow := r.MaxRequests }
    else state.config
  let c2 : Config :=
    if r.MaxRequestsInQueue ≠ NoChange then { c1 with MaxRequestsInQueue := r.MaxRequestsInQueue }
    else c1
  let st : internalState := { state with timeLastUsed := now, config := c2 }
  if st.nApprovedThisWindow ≥ st.config.MaxRequestsPerWindow then
    if r.CanWait then
      if (st.throttled.length : Int) < st.config.MaxRequestsInQueue then
        ({ st with throttled := st.throttled ++ [r] }, [])
      else
        ({ st with nDeniedThisWindow := st.nDeniedThisWindow + 1 },
         [Effect.PermissionResponse r ExtRespCode.Denied])
    else
      ({ st with nDeniedThisWindow := st.nDeniedThisWindow + 1 },
       [Effect.PermissionResponse r ExtRespCode.Denied])
  else
    ({ st with nApprovedThisWindow := st.nApprovedThisWindow + 1 },
     [Effect.PermissionResponse r ExtRespCode.Approved])

/-- The `case *limiter_api.ReleaseRequest` of `loop`, on the `internalState`. -/
def handleReleaseRequest (state : internalState) (now : Int) : internalState × List Effect :=
  ({ state with
      timeLastUsed := now
      nApprovedThisWindow := max 0 (state.nApprovedThisWindow - 1) }, [])

/-- The `case *limiter_api.DebugSnapshotRequest` of `loop`, on the `internalState`. -/
def handleDebugSnapshotRequest (state : internalState) (RespChan : Nat) :
    internalState × List Effect :=
  (state, [Effect.DebugSnapshot RespChan {
      Key := state.key
      Config := state.config
      NumApprovedThisWindow := state.nApprovedThisWindow
      NumDeniedThisWindow := state.nDeniedThisWindow
      NumWaiting := (state.throttled.length : Int)
      Found := true }])

/-- Lifts a handler result on the `internalState` to the loop state. -/
def withState (ls : loopState) (res : internalState × List Effect) : loopState × List Effect :=
  ({ ls with state := res.1 }, res.2)

/-- One iteration of the `for { select { ... } }` of `loop`.  After `loop` has
returned nothing is received any more. -/
def loopStep (ls : loopState) (ev : Event) : Option (loopState × List Effect) :=
  if ls.returned then some (ls, [])
  else
    match ev with
    | Event.tick tFlush tCheck => loopTick ls tFlush tCheck
    | Event.recv now req =>
      match req with
      | Request.ConfigUpdateNotification cfg => loopConfigUpdate ls cfg
      | Request.Kill => loopKill ls now
      | Request.ClientGaveUpNotification orig => loopClientGaveUp ls orig
      | Request.PermissionRequest r => some (withState ls (handlePermissionRequest ls.state now r))
      | Request.ReleaseRequest _ _ => some (withState ls (handleReleaseRequest ls.state now))
      | Request.DebugSnapshotRequest _ respChan =>
        some (withState ls (handleDebugSnapshotRequest ls.state respChan))

/-- The method `loop` run over a finite sequence of events: the final state and
everything sent, in order. -/
def loop (ls : loopState) : List Event → Option (loopState × List Effect)
  | [] => some (ls, [])
  | ev :: rest =>
    match loopStep ls ev with
    | none => none
    | some (ls1, sent1) =>
      match loop ls1 rest with
      | none => none
      | some (ls2, sent2) => some (ls2, sent1 ++ sent2)

/-- The configuration left by the two override assignments at the head of the
PermissionRequest case. -/
def overrideConfig (config : Config) (r : PermissionRequest) : Config :=
  { WindowMillis := config.WindowMillis
    MaxRequestsPerWindow :=
      if r.MaxRequests = NoChange then config.MaxRequestsPerWindow else r.MaxRequests
    MaxRequestsInQueue :=
      if r.MaxRequestsInQueue = NoChange then config.MaxRequestsInQueue
      else r.MaxRequestsInQueue }

/-! ## Runs of the loop, step by step -/

/-- One executed iteration of `loop`: the state before it, the event it received,
the state after it and what it sent. -/
structure Step where
  before : loopState
  event : Event
  after : loopState
  sent : List Effect
  deriving DecidableEq, Repr

/-- The iterations of `loop` over a finite sequence of events. -/
def loopSteps (ls : loopState) : List Event → Option (List Step)
  | [] => some []
  | ev :: rest =>
    match loopStep ls ev with
    | none => none
    | some (ls1, sent1) =>
      match loopSteps ls1 rest with
      | none => none
      | some steps => some ({ before := ls, event := ev, after := ls1, sent := sent1 } :: steps)

/-- The requests answered `Approved` in a list of effects, in sending order. -/
def approvedReplies (sent : List Effect) : List PermissionRequest :=
  sent.filterMap (fun e =>
    match e with
    | Effect.PermissionResponse r ExtRespCode.Approved => some r
    | _ => none)

/-- Everything sent during a sequence of iterations, in order. -/
def sentOf : List Step → List Effect
  | [] => []
  | s :: rest => s.sent ++ sentOf rest

/-- The state after a sequence of iterations that started in `ls`. -/
def endState (ls : loopState) : List Step → loopState
  | [] => ls
  | s :: rest => endState s.after rest

/-- The requests answered (with any code) in a list of effects, in sending order. -/
def repliedRequests (sent : List Effect) : List PermissionRequest :=
  sent.filterMap (fun e =>
    match e with
    | Effect.PermissionResponse r _ => some r
    | _ => none)

/-- The request an iteration handled as a PermissionRequest, if any. -/
def Step.received (s : Step) : List PermissionRequest :=
  match s.event with
  | Event.recv _ (Request.PermissionRequest r) => if s.before.returned then [] else [r]
  | _ => []

/-- The request an iteration appended to the wait queue, if any. -/
def Step.enqueued (s : Step) : List PermissionRequest :=
  match s.event with
  | Event.recv _ (Request.PermissionRequest r) =>
    if s.after.state.throttled = s.before.state.throttled ++ [r] then [r] else []
  | _ => []

/-- The waiters answered `Approved` by the flush of an iteration (a tick or Kill). -/
def Step.flushed (s : Step) : List PermissionRequest :=
  match s.event with
  | Event.tick _ _ => approvedReplies s.sent
  | Event.recv _ Request.Kill => approvedReplies s.sent
  | _ => []

/-- The waiter an iteration took out of the queue for a ClientGaveUp notification:
the first queued request with the request id of the notification, if any. -/
def Step.removed (s : Step) : List PermissionRequest :=
  match s.event with
  | Event.recv _ (Request.ClientGaveUpNotification orig) =>
    if s.before.returned then []
    else (s.before.state.throttled.find? (fun item => item.ReqID == orig.ReqID)).toList
  | _ => []

/-- The requests handled, in order of arrival. -/
def receivedLog : List Step → List PermissionRequest
  | [] => []
  | s :: rest => s.received ++ receivedLog rest

/-- The requests appended to the wait queue, in enqueue order. -/
def enqueueLog : List Step → List PermissionRequest
  | [] => []
  | s :: rest => s.enqueued ++ enqueueLog rest

/-- The waiters answered `Approved` by flushes, in reply order. -/
def flushLog : List Step → List PermissionRequest
  | [] => []
  | s :: rest => s.flushed ++ flushLog rest

/-- The waiters taken out of the queue by ClientGaveUp notifications. -/
def removedLog : List Step → List PermissionRequest
  | [] => []
  | s :: rest => s.removed ++ removedLog rest

/-- The PermissionRequests among a sequence of events. -/
def permissionRequestsOf (evs : List Event) : List PermissionRequest :=
  evs.filterMap (fun ev =>
    match ev with
    | Event.recv _ (Request.PermissionRequest r) => some r
    | _ => none)

/-- The number of ReleaseRequests among a sequence of events. -/
def countReleases (evs : List Event) : Nat :=
  evs.countP (fun ev =>
    match ev with
    | Event.recv _ (Request.ReleaseRequest _ _) => true
    | _ => false)

/-- Whether an event is a tick of the window ticker. -/
def Event.isTick : Event → Bool
  | Event.tick _ _ => true
  | _ => false

/-- Whether an event is the Kill message. -/
def Event.isKill : Event → Bool
  | Event.recv _ Request.Kill => true
  | _ => false

/-- The state a window tick leaves: counters reset, then the flush of up to
`MaxRequestsPerWindow` waiters. -/
def tickState (st : internalState) (tFlush : Int) : internalState :=
  if 0 < min st.config.MaxRequestsPerWindow (st.throttled.length : Int) then
    { st with
        nApprovedThisWindow := min st.config.MaxRequestsPerWindow (st.throttled.length : Int)
        nDeniedThisWindow := 0
        timeLastUsed := tFlush
        throttled :=
          st.throttled.drop (min st.config.MaxRequestsPerWindow (st.throttled.length : Int)).toNat }
  else { st with nApprovedThisWindow := 0, nDeniedThisWindow := 0 }

/-- The replies a window tick sends to the flushed waiters. -/
def tickReplies (st : internalState) : List Effect :=
  (st.throttled.take (min st.config.MaxRequestsPerWindow (st.throttled.length : Int)).toNat).map
    (fun r => Effect.PermissionResponse r ExtRespCode.Approved)

/-- The events of a burst of permission requests, each with the clock reading of
its handler. -/
def permissionEvents (reqs : List (Int × PermissionRequest)) : List Event :=
  reqs.map (fun p => Event.recv p.1 (Request.PermissionRequest p.2))

/-! ## Sample values -/

/-- A request for key `k` without overrides. -/
def sampleRequest (id : String) (canWait : Bool) : PermissionRequest :=
  { ReqID := id, Key := "k", RespChan := 0, CanWait := canWait,
    MaxRequests := NoChange, MaxRequestsInQueue := NoChange }

/-- A request for key `k` that carries overrides. -/
def sampleOverride (id : String) (canWait : Bool) (maxRequests : Int) (maxQueue : Int) :
    PermissionRequest :=
  { ReqID := id, Key := "k", RespChan := 0, CanWait := canWait,
    MaxRequests := maxRequests, MaxRequestsInQueue := maxQueue }

/-- A running instance for key `k` with a window of one second. -/
def sampleInstance (maxRequests : Int) (maxQueue : Int) (approved : Int)
    (queue : List PermissionRequest) : loopState :=
  { state := {
      key := "k"
      config := { WindowMillis := 1000, MaxRequestsPerWindow := maxRequests,
                  MaxRequestsInQueue := maxQueue }
      nApprovedThisWindow := approved
      nDeniedThisWindow := 0
      timeLastUsed := 0
      throttled := queue
      mailbox := 1
      parent := 2 }
    ticker := 1000000000
    expiryNotificationSent := false
    returned := false }

/-- The iterations of a run, empty if the run panics. -/
def stepsOf (ls : loopState) (evs : List Event) : List Step :=
  (loopSteps ls evs).getD []

/-- A run that raises the limit: an approval, an approval under the override
`MaxRequests = 2`, then a tick. -/
def sampleRunRaise : List Event :=
  [Event.recv 1 (Request.PermissionRequest (sampleRequest "a" false)),
   Event.recv 2 (Request.PermissionRequest (sampleOverride "b" false 2 NoChange)),
   Event.tick 3 4]

/-- A run that fills the queue: an approval, a waiter, a waiter admitted under the
override `MaxRequestsInQueue = 2`, a configuration update raising the bound to 3, a tick
and a Kill. -/
def sampleRunQueue : List Event :=
  [Event.recv 1 (Request.PermissionRequest (sampleRequest "a" true)),
   Event.recv 2 (Request.PermissionRequest (sampleRequest "b" true)),
   Event.recv 3 (Request.PermissionRequest (sampleOverride "c" true NoChange 2)),
   Event.recv 4 (Request.ConfigUpdateNotification
     { WindowMillis := 0, MaxRequestsPerWindow := 0, MaxRequestsInQueue := 3 }),
   Event.tick 5 6,
   Event.recv 7 Request.Kill]

/-- The messages of a window with a release: a release, then two requests. -/
def sampleWindowMessages : List Event :=
  [Event.recv 3 (Request.ReleaseRequest "w" "k"),
   Event.recv 4 (Request.PermissionRequest (sampleRequest "a" false)),
   Event.recv 5 (Request.PermissionRequest (sampleRequest "b" false))]

/-- A run with waiters: an approval, three waiters, the second waiter gives up,
then two ticks. -/
def sampleRunWaiters : List Event :=
  [Event.recv 1 (Request.PermissionRequest (sampleRequest "a" true)),
   Event.recv 2 (Request.PermissionRequest (sampleRequest "b" true)),
   Event.recv 3 (Request.PermissionRequest (sampleRequest "c" true)),
   Event.recv 4 (Request.PermissionRequest (sampleRequest "d" true)),
   Event.recv 5 (Request.ClientGaveUpNotification (sampleRequest "c" true)),
   Event.tick 6 7,
   Event.tick 8 9]

/-- A run that ends with Kill: an approval, a denial, two waiters, the first waiter
gives up, then Kill. -/
def sampleRunKilled : List Event :=
  [Event.recv 1 (Request.PermissionRequest (sampleRequest "a" true)),
   Event.recv 2 (Request.PermissionRequest (sampleRequest "b" false)),
   Event.recv 3 (Request.PermissionRequest (sampleRequest "c" true)),
   Event.recv 4 (Request.PermissionRequest (sampleRequest "d" true)),
   Event.recv 5 (Request.ClientGaveUpNotification (sampleRequest "c" true))]

/-- The number of InstanceExpired notifications in a list of effects. -/
def expiredCount (sent : List Effect) : Nat :=
  sent.countP (fun e =>
    match e with
    | Effect.InstanceExpiredNotification _ _ => true
    | _ => false)

/-- A running instance for key `k` with a window of `windowMillis`, last used at time 0. -/
def sampleWindowInstance (windowMillis : Int) (notified : Bool) : loopState :=
  { state := {
      key := "k"
      config := { WindowMillis := windowMillis, MaxRequestsPerWindow := 1,
                  MaxRequestsInQueue := 5 }
      nApprovedThisWindow := 0
      nDeniedThisWindow := 0
      timeLastUsed := 0
      throttled := []
      mailbox := 1
      parent := 2 }
    ticker := windowMillis * 1000000
    expiryNotificationSent := notified
    returned := false }

/-- The configuration left by the three assignments of the ConfigUpdateNotification case:
a field is overwritten by a value that is neither `0` nor `NoChange`. -/
def updatedConfig (config : Config) (r : Config) : Config :=
  { WindowMillis :=
      if r.WindowMillis ≠ 0 ∧ r.WindowMillis ≠ NoChange then r.WindowMillis
      else config.WindowMillis
    MaxRequestsPerWindow :=
      if r.MaxRequestsPerWindow ≠ 0 ∧ r.MaxRequestsPerWindow ≠ NoChange then r.MaxRequestsPerWindow
      else config.MaxRequestsPerWindow
    MaxRequestsInQueue :=
      if r.MaxRequestsInQueue ≠ 0 ∧ r.MaxRequestsInQueue ≠ NoChange then r.MaxRequestsInQueue
      else config.MaxRequestsInQueue }

/-! ## config: the rules of the configuration file -/

/-- The struct `config.CfgFromFileKey`. -/
structure CfgFromFileKey where
  KeyPattern : String
  KeyPatternIsRegex : Bool
  MaxRequestsPerWindow : Int
  MaxRequestsInQueue : Int
  WindowMillis : Int
  deriving DecidableEq, Repr

/-- The struct `config.CfgFromFile`. -/
structure CfgFromFile where
  Keys : List CfgFromFileKey
  deriving DecidableEq, Repr

/-- The method `MatchesKey`.  The standard library's `regexp.Compile` is the parameter
`compile`: `compile pattern` is `none` when the pattern does not compile and otherwise the
`MatchString` of the compiled expression. -/
def CfgFromFileKey.MatchesKey (compile : String → Option (String → Bool))
    (c : CfgFromFileKey) (str : String) : Bool :=
  if c.KeyPatternIsRegex then
    match compile c.KeyPattern with
    | none => false
    | some compiledRegex => compiledRegex str
  else
    decide (c.KeyPattern = str)

/-! ## limiter_manager: effective configuration of a key -/

/-- The function `combineConfigs`: `result := *globalConfig` is a copy, the fields of the
rule that are not zero are written into the copy (queue bound, limit, window, in this
order), and the copy is returned. -/
def combineConfigs (globalConfig : Config) (configFromFile : Option CfgFromFileKey) : Config :=
  let result := globalConfig
  match configFromFile with
  | none => result
  | some c =>
    let result :=
      if c.MaxRequestsInQueue ≠ 0 then { result with MaxRequestsInQueue := c.MaxRequestsInQueue }
      else result
    let result :=
      if c.MaxRequestsPerWindow ≠ 0 then
        { result with MaxRequestsPerWindow := c.MaxRequestsPerWindow }
      else result
    let result :=
      if c.WindowMillis ≠ 0 then { result with WindowMillis := c.WindowMillis }
      else result
    result

/-- The loop `for _, configKey := range configFromFile.Keys` of `mergeConfigsForInstance`,
with the loop variable `result`. -/
def mergeConfigsForInstance.range (compile : String → Option (String → Bool)) (Key : String) :
    List CfgFromFileKey → Config → Config
  | [], result => result
  | configKey :: rest, result =>
    if configKey.MatchesKey compile Key then
      mergeConfigsForInstance.range compile Key rest (combineConfigs result (some configKey))
    else
      mergeConfigsForInstance.range compile Key rest result

/-- The function `mergeConfigsForInstance` (`configFromFile` may be nil). -/
def mergeConfigsForInstance (compile : String → Option (String → Bool)) (Key : String)
    (globalConfig : Config) (configFromFile : Option CfgFromFile) : Config :=
  let result := globalConfig
  match configFromFile with
  | none => result
  | some file => mergeConfigsForInstance.range compile Key file.Keys result

/-- Memory holding `limiter_api.Config` values: a `*limiter_api.Config` is an index into
the list of cells. -/
abbrev ConfigHeap := List Config

/-- The function `combineConfigs` on pointers: it reads the cell `globalConfig` (a nil or
dangling pointer panics), builds the result in the local `result`, which escapes to a new
cell, and returns the address of that cell.  No existing cell is written. -/
def combineConfigs.alloc (heap : ConfigHeap) (globalConfig : Nat)
    (configFromFile : Option CfgFromFileKey) : Option (ConfigHeap × Nat) :=
  match heap[globalConfig]? with
  | none => none
  | some g => some (heap ++ [combineConfigs g configFromFile], heap.length)

/-- The loop of `mergeConfigsForInstance` on pointers: `result` is a pointer, first to the
global config itself and then to the cell returned by the last `combineConfigs`. -/
def mergeConfigsForInstance.rangeAlloc (compile : String → Option (String → Bool))
    (Key : String) : List CfgFromFileKey → ConfigHeap → Nat → Option (ConfigHeap × Nat)
  | [], heap, result => some (heap, result)
  | configKey :: rest, heap, result =>
    if configKey.MatchesKey compile Key then
      match combineConfigs.alloc heap result (some configKey) with
      | none => none
      | some (heap1, result1) =>
        mergeConfigsForInstance.rangeAlloc compile Key rest heap1 result1
    else
      mergeConfigsForInstance.rangeAlloc compile Key rest heap result

/-- The function `mergeConfigsForInstance` on pointers. -/
def mergeConfigsForInstance.alloc (compile : String → Option (String → Bool)) (Key : String)
    (heap : ConfigHeap) (globalConfig : Nat) (configFromFile : Option CfgFromFile) :
    Option (ConfigHeap × Nat) :=
  match configFromFile with
  | none => some (heap, globalConfig)
  | some file => mergeConfigsForInstance.rangeAlloc compile Key file.Keys heap globalConfig

/-- The overlay of one rule as the specification words it: the rule replaces exactly those
of the three fields for which its value is not zero. -/
def overlayRule (acc : Config) (rule : CfgFromFileKey) : Config :=
  { WindowMillis := if rule.WindowMillis ≠ 0 then rule.WindowMillis else acc.WindowMillis
    MaxRequestsPerWindow :=
      if rule.MaxRequestsPerWindow ≠ 0 then rule.MaxRequestsPerWindow
      else acc.MaxRequestsPerWindow
    MaxRequestsInQueue :=
      if rule.MaxRequestsInQueue ≠ 0 then rule.MaxRequestsInQueue else acc.MaxRequestsInQueue }

/-- The effective configuration as the specification words it: the left-to-right fold over
the rules, starting from the global configuration, in which every rule whose pattern matches
the key overlays its non-zero fields. -/
def foldRules (compile : String → Option (String → Bool)) (key : String) (G : Config)
    (R : List CfgFromFileKey) : Config :=
  R.foldl (fun acc rule => if rule.MatchesKey compile key then overlayRule acc rule else acc) G

/-- The value of one field given by the last matching rule with a non-zero value for that
field, or the global value if there is none. -/
def lastNonZero (compile : String → Option (String → Bool)) (key : String)
    (field : CfgFromFileKey → Int) (R : List CfgFromFileKey) (globalValue : Int) : Int :=
  match (R.filter (fun rule => rule.MatchesKey compile key && decide (field rule ≠ 0))).getLast? with
  | none => globalValue
  | some rule => field rule

/-- A stand-in for `regexp.Compile` on the sample patterns: `.*` matches every key, `k.*`
the keys starting with `k`, and every other pattern is taken not to compile. -/
def sampleCompile (pattern : String) : Option (String → Bool) :=
  if pattern = ".*" then some (fun _ => true)
  else if pattern = "k.*" then some (fun key => key.data.head? = some 'k')
  else none

/-- A rule of the configuration file with a literal key pattern. -/
def sampleRule (pattern : String) (isRegex : Bool) (maxRequests : Int) (maxQueue : Int)
    (windowMillis : Int) : CfgFromFileKey :=
  { KeyPattern := pattern, KeyPatternIsRegex := isRegex, MaxRequestsPerWindow := maxRequests,
    MaxRequestsInQueue := maxQueue, WindowMillis := windowMillis }

/-! ## limiter_manager: one shard -/

/-- Lookup `registry[key]` in a Go map, kept as an association list (at most one entry per
key is ever stored by `mapSet`). -/
def mapGet {β : Type} : List (String × β) → String → Option β
  | [], _ => none
  | (k, v) :: rest, key => if k = key then some v else mapGet rest key

/-- The assignment `registry[key] = v`. -/
def mapSet {β : Type} : List (String × β) → String → β → List (String × β)
  | [], key, v => [(key, v)]
  | (k, w) :: rest, key, v =>
    if k = key then (k, v) :: rest else (k, w) :: mapSet rest key v

/-- The statement `delete(registry, key)`. -/
def mapDelete {β : Type} : List (String × β) → String → List (String × β)
  | [], _ => []
  | (k, w) :: rest, key =>
    if k = key then mapDelete rest key else (k, w) :: mapDelete rest key

/-- The closed set of types implementing `limiter_manager_api.Request`. -/
inductive ManagerRequest where
  | PermissionRequest (r : PermissionRequest)
  | ReleaseRequest (ReqID : String) (Key : String)
  | DebugSnapshotRequest (Key : String) (RespChan : Nat)
  | DebugSnapshotAllRequest (RespChan : Nat)
  | ClientGaveUpNotification (OriginalRequest : PermissionRequest)
  | InstanceExpiredNotification (Key : String) (InstanceMailbox : Nat)
  | Kill
  | InstanceDiedNotification (Key : String)
  deriving DecidableEq, Repr

/-- What one iteration of the `select` in the shard's `loop` receives: a file snapshot
from `configFromFileCh` (possibly nil), or a message from the mailbox together with what
the handler reads from its environment: the clock (`time.Now()` in `New`), the channel
returned by `make` (`fresh`), and, for `DebugSnapshotAllRequest`, what the gathering
`select`s yield, one entry per registry key (`none` for a timeout). -/
inductive ManagerEvent where
  | config (configFromFile : Option CfgFromFile)
  | recv (req : ManagerRequest) (now : Int) (fresh : Nat)
      (gathered : List (Option InstanceDebugSnapshot))
  deriving DecidableEq, Repr

/-- What a shard does to its environment: `Spawn` is the `go l.loop()` of `New` with the
initial state of the new instance; the other three are sends, to an instance mailbox or to
a response channel. -/
inductive ManagerEffect where
  | Spawn (inst : loopState)
  | ToInstance (mailbox : Nat) (req : Request)
  | DebugSnapshot (RespChan : Nat) (snapshot : InstanceDebugSnapshot)
  | DebugSnapshotAll (RespChan : Nat) (Instances : List (String × InstanceDebugSnapshot))
  deriving DecidableEq, Repr

/-- The variables of the shard's `loop`: its parameters `globalConfig`, `mailbox` and
`configFromFile`, the local `registry`, and whether `loop` has returned. -/
structure managerState where
  globalConfig : Config
  configFromFile : Option CfgFromFile
  registry : List (String × Nat)
  mailbox : Nat
  returned : Bool
  deriving DecidableEq, Repr

/-- The call `lo.SliceToMap(snapshots, ...)` keyed by `snap.Key`: a later snapshot
replaces an earlier one with the same key. -/
def SliceToMap : List InstanceDebugSnapshot → List (String × InstanceDebugSnapshot)
    → List (String × InstanceDebugSnapshot)
  | [], acc => acc
  | snap :: rest, acc => SliceToMap rest (mapSet acc snap.Key snap)

/-- The literal `&limiter_api.InstanceDebugSnapshot{Found: false}`. -/
def notFoundSnapshot : InstanceDebugSnapshot :=
  { Key := ""
    Config := { WindowMillis := 0, MaxRequestsPerWindow := 0, MaxRequestsInQueue := 0 }
    NumApprovedThisWindow := 0
    NumDeniedThisWindow := 0
    NumWaiting := 0
    Found := false }

/-- One iteration of the `for { select { ... } }` of the shard's `loop` in package
`limiter_manager`.  The result is `none` if the iteration panics (in `New`).  A `range`
over the registry visits the entries in the order of the association list.  Once `loop`
has returned nothing is received any more. -/
def managerLoopStep (compile : String → Option (String → Bool)) (ms : managerState)
    (ev : ManagerEvent) : Option (managerState × List ManagerEffect) :=
  if ms.returned then some (ms, [])
  else
    match ev with
    | ManagerEvent.config configFromFile =>
      some ({ ms with configFromFile := configFromFile },
        ms.registry.map (fun entry =>
          ManagerEffect.ToInstance entry.2
            (Request.ConfigUpdateNotification
              (mergeConfigsForInstance compile entry.1 ms.globalConfig configFromFile))))
    | ManagerEvent.recv req now fresh gathered =>
      match req with
      | ManagerRequest.PermissionRequest r =>
        match mapGet ms.registry r.Key with
        | some inst => some (ms, [ManagerEffect.ToInstance inst (Request.PermissionRequest r)])
        | none =>
          match New r.Key
              (mergeConfigsForInstance compile r.Key ms.globalConfig ms.configFromFile)
              ms.mailbox fresh now with
          | none => none
          | some l =>
            some ({ ms with registry := mapSet ms.registry r.Key l.state.mailbox },
              [ManagerEffect.Spawn l,
               ManagerEffect.ToInstance l.state.mailbox (Request.PermissionRequest r)])
      | ManagerRequest.ReleaseRequest ReqID Key =>
        match mapGet ms.registry Key with
        | some inst =>
          some (ms, [ManagerEffect.ToInstance inst (Request.ReleaseRequest ReqID Key)])
        | none => some (ms, [])
      | ManagerRequest.DebugSnapshotRequest Key RespChan =>
        match mapGet ms.registry Key with
        | none => some (ms, [ManagerEffect.DebugSnapshot RespChan notFoundSnapshot])
        | some inst =>
          some (ms, [ManagerEffect.ToInstance inst (Request.DebugSnapshotRequest Key RespChan)])
      | ManagerRequest.DebugSnapshotAllRequest RespChan =>
        some (ms,
          ms.registry.map (fun entry =>
            ManagerEffect.ToInstance entry.2 (Request.DebugSnapshotRequest entry.1 fresh))
          ++ [ManagerEffect.DebugSnapshotAll RespChan
                (SliceToMap ((gathered.take ms.registry.length).filterMap id) [])])
      | ManagerRequest.ClientGaveUpNotification OriginalRequest =>
        match mapGet ms.registry OriginalRequest.Key with
        | some inst =>
          some (ms,
            [ManagerEffect.ToInstance inst (Request.ClientGaveUpNotification OriginalRequest)])
        | none => some (ms, [])
      | ManagerRequest.InstanceExpiredNotification Key InstanceMailbox =>
        let registry :=
          match mapGet ms.registry Key with
          | none => ms.registry
          | some storedInstance =>
            if storedInstance ≠ InstanceMailbox then ms.registry
            else mapDelete ms.registry Key
        some ({ ms with registry := registry },
          [ManagerEffect.ToInstance InstanceMailbox Request.Kill])
      | ManagerRequest.Kill =>
        some ({ ms with returned := true },
          ms.registry.map (fun entry => ManagerEffect.ToInstance entry.2 Request.Kill))
      | ManagerRequest.InstanceDiedNotification _ => some (ms, [])

/-- The number of instances started by a list of effects. -/
def spawnCount (effects : List ManagerEffect) : Nat :=
  effects.countP (fun e =>
    match e with
    | ManagerEffect.Spawn _ => true
    | _ => false)

/-- A running shard with the given configuration and registry; its mailbox is channel 0. -/
def sampleManager (globalConfig : Config) (configFromFile : Option CfgFromFile)
    (registry : List (String × Nat)) : managerState :=
  { globalConfig := globalConfig
    configFromFile := configFromFile
    registry := registry
    mailbox := 0
    returned := false }

/-- The global configuration of the samples: a window of one second, one request per
window, no queue. -/
def sampleGlobal : Config :=
  { WindowMillis := 1000, MaxRequestsPerWindow := 1, MaxRequestsInQueue := 0 }

/-! ## A shard together with its instances -/

/-- An instance goroutine: the state of its `loop` and the messages waiting in its
mailbox, oldest first. -/
structure instanceProc where
  ls : loopState
  pending : List Request
  deriving DecidableEq, Repr

/-- A shard, the messages waiting in its mailbox, the instance goroutines started so far
(terminated ones included, in order of creation), and the next unused channel address.
Mailboxes are kept as unbounded queues: a send that would block in Go is a send that
happens later. -/
structure systemState where
  manager : managerState
  managerMailbox : List ManagerRequest
  procs : List instanceProc
  nextChan : Nat
  deriving DecidableEq, Repr

/-- What can happen next: somebody sends a message to the shard; the shard receives a
file snapshot; the shard receives the oldest message of its mailbox; the instance at
position `i` receives the oldest message of its mailbox; its window ticker fires. -/
inductive SystemEvent where
  | client (req : ManagerRequest)
  | configFile (configFromFile : Option CfgFromFile)
  | managerRecv (now : Int) (gathered : List (Option InstanceDebugSnapshot))
  | instanceRecv (i : Nat) (now : Int)
  | instanceTick (i : Nat) (tFlush : Int) (tCheck : Int)
  deriving DecidableEq, Repr

/-- The send `mailbox <- req` to an instance mailbox. -/
def deliverToInstance (mailbox : Nat) (req : Request) (procs : List instanceProc) :
    List instanceProc :=
  procs.map (fun p =>
    if p.ls.state.mailbox = mailbox then { p with pending := p.pending ++ [req] } else p)

/-- The effect of a shard on the instance goroutines (replies to clients leave the
system). -/
def applyManagerEffect (procs : List instanceProc) : ManagerEffect → List instanceProc
  | ManagerEffect.Spawn inst => procs ++ [{ ls := inst, pending := [] }]
  | ManagerEffect.ToInstance mailbox req => deliverToInstance mailbox req procs
  | ManagerEffect.DebugSnapshot _ _ => procs
  | ManagerEffect.DebugSnapshotAll _ _ => procs

/-- The messages an instance with the given parent puts into the mailbox of the shard
`shard`. -/
def toParent (shard : Nat) (parent : Nat) (sent : List Effect) : List ManagerRequest :=
  sent.filterMap (fun e =>
    match e with
    | Effect.InstanceExpiredNotification Key InstanceMailbox =>
      if parent = shard then some (ManagerRequest.InstanceExpiredNotification Key InstanceMailbox)
      else none
    | Effect.InstanceDiedNotification Key =>
      if parent = shard then some (ManagerRequest.InstanceDiedNotification Key) else none
    | _ => none)

/-- One step of the system.  The result is `none` if the acting goroutine panics; an event
that is not enabled (empty mailbox, no such instance, goroutine already returned) leaves
the state as it is. -/
def systemStep (compile : String → Option (String → Bool)) (s : systemState) :
    SystemEvent → Option systemState
  | SystemEvent.client req => some { s with managerMailbox := s.managerMailbox ++ [req] }
  | SystemEvent.configFile configFromFile =>
    if s.manager.returned then some s
    else
      match managerLoopStep compile s.manager (ManagerEvent.config configFromFile) with
      | none => none
      | some (manager, effects) =>
        some { s with manager := manager, procs := effects.foldl applyManagerEffect s.procs }
  | SystemEvent.managerRecv now gathered =>
    if s.manager.returned then some s
    else
      match s.managerMailbox with
      | [] => some s
      | req :: rest =>
        match managerLoopStep compile s.manager
            (ManagerEvent.recv req now s.nextChan gathered) with
        | none => none
        | some (manager, effects) =>
          some { manager := manager
                 managerMailbox := rest
                 procs := effects.foldl applyManagerEffect s.procs
                 nextChan := s.nextChan + 1 }
  | SystemEvent.instanceRecv i now =>
    match s.procs[i]? with
    | none => some s
    | some p =>
      if p.ls.returned then some s
      else
        match p.pending with
        | [] => some s
        | req :: rest =>
          match loopStep p.ls (Event.recv now req) with
          | none => none
          | some (ls1, sent) =>
            some { s with
                   procs := s.procs.set i { ls := ls1, pending := rest }
                   managerMailbox :=
                     s.managerMailbox ++ toParent s.manager.mailbox p.ls.state.parent sent }
  | SystemEvent.instanceTick i tFlush tCheck =>
    match s.procs[i]? with
    | none => some s
    | some p =>
      if p.ls.returned then some s
      else
        match loopStep p.ls (Event.tick tFlush tCheck) with
        | none => none
        | some (ls1, sent) =>
          some { s with
                 procs := s.procs.set i { p with ls := ls1 }
                 managerMailbox :=
                   s.managerMailbox ++ toParent s.manager.mailbox p.ls.state.parent sent }

/-- A run of the system over a sequence of events. -/
def systemRun (compile : String → Option (String → Bool)) (s : systemState) :
    List SystemEvent → Option systemState
  | [] => some s
  | ev :: rest =>
    match systemStep compile s ev with
    | none => none
    | some s1 => systemRun compile s1 rest

/-- The start of a shard: `loop` is entered with an empty registry, no instance exists and
the mailbox is empty. -/
def systemInit (globalConfig : Config) (configFromFile : Option CfgFromFile) (mailbox : Nat) :
    systemState :=
  { manager :=
      { globalConfig := globalConfig
        configFromFile := configFromFile
        registry := []
        mailbox := mailbox
        returned := false }
    managerMailbox := []
    procs := []
    nextChan := mailbox + 1 }

/-- An instance is live when it has been created and its `loop` has not returned. -/
def instanceProc.live (p : instanceProc) : Prop := p.ls.returned = false

/-- A run on which the shard creates a second instance for key `k` while the first one,
deregistered after its expiry notification, has not yet received its `Kill`: a request
creates the instance with a window of 10 ms, the instance approves it, its ticker fires
every 10 ms and the tick at 40 ms finds it idle for more than three windows, the shard
handles the expiry notification, and a second request for `k` arrives and is routed. -/
def sampleHandshake : List SystemEvent :=
  [SystemEvent.client (ManagerRequest.PermissionRequest (sampleRequest "a" false)),
   SystemEvent.managerRecv 0 [],
   SystemEvent.instanceRecv 0 0,
   SystemEvent.instanceTick 0 10000000 10000000,
   SystemEvent.instanceTick 0 20000000 20000000,
   SystemEvent.instanceTick 0 30000000 30000000,
   SystemEvent.instanceTick 0 40000000 40000000,
   SystemEvent.managerRecv 40000000 [],
   SystemEvent.client (ManagerRequest.PermissionRequest (sampleRequest "b" false)),
   SystemEvent.managerRecv 41000000 []]

/-- The invariant of the reachable states of a shard with its instances: channel addresses
of instance mailboxes are below the next unused address and pairwise distinct, and every
live instance is registered under its key or has a `Kill` waiting in its mailbox. -/
def systemInv (s : systemState) : Prop :=
  (∀ p ∈ s.procs, p.ls.state.mailbox < s.nextChan)
  ∧ (s.procs.map (fun p => p.ls.state.mailbox)).Nodup
  ∧ (∀ p ∈ s.procs, p.live →
      mapGet s.manager.registry p.ls.state.key = some p.ls.state.mailbox
      ∨ Request.Kill ∈ p.pending)

/-- The state at the end of `sampleHandshake` from a shard with a window of 10 ms. -/
def sampleTwoLive : systemState :=
  { manager :=
      { globalConfig := { WindowMillis := 10, MaxRequestsPerWindow := 1, MaxRequestsInQueue := 0 }
        configFromFile := none
        registry := [("k", 3)]
        mailbox := 0
        returned := false }
    managerMailbox := []
    procs :=
      [{ ls :=
           { state :=
               { key := "k"
                 config :=
                   { WindowMillis := 10, MaxRequestsPerWindow := 1, MaxRequestsInQueue := 0 }
                 nApprovedThisWindow := 0
                 nDeniedThisWindow := 0
                 timeLastUsed := 0
                 throttled := []
                 mailbox := 1
                 parent := 0 }
             ticker := 10000000
             expiryNotificationSent := true
             returned := false }
         pending := [Request.Kill] },
       { ls :=
           { state :=
               { key := "k"
                 config :=
                   { WindowMillis := 10, MaxRequestsPerWindow := 1, MaxRequestsInQueue := 0 }
                 nApprovedThisWindow := 0
                 nDeniedThisWindow := 0
                 timeLastUsed := 41000000
                 throttled := []
                 mailbox := 3
                 parent := 0 }
             ticker := 10000000
             expiryNotificationSent := false
             returned := false }
         pending := [Request.PermissionRequest (sampleRequest "b" false)] }]
    nextChan := 4 }

/-- A burst of `n` requests for key `k` that can wait and carry no overrides, with the
request ids `0`, `1`, ... and increasing clock readings. -/
def sampleBurst (n : Nat) : List (Int × PermissionRequest) :=
  (List.range n).map (fun (i : Nat) => ((i : Int) + 1, sampleRequest (Nat.repr i) true))

/-- The instance that `New` creates for key `k` at time 0 with mailbox 1 and parent 2, for a
config with a valid window. -/
def sampleFresh (config : Config) : loopState :=
  { state := {
      key := "k"
      config := config
      nApprovedThisWindow := 0
      nDeniedThisWindow := 0
      timeLastUsed := 0
      throttled := []
      mailbox := 1
      parent := 2 }
    ticker := config.WindowMillis * 1000000
    expiryNotificationSent := false
    returned := false }

/-! ## limiter_manager: the manager set -/

/-- The conversion `[]byte(s)`: the UTF-8 bytes of a string, as numbers below 256. -/
def bytesOf (s : String) : List Nat :=
  (s.data.map (fun c => (String.utf8EncodeChar c).map (fun b => b.toNat))).flatten

/-- The constant `offset32` of the standard library's `hash/fnv`. -/
def offset32 : Nat := 2166136261

/-- The constant `prime32` of the standard library's `hash/fnv`. -/
def prime32 : Nat := 16777619

/-- The method `Write` of the `hash.Hash32` that `fnv.New32a()` returns (standard library):
the state is a `uint32`, and for each byte `c` of the data `hash ^= uint32(c)` is followed
by `hash *= prime32`.  It never returns an error. -/
def sum32a.Write (hash : Nat) : List Nat → Nat
  | [] => hash
  | c :: data => sum32a.Write (((hash ^^^ c) * prime32) % 2 ^ 32) data

/-- The function `hash`: `fnv.New32a()` starts from `offset32`, `Write` consumes the bytes
of the key and `Sum32` returns the state. -/
def hash (s : String) : Nat :=
  sum32a.Write offset32 (bytesOf s)

/-- The struct `LimiterManagerSet`: the request id counter and the mailboxes of the
shards. -/
structure LimiterManagerSet where
  reqIdGen : Int
  mailboxes : List Nat
  deriving DecidableEq, Repr

/-- The function `NewManagerSet`, as far as the set itself is concerned: it panics unless
`0 < sharding <= 100` and creates one mailbox per shard (`fresh` is the address of the first
one; the shard goroutines and the fan-out of file snapshots are started on the side). -/
def NewManagerSet (sharding : Int) (fresh : Nat) : Option LimiterManagerSet :=
  if sharding ≤ 0 then none
  else if sharding > 100 then none
  else some { reqIdGen := 0, mailboxes := (List.range sharding.toNat).map (fun i => fresh + i) }

/-- The method `GetShardIndex`: `int(hash(key)) % len(mgr.mailboxes)`, with Go's 64-bit
`int` and truncated remainder; a zero divisor panics. -/
def GetShardIndex (mgr : LimiterManagerSet) (key : String) : Option Int :=
  if mgr.mailboxes.length = 0 then none
  else some (Int.tmod (wrapInt64 (hash key)) (mgr.mailboxes.length : Int))

/-- The method `getShardMailbox`: `mgr.mailboxes[mgr.GetShardIndex(key)]`; an index out of
range panics. -/
def getShardMailbox (mgr : LimiterManagerSet) (key : String) : Option Nat :=
  match GetShardIndex mgr key with
  | none => none
  | some index => if index < 0 then none else mgr.mailboxes[index.toNat]?

/-- The 32-bit FNV-1a hash as the specification words it: start from the offset basis
2166136261 and, for each byte, xor the byte in and multiply by 16777619 modulo `2 ^ 32`. -/
def fnv1a32 (bytes : List Nat) : Nat :=
  bytes.foldl (fun h b => ((h ^^^ b) * 16777619) % 2 ^ 32) 2166136261

/-- The struct `limiter_api.DebugSnapshotAll`; the map `Instances` is an association
list. -/
structure DebugSnapshotAll where
  Instances : List (String × InstanceDebugSnapshot)
  deriving DecidableEq, Repr

/-- The inner loop `for key, val := range snap.Instances { combined.Instances[key] = val }`
of `GetDebugSnapshotsAll`; `combined` is a pointer, `none` when nil, and the assignment
through a nil pointer panics. -/
def GetDebugSnapshotsAll.copy (combined : Option DebugSnapshotAll) :
    List (String × InstanceDebugSnapshot) → Option (Option DebugSnapshotAll)
  | [] => some combined
  | (key, val) :: rest =>
    match combined with
    | none => none
    | some c =>
      GetDebugSnapshotsAll.copy (some { Instances := mapSet c.Instances key val }) rest

/-- The outer loop `for _, snap := range many[1:]` of `GetDebugSnapshotsAll`; reading
`snap.Instances` through a nil `snap` panics. -/
def GetDebugSnapshotsAll.range (combined : Option DebugSnapshotAll) :
    List (Option DebugSnapshotAll) → Option (Option DebugSnapshotAll)
  | [] => some combined
  | snap :: rest =>
    match snap with
    | none => none
    | some s =>
      match GetDebugSnapshotsAll.copy combined s.Instances with
      | none => none
      | some combined1 => GetDebugSnapshotsAll.range combined1 rest

/-- The method `GetDebugSnapshotsAll`.  `respond mailbox` is what the `select` of the
`lop.Map` callback yields for the shard with that mailbox: its response, or `none` (nil)
after the timeout.  The outer `Option` of the result is `none` for a panic, the inner one is
the returned pointer. -/
def GetDebugSnapshotsAll (mgr : LimiterManagerSet) (respond : Nat → Option DebugSnapshotAll) :
    Option (Option DebugSnapshotAll) :=
  let many := mgr.mailboxes.map respond
  match many with
  | [] => none
  | combined :: rest => GetDebugSnapshotsAll.range combined rest

/-- The snapshot an instance in state `st` sends in answer to a DebugSnapshot request. -/
def snapshotOf (st : internalState) : InstanceDebugSnapshot :=
  { Key := st.key
    Config := st.config
    NumApprovedThisWindow := st.nApprovedThisWindow
    NumDeniedThisWindow := st.nDeniedThisWindow
    NumWaiting := (st.throttled.length : Int)
    Found := true }

/-- A snapshot for the given key with one approval, as a fresh instance sends it after its
first request. -/
def sampleSnapshot (key : String) : InstanceDebugSnapshot :=
  { Key := key
    Config := sampleGlobal
    NumApprovedThisWindow := 1
    NumDeniedThisWindow := 0
    NumWaiting := 0
    Found := true }

/-- A manager set with two shards, whose mailboxes are the channels 10 and 11. -/
def sampleSet : LimiterManagerSet :=
  { reqIdGen := 0, mailboxes := [10, 11] }

/-- The response of the `DebugSnapshotAllRequest` case of the shard's `loop`: the gathered
snapshots, one result per registry key, without the nil ones, as a map keyed by
`snap.Key`. -/
def snapshotAllReply (registry : List (String × Nat))
    (gathered : List (Option InstanceDebugSnapshot)) : DebugSnapshotAll :=
  { Instances := SliceToMap ((gathered.take registry.length).filterMap id) [] }

/-- The shard goroutines that `NewManagerSet` starts, in the order of `mgr.mailboxes`:
`loop(globalConfig, mailbox, initConfigFromFile, configChs[i])`, each with an empty
registry. -/
def startShards (mgr : LimiterManagerSet) (globalConfig : Config)
    (initConfigFromFile : Option CfgFromFile) : List managerState :=
  mgr.mailboxes.map (fun mailbox =>
    { globalConfig := globalConfig
      configFromFile := initConfigFromFile
      registry := []
      mailbox := mailbox
      returned := false })

/-- The shard side of `AskPermission`: the request is sent to the mailbox
`getShardMailbox(key)` and the shard owning that mailbox handles it (`now` and `fresh` are
the clock reading and the channel of `New` if the shard creates an instance).  The result is
`none` if the index is out of range or the shard panics. -/
def deliverPermissionRequest (compile : String → Option (String → Bool))
    (mgr : LimiterManagerSet) (shards : List managerState) (r : PermissionRequest)
    (now : Int) (fresh : Nat) : Option (List managerState) :=
  match GetShardIndex mgr r.Key with
  | none => none
  | some index =>
    if index < 0 then none
    else
      match shards[index.toNat]? with
      | none => none
      | some ms =>
        match managerLoopStep compile ms
            (ManagerEvent.recv (ManagerRequest.PermissionRequest r) now fresh []) with
        | none => none
        | some (ms1, _) => some (shards.set index.toNat ms1)

/-- A sequence of `AskPermission` calls, one after the other, as the shards see it. -/
def deliverAll (compile : String → Option (String → Bool)) (mgr : LimiterManagerSet) :
    List managerState → List (Int × PermissionRequest) → Nat → Option (List managerState)
  | shards, [], _ => some shards
  | shards, (now, r) :: rest, fresh =>
    match deliverPermissionRequest compile mgr shards r now fresh with
    | none => none
    | some shards1 => deliverAll compile mgr shards1 rest (fresh + 1)

/-- The keys registered in the shards, shard by shard. -/
def registeredKeys (shards : List managerState) : List String :=
  (shards.map (fun ms => ms.registry.map Prod.fst)).flatten

/-- What is known of the shards of a set after requests for the keys `keys` have been
handled: every shard runs with the given configuration, its registry has no key twice and
holds only keys that hash to the shard, and the registries together hold exactly the keys
`keys`. -/
def shardsHold (mgr : LimiterManagerSet) (globalConfig : Config)
    (configFromFile : Option CfgFromFile) (shards : List managerState) (keys : List String) :
    Prop :=
  shards.length = mgr.mailboxes.length
  ∧ (∀ ms ∈ shards, ms.returned = false ∧ ms.globalConfig = globalConfig
      ∧ ms.configFromFile = configFromFile ∧ (ms.registry.map Prod.fst).Nodup)
  ∧ (∀ (i : Nat) (ms : managerState), shards[i]? = some ms →
      ∀ e ∈ ms.registry, GetShardIndex mgr e.1 = some (i : Int))
  ∧ (∀ k, k ∈ registeredKeys shards ↔ k ∈ keys)
  ∧ (registeredKeys shards).length = keys.length

/-- The state of an instance for the given key after its first approval, under the sample
global configuration. -/
def sampleState (key : String) : internalState :=
  { key := key
    config := sampleGlobal
    nApprovedThisWindow := 1
    nDeniedThisWindow := 0
    timeLastUsed := 0
    throttled := []
    mailbox := 0
    parent := 0 }

/-- The two shards of `sampleSet` after a request for `a` and one for `b`, each with the
snapshot its one instance sends. -/
def sampleShardAnswers : List (managerState × List InstanceDebugSnapshot) :=
  [({ globalConfig := sampleGlobal, configFromFile := none, registry := [("a", 20)],
      mailbox := 10, returned := false }, [snapshotOf (sampleState "a")]),
   ({ globalConfig := sampleGlobal, configFromFile := none, registry := [("b", 21)],
      mailbox := 11, returned := false }, [snapshotOf (sampleState "b")])]

/-- The responses of the two shards of `sampleSet` when both answer in time. -/
def sampleRespond (mailbox : Nat) : Option DebugSnapshotAll :=
  if mailbox = 10 then some { Instances := [("a", snapshotOf (sampleState "a"))] }
  else if mailbox = 11 then some { Instances := [("b", snapshotOf (sampleState "b"))] }
  else none

/-- The key a request to the shard is for, for the four kinds of request that are routed by
key. -/
def requestKey : ManagerRequest → Option String
  | ManagerRequest.PermissionRequest r => some r.Key
  | ManagerRequest.ReleaseRequest _ Key => some Key
  | ManagerRequest.DebugSnapshotRequest Key _ => some Key
  | ManagerRequest.ClientGaveUpNotification OriginalRequest => some OriginalRequest.Key
  | _ => none

/-- The four kinds of message an instance gets from a request routed by key. -/
def Request.isKeyed : Request → Bool
  | Request.PermissionRequest _ => true
  | Request.ReleaseRequest _ _ => true
  | Request.DebugSnapshotRequest _ _ => true
  | Request.ClientGaveUpNotification _ => true
  | _ => false

/-- A second invariant of the reachable states of a shard with its instances: a registered
mailbox is an allocated channel, and an instance that owns a registered mailbox has the key
the mailbox is registered under. -/
def routingInv (s : systemState) : Prop :=
  ∀ key mailbox, mapGet s.manager.registry key = some mailbox →
    mailbox < s.nextChan
    ∧ ∀ p ∈ s.procs, p.ls.state.mailbox = mailbox → p.ls.state.key = key

/-- A request without overrides that cannot wait, for the given key. -/
def sampleRequestFor (key : String) (id : String) : PermissionRequest :=
  { ReqID := id, Key := key, RespChan := 0, CanWait := false,
    MaxRequests := NoChange, MaxRequestsInQueue := NoChange }

/-- A file snapshot that gives key `k` the limit `-1`. -/
def sampleBadFile : CfgFromFile :=
  { Keys := [sampleRule "k" false (-1) 0 0] }

/-- A run of a shard started with `sampleBadFile`: a request for key `q` creates the
instance of `q`, which approves it; then a request for key `k` arrives and the shard
receives it. -/
def sampleBadRuleRun : List SystemEvent :=
  [SystemEvent.client (ManagerRequest.PermissionRequest (sampleRequestFor "q" "1")),
   SystemEvent.managerRecv 0 [],
   SystemEvent.instanceRecv 0 1,
   SystemEvent.client (ManagerRequest.PermissionRequest (sampleRequestFor "k" "2")),
   SystemEvent.managerRecv 2 []]

/-! ## server/endpoints: the rate endpoint

Strings are sequences of characters; the byte positions of the source are character
positions here, which agrees with the source wherever it cuts a string, since it cuts at
`:`, `[` and `]` only.  The standard library functions `strings.TrimSpace`,
`strconv.ParseBool` and `strconv.ParseInt` are given by what their documentation and code
say; a returned `error` is `none`. -/

/-- The function `unicode.IsSpace` of the standard library: tab, line feed, vertical tab,
form feed, carriage return, space, U+0085, U+00A0 and the other characters with the
property White_Space. -/
def isSpace (r : Char) : Bool :=
  (9 ≤ r.toNat && r.toNat ≤ 13) || r.toNat = 32 || r.toNat = 133 || r.toNat = 160
    || r.toNat = 5760 || (8192 ≤ r.toNat && r.toNat ≤ 8202) || r.toNat = 8232
    || r.toNat = 8233 || r.toNat = 8239 || r.toNat = 8287 || r.toNat = 12288

/-- The function `strings.TrimSpace` of the standard library: the string without its
leading and trailing white space. -/
def TrimSpace (s : String) : String :=
  String.mk ((s.data.dropWhile isSpace).reverse.dropWhile isSpace).reverse

/-- The function `strconv.ParseBool` of the standard library. -/
def ParseBool (str : String) : Option Bool :=
  if ["1", "t", "T", "true", "TRUE", "True"].contains str then some true
  else if ["0", "f", "F", "false", "FALSE", "False"].contains str then some false
  else none

/-- The digit loop of `strconv.ParseUint` for base 10: the value of a sequence of decimal
digits, and an error at any other character.  (The source stops with a range error as soon
as the value leaves 64 bits; here the value is exact and the caller checks the range.) -/
def ParseUint.loop (n : Nat) : List Char → Option Nat
  | [] => some n
  | c :: rest =>
    if 48 ≤ c.toNat ∧ c.toNat ≤ 57 then ParseUint.loop (n * 10 + (c.toNat - 48)) rest
    else none

/-- The function `strconv.ParseInt(s, 10, bitSize)` of the standard library: an empty
string is an error; a leading `+` or `-` is picked off; the rest must be a non-empty
sequence of decimal digits; with `cutoff = 1 << (bitSize - 1)`, a value of at least
`cutoff` without the minus sign, or of more than `cutoff` with it, is a range error. -/
def ParseInt (s : String) (bitSize : Nat) : Option Int :=
  match s.data with
  | [] => none
  | c :: rest =>
    let neg := decide (c = '-')
    let digits := if c = '+' ∨ c = '-' then rest else c :: rest
    if digits = [] then none
    else
      match ParseUint.loop 0 digits with
      | none => none
      | some un =>
        let cutoff := 2 ^ (bitSize - 1)
        if neg = false ∧ un ≥ cutoff then none
        else if neg = true ∧ un > cutoff then none
        else some (if neg then -(un : Int) else (un : Int))

/-- The function `parseOptionalBoolParam`. -/
def parseOptionalBoolParam (raw : String) (defaultValue : Bool) : Option Bool :=
  let trimmed := TrimSpace raw
  if trimmed.length > 0 then ParseBool trimmed
  else some defaultValue

/-- The function `parseOptionalInt32Param`. -/
def parseOptionalInt32Param (raw : String) (defaultValue : Int) : Option Int :=
  let trimmed := TrimSpace raw
  if trimmed.length > 0 then
    match ParseInt trimmed 32 with
    | none => none
    | some i32 => some i32
  else some defaultValue

/-- The function `minMax` of the package `config`: the validator returns an error (`some`)
or `nil` (`none`). -/
def minMax (min max : Int) (t : Int) : Option String :=
  if t < min then some ("value must be at least " ++ toString min)
  else if t > max then some ("value must be at most " ++ toString max)
  else none

/-- A `*url.URL`, as far as the endpoint reads it. -/
structure URL where
  Scheme : String
  Host : String
  deriving DecidableEq, Repr

/-- The struct `config.GlobalCfgValidated`, as far as the rate endpoint reads it. -/
structure GlobalCfgValidated where
  RequestsCanSetRate : Bool
  RequestsCanModQueue : Bool
  Instances : List URL
  deriving DecidableEq, Repr

/-- The validator `cfg.MaxRequests.CustomValidator`, set by `NewGlobalCfg`. -/
def GlobalCfgValidated.MaxRequestsValidator (_ : GlobalCfgValidated) : Int → Option String :=
  minMax 1 1000000000

/-- The validator `cfg.MaxRequestsInQueue.CustomValidator`, set by `NewGlobalCfg`. -/
def GlobalCfgValidated.MaxRequestsInQueueValidator (_ : GlobalCfgValidated) :
    Int → Option String :=
  minMax 0 1000000000

/-- The method `DistributedMode`. -/
def GlobalCfgValidated.DistributedMode (c : GlobalCfgValidated) : Bool :=
  decide (c.Instances.length > 0)

/-- The function `hashKey`, which is `hash` of the manager set. -/
def hashKey (key : String) : Nat :=
  sum32a.Write offset32 (bytesOf key)

/-- The function `getInstance`; it panics outside distributed mode. -/
def getInstance (cfg : GlobalCfgValidated) (key : String) : Option URL :=
  if cfg.DistributedMode = false then none
  else cfg.Instances[hashKey key % cfg.Instances.length]?

/-- The function `validOptionalPort`. -/
def validOptionalPort (port : List Char) : Bool :=
  match port with
  | [] => true
  | c :: rest =>
    if c ≠ ':' then false
    else rest.all (fun b => decide (48 ≤ b.toNat ∧ b.toNat ≤ 57))

/-- The function `strings.LastIndexByte` of the standard library; `-1` if the character
does not occur. -/
def LastIndexByte (s : List Char) (c : Char) : Int :=
  if s.reverse.indexOf c = s.length then -1
  else ((s.length - 1 - s.reverse.indexOf c : Nat) : Int)

/-- The function `splitHostPort`, with the result `host`. -/
def splitHostPort (hostPort : String) : String :=
  let colon := LastIndexByte hostPort.data ':'
  let host :=
    if colon ≠ -1 ∧ validOptionalPort (hostPort.data.drop colon.toNat) = true then
      hostPort.data.take colon.toNat
    else hostPort.data
  if host.head? = some '[' ∧ host.getLast? = some ']' then
    String.mk ((host.drop 1).take (host.length - 1 - 1))
  else String.mk host

/-- The method `Hostname` of `url.URL` (standard library), which uses the function that
`splitHostPort` is a copy of. -/
def URL.Hostname (u : URL) : String :=
  splitHostPort u.Host

/-- What the endpoint reads of an `echo.Context`: the method, host and path of the request,
the path parameter `key`, the raw query string and `URL.Query()`, the query parameters with
their values (a Go map; the list gives the order in which `range` visits it). -/
structure Context where
  Method : String
  Host : String
  Path : String
  key : String
  RawQuery : String
  Query : List (String × List String)
  deriving DecidableEq, Repr

/-- The method `QueryParam` of `echo.Context`: the first value of the parameter, the empty
string if there is none. -/
def Context.QueryParam (c : Context) (name : String) : String :=
  match mapGet c.Query name with
  | none => ""
  | some vs => vs.headD ""

/-- A response written to the `echo.Context`. -/
structure HttpResponse where
  Status : Int
  Body : String
  deriving DecidableEq, Repr

/-- The response of `c.String(code, s)`. -/
def writeString (code : Int) (s : String) : HttpResponse :=
  { Status := code, Body := s }

/-- The response of `c.NoContent(code)`. -/
def writeNoContent (code : Int) : HttpResponse :=
  { Status := code, Body := "" }

/-- The calls a handler makes: `limiterManager.AskPermission`, and `http.NewRequest` with
`http2Client.Do` for a method and a URI. -/
inductive HandlerCall where
  | AskPermission (key : String) (canWait : Bool) (maxRequests : Int)
      (maxRequestsInQueue : Int)
  | Do (method : String) (uri : String)
  deriving DecidableEq, Repr

/-- The query string that `maybeForwardToCorrectInstance` builds. -/
def maybeForwardToCorrectInstance.query (c : Context) : String :=
  if c.RawQuery.length > 0 then
    c.Query.foldl
      (fun query kv =>
        if kv.1 ≠ "ik" then kv.2.foldl (fun q v => q ++ "&" ++ kv.1 ++ "=" ++ v) query
        else query)
      "?ik=true"
  else "?ik=true"

/-- The function `maybeForwardToCorrectInstance`.  `http.NewRequest` followed by
`http2Client.Do` is the parameter `Do`: `none` if either returns an error, otherwise the
status code of the response, which is all the function reads of it.  The result `some r`
stands for `forwarded = true`, with the response written and the call made; `none` inside
stands for the return `nil, false`, and `none` outside is a panic. -/
def maybeForwardToCorrectInstance (Do : String → String → Option Int) (c : Context)
    (cfg : GlobalCfgValidated) (key : String) :
    Option (Option (HttpResponse × List HandlerCall)) :=
  if cfg.DistributedMode = true ∧ c.QueryParam "ik" ≠ "true" then
    match getInstance cfg key with
    | none => none
    | some correctInstance =>
      let correctHostname := correctInstance.Hostname
      let requestHostName := splitHostPort c.Host
      if correctHostname ≠ requestHostName then
        let uri := correctInstance.Scheme ++ "://" ++ correctInstance.Host ++ c.Path
          ++ maybeForwardToCorrectInstance.query c
        match Do c.Method uri with
        | none =>
          some (some (writeString 502 "failed to forward request to correct instance",
            [HandlerCall.Do c.Method uri]))
        | some StatusCode =>
          some (some (writeNoContent StatusCode, [HandlerCall.Do c.Method uri]))
      else some none
  else some none

/-- The handler that `HandleRateRequest` returns.  `AskPermission` is the call to the
limiter, with its result; the handler returns the response written and the calls made, and
`none` is a panic.  The result of `AskPermission` is one of the three constants of
`ExtRespCode`, so that the `default` case of the `switch` does not occur. -/
def HandleRateRequest (cfg : GlobalCfgValidated)
    (AskPermission : String → Bool → Int → Int → ExtRespCode × String)
    (Do : String → String → Option Int) (c : Context) :
    Option (HttpResponse × List HandlerCall) :=
  let key := TrimSpace c.key
  if key.length = 0 then some (writeString 400 "empty key provided", [])
  else
    match parseOptionalBoolParam (c.QueryParam "canWait") false with
    | none => some (writeString 400 "failed to parse canWait query parameter", [])
    | some canWait =>
      match parseOptionalInt32Param (c.QueryParam "maxRequests") NoChange with
      | none => some (writeString 400 "failed to parse maxRequests query parameter", [])
      | some maxRequests =>
        if maxRequests ≠ NoChange ∧ cfg.RequestsCanSetRate = false then
          some (writeString 403 "maxRequests query parameter is disabled", [])
        else
          match parseOptionalInt32Param (c.QueryParam "maxRequestsInQueue") NoChange with
          | none =>
            some (writeString 400 "failed to parse maxRequestsInQueue query parameter", [])
          | some maxRequestsInQueue =>
            if maxRequestsInQueue ≠ NoChange ∧ cfg.RequestsCanModQueue = false then
              some (writeString 403 "maxRequestsInQueue query parameter is disabled", [])
            else if maxRequests ≠ NoChange
                ∧ (cfg.MaxRequestsValidator maxRequests).isSome = true then
              some (writeString 400 "maxRequests out of bounds", [])
            else if maxRequestsInQueue ≠ NoChange
                ∧ (cfg.MaxRequestsInQueueValidator maxRequestsInQueue).isSome = true then
              some (writeString 400 "maxRequestsInQueue out of bounds", [])
            else
              match maybeForwardToCorrectInstance Do c cfg key with
              | none => none
              | some (some forwarded) => some forwarded
              | some none =>
                match AskPermission key canWait maxRequests maxRequestsInQueue with
                | (ExtRespCode.Approved, requestID) =>
                  some (writeString 200 requestID,
                    [HandlerCall.AskPermission key canWait maxRequests maxRequestsInQueue])
                | (ExtRespCode.Denied, _) =>
                  some (writeNoContent 429,
                    [HandlerCall.AskPermission key canWait maxRequests maxRequestsInQueue])
                | (ExtRespCode.ClientGaveUp, _) =>
                  some (writeNoContent 499,
                    [HandlerCall.AskPermission key canWait maxRequests maxRequestsInQueue])

/-- A configuration of two peers that does not allow overrides of the rate and of the
queue. -/
def sampleCfg : GlobalCfgValidated :=
  { RequestsCanSetRate := false, RequestsCanModQueue := false,
    Instances := [{ Scheme := "http", Host := "a.example:8080" },
                  { Scheme := "http", Host := "b.example:8080" }] }

/-- The configuration of a single instance that does not allow overrides. -/
def sampleLocalCfg : GlobalCfgValidated :=
  { RequestsCanSetRate := false, RequestsCanModQueue := false, Instances := [] }

/-- A limiter that approves, with request id `1`. -/
def sampleApprove : String → Bool → Int → Int → ExtRespCode × String :=
  fun _ _ _ _ => (ExtRespCode.Approved, "1")

/-- A POST request for `/rate/<key>` to the given host with the given query parameters. -/
def sampleContext (host : String) (key : String) (query : List (String × List String)) :
    Context :=
  { Method := "POST", Host := host, Path := "/rate/" ++ key, key := key,
    RawQuery := if query = [] then "" else "q", Query := query }

/-- The peer `b.example` of `sampleCfg` as the HTTP client sees it: the request for
`/rate/b?ik=true` is answered with the status that the handler of the peer writes when its
limiter approves. -/
def samplePeerDo (method : String) (uri : String) : Option Int :=
  if uri = "http://b.example:8080/rate/b?ik=true" then
    (HandleRateRequest sampleCfg sampleApprove (fun _ _ => none)
      { Method := method, Host := "b.example:8080", Path := "/rate/b", key := "b",
        RawQuery := "ik=true", Query := [("ik", ["true"])] }).map (fun r => r.1.Status)
  else none

/-- A well-formed request to the rate endpoint (the words of the specification), with the
values of its parameters: the key is not empty after trimming, the three optional
parameters parse, and an override that is present is allowed by the policy and within its
bounds. -/
def wellFormed (cfg : GlobalCfgValidated) (c : Context) (canWait : Bool) (maxRequests : Int)
    (maxRequestsInQueue : Int) : Prop :=
  (TrimSpace c.key).length ≠ 0
  ∧ parseOptionalBoolParam (c.QueryParam "canWait") false = some canWait
  ∧ parseOptionalInt32Param (c.QueryParam "maxRequests") NoChange = some maxRequests
  ∧ parseOptionalInt32Param (c.QueryParam "maxRequestsInQueue") NoChange
      = some maxRequestsInQueue
  ∧ (maxRequests = NoChange
      ∨ (cfg.RequestsCanSetRate = true ∧ 1 ≤ maxRequests ∧ maxRequests ≤ 1000000000))
  ∧ (maxRequestsInQueue = NoChange
      ∨ (cfg.RequestsCanModQueue = true ∧ 0 ≤ maxRequestsInQueue
          ∧ maxRequestsInQueue ≤ 1000000000))

/-! ## Closed forms of the slice helpers -/

theorem shiftLoop_append {α : Type} (n : Nat) : ∀ (k : Nat) (a b : List α), n + k ≤ b.length →
    shiftLoop n k a.length (a ++ b) = some (a ++ (b.drop n).take k ++ b.drop k)
  | 0, a, b, _ => by simp [shiftLoop]
  | k + 1, a, b, h => by
    cases b with
    | nil => simp at h
    | cons x b1 =>
      have hlen : n + k ≤ b1.length := by simp at h; omega
      have hn : n < (x :: b1).length := by simp; omega
      have hget : (a ++ x :: b1)[a.length + n]? = some ((x :: b1)[n]) := by
        rw [List.getElem?_append_right (by omega)]
        simp [List.getElem?_eq_getElem hn]
      have hset : (a ++ x :: b1).set a.length ((x :: b1)[n]) = (a ++ [(x :: b1)[n]]) ++ b1 := by
        simp [List.set_append]
      have ih := shiftLoop_append n k (a ++ [(x :: b1)[n]]) b1 hlen
      have hd : List.drop n (x :: b1) = (x :: b1)[n] :: List.drop n b1 := by
        rw [List.drop_eq_getElem_cons hn]; simp
      simp only [shiftLoop, hget, hset]
      rw [show a.length + 1 = (a ++ [(x :: b1)[n]]).length by simp, ih, hd]
      simp

theorem discardFirstItems_eq {α : Type} (slice : List α) (n : Int) (h0 : 0 ≤ n)
    (h1 : n ≤ slice.length) : discardFirstItems slice n = some (slice.drop n.toNat) := by
  unfold discardFirstItems
  by_cases hz : n = 0
  · simp [hz]
  · have hn : n.toNat ≤ slice.length := by omega
    have h := shiftLoop_append n.toNat (slice.length - n.toNat) [] slice (by omega)
    simp only [List.length_nil, List.nil_append] at h
    rw [if_neg hz, if_neg (by omega), if_neg (by omega), h]
    simp only [Option.map_some', Option.some.injEq]
    rw [List.take_append_of_le_length (by simp), List.take_take]
    simp

theorem discardItemAt_eq {α : Type} (slice : List α) (i : Nat) (h : i < slice.length) :
    discardItemAt slice (i : Int) = some (slice.eraseIdx i) := by
  unfold discardItemAt
  have hs := shiftLoop_append 1 (slice.length - 1 - i) (slice.take i) (slice.drop i)
    (by simp; omega)
  rw [List.take_append_drop, List.length_take, Nat.min_eq_left (by omega)] at hs
  rw [if_neg (by omega), if_neg (by omega)]
  simp only [Int.toNat_ofNat, hs, Option.map_some', Option.some.injEq]
  rw [List.eraseIdx_eq_take_drop_succ]
  rw [List.take_append_of_le_length (by simp; omega)]
  rw [List.take_of_length_le (by simp; omega)]
  simp only [List.drop_drop, List.take_left', List.append_cancel_left_eq]
  rw [List.take_of_length_le (by simp; omega)]

theorem FindIndexOf_scan_spec {α : Type} (p : α → Bool) : ∀ (l : List α) (i : Nat),
    (∃ j : Nat, j < l.length ∧ FindIndexOf.scan p l i = (((i + j : Nat) : Int), true)
        ∧ l.eraseIdx j = l.eraseP p)
    ∨ (FindIndexOf.scan p l i = (-1, false) ∧ l.eraseP p = l)
  | [], i => by simp [FindIndexOf.scan]
  | x :: xs, i => by
    by_cases hx : p x = true
    · left
      exact ⟨0, by simp, by simp [FindIndexOf.scan, hx], by simp [List.eraseP_cons, hx]⟩
    · rcases FindIndexOf_scan_spec p xs (i + 1) with ⟨j, hj, hs, he⟩ | ⟨hs, he⟩
      · left
        refine ⟨j + 1, by simp; omega, ?_, by simp [List.eraseP_cons, hx, he]⟩
        simp only [FindIndexOf.scan, hx, hs]
        simp only [Bool.false_eq_true, if_false, Prod.mk.injEq, and_true]
        congr 1; omega
      · right
        exact ⟨by simp [FindIndexOf.scan, hx, hs], by simp [List.eraseP_cons, hx, he]⟩

theorem flushQueued_eq (st : internalState) (now : Int) (nMax : Int) :
    flushQueued st now nMax =
      some (if 0 < min nMax (st.throttled.length : Int) then
              { st with
                  timeLastUsed := now
                  nApprovedThisWindow :=
                    st.nApprovedThisWindow + min nMax (st.throttled.length : Int)
                  throttled := st.throttled.drop (min nMax (st.throttled.length : Int)).toNat }
            else st,
            (st.throttled.take (min nMax (st.throttled.length : Int)).toNat).map
              (fun r => Effect.PermissionResponse r ExtRespCode.Approved)) := by
  unfold flushQueued
  by_cases h : 0 < min nMax (st.throttled.length : Int)
  · have hmin : min (st.throttled.length : Int) (min nMax (st.throttled.length : Int))
        = min nMax (st.throttled.length : Int) := by omega
    have hd := discardFirstItems_eq st.throttled (min nMax (st.throttled.length : Int))
      (by omega) (by omega)
    simp only [gt_iff_lt, h, if_true, hmin, hd]
  · have hk : (min nMax (st.throttled.length : Int)).toNat = 0 := by omega
    simp only [gt_iff_lt, h, if_false, hk, List.take_zero, List.map_nil]

theorem loopClientGaveUp_eq (ls : loopState) (orig : PermissionRequest) :
    loopClientGaveUp ls orig =
      some ({ ls with state := { ls.state with
                throttled := ls.state.throttled.eraseP (fun item => item.ReqID == orig.ReqID) } },
            []) := by
  unfold loopClientGaveUp FindIndexOf
  rcases FindIndexOf_scan_spec (fun item : PermissionRequest => item.ReqID == orig.ReqID)
      ls.state.throttled 0 with ⟨j, hj, hs, he⟩ | ⟨hs, he⟩
  · rw [hs]
    simp only [Nat.zero_add]
    rw [discardItemAt_eq _ j hj, he]
  · rw [hs, he]

/-! ## Closed forms of the tick and of Kill -/

theorem loopTick_eq (ls : loopState) (tFlush : Int) (tCheck : Int) :
    loopTick ls tFlush tCheck =
      some (if tCheck - (tickState ls.state tFlush).timeLastUsed >
                wrapInt64 (wrapInt64 (3 * ls.state.config.WindowMillis) * 1000000)
              ∧ ls.expiryNotificationSent = false then
          ({ ls with state := tickState ls.state tFlush, expiryNotificationSent := true },
           tickReplies ls.state ++
             [Effect.InstanceExpiredNotification ls.state.key ls.state.mailbox])
        else ({ ls with state := tickState ls.state tFlush }, tickReplies ls.state)) := by
  unfold loopTick
  simp only [flushQueued_eq]
  by_cases h : 0 < min ls.state.config.MaxRequestsPerWindow (ls.state.throttled.length : Int)
  · simp only [tickState, tickReplies, h, if_true, zero_add]
    split_ifs <;> rfl
  · simp only [tickState, tickReplies, h, if_false]
    split_ifs <;> rfl

theorem loopKill_eq (ls : loopState) (now : Int) :
    loopKill ls now =
      some ({ ls with
                state :=
                  if ls.state.throttled = [] then ls.state
                  else { ls.state with
                          timeLastUsed := now
                          nApprovedThisWindow :=
                            ls.state.nApprovedThisWindow + (ls.state.throttled.length : Int)
                          throttled := [] }
                returned := true },
            ls.state.throttled.map (fun r => Effect.PermissionResponse r ExtRespCode.Approved)
              ++ [Effect.InstanceDiedNotification ls.state.key]) := by
  unfold loopKill
  simp only [flushQueued_eq, min_self, Int.toNat_ofNat, List.take_length, List.drop_length]
  by_cases h : ls.state.throttled = []
  · simp [h]
  · have hpos : 0 < (ls.state.throttled.length : Int) := by
      have := List.length_pos.mpr h
      omega
    simp [h, hpos]

theorem loopConfigUpdate_some (ls : loopState) (r : Config) (ls1 : loopState)
    (sent : List Effect) (h : loopConfigUpdate ls r = some (ls1, sent)) :
    sent = [] ∧ ls1.returned = ls.returned
      ∧ ls1.expiryNotificationSent = ls.expiryNotificationSent
      ∧ ls1.state = { ls.state with config := ls1.state.config } := by
  unfold loopConfigUpdate at h
  dsimp only at h
  split at h
  · cases h
  · simp only [Option.some.injEq, Prod.mk.injEq] at h
    obtain ⟨h1, h2⟩ := h
    subst h1
    exact ⟨h2.symm, rfl, rfl, rfl⟩

/-! ## Closed form of the admission decision -/

theorem handlePermissionRequest_eq (state : internalState) (now : Int) (r : PermissionRequest) :
    handlePermissionRequest state now r =
      if state.nApprovedThisWindow < (overrideConfig state.config r).MaxRequestsPerWindow then
        ({ state with
             timeLastUsed := now
             config := overrideConfig state.config r
             nApprovedThisWindow := state.nApprovedThisWindow + 1 },
         [Effect.PermissionResponse r ExtRespCode.Approved])
      else if r.CanWait = true ∧
          (state.throttled.length : Int) < (overrideConfig state.config r).MaxRequestsInQueue then
        ({ state with
             timeLastUsed := now
             config := overrideConfig state.config r
             throttled := state.throttled ++ [r] }, [])
      else
        ({ state with
             timeLastUsed := now
             config := overrideConfig state.config r
             nDeniedThisWindow := state.nDeniedThisWindow + 1 },
         [Effect.PermissionResponse r ExtRespCode.Denied]) := by
  unfold handlePermissionRequest overrideConfig
  by_cases h1 : r.MaxRequests = NoChange <;> by_cases h2 : r.MaxRequestsInQueue = NoChange <;>
    simp only [h1, h2, ne_eq, not_true_eq_false, not_false_eq_true, if_true, if_false, ge_iff_le] <;>
    split_ifs <;> first | rfl | omega | simp_all

/-! ## Facts about single steps and runs -/

theorem loopStep_permission (ls : loopState) (now : Int) (r : PermissionRequest)
    (h : ls.returned = false) :
    loopStep ls (Event.recv now (Request.PermissionRequest r)) =
      some (withState ls (handlePermissionRequest ls.state now r)) := by
  simp [loopStep, h]

theorem loopStep_release (ls : loopState) (now : Int) (id : String) (key : String)
    (h : ls.returned = false) :
    loopStep ls (Event.recv now (Request.ReleaseRequest id key)) =
      some (withState ls (handleReleaseRequest ls.state now)) := by
  simp [loopStep, h]

theorem loopStep_debug (ls : loopState) (now : Int) (key : String) (respChan : Nat)
    (h : ls.returned = false) :
    loopStep ls (Event.recv now (Request.DebugSnapshotRequest key respChan)) =
      some (ls, (handleDebugSnapshotRequest ls.state respChan).2) := by
  unfold loopStep
  rw [if_neg (by rw [h]; exact Bool.false_ne_true)]
  rfl

theorem loop_cons (ls : loopState) (ev : Event) (rest : List Event) :
    loop ls (ev :: rest) =
      match loopStep ls ev with
      | none => none
      | some (ls1, sent1) =>
        match loop ls1 rest with
        | none => none
        | some (ls2, sent2) => some (ls2, sent1 ++ sent2) := rfl

theorem loop_append (ls : loopState) (evs1 evs2 : List Event) :
    loop ls (evs1 ++ evs2) =
      match loop ls evs1 with
      | none => none
      | some (ls1, sent1) =>
        match loop ls1 evs2 with
        | none => none
        | some (ls2, sent2) => some (ls2, sent1 ++ sent2) := by
  induction evs1 generalizing ls with
  | nil =>
    rw [List.nil_append]
    show loop ls evs2 = match loop ls evs2 with
      | none => none
      | some (ls2, sent2) => some (ls2, [] ++ sent2)
    cases loop ls evs2 with
    | none => rfl
    | some p => simp
  | cons ev rest ih =>
    rw [List.cons_append, loop_cons, loop_cons]
    cases hstep : loopStep ls ev with
    | none => rfl
    | some p =>
      obtain ⟨ls1, sent1⟩ := p
      simp only []
      rw [ih ls1]
      cases h1 : loop ls1 rest with
      | none => rfl
      | some q =>
        obtain ⟨ls2, sent2⟩ := q
        simp only []
        cases h2 : loop ls2 evs2 with
        | none => rfl
        | some q2 => simp

/-- Every iteration of `loop` is of one of these kinds; the state after it and what
it sent are given in closed form. -/
theorem loopStep_cases (ls ls1 : loopState) (ev : Event) (sent : List Effect)
    (h : loopStep ls ev = some (ls1, sent)) :
    (ls.returned = true ∧ ls1 = ls ∧ sent = [])
    ∨ (ls.returned = false ∧ ∃ tFlush tCheck b, ev = Event.tick tFlush tCheck
        ∧ ls1 = { ls with state := tickState ls.state tFlush, expiryNotificationSent := b }
        ∧ (sent = tickReplies ls.state ∨ sent = tickReplies ls.state ++
            [Effect.InstanceExpiredNotification ls.state.key ls.state.mailbox]))
    ∨ (ls.returned = false ∧ ∃ now cfg c t, ev = Event.recv now (Request.ConfigUpdateNotification cfg)
        ∧ ls1 = { ls with state := { ls.state with config := c }, ticker := t } ∧ sent = [])
    ∨ (ls.returned = false ∧ ∃ now, ev = Event.recv now Request.Kill
        ∧ ls1 = { ls with
                    state :=
                      if ls.state.throttled = [] then ls.state
                      else { ls.state with
                              timeLastUsed := now
                              nApprovedThisWindow :=
                                ls.state.nApprovedThisWindow + (ls.state.throttled.length : Int)
                              throttled := [] }
                    returned := true }
        ∧ sent = ls.state.throttled.map (fun r => Effect.PermissionResponse r ExtRespCode.Approved)
              ++ [Effect.InstanceDiedNotification ls.state.key])
    ∨ (ls.returned = false ∧ ∃ now orig, ev = Event.recv now (Request.ClientGaveUpNotification orig)
        ∧ ls1 = { ls with state := { ls.state with
                    throttled := ls.state.throttled.eraseP (fun item => item.ReqID == orig.ReqID) } }
        ∧ sent = [])
    ∨ (ls.returned = false ∧ ∃ now r, ev = Event.recv now (Request.PermissionRequest r)
        ∧ ls1 = { ls with state := (handlePermissionRequest ls.state now r).1 }
        ∧ sent = (handlePermissionRequest ls.state now r).2)
    ∨ (ls.returned = false ∧ ∃ now id key, ev = Event.recv now (Request.ReleaseRequest id key)
        ∧ ls1 = { ls with state := { ls.state with
                    timeLastUsed := now
                    nApprovedThisWindow := max 0 (ls.state.nApprovedThisWindow - 1) } }
        ∧ sent = [])
    ∨ (ls.returned = false ∧ ∃ now key respChan,
        ev = Event.recv now (Request.DebugSnapshotRequest key respChan)
        ∧ ls1 = ls ∧ sent = (handleDebugSnapshotRequest ls.state respChan).2) := by
  unfold loopStep at h
  rcases Bool.eq_false_or_eq_true ls.returned with hr | hr
  · simp only [hr, if_true, Option.some.injEq, Prod.mk.injEq] at h
    exact Or.inl ⟨hr, h.1.symm, h.2.symm⟩
  · simp only [hr, Bool.false_eq_true, if_false] at h
    right
    cases ev with
    | tick tFlush tCheck =>
      left
      simp only [loopTick_eq, Option.some.injEq] at h
      split_ifs at h <;> simp only [Prod.mk.injEq] at h
      · exact ⟨hr, tFlush, tCheck, true, rfl, h.1.symm, Or.inr h.2.symm⟩
      · exact ⟨hr, tFlush, tCheck, ls.expiryNotificationSent, rfl, h.1.symm, Or.inl h.2.symm⟩
    | recv now req =>
      right
      cases req with
      | ConfigUpdateNotification cfg =>
        left
        obtain ⟨h1, h2, h3, h4⟩ := loopConfigUpdate_some ls cfg ls1 sent h
        refine ⟨hr, now, cfg, ls1.state.config, ls1.ticker, rfl, ?_, h1⟩
        rw [← h4, ← h3, ← h2]
      | Kill =>
        right; left
        simp only [loopKill_eq, Option.some.injEq, Prod.mk.injEq] at h
        exact ⟨hr, now, rfl, h.1.symm, h.2.symm⟩
      | ClientGaveUpNotification orig =>
        right; right; left
        simp only [loopClientGaveUp_eq, Option.some.injEq, Prod.mk.injEq] at h
        exact ⟨hr, now, orig, rfl, h.1.symm, h.2.symm⟩
      | PermissionRequest r =>
        right; right; right; left
        simp only [Option.some.injEq, withState, Prod.mk.injEq] at h
        exact ⟨hr, now, r, rfl, h.1.symm, h.2.symm⟩
      | ReleaseRequest id key =>
        right; right; right; right; left
        simp only [Option.some.injEq, withState, Prod.mk.injEq, handleReleaseRequest] at h
        exact ⟨hr, now, id, key, rfl, h.1.symm, h.2.symm⟩
      | DebugSnapshotRequest key respChan =>
        right; right; right; right; right
        simp only [Option.some.injEq, withState, Prod.mk.injEq] at h
        exact ⟨hr, now, key, respChan, rfl, h.1.symm, h.2.symm⟩

/-- The iterations never panic, except for a configuration update whose new window
makes `time.NewTicker` panic. -/
theorem loopStep_isSome (ls : loopState) (ev : Event)
    (h : ∀ now cfg, ev = Event.recv now (Request.ConfigUpdateNotification cfg) →
      0 < durationOfMillis cfg.WindowMillis) :
    ∃ ls1 sent, loopStep ls ev = some (ls1, sent) := by
  unfold loopStep
  rcases Bool.eq_false_or_eq_true ls.returned with hr | hr
  · exact ⟨ls, [], by simp [hr]⟩
  · simp only [hr, Bool.false_eq_true, if_false]
    cases ev with
    | tick tFlush tCheck => simp only [loopTick_eq]; exact ⟨_, _, rfl⟩
    | recv now req =>
      cases req with
      | ConfigUpdateNotification cfg =>
        have hpos := h now cfg rfl
        simp only [loopConfigUpdate]
        rw [if_neg (by intro hc; omega)]
        exact ⟨_, _, rfl⟩
      | Kill => simp only [loopKill_eq]; exact ⟨_, _, rfl⟩
      | ClientGaveUpNotification orig => simp only [loopClientGaveUp_eq]; exact ⟨_, _, rfl⟩
      | PermissionRequest r => exact ⟨_, _, rfl⟩
      | ReleaseRequest id key => exact ⟨_, _, rfl⟩
      | DebugSnapshotRequest key respChan => exact ⟨_, _, rfl⟩

theorem nApproved_nonneg_step (ls ls1 : loopState) (ev : Event) (sent : List Effect)
    (h : loopStep ls ev = some (ls1, sent)) (h0 : 0 ≤ ls.state.nApprovedThisWindow) :
    0 ≤ ls1.state.nApprovedThisWindow := by
  rcases loopStep_cases ls ls1 ev sent h with
    ⟨_, rfl, _⟩ | ⟨_, tF, tC, b, _, rfl, _⟩ | ⟨_, now, cfg, c, t, _, rfl, _⟩ | ⟨_, now, _, rfl, _⟩
    | ⟨_, now, orig, _, rfl, _⟩ | ⟨_, now, r, _, rfl, _⟩ | ⟨_, now, id, key, _, rfl, _⟩
    | ⟨_, now, key, ch, _, rfl, _⟩
  · exact h0
  · simp only [tickState]
    split_ifs <;> simp only <;> omega
  · exact h0
  · simp only
    split_ifs
    · exact h0
    · simp only; omega
  · exact h0
  · simp only [handlePermissionRequest_eq]
    split_ifs <;> simp only <;> omega
  · simp only; omega
  · exact h0

theorem nApproved_nonneg_loop (evs : List Event) : ∀ (ls ls1 : loopState) (sent : List Effect),
    loop ls evs = some (ls1, sent) → 0 ≤ ls.state.nApprovedThisWindow →
    0 ≤ ls1.state.nApprovedThisWindow := by
  induction evs with
  | nil =>
    intro ls ls1 sent h h0
    simp only [loop, Option.some.injEq, Prod.mk.injEq] at h
    rw [← h.1]; exact h0
  | cons ev rest ih =>
    intro ls ls1 sent h h0
    simp only [loop] at h
    cases hstep : loopStep ls ev with
    | none => simp [hstep] at h
    | some p =>
      obtain ⟨ls2, sent2⟩ := p
      simp only [hstep] at h
      cases hrest : loop ls2 rest with
      | none => simp [hrest] at h
      | some q =>
        obtain ⟨ls3, sent3⟩ := q
        simp only [hrest, Option.some.injEq, Prod.mk.injEq] at h
        rw [← h.1]
        exact ih ls2 ls3 sent3 hrest (nApproved_nonneg_step ls ls2 ev sent2 hstep h0)

theorem handlePermissionRequest_time (st : internalState) (t now : Int) (r : PermissionRequest) :
    handlePermissionRequest { st with timeLastUsed := t } now r
      = handlePermissionRequest st now r := rfl

theorem overrideConfig_noChange (config : Config) (r : PermissionRequest)
    (h1 : r.MaxRequests = NoChange) (h2 : r.MaxRequestsInQueue = NoChange) :
    overrideConfig config r = config := by
  simp [overrideConfig, h1, h2]

/-- Releases on an instance whose approved counter is zero change `timeLastUsed` only. -/
theorem loop_releases_at_zero (rels : List Event) : ∀ (ls : loopState),
    ls.returned = false → ls.state.nApprovedThisWindow = 0 →
    (∀ ev ∈ rels, ∃ t id key, ev = Event.recv t (Request.ReleaseRequest id key)) →
    ∃ t, loop ls rels = some ({ ls with state := { ls.state with timeLastUsed := t } }, []) := by
  induction rels with
  | nil =>
    intro ls _ _ _
    exact ⟨ls.state.timeLastUsed, rfl⟩
  | cons ev rest ih =>
    intro ls hrun h0 hrels
    obtain ⟨t, id, key, rfl⟩ := hrels ev (List.mem_cons_self _ _)
    have hrest : ∀ ev ∈ rest, ∃ t id key, ev = Event.recv t (Request.ReleaseRequest id key) :=
      fun ev hev => hrels ev (List.mem_cons_of_mem _ hev)
    obtain ⟨t1, h1⟩ := ih (withState ls (handleReleaseRequest ls.state t)).1 hrun
      (by simp [withState, handleReleaseRequest, h0]) hrest
    refine ⟨t1, ?_⟩
    rw [loop_cons, loopStep_release ls t id key hrun]
    simp only [h1]
    simp [withState, handleReleaseRequest, h0]

/-- A burst of permission requests with the same `CanWait` flag and no overrides, from any
running state: the first `a` are approved (`a` bounded by the free slots), the next `w` wait
(`w` bounded by the room in the queue, zero if they cannot wait), the rest are denied. -/
theorem loop_burst (c : Bool) : ∀ (reqs : List (Int × PermissionRequest)) (ls : loopState)
    (a w : Nat), ls.returned = false →
    (∀ p ∈ reqs, p.2.CanWait = c ∧ p.2.MaxRequests = NoChange
      ∧ p.2.MaxRequestsInQueue = NoChange) →
    a = min reqs.length
          (ls.state.config.MaxRequestsPerWindow - ls.state.nApprovedThisWindow).toNat →
    (c = true → w = min (reqs.length - a)
          (ls.state.config.MaxRequestsInQueue - (ls.state.throttled.length : Int)).toNat) →
    (c = false → w = 0) →
    ∃ ls1, loop ls (permissionEvents reqs) = some (ls1,
          (reqs.take a).map (fun p => Effect.PermissionResponse p.2 ExtRespCode.Approved)
            ++ (reqs.drop (a + w)).map (fun p => Effect.PermissionResponse p.2 ExtRespCode.Denied))
      ∧ ls1.returned = false ∧ ls1.state.config = ls.state.config
      ∧ ls1.state.key = ls.state.key
      ∧ ls1.state.nApprovedThisWindow = ls.state.nApprovedThisWindow + (a : Int)
      ∧ ls1.state.throttled = ls.state.throttled ++ ((reqs.drop a).take w).map (fun p => p.2)
      ∧ ls1.state.nDeniedThisWindow
          = ls.state.nDeniedThisWindow + ((reqs.length - a - w : Nat) : Int) := by
  intro reqs
  induction reqs with
  | nil =>
    intro ls a w hrun _ ha hwt hwf
    have ha0 : a = 0 := by simp at ha; exact ha
    have hw0 : w = 0 := by
      cases c with
      | true => have := hwt rfl; simp at this; omega
      | false => exact hwf rfl
    subst ha0 hw0
    exact ⟨ls, by simp [permissionEvents, loop], hrun, rfl, rfl, by simp, by simp, by simp⟩
  | cons p rest ih =>
    intro ls a w hrun hreqs ha hwt hwf
    obtain ⟨hc, h1, h2⟩ := hreqs p (List.mem_cons_self _ _)
    have hrest : ∀ q ∈ rest, q.2.CanWait = c ∧ q.2.MaxRequests = NoChange
        ∧ q.2.MaxRequestsInQueue = NoChange := fun q hq => hreqs q (List.mem_cons_of_mem _ hq)
    have hstep := loopStep_permission ls p.1 p.2 hrun
    rw [handlePermissionRequest_eq, overrideConfig_noChange _ _ h1 h2] at hstep
    simp only [List.length_cons] at ha hwt
    have hev : permissionEvents (p :: rest)
        = Event.recv p.1 (Request.PermissionRequest p.2) :: permissionEvents rest := rfl
    by_cases hA : ls.state.nApprovedThisWindow < ls.state.config.MaxRequestsPerWindow
    · -- approved
      rw [if_pos hA] at hstep
      obtain ⟨a1, rfl⟩ : ∃ a1, a = a1 + 1 := ⟨a - 1, by omega⟩
      obtain ⟨ls1, hl, hr1, hc1, hk1, hn1, ht1, hd1⟩ := ih
        { ls with state := { ls.state with
            timeLastUsed := p.1
            nApprovedThisWindow := ls.state.nApprovedThisWindow + 1 } } a1 w
        hrun hrest (by simp only; omega)
        (by intro hct; have := hwt hct; simp only; omega) hwf
      refine ⟨ls1, ?_, hr1, hc1, hk1, ?_, ?_, ?_⟩
      · rw [hev, loop_cons, hstep]
        simp only [withState, hl]
        simp [show a1 + 1 + w = (a1 + w) + 1 by omega]
      · rw [hn1]; simp only; push_cast; omega
      · rw [ht1]; simp
      · rw [hd1]; simp only [List.length_cons]
        congr 2; omega
    · rw [if_neg hA] at hstep
      have ha0 : a = 0 := by omega
      subst ha0
      by_cases hq : p.2.CanWait = true
          ∧ (ls.state.throttled.length : Int) < ls.state.config.MaxRequestsInQueue
      · -- queued
        rw [if_pos hq] at hstep
        have hct : c = true := by rw [← hc]; exact hq.1
        obtain ⟨w1, rfl⟩ : ∃ w1, w = w1 + 1 := ⟨w - 1, by have := hwt hct; omega⟩
        obtain ⟨ls1, hl, hr1, hc1, hk1, hn1, ht1, hd1⟩ := ih
          { ls with state := { ls.state with
              timeLastUsed := p.1
              throttled := ls.state.throttled ++ [p.2] } } 0 w1
          hrun hrest (by simp only; omega)
          (by intro _; have := hwt hct
              simp only [List.length_append, List.length_singleton]
              push_cast; omega)
          (by intro hcf; rw [hcf] at hct; cases hct)
        refine ⟨ls1, ?_, hr1, hc1, hk1, ?_, ?_, ?_⟩
        · rw [hev, loop_cons, hstep]
          simp only [withState, hl]
          simp
        · exact hn1
        · rw [ht1]; simp
        · rw [hd1]; simp only [List.length_cons]
          congr 2; omega
      · -- denied
        rw [if_neg hq] at hstep
        have hw0 : w = 0 := by
          cases c with
          | true =>
            have := hwt rfl
            have hlen : ¬ (ls.state.throttled.length : Int) < ls.state.config.MaxRequestsInQueue :=
              fun h => hq ⟨hc, h⟩
            omega
          | false => exact hwf rfl
        subst hw0
        obtain ⟨ls1, hl, hr1, hc1, hk1, hn1, ht1, hd1⟩ := ih
          { ls with state := { ls.state with
              timeLastUsed := p.1
              nDeniedThisWindow := ls.state.nDeniedThisWindow + 1 } } 0 0
          hrun hrest (by simp only; omega)
          (by intro hct; have := hwt hct; simp only; omega) (fun _ => rfl)
        refine ⟨ls1, ?_, hr1, hc1, hk1, ?_, ?_, ?_⟩
        · rw [hev, loop_cons, hstep]
          simp only [withState, hl]
          simp
        · exact hn1
        · rw [ht1]; simp
        · rw [hd1]; simp only [List.length_cons]
          push_cast; omega

/-! ## Invariants along a run -/

theorem loopSteps_cons (ls : loopState) (ev : Event) (rest : List Event) :
    loopSteps ls (ev :: rest) =
      match loopStep ls ev with
      | none => none
      | some (ls1, sent1) =>
        match loopSteps ls1 rest with
        | none => none
        | some steps =>
          some ({ before := ls, event := ev, after := ls1, sent := sent1 } :: steps) := rfl

/-- The shape of a successful run over a non-empty sequence of events. -/
theorem loopSteps_cons_some (ls : loopState) (ev : Event) (rest : List Event)
    (steps : List Step) (h : loopSteps ls (ev :: rest) = some steps) :
    ∃ ls1 sent1 steps1, loopStep ls ev = some (ls1, sent1) ∧ loopSteps ls1 rest = some steps1
      ∧ steps = { before := ls, event := ev, after := ls1, sent := sent1 } :: steps1 := by
  rw [loopSteps_cons] at h
  cases hstep : loopStep ls ev with
  | none => rw [hstep] at h; cases h
  | some p =>
    obtain ⟨ls1, sent1⟩ := p
    rw [hstep] at h
    simp only [] at h
    cases hrest : loopSteps ls1 rest with
    | none => rw [hrest] at h; cases h
    | some steps1 =>
      rw [hrest] at h
      simp only [Option.some.injEq] at h
      exact ⟨ls1, sent1, steps1, rfl, hrest, h.symm⟩

/-- The run `loop` is the sequence of iterations `loopSteps`: same final state, same
things sent. -/
theorem loop_eq_loopSteps : ∀ (evs : List Event) (ls : loopState),
    loop ls evs = (loopSteps ls evs).map (fun steps => (endState ls steps, sentOf steps)) := by
  intro evs
  induction evs with
  | nil => intro ls; rfl
  | cons ev rest ih =>
    intro ls
    rw [loop_cons, loopSteps_cons]
    cases hstep : loopStep ls ev with
    | none => rfl
    | some p =>
      obtain ⟨ls1, sent1⟩ := p
      simp only [ih ls1]
      cases loopSteps ls1 rest with
      | none => rfl
      | some steps => rfl

/-- A property kept by every iteration that satisfies `R` holds after every
iteration of a run all of whose iterations satisfy `R`. -/
theorem loopSteps_invariant (I : loopState → Prop) (R : loopState → loopState → Prop)
    (hstep : ∀ ls ev ls1 sent, loopStep ls ev = some (ls1, sent) → R ls ls1 → I ls → I ls1) :
    ∀ (evs : List Event) (ls : loopState) (steps : List Step),
      loopSteps ls evs = some steps → I ls → (∀ s ∈ steps, R s.before s.after) →
      ∀ s ∈ steps, I s.after := by
  intro evs
  induction evs with
  | nil =>
    intro ls steps h _ _ s hs
    simp only [loopSteps, Option.some.injEq] at h
    rw [← h] at hs
    cases hs
  | cons ev rest ih =>
    intro ls steps h hI hR s hs
    obtain ⟨ls1, sent1, steps1, h1, h2, rfl⟩ := loopSteps_cons_some ls ev rest steps h
    have hI1 : I ls1 := hstep ls ev ls1 sent1 h1 (hR _ (List.mem_cons_self _ _)) hI
    rcases List.mem_cons.mp hs with rfl | hs1
    · exact hI1
    · exact ih ls1 steps1 h2 hI1 (fun s hs => hR s (List.mem_cons_of_mem _ hs)) s hs1

theorem approvedReplies_map_approved (l : List PermissionRequest) :
    approvedReplies (l.map (fun r => Effect.PermissionResponse r ExtRespCode.Approved)) = l := by
  induction l with
  | nil => rfl
  | cons x xs ih =>
    simp only [approvedReplies, List.map_cons, List.filterMap_cons] at ih ⊢
    rw [ih]

theorem approvedReplies_append (l1 l2 : List Effect) :
    approvedReplies (l1 ++ l2) = approvedReplies l1 ++ approvedReplies l2 := by
  simp [approvedReplies, List.filterMap_append]

theorem approvedReplies_tickReplies (st : internalState) :
    approvedReplies (tickReplies st)
      = st.throttled.take
          (min st.config.MaxRequestsPerWindow (st.throttled.length : Int)).toNat :=
  approvedReplies_map_approved _

/-- The approved counter stays within the limit across an iteration that does not
lower the limit. -/
theorem approved_le_max_step (ls ls1 : loopState) (ev : Event) (sent : List Effect)
    (h : loopStep ls ev = some (ls1, sent))
    (hR : ls.state.config.MaxRequestsPerWindow ≤ ls1.state.config.MaxRequestsPerWindow)
    (hI : 0 ≤ ls.state.config.MaxRequestsPerWindow
      ∧ (ls.returned = false →
          ls.state.nApprovedThisWindow ≤ ls.state.config.MaxRequestsPerWindow)) :
    0 ≤ ls1.state.config.MaxRequestsPerWindow
      ∧ (ls1.returned = false →
          ls1.state.nApprovedThisWindow ≤ ls1.state.config.MaxRequestsPerWindow) := by
  refine ⟨le_trans hI.1 hR, ?_⟩
  obtain ⟨h0, hle⟩ := hI
  rcases loopStep_cases ls ls1 ev sent h with
    ⟨_, rfl, _⟩ | ⟨hr, tF, tC, b, _, rfl, _⟩ | ⟨hr, now, cfg, c, t, _, rfl, _⟩
    | ⟨hr, now, _, rfl, _⟩ | ⟨hr, now, orig, _, rfl, _⟩ | ⟨hr, now, r, _, rfl, _⟩
    | ⟨hr, now, id, key, _, rfl, _⟩ | ⟨hr, now, key, ch, _, rfl, _⟩
  · exact hle
  · intro _
    simp only [tickState]
    split_ifs <;> simp only <;> omega
  · intro _
    have := hle hr
    simp only at hR ⊢
    omega
  · intro hret
    cases hret
  · exact hle
  · intro _
    have := hle hr
    simp only [handlePermissionRequest_eq] at hR ⊢
    split_ifs at hR ⊢ with h1 h2 <;> simp only at hR ⊢ <;> omega
  · intro _
    have := hle hr
    simp only
    omega
  · exact hle

/-- Whenever an iteration that leaves the instance running answers a request
`Approved`, the approved counter is within the limit afterwards. -/
theorem approved_le_max_of_approval (ls ls1 : loopState) (ev : Event) (sent : List Effect)
    (h : loopStep ls ev = some (ls1, sent)) (hret : ls1.returned = false)
    (happ : approvedReplies sent ≠ []) :
    ls1.state.nApprovedThisWindow ≤ ls1.state.config.MaxRequestsPerWindow := by
  rcases loopStep_cases ls ls1 ev sent h with
    ⟨_, rfl, rfl⟩ | ⟨hr, tF, tC, b, _, rfl, hs⟩ | ⟨hr, now, cfg, c, t, _, rfl, rfl⟩
    | ⟨hr, now, _, rfl, _⟩ | ⟨hr, now, orig, _, rfl, rfl⟩ | ⟨hr, now, r, _, rfl, rfl⟩
    | ⟨hr, now, id, key, _, rfl, rfl⟩ | ⟨hr, now, key, ch, _, rfl, rfl⟩
  · exact absurd rfl happ
  · have hne : approvedReplies (tickReplies ls.state) ≠ [] := by
      rcases hs with rfl | rfl
      · exact happ
      · rw [approvedReplies_append] at happ
        simpa [approvedReplies] using happ
    rw [approvedReplies_tickReplies] at hne
    have hpos : 0 < min ls.state.config.MaxRequestsPerWindow (ls.state.throttled.length : Int) := by
      by_contra hneg
      have hz : (min ls.state.config.MaxRequestsPerWindow
          (ls.state.throttled.length : Int)).toNat = 0 := by omega
      rw [hz] at hne
      exact hne rfl
    simp only [tickState, if_pos hpos]
    omega
  · exact absurd rfl happ
  · cases hret
  · exact absurd rfl happ
  · simp only [handlePermissionRequest_eq] at happ ⊢
    split_ifs at happ ⊢ with h1 h2
    · simp only; omega
    · exact absurd rfl happ
    · exact absurd rfl happ
  · exact absurd rfl happ
  · exact absurd rfl happ

/-- The queue stays within its bound across an iteration that does not lower the bound. -/
theorem queue_le_max_step (ls ls1 : loopState) (ev : Event) (sent : List Effect)
    (h : loopStep ls ev = some (ls1, sent))
    (hR : ls.state.config.MaxRequestsInQueue ≤ ls1.state.config.MaxRequestsInQueue)
    (hI : 0 ≤ ls.state.config.MaxRequestsInQueue
      ∧ (ls.state.throttled.length : Int) ≤ ls.state.config.MaxRequestsInQueue) :
    0 ≤ ls1.state.config.MaxRequestsInQueue
      ∧ (ls1.state.throttled.length : Int) ≤ ls1.state.config.MaxRequestsInQueue := by
  refine ⟨le_trans hI.1 hR, ?_⟩
  obtain ⟨h0, hle⟩ := hI
  rcases loopStep_cases ls ls1 ev sent h with
    ⟨_, rfl, _⟩ | ⟨hr, tF, tC, b, _, rfl, _⟩ | ⟨hr, now, cfg, c, t, _, rfl, _⟩
    | ⟨hr, now, _, rfl, _⟩ | ⟨hr, now, orig, _, rfl, _⟩ | ⟨hr, now, r, _, rfl, _⟩
    | ⟨hr, now, id, key, _, rfl, _⟩ | ⟨hr, now, key, ch, _, rfl, _⟩
  · exact hle
  · simp only [tickState]
    split_ifs
    · simp only [List.length_drop]; omega
    · exact hle
  · simp only at hR ⊢
    omega
  · simp only
    split_ifs
    · exact hle
    · simp only [List.length_nil]; exact_mod_cast h0
  · have hlen := (List.eraseP_sublist (p := fun item : PermissionRequest => item.ReqID == orig.ReqID)
      ls.state.throttled).length_le
    simp only
    omega
  · simp only [handlePermissionRequest_eq] at hR ⊢
    split_ifs at hR ⊢ with h1 h2
    · simp only at hR ⊢; omega
    · simp only [List.length_append, List.length_singleton] at hR ⊢
      push_cast
      omega
    · simp only at hR ⊢; omega
  · exact hle
  · exact hle

theorem countReleases_cons (ev : Event) (rest : List Event) :
    countReleases (ev :: rest) = countReleases rest +
      (match ev with
       | Event.recv _ (Request.ReleaseRequest _ _) => 1
       | _ => 0) := by
  unfold countReleases
  rw [List.countP_cons]
  cases ev with
  | tick a b => rfl
  | recv now req => cases req <;> rfl

/-- The three outcomes of the admission decision. -/
theorem handlePermissionRequest_cases (st : internalState) (now : Int) (r : PermissionRequest) :
    (handlePermissionRequest st now r).1.config = overrideConfig st.config r
    ∧ ((st.nApprovedThisWindow < (overrideConfig st.config r).MaxRequestsPerWindow
        ∧ (handlePermissionRequest st now r).2
            = [Effect.PermissionResponse r ExtRespCode.Approved]
        ∧ (handlePermissionRequest st now r).1.nApprovedThisWindow = st.nApprovedThisWindow + 1
        ∧ (handlePermissionRequest st now r).1.throttled = st.throttled)
      ∨ ((overrideConfig st.config r).MaxRequestsPerWindow ≤ st.nApprovedThisWindow
        ∧ (st.throttled.length : Int) < (overrideConfig st.config r).MaxRequestsInQueue
        ∧ (handlePermissionRequest st now r).2 = []
        ∧ (handlePermissionRequest st now r).1.nApprovedThisWindow = st.nApprovedThisWindow
        ∧ (handlePermissionRequest st now r).1.throttled = st.throttled ++ [r])
      ∨ ((overrideConfig st.config r).MaxRequestsPerWindow ≤ st.nApprovedThisWindow
        ∧ (handlePermissionRequest st now r).2
            = [Effect.PermissionResponse r ExtRespCode.Denied]
        ∧ (handlePermissionRequest st now r).1.nApprovedThisWindow = st.nApprovedThisWindow
        ∧ (handlePermissionRequest st now r).1.throttled = st.throttled)) := by
  rw [handlePermissionRequest_eq]
  split_ifs with h1 h2
  · exact ⟨rfl, Or.inl ⟨h1, rfl, rfl, rfl⟩⟩
  · exact ⟨rfl, Or.inr (Or.inl ⟨by omega, h2.2, rfl, rfl, rfl⟩)⟩
  · exact ⟨rfl, Or.inr (Or.inr ⟨by omega, rfl, rfl, rfl⟩)⟩

/-- Approvals during the messages of a window: at most the free slots plus the
number of releases, as long as the limit stays at `M` and the instance keeps running. -/
theorem window_messages_bound (M : Int) (hM : 0 ≤ M) : ∀ (msgs : List Event) (ls : loopState)
    (steps : List Step), ls.returned = false → ls.state.config.MaxRequestsPerWindow = M →
    ls.state.nApprovedThisWindow ≤ M → (∀ ev ∈ msgs, ev.isTick = false) →
    loopSteps ls msgs = some steps →
    (∀ s ∈ steps, s.after.state.config.MaxRequestsPerWindow = M ∧ s.after.returned = false) →
    ((approvedReplies (sentOf steps)).length : Int)
      ≤ (M - ls.state.nApprovedThisWindow) + (countReleases msgs : Int) := by
  intro msgs
  induction msgs with
  | nil =>
    intro ls steps _ _ hA _ hsteps _
    simp only [loopSteps, Option.some.injEq] at hsteps
    subst hsteps
    simp only [sentOf, approvedReplies, List.filterMap_nil, List.length_nil, countReleases,
      List.countP_nil, Nat.cast_zero]
    omega
  | cons ev rest ih =>
    intro ls steps hrun hcfg hA hmsgs hsteps hkeep
    obtain ⟨ls1, sent1, steps1, h1, h2, rfl⟩ := loopSteps_cons_some ls ev rest steps hsteps
    obtain ⟨hcfg1, hrun1⟩ := hkeep _ (List.mem_cons_self _ _)
    simp only at hcfg1 hrun1
    have hrest : ∀ ev ∈ rest, ev.isTick = false := fun e he => hmsgs e (List.mem_cons_of_mem _ he)
    have hkeep1 : ∀ s ∈ steps1,
        s.after.state.config.MaxRequestsPerWindow = M ∧ s.after.returned = false :=
      fun s hs => hkeep s (List.mem_cons_of_mem _ hs)
    have hev := hmsgs ev (List.mem_cons_self _ _)
    simp only [sentOf, approvedReplies_append, List.length_append, countReleases_cons]
    rcases loopStep_cases ls ls1 ev sent1 h1 with
      ⟨hr, _, _⟩ | ⟨hr, tF, tC, b, rfl, _, _⟩ | ⟨hr, now, cfg, c, t, rfl, rfl, rfl⟩
      | ⟨hr, now, rfl, rfl, _⟩ | ⟨hr, now, orig, rfl, rfl, rfl⟩ | ⟨hr, now, r, rfl, rfl, rfl⟩
      | ⟨hr, now, id, key, rfl, rfl, rfl⟩ | ⟨hr, now, key, ch, rfl, rfl, rfl⟩
    · rw [hrun] at hr; cases hr
    · cases hev
    · have := ih _ steps1 hrun1 hcfg1 (by simpa using hA) hrest h2 hkeep1
      simp only [approvedReplies, List.filterMap_nil, List.length_nil] at this ⊢
      push_cast
      omega
    · cases hrun1
    · have := ih _ steps1 hrun1 hcfg1 (by simpa using hA) hrest h2 hkeep1
      simp only [approvedReplies, List.filterMap_nil, List.length_nil] at this ⊢
      push_cast
      omega
    · have hih := ih _ steps1 hrun1 hcfg1
      obtain ⟨hc, hcase⟩ := handlePermissionRequest_cases ls.state now r
      simp only [hc] at hcfg1
      simp only at hih
      rcases hcase with ⟨hlt, hs, hn, _⟩ | ⟨hge, _, hs, hn, _⟩ | ⟨hge, hs, hn, _⟩
      · have := hih (by rw [hn]; omega) hrest h2 hkeep1
        rw [hs, hn] at *
        simp only [approvedReplies, List.filterMap_cons, List.filterMap_nil, List.length_cons,
          List.length_nil] at this ⊢
        push_cast
        omega
      · have := hih (by rw [hn]; exact hA) hrest h2 hkeep1
        rw [hs, hn] at *
        simp only [approvedReplies, List.filterMap_nil, List.length_nil] at this ⊢
        push_cast
        omega
      · have := hih (by rw [hn]; exact hA) hrest h2 hkeep1
        rw [hs, hn] at *
        simp only [approvedReplies, List.filterMap_cons, List.filterMap_nil,
          List.length_nil] at this ⊢
        push_cast
        omega
    · have := ih _ steps1 hrun1 hcfg1 (by simp only; omega) hrest h2 hkeep1
      simp only [approvedReplies, List.filterMap_nil, List.length_nil] at this ⊢
      push_cast
      omega
    · have := ih _ steps1 hrun1 hcfg1 hA hrest h2 hkeep1
      simp only [approvedReplies, handleDebugSnapshotRequest, List.filterMap_cons,
        List.filterMap_nil, List.length_nil] at this ⊢
      push_cast
      omega

/-! ## Order of the wait queue -/

/-- Across one iteration, the flushed waiters followed by the queue it leaves form a
sublist of the queue it found followed by the request it enqueued. -/
theorem fifo_step (ls ls1 : loopState) (ev : Event) (sent : List Effect)
    (h : loopStep ls ev = some (ls1, sent)) :
    (Step.flushed { before := ls, event := ev, after := ls1, sent := sent }
        ++ ls1.state.throttled).Sublist
      (ls.state.throttled
        ++ Step.enqueued { before := ls, event := ev, after := ls1, sent := sent }) := by
  rcases loopStep_cases ls ls1 ev sent h with
    ⟨hr, rfl, rfl⟩ | ⟨hr, tF, tC, b, rfl, rfl, hs⟩ | ⟨hr, now, cfg, c, t, rfl, rfl, rfl⟩
    | ⟨hr, now, rfl, rfl, rfl⟩ | ⟨hr, now, orig, rfl, rfl, rfl⟩ | ⟨hr, now, r, rfl, rfl, rfl⟩
    | ⟨hr, now, id, key, rfl, rfl, rfl⟩ | ⟨hr, now, key, ch, rfl, rfl, rfl⟩
  · have hf : Step.flushed { before := ls1, event := ev, after := ls1, sent := [] } = [] := by
      unfold Step.flushed
      split <;> rfl
    rw [hf]
    exact List.sublist_append_left _ _
  · have hsent : approvedReplies sent
        = ls.state.throttled.take
            (min ls.state.config.MaxRequestsPerWindow (ls.state.throttled.length : Int)).toNat := by
      rcases hs with rfl | rfl
      · exact approvedReplies_tickReplies _
      · rw [approvedReplies_append, approvedReplies_tickReplies]
        simp [approvedReplies]
    simp only [Step.flushed, Step.enqueued, hsent, List.append_nil, tickState]
    split_ifs with hpos
    · simp only [List.take_append_drop]
      exact List.Sublist.refl _
    · have hz : (min ls.state.config.MaxRequestsPerWindow
          (ls.state.throttled.length : Int)).toNat = 0 := by omega
      rw [hz]
      exact List.Sublist.refl _
  · simp [Step.flushed, Step.enqueued]
  · simp only [Step.flushed, Step.enqueued, approvedReplies_append,
      approvedReplies_map_approved, List.append_nil]
    split_ifs with hnil
    · simp [approvedReplies, hnil]
    · simp [approvedReplies]
  · simp only [Step.flushed, Step.enqueued, List.append_nil, List.nil_append]
    exact List.eraseP_sublist _
  · obtain ⟨_, hcase⟩ := handlePermissionRequest_cases ls.state now r
    simp only [Step.flushed, Step.enqueued, List.nil_append]
    rcases hcase with ⟨_, _, _, ht⟩ | ⟨_, _, _, _, ht⟩ | ⟨_, _, _, ht⟩
    · rw [ht]; exact List.sublist_append_left _ _
    · rw [ht, if_pos rfl]
    · rw [ht]; exact List.sublist_append_left _ _
  · simp [Step.flushed, Step.enqueued]
  · simp [Step.flushed, Step.enqueued]

/-- Along a run, the flushed waiters in reply order followed by the final queue form a
sublist of the initial queue followed by the enqueued requests in enqueue order. -/
theorem fifo_run : ∀ (evs : List Event) (ls : loopState) (steps : List Step),
    loopSteps ls evs = some steps →
    (flushLog steps ++ (endState ls steps).state.throttled).Sublist
      (ls.state.throttled ++ enqueueLog steps) := by
  intro evs
  induction evs with
  | nil =>
    intro ls steps h
    simp only [loopSteps, Option.some.injEq] at h
    subst h
    simp [flushLog, enqueueLog, endState]
  | cons ev rest ih =>
    intro ls steps h
    obtain ⟨ls1, sent1, steps1, h1, h2, rfl⟩ := loopSteps_cons_some ls ev rest steps h
    have hstep := fifo_step ls ls1 ev sent1 h1
    have hrest := ih ls1 steps1 h2
    simp only [flushLog, enqueueLog, endState]
    have e1 : Step.flushed { before := ls, event := ev, after := ls1, sent := sent1 }
          ++ flushLog steps1 ++ (endState ls1 steps1).state.throttled
        = Step.flushed { before := ls, event := ev, after := ls1, sent := sent1 }
          ++ (flushLog steps1 ++ (endState ls1 steps1).state.throttled) := by
      rw [List.append_assoc]
    have e2 : ls.state.throttled
          ++ (Step.enqueued { before := ls, event := ev, after := ls1, sent := sent1 }
            ++ enqueueLog steps1)
        = (ls.state.throttled
            ++ Step.enqueued { before := ls, event := ev, after := ls1, sent := sent1 })
          ++ enqueueLog steps1 := by
      rw [List.append_assoc]
    rw [e1, e2]
    refine List.Sublist.trans (List.Sublist.append (List.Sublist.refl _) hrest) ?_
    rw [← List.append_assoc]
    exact List.Sublist.append hstep (List.Sublist.refl _)

theorem pair_sublist_or {α : Type} (a b : α) : ∀ (l : List α), a ∈ l → b ∈ l → a ≠ b →
    [a, b].Sublist l ∨ [b, a].Sublist l
  | [], ha, _, _ => by cases ha
  | x :: xs, ha, hb, hne => by
    by_cases hxa : a = x
    · subst hxa
      have hb2 : b ∈ xs := by
        rcases List.mem_cons.mp hb with h | h
        · exact absurd h.symm hne
        · exact h
      exact Or.inl (List.Sublist.cons₂ _ (List.singleton_sublist.mpr hb2))
    · by_cases hxb : b = x
      · subst hxb
        have ha2 : a ∈ xs := by
          rcases List.mem_cons.mp ha with h | h
          · exact absurd h hxa
          · exact h
        exact Or.inr (List.Sublist.cons₂ _ (List.singleton_sublist.mpr ha2))
      · have ha2 : a ∈ xs := by
          rcases List.mem_cons.mp ha with h | h
          · exact absurd h hxa
          · exact h
        have hb2 : b ∈ xs := by
          rcases List.mem_cons.mp hb with h | h
          · exact absurd h hxb
          · exact h
        rcases pair_sublist_or a b xs ha2 hb2 hne with h | h
        · exact Or.inl (List.Sublist.cons _ h)
        · exact Or.inr (List.Sublist.cons _ h)

theorem pair_sublist_nodup {α : Type} (a b : α) (l : List α) (hn : l.Nodup)
    (h1 : [a, b].Sublist l) (h2 : [b, a].Sublist l) : False := by
  induction l with
  | nil => cases h1
  | cons x xs ih =>
    have hx : x ∉ xs := (List.nodup_cons.mp hn).1
    have hxs : xs.Nodup := (List.nodup_cons.mp hn).2
    cases h1 with
    | cons _ h1a =>
      cases h2 with
      | cons _ h2a => exact ih hxs h1a h2a
      | cons₂ _ h2a => exact hx (h1a.subset (by simp))
    | cons₂ _ h1a =>
      cases h2 with
      | cons _ h2a => exact hx (h2a.subset (by simp))
      | cons₂ _ h2a => exact hx (h1a.subset (by simp))

/-! ## Every request is answered or removed -/

theorem count_find_eraseP (p : PermissionRequest → Bool) (x : PermissionRequest) :
    ∀ (l : List PermissionRequest),
      l.count x = (l.find? p).toList.count x + (l.eraseP p).count x
  | [] => by simp
  | y :: ys => by
    by_cases hy : p y = true
    · simp [List.find?_cons, List.eraseP_cons, hy, List.count_cons, Nat.add_comm]
    · have ih := count_find_eraseP p x ys
      have hf : (y :: ys).find? p = ys.find? p := by simp [List.find?_cons, hy]
      have he : (y :: ys).eraseP p = y :: ys.eraseP p := by simp [List.eraseP_cons, hy]
      rw [hf, he, List.count_cons, List.count_cons, ih]
      omega

theorem repliedRequests_append (l1 l2 : List Effect) :
    repliedRequests (l1 ++ l2) = repliedRequests l1 ++ repliedRequests l2 := by
  simp [repliedRequests, List.filterMap_append]

theorem repliedRequests_map_approved (l : List PermissionRequest) :
    repliedRequests (l.map (fun r => Effect.PermissionResponse r ExtRespCode.Approved)) = l := by
  induction l with
  | nil => rfl
  | cons x xs ih =>
    simp only [repliedRequests, List.map_cons, List.filterMap_cons] at ih ⊢
    rw [ih]

/-- Across one iteration every request is accounted for: the queue found plus the
request received equal, as multisets, the requests answered plus the request removed plus
the queue left. -/
theorem conservation_step (ls ls1 : loopState) (ev : Event) (sent : List Effect)
    (h : loopStep ls ev = some (ls1, sent)) (x : PermissionRequest) :
    ls.state.throttled.count x
        + (Step.received { before := ls, event := ev, after := ls1, sent := sent }).count x
      = (repliedRequests sent).count x
        + (Step.removed { before := ls, event := ev, after := ls1, sent := sent }).count x
        + ls1.state.throttled.count x := by
  rcases loopStep_cases ls ls1 ev sent h with
    ⟨hr, rfl, rfl⟩ | ⟨hr, tF, tC, b, rfl, rfl, hs⟩ | ⟨hr, now, cfg, c, t, rfl, rfl, rfl⟩
    | ⟨hr, now, rfl, rfl, rfl⟩ | ⟨hr, now, orig, rfl, rfl, rfl⟩ | ⟨hr, now, r, rfl, rfl, rfl⟩
    | ⟨hr, now, id, key, rfl, rfl, rfl⟩ | ⟨hr, now, key, ch, rfl, rfl, rfl⟩
  · have h1 : Step.received { before := ls1, event := ev, after := ls1, sent := [] } = [] := by
      unfold Step.received
      split
      · simp [hr]
      · rfl
    have h2 : Step.removed { before := ls1, event := ev, after := ls1, sent := [] } = [] := by
      unfold Step.removed
      split
      · simp [hr]
      · rfl
    rw [h1, h2]
    simp [repliedRequests]
  · have hsent : repliedRequests sent
        = ls.state.throttled.take
            (min ls.state.config.MaxRequestsPerWindow (ls.state.throttled.length : Int)).toNat := by
      rcases hs with rfl | rfl
      · exact repliedRequests_map_approved _
      · rw [repliedRequests_append]
        simp only [tickReplies, repliedRequests_map_approved]
        simp [repliedRequests]
    have hsplit := congrArg (List.count x) (List.take_append_drop
      (min ls.state.config.MaxRequestsPerWindow (ls.state.throttled.length : Int)).toNat
      ls.state.throttled)
    rw [List.count_append] at hsplit
    simp only [Step.received, Step.removed, hsent, List.count_nil, tickState]
    split_ifs with hpos
    · simp only; omega
    · have hz : (min ls.state.config.MaxRequestsPerWindow
          (ls.state.throttled.length : Int)).toNat = 0 := by omega
      rw [hz]
      simp
  · simp [Step.received, Step.removed, repliedRequests]
  · simp only [Step.received, Step.removed, repliedRequests_append,
      repliedRequests_map_approved, List.count_nil, List.count_append]
    split_ifs with hnil
    · simp [repliedRequests, hnil]
    · simp [repliedRequests]
  · have hc := count_find_eraseP (fun item => item.ReqID == orig.ReqID) x ls.state.throttled
    simp only [Step.received, Step.removed, hr, repliedRequests, List.filterMap_nil,
      List.count_nil, Bool.false_eq_true, if_false]
    omega
  · obtain ⟨_, hcase⟩ := handlePermissionRequest_cases ls.state now r
    simp only [Step.received, Step.removed, hr, List.count_nil, Bool.false_eq_true, if_false]
    rcases hcase with ⟨_, hs, _, ht⟩ | ⟨_, _, hs, _, ht⟩ | ⟨_, hs, _, ht⟩
    · rw [hs, ht]
      simp only [repliedRequests, List.filterMap_cons, List.filterMap_nil]
      omega
    · rw [hs, ht]
      simp only [repliedRequests, List.filterMap_nil, List.count_nil, List.count_append]
      omega
    · rw [hs, ht]
      simp only [repliedRequests, List.filterMap_cons, List.filterMap_nil]
      omega
  · simp [Step.received, Step.removed, repliedRequests]
  · simp [Step.received, Step.removed, repliedRequests, handleDebugSnapshotRequest]

/-- Along a run every request is accounted for. -/
theorem conservation_run (x : PermissionRequest) : ∀ (evs : List Event) (ls : loopState)
    (steps : List Step), loopSteps ls evs = some steps →
    ls.state.throttled.count x + (receivedLog steps).count x
      = (repliedRequests (sentOf steps)).count x + (removedLog steps).count x
        + (endState ls steps).state.throttled.count x := by
  intro evs
  induction evs with
  | nil =>
    intro ls steps h
    simp only [loopSteps, Option.some.injEq] at h
    subst h
    simp [receivedLog, sentOf, removedLog, endState, repliedRequests]
  | cons ev rest ih =>
    intro ls steps h
    obtain ⟨ls1, sent1, steps1, h1, h2, rfl⟩ := loopSteps_cons_some ls ev rest steps h
    have hstep := conservation_step ls ls1 ev sent1 h1 x
    have hrest := ih ls1 steps1 h2
    simp only [receivedLog, sentOf, removedLog, endState, repliedRequests_append,
      List.count_append]
    omega

/-- A run of a running instance that ends with its first Kill handles every
PermissionRequest of the run and ends with an empty queue. -/
theorem run_until_kill (tKill : Int) : ∀ (evs : List Event) (ls : loopState)
    (steps : List Step), ls.returned = false → (∀ ev ∈ evs, ev.isKill = false) →
    loopSteps ls (evs ++ [Event.recv tKill Request.Kill]) = some steps →
    receivedLog steps = permissionRequestsOf evs
      ∧ (endState ls steps).state.throttled = [] := by
  intro evs
  induction evs with
  | nil =>
    intro ls steps hrun _ h
    obtain ⟨ls1, sent1, steps1, h1, h2, rfl⟩ := loopSteps_cons_some ls _ [] steps h
    simp only [loopSteps, Option.some.injEq] at h2
    subst h2
    unfold loopStep at h1
    rw [if_neg (by rw [hrun]; exact Bool.false_ne_true)] at h1
    simp only [loopKill_eq, Option.some.injEq, Prod.mk.injEq] at h1
    refine ⟨rfl, ?_⟩
    simp only [endState]
    rw [← h1.1]
    simp only
    split_ifs with hnil
    · exact hnil
    · rfl
  | cons ev rest ih =>
    intro ls steps hrun hnk h
    obtain ⟨ls1, sent1, steps1, h1, h2, rfl⟩ := loopSteps_cons_some ls ev _ steps h
    have hev := hnk ev (List.mem_cons_self _ _)
    have hrest : ∀ e ∈ rest, e.isKill = false := fun e he => hnk e (List.mem_cons_of_mem _ he)
    have hrun1 : ls1.returned = false := by
      rcases loopStep_cases ls ls1 ev sent1 h1 with
        ⟨hr, _, _⟩ | ⟨hr, tF, tC, b, _, rfl, _⟩ | ⟨hr, now, cfg, c, t, _, rfl, _⟩
        | ⟨hr, now, he, _, _⟩ | ⟨hr, now, orig, _, rfl, _⟩ | ⟨hr, now, r, _, rfl, _⟩
        | ⟨hr, now, id, key, _, rfl, _⟩ | ⟨hr, now, key, ch, _, rfl, _⟩
      · rw [hrun] at hr; cases hr
      · exact hr
      · exact hr
      · subst he; cases hev
      · exact hr
      · exact hr
      · exact hr
      · exact hr
    obtain ⟨hrec, hq⟩ := ih ls1 steps1 hrun1 hrest h2
    refine ⟨?_, hq⟩
    simp only [receivedLog, hrec]
    cases ev with
    | tick a b => rfl
    | recv now req =>
      cases req <;> simp [Step.received, permissionRequestsOf, hrun]

/-- The replies of one iteration carry the code `Approved` or `Denied`. -/
theorem reply_codes_step (ls ls1 : loopState) (ev : Event) (sent : List Effect)
    (h : loopStep ls ev = some (ls1, sent)) (r : PermissionRequest) (code : ExtRespCode)
    (hmem : Effect.PermissionResponse r code ∈ sent) :
    code = ExtRespCode.Approved ∨ code = ExtRespCode.Denied := by
  rcases loopStep_cases ls ls1 ev sent h with
    ⟨hr, rfl, rfl⟩ | ⟨hr, tF, tC, b, rfl, rfl, hs⟩ | ⟨hr, now, cfg, c, t, rfl, rfl, rfl⟩
    | ⟨hr, now, rfl, rfl, rfl⟩ | ⟨hr, now, orig, rfl, rfl, rfl⟩ | ⟨hr, now, r1, rfl, rfl, rfl⟩
    | ⟨hr, now, id, key, rfl, rfl, rfl⟩ | ⟨hr, now, key, ch, rfl, rfl, rfl⟩
  · cases hmem
  · rcases hs with rfl | rfl
    · simp only [tickReplies, List.mem_map] at hmem
      obtain ⟨_, _, he⟩ := hmem
      cases he
      exact Or.inl rfl
    · simp only [tickReplies, List.mem_append, List.mem_map, List.mem_singleton] at hmem
      rcases hmem with ⟨_, _, he⟩ | he
      · cases he; exact Or.inl rfl
      · cases he
  · cases hmem
  · simp only [List.mem_append, List.mem_map, List.mem_singleton] at hmem
    rcases hmem with ⟨_, _, he⟩ | he
    · cases he; exact Or.inl rfl
    · cases he
  · cases hmem
  · obtain ⟨_, hcase⟩ := handlePermissionRequest_cases ls.state now r1
    rcases hcase with ⟨_, hs, _, _⟩ | ⟨_, _, hs, _, _⟩ | ⟨_, hs, _, _⟩
    · rw [hs, List.mem_singleton] at hmem
      cases hmem; exact Or.inl rfl
    · rw [hs] at hmem; cases hmem
    · rw [hs, List.mem_singleton] at hmem
      cases hmem; exact Or.inr rfl
  · cases hmem
  · simp only [handleDebugSnapshotRequest, List.mem_singleton] at hmem
    cases hmem

theorem reply_codes_run : ∀ (evs : List Event) (ls : loopState) (steps : List Step),
    loopSteps ls evs = some steps → ∀ (r : PermissionRequest) (code : ExtRespCode),
    Effect.PermissionResponse r code ∈ sentOf steps →
    code = ExtRespCode.Approved ∨ code = ExtRespCode.Denied := by
  intro evs
  induction evs with
  | nil =>
    intro ls steps h r code hmem
    simp only [loopSteps, Option.some.injEq] at h
    subst h
    cases hmem
  | cons ev rest ih =>
    intro ls steps h r code hmem
    obtain ⟨ls1, sent1, steps1, h1, h2, rfl⟩ := loopSteps_cons_some ls ev rest steps h
    simp only [sentOf, List.mem_append] at hmem
    rcases hmem with hm | hm
    · exact reply_codes_step ls ls1 ev sent1 h1 r code hm
    · exact ih ls1 steps1 h2 r code hm

theorem mem_repliedRequests (sent : List Effect) (r : PermissionRequest) (code : ExtRespCode)
    (h : Effect.PermissionResponse r code ∈ sent) : r ∈ repliedRequests sent := by
  unfold repliedRequests
  rw [List.mem_filterMap]
  exact ⟨_, h, rfl⟩

/-- What an iteration removes for a ClientGaveUp is a queued request with the request
id of the notification. -/
theorem removed_spec (s : Step) (x : PermissionRequest) (hx : x ∈ s.removed) :
    ∃ t orig, s.event = Event.recv t (Request.ClientGaveUpNotification orig)
      ∧ x.ReqID = orig.ReqID ∧ x ∈ s.before.state.throttled := by
  unfold Step.removed at hx
  split at hx
  · rename_i t orig hev
    split_ifs at hx
    · cases hx
    · rw [Option.mem_toList] at hx
      have h1 := List.find?_some hx
      have h2 := List.mem_of_find?_eq_some hx
      exact ⟨t, orig, hev, by simpa using h1, h2⟩
  · cases hx

/-! ## Admission decision, window tick and release -/

/-- C1: a running instance handling a PermissionRequest `r`, with `M` and `Q` the limits
after the overrides of `r` are applied: if `nApprovedThisWindow < M` the request is answered
`Approved` and the approved counter grows by one; otherwise, if `r.CanWait` and
`len(throttled) < Q`, `r` is appended at the tail of the wait queue and nothing is sent;
otherwise the request is answered `Denied` and the denied counter grows by one.  In each case
the other counter and the queue are unchanged. -/
theorem C1_permission_request_decision (ls : loopState) (now : Int) (r : PermissionRequest)
    (M Q : Int) (hrun : ls.returned = false)
    (hM : M = if r.MaxRequests = NoChange then ls.state.config.MaxRequestsPerWindow
              else r.MaxRequests)
    (hQ : Q = if r.MaxRequestsInQueue = NoChange then ls.state.config.MaxRequestsInQueue
              else r.MaxRequestsInQueue) :
    ∃ ls1 sent, loopStep ls (Event.recv now (Request.PermissionRequest r)) = some (ls1, sent)
      ∧ ls1.state.config.MaxRequestsPerWindow = M ∧ ls1.state.config.MaxRequestsInQueue = Q
      ∧ (ls.state.nApprovedThisWindow < M →
          sent = [Effect.PermissionResponse r ExtRespCode.Approved]
          ∧ ls1.state.nApprovedThisWindow = ls.state.nApprovedThisWindow + 1
          ∧ ls1.state.throttled = ls.state.throttled
          ∧ ls1.state.nDeniedThisWindow = ls.state.nDeniedThisWindow)
      ∧ (¬ ls.state.nApprovedThisWindow < M →
          (r.CanWait = true ∧ (ls.state.throttled.length : Int) < Q) →
          sent = []
          ∧ ls1.state.throttled = ls.state.throttled ++ [r]
          ∧ ls1.state.nApprovedThisWindow = ls.state.nApprovedThisWindow
          ∧ ls1.state.nDeniedThisWindow = ls.state.nDeniedThisWindow)
      ∧ (¬ ls.state.nApprovedThisWindow < M →
          ¬ (r.CanWait = true ∧ (ls.state.throttled.length : Int) < Q) →
          sent = [Effect.PermissionResponse r ExtRespCode.Denied]
          ∧ ls1.state.nDeniedThisWindow = ls.state.nDeniedThisWindow + 1
          ∧ ls1.state.throttled = ls.state.throttled
          ∧ ls1.state.nApprovedThisWindow = ls.state.nApprovedThisWindow) := by
  have hM1 : (overrideConfig ls.state.config r).MaxRequestsPerWindow = M := hM.symm
  have hQ1 : (overrideConfig ls.state.config r).MaxRequestsInQueue = Q := hQ.symm
  have h := handlePermissionRequest_eq ls.state now r
  rw [hM1, hQ1] at h
  refine ⟨(withState ls (handlePermissionRequest ls.state now r)).1,
    (withState ls (handlePermissionRequest ls.state now r)).2,
    loopStep_permission ls now r hrun, ?_, ?_, ?_, ?_, ?_⟩
  · simp only [withState]; rw [h]; split_ifs <;> exact hM1
  · simp only [withState]; rw [h]; split_ifs <;> exact hQ1
  · intro hA; simp only [withState]; rw [h, if_pos hA]; exact ⟨rfl, rfl, rfl, rfl⟩
  · intro hA hq; simp only [withState]; rw [h, if_neg hA, if_pos hq]; exact ⟨rfl, rfl, rfl, rfl⟩
  · intro hA hq; simp only [withState]; rw [h, if_neg hA, if_neg hq]; exact ⟨rfl, rfl, rfl, rfl⟩

/-- C1 at a concrete state: limit 1 already used and room in the queue. -/
theorem C1_permission_request_decision_witness :
    (sampleInstance 1 5 1 []).returned = false
    ∧ ∃ ls1 sent,
        loopStep (sampleInstance 1 5 1 []) (Event.recv 3 (Request.PermissionRequest
          (sampleOverride "a" true NoChange 2))) = some (ls1, sent)
        ∧ ls1.state.config.MaxRequestsPerWindow = 1 ∧ ls1.state.config.MaxRequestsInQueue = 2
        ∧ sent = []
        ∧ ls1.state.throttled = [sampleOverride "a" true NoChange 2]
        ∧ ls1.state.nApprovedThisWindow = 1
        ∧ ls1.state.nDeniedThisWindow = 0 := by
  obtain ⟨ls1, sent, h, hm, hq, _, h2, _⟩ := C1_permission_request_decision
    (sampleInstance 1 5 1 []) 3 (sampleOverride "a" true NoChange 2) 1 2 rfl
    (by decide) (by decide)
  exact ⟨rfl, ls1, sent, h, hm, hq, h2 (by decide) (by decide)⟩

/-- C6: a window tick on a running instance with wait queue `w` and
`MaxRequestsPerWindow = m ≥ 0`, where `f = min(m, len(w))`: the denied counter is zero, the
first `f` waiters of `w` are each answered `Approved` (nothing else is sent but possibly the
expiry notification), the approved counter is `f`, the queue is `w` without its first `f`
elements, the configuration is unchanged, and `timeLastUsed` becomes the time of the flush if
`f > 0` and is unchanged if `f = 0`. -/
theorem C6_window_tick (ls : loopState) (tFlush tCheck : Int) (f : Nat)
    (hrun : ls.returned = false) (hm : 0 ≤ ls.state.config.MaxRequestsPerWindow)
    (hf : (f : Int) = min ls.state.config.MaxRequestsPerWindow (ls.state.throttled.length : Int)) :
    ∃ ls1 sent, loopStep ls (Event.tick tFlush tCheck) = some (ls1, sent)
      ∧ ls1.state.nDeniedThisWindow = 0
      ∧ (sent = (ls.state.throttled.take f).map
                  (fun r => Effect.PermissionResponse r ExtRespCode.Approved)
          ∨ sent = (ls.state.throttled.take f).map
                  (fun r => Effect.PermissionResponse r ExtRespCode.Approved)
                ++ [Effect.InstanceExpiredNotification ls.state.key ls.state.mailbox])
      ∧ ls1.state.nApprovedThisWindow = (f : Int)
      ∧ ls1.state.throttled = ls.state.throttled.drop f
      ∧ ls1.state.config = ls.state.config
      ∧ (0 < f → ls1.state.timeLastUsed = tFlush)
      ∧ (f = 0 → ls1.state.timeLastUsed = ls.state.timeLastUsed) := by
  have hf2 :
      (min ls.state.config.MaxRequestsPerWindow (ls.state.throttled.length : Int)).toNat = f := by
    have _ := hm
    omega
  obtain ⟨ls1, sent, h⟩ := loopStep_isSome ls (Event.tick tFlush tCheck)
    (by intro now cfg he; cases he)
  refine ⟨ls1, sent, h, ?_⟩
  rcases loopStep_cases ls ls1 _ sent h with
    ⟨hr, _, _⟩ | ⟨_, tF, tC, b, he, rfl, hs⟩ | ⟨_, now, cfg, c, t, he, _, _⟩ | ⟨_, now, he, _, _⟩
    | ⟨_, now, orig, he, _, _⟩ | ⟨_, now, r, he, _, _⟩ | ⟨_, now, id, key, he, _, _⟩
    | ⟨_, now, key, ch, he, _, _⟩
  · rw [hrun] at hr; cases hr
  · cases he
    simp only [tickReplies, hf2] at hs
    refine ⟨?_, hs, ?_⟩
    · simp only [tickState]; split_ifs <;> rfl
    · simp only [tickState]
      by_cases hpos : 0 < min ls.state.config.MaxRequestsPerWindow (ls.state.throttled.length : Int)
      · rw [if_pos hpos]
        exact ⟨hf.symm, by rw [← hf2], rfl, fun _ => rfl, fun h0 => by omega⟩
      · rw [if_neg hpos]
        have h0 : f = 0 := by omega
        subst h0
        exact ⟨rfl, rfl, rfl, fun h => by omega, fun _ => rfl⟩
  all_goals cases he

/-- C6 at a concrete state: limit 1, two waiters. -/
theorem C6_window_tick_witness :
    (sampleInstance 1 5 1 [sampleRequest "a" true, sampleRequest "b" true]).returned = false
    ∧ (0 : Int) ≤ 1
    ∧ ∃ ls1 sent,
        loopStep (sampleInstance 1 5 1 [sampleRequest "a" true, sampleRequest "b" true])
          (Event.tick 7 8) = some (ls1, sent)
        ∧ ls1.state.nDeniedThisWindow = 0
        ∧ (sent = [Effect.PermissionResponse (sampleRequest "a" true) ExtRespCode.Approved]
            ∨ sent = [Effect.PermissionResponse (sampleRequest "a" true) ExtRespCode.Approved]
                ++ [Effect.InstanceExpiredNotification "k" 1])
        ∧ ls1.state.nApprovedThisWindow = 1
        ∧ ls1.state.throttled = [sampleRequest "b" true]
        ∧ ls1.state.config =
            { WindowMillis := 1000, MaxRequestsPerWindow := 1, MaxRequestsInQueue := 5 }
        ∧ (0 < 1 → ls1.state.timeLastUsed = 7)
        ∧ (1 = 0 → ls1.state.timeLastUsed = 0) :=
  ⟨rfl, by decide,
    C6_window_tick (sampleInstance 1 5 1 [sampleRequest "a" true, sampleRequest "b" true])
      7 8 1 rfl (by decide) (by decide)⟩

/-- C9: handling a ReleaseRequest on a running instance sets the approved counter to
`max(0, nApprovedThisWindow - 1)`, sends nothing, and leaves the configuration, the denied
counter and the wait queue unchanged; at zero the counter stays zero.  In every state reached
from creation, under any sequence of ticks and messages, the approved counter is `≥ 0`. -/
theorem C9_release_clamps_at_zero :
    (∀ (ls : loopState) (now : Int) (id key : String), ls.returned = false →
      ∃ ls1, loopStep ls (Event.recv now (Request.ReleaseRequest id key)) = some (ls1, [])
        ∧ ls1.state.nApprovedThisWindow = max 0 (ls.state.nApprovedThisWindow - 1)
        ∧ ls1.state.config = ls.state.config
        ∧ ls1.state.nDeniedThisWindow = ls.state.nDeniedThisWindow
        ∧ ls1.state.throttled = ls.state.throttled
        ∧ (ls.state.nApprovedThisWindow = 0 → ls1.state.nApprovedThisWindow = 0))
    ∧ (∀ (key : String) (config : Config) (parent mailbox : Nat) (t0 : Int) (ls0 : loopState)
        (evs : List Event) (ls : loopState) (sent : List Effect),
        New key config parent mailbox t0 = some ls0 → loop ls0 evs = some (ls, sent) →
        0 ≤ ls.state.nApprovedThisWindow) := by
  constructor
  · intro ls now id key hrun
    refine ⟨(withState ls (handleReleaseRequest ls.state now)).1,
      loopStep_release ls now id key hrun, rfl, rfl, rfl, rfl, ?_⟩
    intro h0
    simp [withState, handleReleaseRequest, h0]
  · intro key config parent mailbox t0 ls0 evs ls sent hnew hloop
    refine nApproved_nonneg_loop evs ls0 ls sent hloop ?_
    unfold New at hnew
    split_ifs at hnew
    simp only [Option.some.injEq] at hnew
    rw [← hnew]

/-- C9 on a concrete run: two releases on a fresh instance. -/
theorem C9_release_clamps_at_zero_witness :
    New "k" { WindowMillis := 1000, MaxRequestsPerWindow := 3, MaxRequestsInQueue := 5 } 2 1 0
        = some (sampleInstance 3 5 0 [])
    ∧ loop (sampleInstance 3 5 0 [])
        [Event.recv 1 (Request.ReleaseRequest "1" "k"), Event.recv 2 (Request.ReleaseRequest "2" "k")]
        = some ({ sampleInstance 3 5 0 [] with
                    state := { (sampleInstance 3 5 0 []).state with timeLastUsed := 2 } }, [])
    ∧ 0 ≤ ({ sampleInstance 3 5 0 [] with
              state := { (sampleInstance 3 5 0 []).state with timeLastUsed := 2 } }
            : loopState).state.nApprovedThisWindow :=
  ⟨by decide, by decide,
    C9_release_clamps_at_zero.2 "k"
      { WindowMillis := 1000, MaxRequestsPerWindow := 3, MaxRequestsInQueue := 5 } 2 1 0
      (sampleInstance 3 5 0 [])
      [Event.recv 1 (Request.ReleaseRequest "1" "k"), Event.recv 2 (Request.ReleaseRequest "2" "k")]
      _ [] (by decide) (by decide)⟩

/-- C10: release is idempotent at zero.  On a running instance with approved counter zero
and `MaxRequestsPerWindow ≥ 1`, any number of ReleaseRequests followed by one
PermissionRequest without overrides ends with that request answered `Approved` and the
approved counter at one, in the same state and with the same reply as when the releases are
not sent. -/
theorem C10_release_idempotent_at_zero (ls : loopState) (rels : List Event) (now : Int)
    (r : PermissionRequest) (hrun : ls.returned = false)
    (h0 : ls.state.nApprovedThisWindow = 0) (hm : 1 ≤ ls.state.config.MaxRequestsPerWindow)
    (hrels : ∀ ev ∈ rels, ∃ t id key, ev = Event.recv t (Request.ReleaseRequest id key))
    (h1 : r.MaxRequests = NoChange) (h2 : r.MaxRequestsInQueue = NoChange) :
    ∃ ls1,
      loop ls (rels ++ [Event.recv now (Request.PermissionRequest r)])
        = some (ls1, [Effect.PermissionResponse r ExtRespCode.Approved])
      ∧ ls1.state.nApprovedThisWindow = 1
      ∧ loop ls [Event.recv now (Request.PermissionRequest r)]
        = some (ls1, [Effect.PermissionResponse r ExtRespCode.Approved]) := by
  obtain ⟨t, hloop⟩ := loop_releases_at_zero rels ls hrun h0 hrels
  have hlt : ls.state.nApprovedThisWindow
      < (overrideConfig ls.state.config r).MaxRequestsPerWindow := by
    rw [overrideConfig_noChange _ _ h1 h2]; omega
  have hone : loop ls [Event.recv now (Request.PermissionRequest r)]
      = some (withState ls (handlePermissionRequest ls.state now r)) := by
    rw [loop_cons, loopStep_permission ls now r hrun]
    simp [loop]
  have hsent : (withState ls (handlePermissionRequest ls.state now r)).2
      = [Effect.PermissionResponse r ExtRespCode.Approved] := by
    simp only [withState, handlePermissionRequest_eq, if_pos hlt]
  have hcount : (withState ls (handlePermissionRequest ls.state now r)).1.state.nApprovedThisWindow
      = 1 := by
    simp only [withState, handlePermissionRequest_eq, if_pos hlt]
    omega
  refine ⟨(withState ls (handlePermissionRequest ls.state now r)).1, ?_, hcount, ?_⟩
  · have hstep : loopStep { ls with state := { ls.state with timeLastUsed := t } }
        (Event.recv now (Request.PermissionRequest r))
        = some (withState ls (handlePermissionRequest ls.state now r)) := by
      exact (loopStep_permission { ls with state := { ls.state with timeLastUsed := t } }
        now r hrun).trans rfl
    rw [loop_append, hloop]
    simp only [loop_cons, hstep, loop, List.nil_append, List.append_nil]
    rw [← hsent]
  · rw [hone, ← hsent]

/-- C10 at a concrete instance: three releases, then a request. -/
theorem C10_release_idempotent_at_zero_witness :
    (sampleInstance 1 0 0 []).returned = false
    ∧ (sampleInstance 1 0 0 []).state.nApprovedThisWindow = 0
    ∧ 1 ≤ (sampleInstance 1 0 0 []).state.config.MaxRequestsPerWindow
    ∧ ∃ ls1,
        loop (sampleInstance 1 0 0 [])
          (List.replicate 3 (Event.recv 4 (Request.ReleaseRequest "0" "k"))
            ++ [Event.recv 5 (Request.PermissionRequest (sampleRequest "a" false))])
          = some (ls1, [Effect.PermissionResponse (sampleRequest "a" false) ExtRespCode.Approved])
        ∧ ls1.state.nApprovedThisWindow = 1
        ∧ loop (sampleInstance 1 0 0 [])
            [Event.recv 5 (Request.PermissionRequest (sampleRequest "a" false))]
          = some (ls1, [Effect.PermissionResponse (sampleRequest "a" false) ExtRespCode.Approved]) :=
  ⟨rfl, rfl, by decide,
    C10_release_idempotent_at_zero (sampleInstance 1 0 0 [])
      (List.replicate 3 (Event.recv 4 (Request.ReleaseRequest "0" "k"))) 5
      (sampleRequest "a" false) rfl rfl (by decide)
      (fun ev hev => ⟨4, "0", "k", List.eq_of_mem_replicate hev⟩) rfl rfl⟩

/-- C2: on a freshly created instance with `MaxRequestsPerWindow = m ≥ 0` and
`MaxRequestsInQueue = q ≥ 0`, after `n` PermissionRequests with the same `CanWait` flag `c`
and no overrides (no tick or other message in between), with `a = min(n, m)` and
`w = if c then min(n - a, q) else 0`: exactly the first `a` requests were answered
`Approved`, the next `w` requests sit in the wait queue without a reply, the remaining ones
were answered `Denied`, and a debug snapshot shows `approved = a`, `waiting = w` and
`denied = n - a - w`. -/
theorem C2_fresh_instance_burst (key : String) (config : Config) (parent mailbox : Nat)
    (t0 : Int) (ls0 : loopState) (c : Bool) (reqs : List (Int × PermissionRequest))
    (tSnap : Int) (respChan : Nat) (a w : Nat)
    (hnew : New key config parent mailbox t0 = some ls0)
    (hm : 0 ≤ config.MaxRequestsPerWindow) (hq : 0 ≤ config.MaxRequestsInQueue)
    (hreqs : ∀ p ∈ reqs, p.2.CanWait = c ∧ p.2.MaxRequests = NoChange
      ∧ p.2.MaxRequestsInQueue = NoChange)
    (ha : a = min reqs.length config.MaxRequestsPerWindow.toNat)
    (hw : w = if c = true then min (reqs.length - a) config.MaxRequestsInQueue.toNat else 0) :
    ∃ ls1,
      loop ls0 (permissionEvents reqs
          ++ [Event.recv tSnap (Request.DebugSnapshotRequest key respChan)])
        = some (ls1,
            (reqs.take a).map (fun p => Effect.PermissionResponse p.2 ExtRespCode.Approved)
            ++ (reqs.drop (a + w)).map (fun p => Effect.PermissionResponse p.2 ExtRespCode.Denied)
            ++ [Effect.DebugSnapshot respChan {
                  Key := key
                  Config := config
                  NumApprovedThisWindow := (a : Int)
                  NumDeniedThisWindow := ((reqs.length - a - w : Nat) : Int)
                  NumWaiting := (w : Int)
                  Found := true }])
      ∧ ls1.state.throttled = ((reqs.drop a).take w).map (fun p => p.2) := by
  have _ := hm
  have _ := hq
  unfold New at hnew
  split_ifs at hnew
  simp only [Option.some.injEq] at hnew
  have e1 : ls0.returned = false := by rw [← hnew]
  have e2 : ls0.state.config = config := by rw [← hnew]
  have e3 : ls0.state.key = key := by rw [← hnew]
  have e4 : ls0.state.nApprovedThisWindow = 0 := by rw [← hnew]
  have e5 : ls0.state.nDeniedThisWindow = 0 := by rw [← hnew]
  have e6 : ls0.state.throttled = [] := by rw [← hnew]
  obtain ⟨ls1, hl, hr1, hc1, hk1, hn1, ht1, hd1⟩ := loop_burst c reqs ls0 a w e1 hreqs
    (by rw [e2, e4, sub_zero]; exact ha)
    (by intro hct; rw [hw, if_pos hct, e2, e6]; simp)
    (by intro hcf; rw [hw, hcf]; simp)
  rw [e2] at hc1
  rw [e3] at hk1
  rw [e4, zero_add] at hn1
  rw [e5, zero_add] at hd1
  rw [e6, List.nil_append] at ht1
  refine ⟨ls1, ?_, ht1⟩
  rw [loop_append, hl]
  simp only [loop_cons, loop, loopStep_debug ls1 tSnap key respChan hr1,
    handleDebugSnapshotRequest, List.append_nil, hc1, hk1, hn1, hd1, ht1, List.length_map,
    List.length_take, List.length_drop]
  have hlen : min w (reqs.length - a) = w := by
    rw [hw]; split_ifs <;> omega
  rw [hlen]

/-- C2 at a concrete instance: limit 2, queue bound 1, four requests that can wait. -/
theorem C2_fresh_instance_burst_witness :
    New "k" { WindowMillis := 1000, MaxRequestsPerWindow := 2, MaxRequestsInQueue := 1 } 2 1 0
      = some (sampleInstance 2 1 0 [])
    ∧ (∀ p ∈ [((1 : Int), sampleRequest "a" true), (2, sampleRequest "b" true),
              (3, sampleRequest "c" true), (4, sampleRequest "d" true)],
        p.2.CanWait = true ∧ p.2.MaxRequests = NoChange ∧ p.2.MaxRequestsInQueue = NoChange)
    ∧ ∃ ls1,
        loop (sampleInstance 2 1 0 [])
          (permissionEvents [((1 : Int), sampleRequest "a" true), (2, sampleRequest "b" true),
              (3, sampleRequest "c" true), (4, sampleRequest "d" true)]
            ++ [Event.recv 5 (Request.DebugSnapshotRequest "k" 9)])
          = some (ls1,
              [Effect.PermissionResponse (sampleRequest "a" true) ExtRespCode.Approved,
               Effect.PermissionResponse (sampleRequest "b" true) ExtRespCode.Approved]
              ++ [Effect.PermissionResponse (sampleRequest "d" true) ExtRespCode.Denied]
              ++ [Effect.DebugSnapshot 9 {
                    Key := "k"
                    Config := { WindowMillis := 1000, MaxRequestsPerWindow := 2,
                                MaxRequestsInQueue := 1 }
                    NumApprovedThisWindow := 2
                    NumDeniedThisWindow := 1
                    NumWaiting := 1
                    Found := true }])
        ∧ ls1.state.throttled = [sampleRequest "c" true] :=
  ⟨by decide, by decide,
    C2_fresh_instance_burst "k"
      { WindowMillis := 1000, MaxRequestsPerWindow := 2, MaxRequestsInQueue := 1 } 2 1 0
      (sampleInstance 2 1 0 []) true
      [((1 : Int), sampleRequest "a" true), (2, sampleRequest "b" true),
        (3, sampleRequest "c" true), (4, sampleRequest "d" true)]
      5 9 2 1 (by decide) (by decide) (by decide) (by decide) (by decide) (by decide)⟩

/-! ## The approved counter and the limit -/

/-- C3, refuted as stated: from a fresh instance with limit 2, two approvals followed by a
request whose override lowers the limit to 1 leave a running instance with
`nApprovedThisWindow = 2 > 1 = MaxRequestsPerWindow`; and on an instance with limit 1, one
approval and one waiter followed by Kill end with the waiter approved and the counter at 2. -/
theorem C3_counterexample :
    New "k" { WindowMillis := 1000, MaxRequestsPerWindow := 2, MaxRequestsInQueue := 5 } 2 1 0
        = some (sampleInstance 2 5 0 [])
    ∧ (∃ ls sent,
        loop (sampleInstance 2 5 0 [])
          [Event.recv 1 (Request.PermissionRequest (sampleRequest "a" false)),
           Event.recv 2 (Request.PermissionRequest (sampleRequest "b" false)),
           Event.recv 3 (Request.PermissionRequest (sampleOverride "c" false 1 NoChange))]
          = some (ls, sent)
        ∧ ls.returned = false
        ∧ ¬ ls.state.nApprovedThisWindow ≤ ls.state.config.MaxRequestsPerWindow)
    ∧ (∃ ls sent,
        loop (sampleInstance 1 5 0 [])
          [Event.recv 1 (Request.PermissionRequest (sampleRequest "a" true)),
           Event.recv 2 (Request.PermissionRequest (sampleRequest "b" true)),
           Event.recv 3 Request.Kill]
          = some (ls, sent)
        ∧ Effect.PermissionResponse (sampleRequest "b" true) ExtRespCode.Approved ∈ sent
        ∧ ¬ ls.state.nApprovedThisWindow ≤ ls.state.config.MaxRequestsPerWindow) := by
  refine ⟨by decide, ⟨_, _, rfl, by decide, by decide⟩, ⟨_, _, rfl, by decide, by decide⟩⟩

/-- C3, amended: (1) in every state of a running instance reached from creation by a run in
which no iteration lowers `MaxRequestsPerWindow` (no override and no configuration update
sets it below its current value), `nApprovedThisWindow ≤ MaxRequestsPerWindow`; (2) from any
state, whenever an iteration that leaves the instance running (the admission decision or a
window tick) answers a request `Approved`, `nApprovedThisWindow ≤ MaxRequestsPerWindow`
holds right after it, with the limit as left by the overrides of that request. -/
theorem C3_approved_within_limit :
    (∀ (key : String) (config : Config) (parent mailbox : Nat) (t0 : Int) (ls0 : loopState)
        (evs : List Event) (steps : List Step),
        New key config parent mailbox t0 = some ls0 → loopSteps ls0 evs = some steps →
        (∀ s ∈ steps, s.before.state.config.MaxRequestsPerWindow
            ≤ s.after.state.config.MaxRequestsPerWindow) →
        ls0.state.nApprovedThisWindow ≤ ls0.state.config.MaxRequestsPerWindow
        ∧ ∀ s ∈ steps, s.after.returned = false →
            s.after.state.nApprovedThisWindow ≤ s.after.state.config.MaxRequestsPerWindow)
    ∧ (∀ (ls ls1 : loopState) (ev : Event) (sent : List Effect),
        loopStep ls ev = some (ls1, sent) → ls1.returned = false → approvedReplies sent ≠ [] →
        ls1.state.nApprovedThisWindow ≤ ls1.state.config.MaxRequestsPerWindow) := by
  refine ⟨?_, approved_le_max_of_approval⟩
  intro key config parent mailbox t0 ls0 evs steps hnew hsteps hR
  unfold New at hnew
  split_ifs at hnew with hneg hdur
  simp only [Option.some.injEq] at hnew
  have e1 : ls0.state.config = config := by rw [← hnew]
  have e2 : ls0.state.nApprovedThisWindow = 0 := by rw [← hnew]
  have h0 : 0 ≤ ls0.state.config.MaxRequestsPerWindow := by rw [e1]; omega
  refine ⟨by rw [e2]; exact h0, ?_⟩
  intro s hs
  exact (loopSteps_invariant
    (fun ls => 0 ≤ ls.state.config.MaxRequestsPerWindow
      ∧ (ls.returned = false →
          ls.state.nApprovedThisWindow ≤ ls.state.config.MaxRequestsPerWindow))
    (fun ls ls1 => ls.state.config.MaxRequestsPerWindow ≤ ls1.state.config.MaxRequestsPerWindow)
    (fun ls ev ls1 sent h => approved_le_max_step ls ls1 ev sent h)
    evs ls0 steps hsteps ⟨h0, fun _ => by rw [e2]; exact h0⟩ hR s hs).2

/-- C3 (amended) on a concrete run: an approval, an approval under a raised limit, a tick. -/
theorem C3_approved_within_limit_witness :
    New "k" { WindowMillis := 1000, MaxRequestsPerWindow := 1, MaxRequestsInQueue := 5 } 2 1 0
        = some (sampleInstance 1 5 0 [])
    ∧ loopSteps (sampleInstance 1 5 0 []) sampleRunRaise
        = some (stepsOf (sampleInstance 1 5 0 []) sampleRunRaise)
    ∧ (stepsOf (sampleInstance 1 5 0 []) sampleRunRaise).length = 3
    ∧ (∀ s ∈ stepsOf (sampleInstance 1 5 0 []) sampleRunRaise,
        s.before.state.config.MaxRequestsPerWindow ≤ s.after.state.config.MaxRequestsPerWindow)
    ∧ (∀ s ∈ stepsOf (sampleInstance 1 5 0 []) sampleRunRaise, s.after.returned = false →
        s.after.state.nApprovedThisWindow ≤ s.after.state.config.MaxRequestsPerWindow) :=
  ⟨by decide, by decide, by decide, by decide,
    (C3_approved_within_limit.1 "k"
      { WindowMillis := 1000, MaxRequestsPerWindow := 1, MaxRequestsInQueue := 5 } 2 1 0
      (sampleInstance 1 5 0 []) sampleRunRaise (stepsOf (sampleInstance 1 5 0 []) sampleRunRaise)
      (by decide) (by decide) (by decide)).2⟩

/-! ## The wait queue and its bound -/

/-- C4, refuted as stated: from a fresh instance with limit 1 and queue bound 5, one approval
and two waiters followed by a request whose override lowers `MaxRequestsInQueue` to 1 leave
`len(throttled) = 2 > 1 = MaxRequestsInQueue`. -/
theorem C4_counterexample :
    New "k" { WindowMillis := 1000, MaxRequestsPerWindow := 1, MaxRequestsInQueue := 5 } 2 1 0
        = some (sampleInstance 1 5 0 [])
    ∧ ∃ ls sent,
        loop (sampleInstance 1 5 0 [])
          [Event.recv 1 (Request.PermissionRequest (sampleRequest "a" true)),
           Event.recv 2 (Request.PermissionRequest (sampleRequest "b" true)),
           Event.recv 3 (Request.PermissionRequest (sampleRequest "c" true)),
           Event.recv 4 (Request.PermissionRequest (sampleOverride "d" true NoChange 1))]
          = some (ls, sent)
        ∧ ls.state.throttled = [sampleRequest "b" true, sampleRequest "c" true]
        ∧ ¬ (ls.state.throttled.length : Int) ≤ ls.state.config.MaxRequestsInQueue := by
  refine ⟨by decide, _, _, rfl, by decide, by decide⟩

/-- C4, amended: in every state reached from creation with a configuration whose
`MaxRequestsInQueue` is `≥ 0`, by a run in which no iteration lowers `MaxRequestsInQueue` (no
override and no configuration update sets it below its current value),
`len(throttled) ≤ MaxRequestsInQueue`. -/
theorem C4_queue_within_bound (key : String) (config : Config) (parent mailbox : Nat)
    (t0 : Int) (ls0 : loopState) (evs : List Event) (steps : List Step)
    (hq : 0 ≤ config.MaxRequestsInQueue)
    (hnew : New key config parent mailbox t0 = some ls0)
    (hsteps : loopSteps ls0 evs = some steps)
    (hR : ∀ s ∈ steps, s.before.state.config.MaxRequestsInQueue
        ≤ s.after.state.config.MaxRequestsInQueue) :
    (ls0.state.throttled.length : Int) ≤ ls0.state.config.MaxRequestsInQueue
    ∧ ∀ s ∈ steps,
        (s.after.state.throttled.length : Int) ≤ s.after.state.config.MaxRequestsInQueue := by
  unfold New at hnew
  split_ifs at hnew with hneg hdur
  simp only [Option.some.injEq] at hnew
  have e1 : ls0.state.config = config := by rw [← hnew]
  have e2 : ls0.state.throttled = [] := by rw [← hnew]
  have h0 : 0 ≤ ls0.state.config.MaxRequestsInQueue := by rw [e1]; exact hq
  have hlen : (ls0.state.throttled.length : Int) ≤ ls0.state.config.MaxRequestsInQueue := by
    rw [e2]; exact h0
  refine ⟨hlen, ?_⟩
  intro s hs
  exact (loopSteps_invariant
    (fun ls => 0 ≤ ls.state.config.MaxRequestsInQueue
      ∧ (ls.state.throttled.length : Int) ≤ ls.state.config.MaxRequestsInQueue)
    (fun ls ls1 => ls.state.config.MaxRequestsInQueue ≤ ls1.state.config.MaxRequestsInQueue)
    (fun ls ev ls1 sent h => queue_le_max_step ls ls1 ev sent h)
    evs ls0 steps hsteps ⟨h0, hlen⟩ hR s hs).2

/-- C4 (amended) on a concrete run: an approval, a waiter, a waiter admitted under the
raised bound 2, a configuration update, a tick and a Kill. -/
theorem C4_queue_within_bound_witness :
    (0 : Int) ≤ 1
    ∧ New "k" { WindowMillis := 1000, MaxRequestsPerWindow := 1, MaxRequestsInQueue := 1 } 2 1 0
        = some (sampleInstance 1 1 0 [])
    ∧ loopSteps (sampleInstance 1 1 0 []) sampleRunQueue
        = some (stepsOf (sampleInstance 1 1 0 []) sampleRunQueue)
    ∧ (stepsOf (sampleInstance 1 1 0 []) sampleRunQueue).length = 6
    ∧ (∀ s ∈ stepsOf (sampleInstance 1 1 0 []) sampleRunQueue,
        s.before.state.config.MaxRequestsInQueue ≤ s.after.state.config.MaxRequestsInQueue)
    ∧ (∀ s ∈ stepsOf (sampleInstance 1 1 0 []) sampleRunQueue,
        (s.after.state.throttled.length : Int) ≤ s.after.state.config.MaxRequestsInQueue) :=
  ⟨by decide, by decide, by decide, by decide, by decide,
    (C4_queue_within_bound "k"
      { WindowMillis := 1000, MaxRequestsPerWindow := 1, MaxRequestsInQueue := 1 } 2 1 0
      (sampleInstance 1 1 0 []) sampleRunQueue (stepsOf (sampleInstance 1 1 0 []) sampleRunQueue)
      (by decide) (by decide) (by decide) (by decide)).2⟩

/-! ## Approvals per window -/

/-- C5, refuted as stated: on an instance with limit 1 and an empty queue, the window
opened by a tick and made of a request, a release and a second request sends two `Approved`
replies, more than `MaxRequestsPerWindow + initialQueuedAtTick = 1 + 0`. -/
theorem C5_counterexample :
    ∃ ls sent,
      loop (sampleInstance 1 5 0 [])
        [Event.tick 1 2,
         Event.recv 3 (Request.PermissionRequest (sampleRequest "a" false)),
         Event.recv 4 (Request.ReleaseRequest "a" "k"),
         Event.recv 5 (Request.PermissionRequest (sampleRequest "b" false))]
        = some (ls, sent)
      ∧ approvedReplies sent = [sampleRequest "a" false, sampleRequest "b" false]
      ∧ ls.state.config.MaxRequestsPerWindow = 1
      ∧ ¬ ((approvedReplies sent).length : Int)
          ≤ (sampleInstance 1 5 0 []).state.config.MaxRequestsPerWindow
            + ((sampleInstance 1 5 0 []).state.throttled.length : Int) := by
  refine ⟨_, _, rfl, by decide, by decide, by decide⟩

/-- C5, amended: over a single window of a running instance (a tick with its flush, then
messages up to the next tick) during which `MaxRequestsPerWindow` stays at `M ≥ 0` and the
instance is not killed, the number of `Approved` replies is at most `M` plus the number of
ReleaseRequests handled in the window; hence also at most
`M + initialQueuedAtTick + releases`. -/
theorem C5_approvals_per_window (ls : loopState) (tFlush tCheck : Int) (msgs : List Event)
    (steps : List Step) (M : Int) (hrun : ls.returned = false) (hM : 0 ≤ M)
    (hmsgs : ∀ ev ∈ msgs, ev.isTick = false)
    (hsteps : loopSteps ls (Event.tick tFlush tCheck :: msgs) = some steps)
    (hkeep : ∀ s ∈ steps,
      s.after.state.config.MaxRequestsPerWindow = M ∧ s.after.returned = false) :
    ((approvedReplies (sentOf steps)).length : Int) ≤ M + (countReleases msgs : Int)
    ∧ ((approvedReplies (sentOf steps)).length : Int)
        ≤ M + (ls.state.throttled.length : Int) + (countReleases msgs : Int) := by
  suffices h : ((approvedReplies (sentOf steps)).length : Int) ≤ M + (countReleases msgs : Int) by
    refine ⟨h, ?_⟩
    have : (0 : Int) ≤ (ls.state.throttled.length : Int) := Int.natCast_nonneg _
    omega
  obtain ⟨ls1, sent1, steps1, h1, h2, rfl⟩ := loopSteps_cons_some ls _ msgs steps hsteps
  obtain ⟨hcfg1, hrun1⟩ := hkeep _ (List.mem_cons_self _ _)
  simp only at hcfg1 hrun1
  have hkeep1 : ∀ s ∈ steps1,
      s.after.state.config.MaxRequestsPerWindow = M ∧ s.after.returned = false :=
    fun s hs => hkeep s (List.mem_cons_of_mem _ hs)
  rcases loopStep_cases ls ls1 _ sent1 h1 with
    ⟨hr, _, _⟩ | ⟨_, tF, tC, b, he, rfl, hs⟩ | ⟨_, now, cfg, c, t, he, _, _⟩ | ⟨_, now, he, _, _⟩
    | ⟨_, now, orig, he, _, _⟩ | ⟨_, now, r, he, _, _⟩ | ⟨_, now, id, key, he, _, _⟩
    | ⟨_, now, key, ch, he, _, _⟩
  · rw [hrun] at hr; cases hr
  · cases he
    have hcfg : ls.state.config.MaxRequestsPerWindow = M := by
      simp only [tickState] at hcfg1
      split_ifs at hcfg1 <;> exact hcfg1
    have hsent : approvedReplies sent1
        = ls.state.throttled.take
            (min ls.state.config.MaxRequestsPerWindow (ls.state.throttled.length : Int)).toNat := by
      rcases hs with rfl | rfl
      · exact approvedReplies_tickReplies _
      · rw [approvedReplies_append, approvedReplies_tickReplies]
        simp [approvedReplies]
    have hA1 : (tickState ls.state tFlush).nApprovedThisWindow
        = ((min ls.state.config.MaxRequestsPerWindow
            (ls.state.throttled.length : Int)).toNat : Int) := by
      simp only [tickState]
      split_ifs <;> simp only <;> omega
    have hbound := window_messages_bound M hM msgs _ steps1 hrun1 hcfg1
      (by simp only [hA1]; omega) hmsgs h2 hkeep1
    simp only [hA1] at hbound
    simp only [sentOf, approvedReplies_append, List.length_append, hsent, List.length_take]
    push_cast
    omega
  all_goals cases he

/-- C5 (amended) on a concrete window: a flushed waiter, a release and two requests give
two approvals with limit 1 and one release. -/
theorem C5_approvals_per_window_witness :
    (sampleInstance 1 5 1 [sampleRequest "w" true]).returned = false
    ∧ (0 : Int) ≤ 1
    ∧ (∀ ev ∈ sampleWindowMessages, ev.isTick = false)
    ∧ loopSteps (sampleInstance 1 5 1 [sampleRequest "w" true])
          (Event.tick 1 2 :: sampleWindowMessages)
        = some (stepsOf (sampleInstance 1 5 1 [sampleRequest "w" true])
            (Event.tick 1 2 :: sampleWindowMessages))
    ∧ approvedReplies (sentOf (stepsOf (sampleInstance 1 5 1 [sampleRequest "w" true])
          (Event.tick 1 2 :: sampleWindowMessages)))
        = [sampleRequest "w" true, sampleRequest "a" false]
    ∧ ((approvedReplies (sentOf (stepsOf (sampleInstance 1 5 1 [sampleRequest "w" true])
          (Event.tick 1 2 :: sampleWindowMessages)))).length : Int)
        ≤ 1 + (countReleases sampleWindowMessages : Int) :=
  ⟨rfl, by decide, by decide, by decide, by decide,
    (C5_approvals_per_window (sampleInstance 1 5 1 [sampleRequest "w" true]) 1 2
      sampleWindowMessages
      (stepsOf (sampleInstance 1 5 1 [sampleRequest "w" true])
        (Event.tick 1 2 :: sampleWindowMessages)) 1
      rfl (by decide) (by decide) (by decide) (by decide)).1⟩

/-! ## FIFO order of the waiters -/

/-- C7: waiters are approved in enqueue order.  (a) A flush answers exactly the first
`k = min(nMax, len)` waiters of the queue, in queue order, and keeps the remaining suffix.
(b) Along every run, the waiters answered `Approved` by flushes, in reply order, followed by
the final wait queue, form a sublist of the initial queue followed by the requests appended
to the queue in enqueue order: the queue is always the enqueue-ordered list of the requests
neither flushed nor removed.  (c) If the enqueued requests are pairwise distinct, `a` was
enqueued before `b` and both are answered by a flush, then `a` is answered before `b`. -/
theorem C7_fifo_waiters :
    (∀ (st : internalState) (now nMax : Int),
      ∃ st1, flushQueued st now nMax
          = some (st1, (st.throttled.take (min nMax (st.throttled.length : Int)).toNat).map
              (fun r => Effect.PermissionResponse r ExtRespCode.Approved))
        ∧ st1.throttled = st.throttled.drop (min nMax (st.throttled.length : Int)).toNat)
    ∧ (∀ (ls : loopState) (evs : List Event) (steps : List Step),
        loopSteps ls evs = some steps →
        (flushLog steps ++ (endState ls steps).state.throttled).Sublist
          (ls.state.throttled ++ enqueueLog steps))
    ∧ (∀ (ls : loopState) (evs : List Event) (steps : List Step) (a b : PermissionRequest),
        loopSteps ls evs = some steps →
        (ls.state.throttled ++ enqueueLog steps).Nodup →
        [a, b].Sublist (ls.state.throttled ++ enqueueLog steps) →
        a ∈ flushLog steps → b ∈ flushLog steps →
        [a, b].Sublist (flushLog steps)) := by
  refine ⟨?_, fun ls evs steps h => fifo_run evs ls steps h, ?_⟩
  · intro st now nMax
    rw [flushQueued_eq]
    refine ⟨_, rfl, ?_⟩
    split_ifs with hpos
    · rfl
    · have hz : (min nMax (st.throttled.length : Int)).toNat = 0 := by omega
      rw [hz]; rfl
  · intro ls evs steps a b h hn hab ha hb
    have hsub : (flushLog steps).Sublist (ls.state.throttled ++ enqueueLog steps) :=
      List.Sublist.trans (List.sublist_append_left _ _) (fifo_run evs ls steps h)
    have hne : a ≠ b := by
      intro heq
      subst heq
      exact (List.nodup_cons.mp (hab.nodup hn)).1 (List.mem_singleton_self _)
    rcases pair_sublist_or a b (flushLog steps) ha hb hne with h1 | h1
    · exact h1
    · exact absurd (List.Sublist.trans h1 hsub) (fun h2 => pair_sublist_nodup a b _ hn hab h2)

/-- C7 on a concrete run: waiters `b`, `c`, `d` are enqueued in this order, `c` gives up,
and two ticks approve `b` and then `d`. -/
theorem C7_fifo_waiters_witness :
    loopSteps (sampleInstance 1 5 0 []) sampleRunWaiters
        = some (stepsOf (sampleInstance 1 5 0 []) sampleRunWaiters)
    ∧ enqueueLog (stepsOf (sampleInstance 1 5 0 []) sampleRunWaiters)
        = [sampleRequest "b" true, sampleRequest "c" true, sampleRequest "d" true]
    ∧ flushLog (stepsOf (sampleInstance 1 5 0 []) sampleRunWaiters)
        = [sampleRequest "b" true, sampleRequest "d" true]
    ∧ (flushLog (stepsOf (sampleInstance 1 5 0 []) sampleRunWaiters)
        ++ (endState (sampleInstance 1 5 0 [])
              (stepsOf (sampleInstance 1 5 0 []) sampleRunWaiters)).state.throttled).Sublist
        ((sampleInstance 1 5 0 []).state.throttled
          ++ enqueueLog (stepsOf (sampleInstance 1 5 0 []) sampleRunWaiters))
    ∧ [sampleRequest "b" true, sampleRequest "d" true].Sublist
        (flushLog (stepsOf (sampleInstance 1 5 0 []) sampleRunWaiters)) :=
  ⟨by decide, by decide, by decide,
    C7_fifo_waiters.2.1 (sampleInstance 1 5 0 []) sampleRunWaiters
      (stepsOf (sampleInstance 1 5 0 []) sampleRunWaiters) (by decide),
    C7_fifo_waiters.2.2 (sampleInstance 1 5 0 []) sampleRunWaiters
      (stepsOf (sampleInstance 1 5 0 []) sampleRunWaiters)
      (sampleRequest "b" true) (sampleRequest "d" true) (by decide) (by decide) (by decide)
      (by decide) (by decide)⟩

/-! ## Every request is answered once or removed -/

/-- C8: in a run of a freshly created instance that ends with Kill and whose
PermissionRequests carry pairwise distinct request ids, every PermissionRequest received is
either answered exactly once and never removed, or removed once from the wait queue and never
answered; replies carry `Approved` or `Denied` and go to received requests only; and a
removal is that of a queued request by a ClientGaveUp carrying its request id. -/
theorem C8_answered_once_or_removed (key : String) (config : Config) (parent mailbox : Nat)
    (t0 : Int) (ls0 : loopState) (evs : List Event) (tKill : Int) (steps : List Step)
    (hnew : New key config parent mailbox t0 = some ls0)
    (hnokill : ∀ ev ∈ evs, ev.isKill = false)
    (hids : ((permissionRequestsOf evs).map (fun r => r.ReqID)).Nodup)
    (hsteps : loopSteps ls0 (evs ++ [Event.recv tKill Request.Kill]) = some steps) :
    (∀ r ∈ permissionRequestsOf evs,
      ((repliedRequests (sentOf steps)).count r = 1 ∧ (removedLog steps).count r = 0)
      ∨ ((repliedRequests (sentOf steps)).count r = 0 ∧ (removedLog steps).count r = 1))
    ∧ (∀ (r : PermissionRequest) (code : ExtRespCode),
        Effect.PermissionResponse r code ∈ sentOf steps →
        (code = ExtRespCode.Approved ∨ code = ExtRespCode.Denied)
        ∧ r ∈ permissionRequestsOf evs)
    ∧ (∀ s ∈ steps, ∀ x ∈ s.removed,
        ∃ t orig, s.event = Event.recv t (Request.ClientGaveUpNotification orig)
          ∧ x.ReqID = orig.ReqID ∧ x ∈ s.before.state.throttled) := by
  unfold New at hnew
  split_ifs at hnew with hneg hdur
  simp only [Option.some.injEq] at hnew
  have e1 : ls0.returned = false := by rw [← hnew]
  have e2 : ls0.state.throttled = [] := by rw [← hnew]
  obtain ⟨hrec, hq⟩ := run_until_kill tKill evs ls0 steps e1 hnokill hsteps
  have hcons : ∀ x : PermissionRequest, (permissionRequestsOf evs).count x
      = (repliedRequests (sentOf steps)).count x + (removedLog steps).count x := by
    intro x
    have := conservation_run x _ ls0 steps hsteps
    rw [e2, hq, hrec] at this
    simpa using this
  refine ⟨?_, ?_, fun s _ x hx => removed_spec s x hx⟩
  · intro r hr
    have h1 : (permissionRequestsOf evs).count r = 1 :=
      List.count_eq_one_of_mem (List.Nodup.of_map _ hids) hr
    have := hcons r
    omega
  · intro r code hmem
    refine ⟨reply_codes_run _ ls0 steps hsteps r code hmem, ?_⟩
    have hpos : 0 < (repliedRequests (sentOf steps)).count r :=
      List.count_pos_iff.mpr (mem_repliedRequests _ r code hmem)
    have := hcons r
    exact List.count_pos_iff.mp (by omega)

/-- C8 on a concrete run: `a` approved, `b` denied, `c` queued and removed when its client
gives up, `d` queued and approved by the drain on Kill. -/
theorem C8_answered_once_or_removed_witness :
    New "k" { WindowMillis := 1000, MaxRequestsPerWindow := 1, MaxRequestsInQueue := 5 } 2 1 0
        = some (sampleInstance 1 5 0 [])
    ∧ (∀ ev ∈ sampleRunKilled, ev.isKill = false)
    ∧ ((permissionRequestsOf sampleRunKilled).map (fun r => r.ReqID)).Nodup
    ∧ loopSteps (sampleInstance 1 5 0 []) (sampleRunKilled ++ [Event.recv 6 Request.Kill])
        = some (stepsOf (sampleInstance 1 5 0 []) (sampleRunKilled ++ [Event.recv 6 Request.Kill]))
    ∧ repliedRequests (sentOf (stepsOf (sampleInstance 1 5 0 [])
          (sampleRunKilled ++ [Event.recv 6 Request.Kill])))
        = [sampleRequest "a" true, sampleRequest "b" false, sampleRequest "d" true]
    ∧ removedLog (stepsOf (sampleInstance 1 5 0 [])
          (sampleRunKilled ++ [Event.recv 6 Request.Kill])) = [sampleRequest "c" true]
    ∧ (∀ r ∈ permissionRequestsOf sampleRunKilled,
        ((repliedRequests (sentOf (stepsOf (sampleInstance 1 5 0 [])
            (sampleRunKilled ++ [Event.recv 6 Request.Kill])))).count r = 1
          ∧ (removedLog (stepsOf (sampleInstance 1 5 0 [])
            (sampleRunKilled ++ [Event.recv 6 Request.Kill]))).count r = 0)
        ∨ ((repliedRequests (sentOf (stepsOf (sampleInstance 1 5 0 [])
            (sampleRunKilled ++ [Event.recv 6 Request.Kill])))).count r = 0
          ∧ (removedLog (stepsOf (sampleInstance 1 5 0 [])
            (sampleRunKilled ++ [Event.recv 6 Request.Kill]))).count r = 1)) :=
  ⟨by decide, by decide, by decide, by decide, by decide, by decide,
    (C8_answered_once_or_removed "k"
      { WindowMillis := 1000, MaxRequestsPerWindow := 1, MaxRequestsInQueue := 5 } 2 1 0
      (sampleInstance 1 5 0 []) sampleRunKilled 6
      (stepsOf (sampleInstance 1 5 0 []) (sampleRunKilled ++ [Event.recv 6 Request.Kill]))
      (by decide) (by decide) (by decide) (by decide)).1⟩

/-! ## Overrides carried by a PermissionRequest -/

/-- C11: a running instance handling a PermissionRequest: a `MaxRequests` (resp.
`MaxRequestsInQueue`) equal to `NoChange` leaves `config.MaxRequestsPerWindow` (resp.
`config.MaxRequestsInQueue`) unchanged and any other value overwrites it; `WindowMillis` is
unchanged; the admission decision uses the limit as overwritten, so that with limit 1 and one
approval already granted a request carrying `MaxRequests = 2` is answered `Approved`. -/
theorem C11_request_overrides (ls : loopState) (now : Int) (r : PermissionRequest)
    (hrun : ls.returned = false) :
    ∃ ls1 sent, loopStep ls (Event.recv now (Request.PermissionRequest r)) = some (ls1, sent)
      ∧ (r.MaxRequests = NoChange →
          ls1.state.config.MaxRequestsPerWindow = ls.state.config.MaxRequestsPerWindow)
      ∧ (r.MaxRequests ≠ NoChange → ls1.state.config.MaxRequestsPerWindow = r.MaxRequests)
      ∧ (r.MaxRequestsInQueue = NoChange →
          ls1.state.config.MaxRequestsInQueue = ls.state.config.MaxRequestsInQueue)
      ∧ (r.MaxRequestsInQueue ≠ NoChange →
          ls1.state.config.MaxRequestsInQueue = r.MaxRequestsInQueue)
      ∧ ls1.state.config.WindowMillis = ls.state.config.WindowMillis
      ∧ (ls.state.nApprovedThisWindow < ls1.state.config.MaxRequestsPerWindow →
          sent = [Effect.PermissionResponse r ExtRespCode.Approved])
      ∧ (ls.state.config.MaxRequestsPerWindow = 1 → ls.state.nApprovedThisWindow = 1 →
          r.MaxRequests = 2 →
          sent = [Effect.PermissionResponse r ExtRespCode.Approved]
          ∧ ls1.state.nApprovedThisWindow = 2
          ∧ ls1.state.config.MaxRequestsPerWindow = 2) := by
  obtain ⟨hc, hcase⟩ := handlePermissionRequest_cases ls.state now r
  have hMax : r.MaxRequests ≠ NoChange →
      (overrideConfig ls.state.config r).MaxRequestsPerWindow = r.MaxRequests := by
    intro h; simp [overrideConfig, h]
  have hMaxN : r.MaxRequests = NoChange →
      (overrideConfig ls.state.config r).MaxRequestsPerWindow
        = ls.state.config.MaxRequestsPerWindow := by
    intro h; simp [overrideConfig, h]
  have hQ : r.MaxRequestsInQueue ≠ NoChange →
      (overrideConfig ls.state.config r).MaxRequestsInQueue = r.MaxRequestsInQueue := by
    intro h; simp [overrideConfig, h]
  have hQN : r.MaxRequestsInQueue = NoChange →
      (overrideConfig ls.state.config r).MaxRequestsInQueue
        = ls.state.config.MaxRequestsInQueue := by
    intro h; simp [overrideConfig, h]
  have happ : ls.state.nApprovedThisWindow
        < (overrideConfig ls.state.config r).MaxRequestsPerWindow →
      (handlePermissionRequest ls.state now r).2
          = [Effect.PermissionResponse r ExtRespCode.Approved]
        ∧ (handlePermissionRequest ls.state now r).1.nApprovedThisWindow
          = ls.state.nApprovedThisWindow + 1 := by
    intro hlt
    rcases hcase with ⟨_, hs, hn, _⟩ | ⟨hge, _, _, _, _⟩ | ⟨hge, _, _, _⟩
    · exact ⟨hs, hn⟩
    · omega
    · omega
  refine ⟨(withState ls (handlePermissionRequest ls.state now r)).1,
    (withState ls (handlePermissionRequest ls.state now r)).2,
    loopStep_permission ls now r hrun, ?_, ?_, ?_, ?_, ?_, ?_, ?_⟩
  · intro h; simp only [withState]; rw [hc]; exact hMaxN h
  · intro h; simp only [withState]; rw [hc]; exact hMax h
  · intro h; simp only [withState]; rw [hc]; exact hQN h
  · intro h; simp only [withState]; rw [hc]; exact hQ h
  · simp only [withState]; rw [hc]; rfl
  · intro h
    simp only [withState] at h ⊢
    rw [hc] at h
    exact (happ h).1
  · intro h1 h2 h3
    have hne : r.MaxRequests ≠ NoChange := by rw [h3]; decide
    have hlt : ls.state.nApprovedThisWindow
        < (overrideConfig ls.state.config r).MaxRequestsPerWindow := by
      rw [hMax hne, h2, h3]; decide
    simp only [withState]
    refine ⟨(happ hlt).1, ?_, ?_⟩
    · rw [(happ hlt).2, h2]; rfl
    · rw [hc, hMax hne, h3]

/-- C11 at a concrete state: limit 1, one approval granted, a request with `MaxRequests = 2`. -/
theorem C11_request_overrides_witness :
    (sampleInstance 1 5 1 []).returned = false
    ∧ ∃ ls1 sent,
        loopStep (sampleInstance 1 5 1 [])
          (Event.recv 3 (Request.PermissionRequest (sampleOverride "b" false 2 NoChange)))
          = some (ls1, sent)
        ∧ sent = [Effect.PermissionResponse (sampleOverride "b" false 2 NoChange)
                    ExtRespCode.Approved]
        ∧ ls1.state.nApprovedThisWindow = 2
        ∧ ls1.state.config.MaxRequestsPerWindow = 2
        ∧ ls1.state.config.MaxRequestsInQueue = 5
        ∧ ls1.state.config.WindowMillis = 1000 := by
  obtain ⟨ls1, sent, h, _, _, hq, _, hw, _, h2⟩ := C11_request_overrides
    (sampleInstance 1 5 1 []) 3 (sampleOverride "b" false 2 NoChange) rfl
  obtain ⟨hs, hn, hm⟩ := h2 rfl rfl rfl
  exact ⟨rfl, ls1, sent, h, hs, hn, hm, hq rfl, hw⟩

/-! ## Configuration updates -/

theorem wrapInt64_of_range (x : Int) (h1 : -(2 : Int) ^ 63 ≤ x) (h2 : x < (2 : Int) ^ 63) :
    wrapInt64 x = x := by
  unfold wrapInt64
  rw [Int.emod_eq_of_lt (by omega) (by omega)]
  omega

theorem durationOfMillis_of_range (w : Int) (h1 : 1 ≤ w) (h2 : w ≤ 9223372036854) :
    durationOfMillis w = w * 1000000 ∧ 0 < durationOfMillis w := by
  have h : durationOfMillis w = w * 1000000 := by
    unfold durationOfMillis
    exact wrapInt64_of_range _ (by omega) (by omega)
  exact ⟨h, by rw [h]; omega⟩

theorem adopt_eq (v c : Int) :
    (if v ≠ 0 ∧ v ≠ NoChange ∧ c ≠ v then v else c)
      = (if v ≠ 0 ∧ v ≠ NoChange then v else c) := by
  by_cases h1 : v ≠ 0 ∧ v ≠ NoChange
  · by_cases h2 : c = v
    · rw [if_neg (fun h => h.2.2 h2), if_pos h1, h2]
    · rw [if_pos ⟨h1.1, h1.2, h2⟩, if_pos h1]
  · rw [if_neg (fun h => h1 ⟨h.1, h.2.1⟩), if_neg h1]

/-- The configuration update in closed form, when `time.NewTicker` does not panic. -/
theorem loopConfigUpdate_eq (ls : loopState) (r : Config)
    (h : (r.WindowMillis ≠ 0 ∧ r.WindowMillis ≠ NoChange
        ∧ ls.state.config.WindowMillis ≠ r.WindowMillis) → 0 < durationOfMillis r.WindowMillis) :
    loopConfigUpdate ls r =
      some ({ ls with
                state := { ls.state with config := updatedConfig ls.state.config r }
                ticker :=
                  if r.WindowMillis ≠ 0 ∧ r.WindowMillis ≠ NoChange
                      ∧ ls.state.config.WindowMillis ≠ r.WindowMillis
                  then durationOfMillis r.WindowMillis else ls.ticker }, []) := by
  obtain ⟨⟨key, ⟨cw, cm, cq⟩, na, nd, tl, th, mb, pa⟩, tk, ex, ret⟩ := ls
  obtain ⟨rw, rm, rq⟩ := r
  simp only at h
  unfold loopConfigUpdate updatedConfig
  simp only [adopt_eq]
  rw [← adopt_eq rw cw, ← adopt_eq rm cm, ← adopt_eq rq cq]
  by_cases pw : rw ≠ 0 ∧ rw ≠ NoChange ∧ cw ≠ rw
  · have hnot : ¬ durationOfMillis rw ≤ 0 := by have := h pw; omega
    simp only [pw, hnot, and_self, and_false, decide_True, if_true, if_false, ne_eq,
      not_false_eq_true]
    by_cases pq : rq ≠ 0 ∧ rq ≠ NoChange ∧ cq ≠ rq
    · simp only [pq, and_self, if_true, ne_eq, not_false_eq_true]
      by_cases pm : rm ≠ 0 ∧ rm ≠ NoChange ∧ cm ≠ rm
      · simp only [pm, and_self, if_true, ne_eq, not_false_eq_true]
      · simp only [ne_eq] at pm
        simp only [pm, if_false]
    · simp only [ne_eq] at pq
      simp only [pq, if_false]
      by_cases pm : rm ≠ 0 ∧ rm ≠ NoChange ∧ cm ≠ rm
      · simp only [pm, and_self, if_true, ne_eq, not_false_eq_true]
      · simp only [ne_eq] at pm
        simp only [pm, if_false]
  · simp only [ne_eq] at pw
    simp only [pw, decide_False, Bool.false_eq_true, false_and, if_false, ne_eq]
    by_cases pq : rq ≠ 0 ∧ rq ≠ NoChange ∧ cq ≠ rq
    · simp only [pq, and_self, if_true, ne_eq, not_false_eq_true]
      by_cases pm : rm ≠ 0 ∧ rm ≠ NoChange ∧ cm ≠ rm
      · simp only [pm, and_self, if_true, ne_eq, not_false_eq_true]
      · simp only [ne_eq] at pm
        simp only [pm, if_false]
    · simp only [ne_eq] at pq
      simp only [pq, if_false]
      by_cases pm : rm ≠ 0 ∧ rm ≠ NoChange ∧ cm ≠ rm
      · simp only [pm, and_self, if_true, ne_eq, not_false_eq_true]
      · simp only [ne_eq] at pm
        simp only [pm, if_false]

theorem loopStep_configUpdate (ls : loopState) (now : Int) (cfg : Config)
    (h : ls.returned = false) :
    loopStep ls (Event.recv now (Request.ConfigUpdateNotification cfg))
      = loopConfigUpdate ls cfg := by
  unfold loopStep
  rw [if_neg (by rw [h]; exact Bool.false_ne_true)]

/-- C12, refuted as stated: a ConfigUpdate whose `WindowMillis` is `-5` (neither `0` nor
`NoChange`) does not set the field: `time.NewTicker` panics on the non-positive period. -/
theorem C12_counterexample :
    (sampleInstance 1 5 0 []).returned = false
    ∧ loopStep (sampleInstance 1 5 0 [])
        (Event.recv 1 (Request.ConfigUpdateNotification
          { WindowMillis := -5, MaxRequestsPerWindow := 0, MaxRequestsInQueue := 0 })) = none := by
  decide

/-- C12, amended: a running instance handling a ConfigUpdate whose `WindowMillis` is `0`,
`NoChange`, the current value, or a value from 1 to 9223372036854 (a positive ticker period):
each of the three fields is unchanged if the update's value is `0` or `NoChange` and becomes
the update's value otherwise; the ticker is recreated with the new period if the window
changes and kept otherwise; the counters, the wait queue, `timeLastUsed` and the expiry latch
are unchanged and nothing is sent. -/
theorem C12_config_update (ls : loopState) (now : Int) (cfg : Config)
    (hrun : ls.returned = false)
    (hwin : cfg.WindowMillis = 0 ∨ cfg.WindowMillis = NoChange
      ∨ cfg.WindowMillis = ls.state.config.WindowMillis
      ∨ (1 ≤ cfg.WindowMillis ∧ cfg.WindowMillis ≤ 9223372036854)) :
    ∃ ls1, loopStep ls (Event.recv now (Request.ConfigUpdateNotification cfg)) = some (ls1, [])
      ∧ ((cfg.WindowMillis = 0 ∨ cfg.WindowMillis = NoChange) →
          ls1.state.config.WindowMillis = ls.state.config.WindowMillis)
      ∧ (cfg.WindowMillis ≠ 0 → cfg.WindowMillis ≠ NoChange →
          ls1.state.config.WindowMillis = cfg.WindowMillis)
      ∧ ((cfg.MaxRequestsPerWindow = 0 ∨ cfg.MaxRequestsPerWindow = NoChange) →
          ls1.state.config.MaxRequestsPerWindow = ls.state.config.MaxRequestsPerWindow)
      ∧ (cfg.MaxRequestsPerWindow ≠ 0 → cfg.MaxRequestsPerWindow ≠ NoChange →
          ls1.state.config.MaxRequestsPerWindow = cfg.MaxRequestsPerWindow)
      ∧ ((cfg.MaxRequestsInQueue = 0 ∨ cfg.MaxRequestsInQueue = NoChange) →
          ls1.state.config.MaxRequestsInQueue = ls.state.config.MaxRequestsInQueue)
      ∧ (cfg.MaxRequestsInQueue ≠ 0 → cfg.MaxRequestsInQueue ≠ NoChange →
          ls1.state.config.MaxRequestsInQueue = cfg.MaxRequestsInQueue)
      ∧ ls1.state.nApprovedThisWindow = ls.state.nApprovedThisWindow
      ∧ ls1.state.nDeniedThisWindow = ls.state.nDeniedThisWindow
      ∧ ls1.state.throttled = ls.state.throttled
      ∧ ls1.state.timeLastUsed = ls.state.timeLastUsed
      ∧ ls1.expiryNotificationSent = ls.expiryNotificationSent
      ∧ ls1.returned = false
      ∧ ((cfg.WindowMillis ≠ 0 ∧ cfg.WindowMillis ≠ NoChange
            ∧ ls.state.config.WindowMillis ≠ cfg.WindowMillis) →
          ls1.ticker = cfg.WindowMillis * 1000000)
      ∧ (¬ (cfg.WindowMillis ≠ 0 ∧ cfg.WindowMillis ≠ NoChange
            ∧ ls.state.config.WindowMillis ≠ cfg.WindowMillis) →
          ls1.ticker = ls.ticker) := by
  have hdur : (cfg.WindowMillis ≠ 0 ∧ cfg.WindowMillis ≠ NoChange
      ∧ ls.state.config.WindowMillis ≠ cfg.WindowMillis) →
      durationOfMillis cfg.WindowMillis = cfg.WindowMillis * 1000000
        ∧ 0 < durationOfMillis cfg.WindowMillis := by
    intro hc
    rcases hwin with h | h | h | h
    · exact absurd h hc.1
    · exact absurd h hc.2.1
    · exact absurd h.symm hc.2.2
    · exact durationOfMillis_of_range _ h.1 h.2
  have heq := loopConfigUpdate_eq ls cfg (fun hc => (hdur hc).2)
  rw [← loopStep_configUpdate ls now cfg hrun] at heq
  refine ⟨_, heq, ?_, ?_, ?_, ?_, ?_, ?_, rfl, rfl, rfl, rfl, rfl, hrun, ?_, ?_⟩
  · intro h
    simp only [updatedConfig]
    rw [if_neg (by rcases h with h | h <;> simp [h])]
  · intro h1 h2
    simp only [updatedConfig]
    rw [if_pos ⟨h1, h2⟩]
  · intro h
    simp only [updatedConfig]
    rw [if_neg (by rcases h with h | h <;> simp [h])]
  · intro h1 h2
    simp only [updatedConfig]
    rw [if_pos ⟨h1, h2⟩]
  · intro h
    simp only [updatedConfig]
    rw [if_neg (by rcases h with h | h <;> simp [h])]
  · intro h1 h2
    simp only [updatedConfig]
    rw [if_pos ⟨h1, h2⟩]
  · intro hc
    simp only
    rw [if_pos hc, (hdur hc).1]
  · intro hc
    simp only
    rw [if_neg hc]

/-- C12 (amended) at a concrete state: the window and the limit are changed, the queue bound
is left alone, one waiter stays queued. -/
theorem C12_config_update_witness :
    (sampleInstance 1 5 1 [sampleRequest "w" true]).returned = false
    ∧ ∃ ls1,
        loopStep (sampleInstance 1 5 1 [sampleRequest "w" true])
          (Event.recv 3 (Request.ConfigUpdateNotification
            { WindowMillis := 2000, MaxRequestsPerWindow := 7, MaxRequestsInQueue := 0 }))
          = some (ls1, [])
        ∧ ls1.state.config
            = { WindowMillis := 2000, MaxRequestsPerWindow := 7, MaxRequestsInQueue := 5 }
        ∧ ls1.state.nApprovedThisWindow = 1
        ∧ ls1.state.throttled = [sampleRequest "w" true]
        ∧ ls1.ticker = 2000 * 1000000 := by
  obtain ⟨ls1, h, _, hw, _, hm, hq, _, hn, _, ht, _, _, _, hk, _⟩ := C12_config_update
    (sampleInstance 1 5 1 [sampleRequest "w" true]) 3
    { WindowMillis := 2000, MaxRequestsPerWindow := 7, MaxRequestsInQueue := 0 } rfl
    (Or.inr (Or.inr (Or.inr (by decide))))
  refine ⟨rfl, ls1, h, ?_, hn, ht, hk (by decide)⟩
  have e1 := hw (by decide) (by decide)
  have e2 := hm (by decide) (by decide)
  have e3 := hq (Or.inl rfl)
  cases hc : ls1.state.config with
  | mk w m q =>
    rw [hc] at e1 e2 e3
    simp only at e1 e2 e3
    rw [e1, e2, e3]
    rfl

/-! ## ClientGaveUp and Kill -/

/-- C15: a running instance handling a ClientGaveUp for request id `x`.  If the queue is
`l1 ++ a :: l2` with `a` the first queued request whose `ReqID` is `x`, the queue becomes
`l1 ++ l2`; if no queued request has `ReqID = x`, the queue is unchanged.  In both cases
nothing is sent and the counters, the configuration and `timeLastUsed` are unchanged. -/
theorem C15_client_gave_up (ls : loopState) (now : Int) (orig : PermissionRequest)
    (hrun : ls.returned = false) :
    ∃ ls1, loopStep ls (Event.recv now (Request.ClientGaveUpNotification orig)) = some (ls1, [])
      ∧ ((∃ b ∈ ls.state.throttled, b.ReqID = orig.ReqID) →
          ∃ (l1 l2 : List PermissionRequest) (a : PermissionRequest),
            ls.state.throttled = l1 ++ a :: l2 ∧ a.ReqID = orig.ReqID
            ∧ (∀ b ∈ l1, b.ReqID ≠ orig.ReqID) ∧ ls1.state.throttled = l1 ++ l2)
      ∧ ((∀ b ∈ ls.state.throttled, b.ReqID ≠ orig.ReqID) →
          ls1.state.throttled = ls.state.throttled)
      ∧ ls1.state.nApprovedThisWindow = ls.state.nApprovedThisWindow
      ∧ ls1.state.nDeniedThisWindow = ls.state.nDeniedThisWindow
      ∧ ls1.state.config = ls.state.config
      ∧ ls1.state.timeLastUsed = ls.state.timeLastUsed
      ∧ ls1.returned = false := by
  have hstep : loopStep ls (Event.recv now (Request.ClientGaveUpNotification orig))
      = loopClientGaveUp ls orig := by
    unfold loopStep
    rw [if_neg (by rw [hrun]; exact Bool.false_ne_true)]
  rw [hstep, loopClientGaveUp_eq]
  refine ⟨_, rfl, ?_, ?_, rfl, rfl, rfl, rfl, hrun⟩
  · rintro ⟨b, hb, hbx⟩
    obtain ⟨a, l1, l2, hl1, ha, hq, he⟩ := List.exists_of_eraseP
      (p := fun item : PermissionRequest => item.ReqID == orig.ReqID) hb (by simpa using hbx)
    exact ⟨l1, l2, a, hq, by simpa using ha, fun c hc => by simpa using hl1 c hc, he⟩
  · intro hall
    simp only
    exact List.eraseP_of_forall_not (by
      intro b hb
      simpa using hall b hb)

/-- C15 at a concrete state: waiters `b`, `c`, `d`; the client of `c` gives up. -/
theorem C15_client_gave_up_witness :
    (sampleInstance 1 5 1
      [sampleRequest "b" true, sampleRequest "c" true, sampleRequest "d" true]).returned = false
    ∧ loopStep (sampleInstance 1 5 1
          [sampleRequest "b" true, sampleRequest "c" true, sampleRequest "d" true])
        (Event.recv 4 (Request.ClientGaveUpNotification (sampleRequest "c" true)))
        = some (sampleInstance 1 5 1 [sampleRequest "b" true, sampleRequest "d" true], [])
    ∧ ∃ ls1 l1 l2 a,
        loopStep (sampleInstance 1 5 1
            [sampleRequest "b" true, sampleRequest "c" true, sampleRequest "d" true])
          (Event.recv 4 (Request.ClientGaveUpNotification (sampleRequest "c" true)))
          = some (ls1, [])
        ∧ [sampleRequest "b" true, sampleRequest "c" true, sampleRequest "d" true]
            = l1 ++ a :: l2
        ∧ a.ReqID = "c"
        ∧ ls1.state.throttled = l1 ++ l2
        ∧ ls1.state.nApprovedThisWindow = 1 := by
  obtain ⟨ls1, h, hfound, _, hn, _⟩ := C15_client_gave_up
    (sampleInstance 1 5 1
      [sampleRequest "b" true, sampleRequest "c" true, sampleRequest "d" true])
    4 (sampleRequest "c" true) rfl
  obtain ⟨l1, l2, a, hq, ha, _, he⟩ := hfound ⟨sampleRequest "c" true, by decide, rfl⟩
  exact ⟨rfl, by decide, ls1, l1, l2, a, h, hq, ha, he, hn⟩

/-- C16: a running instance handling Kill, whatever its limit: every queued request is
answered `Approved` in queue order, then one InstanceDied notification with the key of the
instance is sent to the parent; the queue is empty afterwards and the loop has returned, so
that every later tick or message is left unhandled (nothing changes, nothing is sent). -/
theorem C16_kill (ls : loopState) (now : Int) (hrun : ls.returned = false) :
    ∃ ls1, loopStep ls (Event.recv now Request.Kill)
        = some (ls1, ls.state.throttled.map
              (fun r => Effect.PermissionResponse r ExtRespCode.Approved)
            ++ [Effect.InstanceDiedNotification ls.state.key])
      ∧ ls1.state.throttled = []
      ∧ ls1.state.key = ls.state.key
      ∧ ls1.returned = true
      ∧ (∀ ev : Event, loopStep ls1 ev = some (ls1, []))
      ∧ (∀ evs : List Event, loop ls1 evs = some (ls1, [])) := by
  have hstep : loopStep ls (Event.recv now Request.Kill) = loopKill ls now := by
    unfold loopStep
    rw [if_neg (by rw [hrun]; exact Bool.false_ne_true)]
  rw [hstep, loopKill_eq]
  have hafter : ∀ (l : loopState), l.returned = true → ∀ ev : Event,
      loopStep l ev = some (l, []) := by
    intro l hl ev
    unfold loopStep
    rw [if_pos hl]
  refine ⟨_, rfl, ?_, ?_, rfl, hafter _ rfl, ?_⟩
  · simp only
    split_ifs with hnil
    · exact hnil
    · rfl
  · simp only
    split_ifs <;> rfl
  · intro evs
    induction evs with
    | nil => rfl
    | cons ev rest ih =>
      rw [loop_cons, hafter _ rfl ev]
      simp only [ih, List.append_nil]

/-- C16 at a concrete state: limit 1 used up, two waiters. -/
theorem C16_kill_witness :
    (sampleInstance 1 5 1 [sampleRequest "b" true, sampleRequest "c" true]).returned = false
    ∧ ∃ ls1,
        loopStep (sampleInstance 1 5 1 [sampleRequest "b" true, sampleRequest "c" true])
          (Event.recv 9 Request.Kill)
          = some (ls1,
              [Effect.PermissionResponse (sampleRequest "b" true) ExtRespCode.Approved,
               Effect.PermissionResponse (sampleRequest "c" true) ExtRespCode.Approved,
               Effect.InstanceDiedNotification "k"])
        ∧ ls1.state.throttled = []
        ∧ ls1.returned = true
        ∧ loopStep ls1 (Event.tick 10 11) = some (ls1, []) := by
  obtain ⟨ls1, h, hq, _, hr, hev, _⟩ := C16_kill
    (sampleInstance 1 5 1 [sampleRequest "b" true, sampleRequest "c" true]) 9 rfl
  exact ⟨rfl, ls1, h, hq, hr, hev _⟩

/-! ## The expiry notification -/

theorem expiredCount_append (l1 l2 : List Effect) :
    expiredCount (l1 ++ l2) = expiredCount l1 + expiredCount l2 := by
  simp [expiredCount, List.countP_append]

theorem expiredCount_map_approved (l : List PermissionRequest) :
    expiredCount (l.map (fun r => Effect.PermissionResponse r ExtRespCode.Approved)) = 0 := by
  unfold expiredCount
  rw [List.countP_eq_zero]
  intro a ha
  rw [List.mem_map] at ha
  obtain ⟨r, _, rfl⟩ := ha
  simp

/-- The tick in full: what is sent and the latch, by the expiry condition. -/
theorem loopStep_tick_expiry (ls : loopState) (tFlush tCheck : Int) (hrun : ls.returned = false) :
    ((tCheck - (tickState ls.state tFlush).timeLastUsed
          > wrapInt64 (wrapInt64 (3 * ls.state.config.WindowMillis) * 1000000)
        ∧ ls.expiryNotificationSent = false) →
      loopStep ls (Event.tick tFlush tCheck)
        = some ({ ls with state := tickState ls.state tFlush, expiryNotificationSent := true },
            tickReplies ls.state
              ++ [Effect.InstanceExpiredNotification ls.state.key ls.state.mailbox]))
    ∧ (¬ (tCheck - (tickState ls.state tFlush).timeLastUsed
          > wrapInt64 (wrapInt64 (3 * ls.state.config.WindowMillis) * 1000000)
        ∧ ls.expiryNotificationSent = false) →
      loopStep ls (Event.tick tFlush tCheck)
        = some ({ ls with state := tickState ls.state tFlush }, tickReplies ls.state)) := by
  have hstep : loopStep ls (Event.tick tFlush tCheck) = loopTick ls tFlush tCheck := by
    unfold loopStep
    rw [if_neg (by rw [hrun]; exact Bool.false_ne_true)]
  rw [hstep, loopTick_eq]
  constructor
  · intro hc; rw [if_pos hc]
  · intro hc; rw [if_neg hc]

/-- An iteration sends at most one expiry notification, and only with the latch open; the
latch never reopens. -/
theorem expiry_step (ls ls1 : loopState) (ev : Event) (sent : List Effect)
    (h : loopStep ls ev = some (ls1, sent)) :
    expiredCount sent + (if ls1.expiryNotificationSent = true then 0 else 1)
      ≤ (if ls.expiryNotificationSent = true then 0 else 1) := by
  rcases loopStep_cases ls ls1 ev sent h with
    ⟨hr, rfl, rfl⟩ | ⟨hr, tF, tC, b, rfl, _, _⟩ | ⟨hr, now, cfg, c, t, rfl, rfl, rfl⟩
    | ⟨hr, now, rfl, rfl, rfl⟩ | ⟨hr, now, orig, rfl, rfl, rfl⟩ | ⟨hr, now, r, rfl, rfl, rfl⟩
    | ⟨hr, now, id, key, rfl, rfl, rfl⟩ | ⟨hr, now, key, ch, rfl, rfl, rfl⟩
  · simp [expiredCount]
  · obtain ⟨h1, h2⟩ := loopStep_tick_expiry ls tF tC hr
    by_cases hc : tC - (tickState ls.state tF).timeLastUsed
          > wrapInt64 (wrapInt64 (3 * ls.state.config.WindowMillis) * 1000000)
        ∧ ls.expiryNotificationSent = false
    · rw [h1 hc] at h
      simp only [Option.some.injEq, Prod.mk.injEq] at h
      rw [← h.1, ← h.2, expiredCount_append]
      simp only [tickReplies, expiredCount_map_approved, hc.2]
      simp [expiredCount]
    · rw [h2 hc] at h
      simp only [Option.some.injEq, Prod.mk.injEq] at h
      rw [← h.1, ← h.2]
      simp only [tickReplies, expiredCount_map_approved, zero_add]
      exact le_refl _
  · simp [expiredCount]
  · rw [expiredCount_append, expiredCount_map_approved]
    simp [expiredCount]
  · simp [expiredCount]
  · obtain ⟨_, hcase⟩ := handlePermissionRequest_cases ls.state now r
    rcases hcase with ⟨_, hs, _, _⟩ | ⟨_, _, hs, _, _⟩ | ⟨_, hs, _, _⟩ <;>
      rw [hs] <;> simp [expiredCount]
  · simp [expiredCount]
  · simp [expiredCount, handleDebugSnapshotRequest]

theorem expiry_run : ∀ (evs : List Event) (ls : loopState) (steps : List Step),
    loopSteps ls evs = some steps →
    expiredCount (sentOf steps)
        + (if (endState ls steps).expiryNotificationSent = true then 0 else 1)
      ≤ (if ls.expiryNotificationSent = true then 0 else 1) := by
  intro evs
  induction evs with
  | nil =>
    intro ls steps h
    simp only [loopSteps, Option.some.injEq] at h
    subst h
    simp [sentOf, endState, expiredCount]
  | cons ev rest ih =>
    intro ls steps h
    obtain ⟨ls1, sent1, steps1, h1, h2, rfl⟩ := loopSteps_cons_some ls ev rest steps h
    have hstep := expiry_step ls ls1 ev sent1 h1
    have hrest := ih ls1 steps1 h2
    simp only [sentOf, endState, expiredCount_append]
    omega

/-- C17: (1) at a tick of a running instance, after the counter reset and the flush, the
instance sends `InstanceExpired` with its key and its own mailbox, once, and closes the
latch if `now - timeLastUsed` is strictly greater than three windows and the latch is open;
otherwise it sends no expiry notification and leaves the latch as it is.  The threshold is
the duration `3 * WindowMillis` milliseconds as the code computes it, which is
`3 * WindowMillis * 10^6` nanoseconds for every window up to 3074457345618 ms.  (2) Over
every run at most one expiry notification is sent, and none once the latch is closed,
whatever happens in between. -/
theorem C17_expiry_once :
    (∀ (ls : loopState) (tFlush tCheck : Int), ls.returned = false →
      ∃ ls1 sent, loopStep ls (Event.tick tFlush tCheck) = some (ls1, sent)
        ∧ ls1.state = tickState ls.state tFlush
        ∧ ((tCheck - ls1.state.timeLastUsed
                > wrapInt64 (wrapInt64 (3 * ls.state.config.WindowMillis) * 1000000)
              ∧ ls.expiryNotificationSent = false) →
            sent = tickReplies ls.state
                ++ [Effect.InstanceExpiredNotification ls.state.key ls.state.mailbox]
            ∧ expiredCount sent = 1 ∧ ls1.expiryNotificationSent = true)
        ∧ (¬ (tCheck - ls1.state.timeLastUsed
                > wrapInt64 (wrapInt64 (3 * ls.state.config.WindowMillis) * 1000000)
              ∧ ls.expiryNotificationSent = false) →
            sent = tickReplies ls.state
            ∧ expiredCount sent = 0
            ∧ ls1.expiryNotificationSent = ls.expiryNotificationSent))
    ∧ (∀ w : Int, -3074457345618 ≤ w → w ≤ 3074457345618 →
        wrapInt64 (wrapInt64 (3 * w) * 1000000) = 3 * w * 1000000)
    ∧ (∀ (ls : loopState) (evs : List Event) (steps : List Step),
        loopSteps ls evs = some steps →
        expiredCount (sentOf steps) ≤ 1
        ∧ (ls.expiryNotificationSent = true → expiredCount (sentOf steps) = 0)
        ∧ (ls.expiryNotificationSent = true →
            (endState ls steps).expiryNotificationSent = true)) := by
  refine ⟨?_, ?_, ?_⟩
  · intro ls tFlush tCheck hrun
    obtain ⟨h1, h2⟩ := loopStep_tick_expiry ls tFlush tCheck hrun
    by_cases hc : tCheck - (tickState ls.state tFlush).timeLastUsed
          > wrapInt64 (wrapInt64 (3 * ls.state.config.WindowMillis) * 1000000)
        ∧ ls.expiryNotificationSent = false
    · refine ⟨_, _, h1 hc, rfl, fun _ => ⟨rfl, ?_, rfl⟩, fun hn => absurd hc hn⟩
      rw [expiredCount_append]
      simp only [tickReplies, expiredCount_map_approved]
      simp [expiredCount]
    · refine ⟨_, _, h2 hc, rfl, fun hp => absurd hp hc, fun _ => ⟨rfl, ?_, rfl⟩⟩
      simp only [tickReplies, expiredCount_map_approved]
  · intro w h1 h2
    rw [wrapInt64_of_range (3 * w) (by omega) (by omega)]
    rw [wrapInt64_of_range (3 * w * 1000000) (by omega) (by omega)]
  · intro ls evs steps h
    have hrun := expiry_run evs ls steps h
    refine ⟨?_, ?_, ?_⟩
    · split_ifs at hrun <;> omega
    · intro hl
      rw [if_pos hl] at hrun
      omega
    · intro hl
      rw [if_pos hl] at hrun
      by_contra hne
      rw [if_neg hne] at hrun
      omega

/-- C17 on a concrete run: an instance with a window of 10 ms, idle since time 0; the tick
at 31 ms sends the expiry notification, the tick at 20 ms before it and the tick at 100 ms
after it do not. -/
theorem C17_expiry_once_witness :
    loopSteps (sampleWindowInstance 10 false)
        [Event.tick 20000000 20000000, Event.tick 31000000 31000000,
         Event.tick 100000000 100000000]
      = some (stepsOf (sampleWindowInstance 10 false)
          [Event.tick 20000000 20000000, Event.tick 31000000 31000000,
           Event.tick 100000000 100000000])
    ∧ sentOf (stepsOf (sampleWindowInstance 10 false)
          [Event.tick 20000000 20000000, Event.tick 31000000 31000000,
           Event.tick 100000000 100000000])
        = [Effect.InstanceExpiredNotification "k" 1]
    ∧ expiredCount (sentOf (stepsOf (sampleWindowInstance 10 false)
          [Event.tick 20000000 20000000, Event.tick 31000000 31000000,
           Event.tick 100000000 100000000])) ≤ 1
    ∧ loopStep (sampleWindowInstance 10 false) (Event.tick 30000000 30000000)
        = some (sampleWindowInstance 10 false, []) :=
  ⟨by decide, by decide,
    (C17_expiry_once.2.2 (sampleWindowInstance 10 false)
      [Event.tick 20000000 20000000, Event.tick 31000000 31000000,
       Event.tick 100000000 100000000]
      (stepsOf (sampleWindowInstance 10 false)
        [Event.tick 20000000 20000000, Event.tick 31000000 31000000,
         Event.tick 100000000 100000000]) (by decide)).1,
    by decide⟩

/-! ## The effective configuration of a key -/

theorem combineConfigs_some (acc : Config) (c : CfgFromFileKey) :
    combineConfigs acc (some c) = overlayRule acc c := by
  obtain ⟨w, m, q⟩ := acc
  unfold combineConfigs overlayRule
  by_cases hq : c.MaxRequestsInQueue = 0 <;> by_cases hm : c.MaxRequestsPerWindow = 0 <;>
    by_cases hw : c.WindowMillis = 0 <;> simp [hq, hm, hw]

theorem mergeRange_eq_foldRules (compile : String → Option (String → Bool)) (key : String) :
    ∀ (R : List CfgFromFileKey) (acc : Config),
      mergeConfigsForInstance.range compile key R acc = foldRules compile key acc R := by
  intro R
  induction R with
  | nil => intro acc; rfl
  | cons c rest ih =>
    intro acc
    unfold mergeConfigsForInstance.range foldRules
    rw [List.foldl_cons]
    by_cases hmatch : c.MatchesKey compile key = true
    · rw [if_pos hmatch, if_pos hmatch, ih, combineConfigs_some]; rfl
    · rw [if_neg hmatch, if_neg hmatch, ih]; rfl

theorem lastNonZero_cons (compile : String → Option (String → Bool)) (key : String)
    (field : CfgFromFileKey → Int) (c : CfgFromFileKey) (R : List CfgFromFileKey) (g : Int) :
    lastNonZero compile key field (c :: R) g
      = lastNonZero compile key field R
          (if c.MatchesKey compile key = true ∧ field c ≠ 0 then field c else g) := by
  unfold lastNonZero
  rw [List.filter_cons]
  by_cases hp : c.MatchesKey compile key = true ∧ field c ≠ 0
  · rw [if_pos hp, if_pos (by simp [hp.1, hp.2]), List.getLast?_cons]
    cases (List.filter (fun rule => rule.MatchesKey compile key && decide (field rule ≠ 0)) R).getLast? <;>
      rfl
  · rw [if_neg hp, if_neg (by simpa using hp)]

theorem foldRules_field (compile : String → Option (String → Bool)) (key : String)
    (proj : Config → Int) (field : CfgFromFileKey → Int)
    (h : ∀ acc c, proj (overlayRule acc c) = if field c ≠ 0 then field c else proj acc) :
    ∀ (R : List CfgFromFileKey) (G : Config),
      proj (foldRules compile key G R) = lastNonZero compile key field R (proj G) := by
  intro R
  induction R with
  | nil => intro G; rfl
  | cons c rest ih =>
    intro G
    rw [lastNonZero_cons]
    unfold foldRules
    rw [List.foldl_cons]
    have hrest := ih (if c.MatchesKey compile key = true then overlayRule G c else G)
    unfold foldRules at hrest
    rw [hrest]
    congr 1
    by_cases hmatch : c.MatchesKey compile key = true
    · rw [if_pos hmatch, h]
      by_cases hz : field c ≠ 0
      · rw [if_pos hz, if_pos ⟨hmatch, hz⟩]
      · rw [if_neg hz, if_neg (fun hc => hz hc.2)]
    · rw [if_neg hmatch, if_neg (fun hc => hmatch hc.1)]

theorem foldRules_no_match (compile : String → Option (String → Bool)) (key : String) :
    ∀ (R : List CfgFromFileKey) (G : Config),
      (∀ rule ∈ R, rule.MatchesKey compile key = false) → foldRules compile key G R = G := by
  intro R
  induction R with
  | nil => intro G _; rfl
  | cons c rest ih =>
    intro G hno
    unfold foldRules
    rw [List.foldl_cons, if_neg (by rw [hno c (List.mem_cons_self _ _)]; exact Bool.false_ne_true)]
    exact ih G (fun rule hr => hno rule (List.mem_cons_of_mem _ hr))

theorem mergeRangeAlloc_spec (compile : String → Option (String → Bool)) (key : String) :
    ∀ (R : List CfgFromFileKey) (heap : ConfigHeap) (result : Nat) (c : Config),
      heap[result]? = some c →
      ∃ ext result1,
        mergeConfigsForInstance.rangeAlloc compile key R heap result
          = some (heap ++ ext, result1)
        ∧ (heap ++ ext)[result1]? = some (mergeConfigsForInstance.range compile key R c) := by
  intro R
  induction R with
  | nil =>
    intro heap result c hc
    exact ⟨[], result, by simp [mergeConfigsForInstance.rangeAlloc], by
      simpa [mergeConfigsForInstance.range] using hc⟩
  | cons rule rest ih =>
    intro heap result c hc
    unfold mergeConfigsForInstance.rangeAlloc mergeConfigsForInstance.range
    by_cases hmatch : rule.MatchesKey compile key = true
    · rw [if_pos hmatch, if_pos hmatch]
      unfold combineConfigs.alloc
      rw [hc]
      obtain ⟨ext, result1, h1, h2⟩ :=
        ih (heap ++ [combineConfigs c (some rule)]) heap.length (combineConfigs c (some rule))
          (by simp)
      refine ⟨[combineConfigs c (some rule)] ++ ext, result1, ?_, ?_⟩
      · simp only [h1, List.append_assoc]
      · rw [← List.append_assoc]; exact h2
    · rw [if_neg hmatch, if_neg hmatch]
      exact ih heap result c hc

/-- C14: for every key, global config `G` and rule list `R` (and every regular expression
library), `mergeConfigsForInstance` equals the left-to-right fold over `R` starting from
`G` in which each rule matching the key replaces exactly the fields for which its value is
non-zero; each field of the result is the value given by the last matching rule with a
non-zero value for that field, or the value of `G` if there is none; with a nil file
config, or when no rule matches, the result is `G`; and on pointers the function returns a
cell holding that result while the cell of `G`, like every other existing cell, keeps its
contents. -/
theorem C14_merge_configs (compile : String → Option (String → Bool)) (key : String)
    (G : Config) (R : List CfgFromFileKey) :
    mergeConfigsForInstance compile key G (some { Keys := R }) = foldRules compile key G R
    ∧ (mergeConfigsForInstance compile key G (some { Keys := R })).WindowMillis
        = lastNonZero compile key (fun rule => rule.WindowMillis) R G.WindowMillis
    ∧ (mergeConfigsForInstance compile key G (some { Keys := R })).MaxRequestsPerWindow
        = lastNonZero compile key (fun rule => rule.MaxRequestsPerWindow) R
            G.MaxRequestsPerWindow
    ∧ (mergeConfigsForInstance compile key G (some { Keys := R })).MaxRequestsInQueue
        = lastNonZero compile key (fun rule => rule.MaxRequestsInQueue) R G.MaxRequestsInQueue
    ∧ mergeConfigsForInstance compile key G none = G
    ∧ ((∀ rule ∈ R, rule.MatchesKey compile key = false) →
        mergeConfigsForInstance compile key G (some { Keys := R }) = G)
    ∧ (∀ (heap : ConfigHeap) (g : Nat) (file : Option CfgFromFile), heap[g]? = some G →
        ∃ heap1 result,
          mergeConfigsForInstance.alloc compile key heap g file = some (heap1, result)
          ∧ heap1[result]? = some (mergeConfigsForInstance compile key G file)
          ∧ heap1[g]? = some G
          ∧ ∀ (a : Nat) (c : Config), heap[a]? = some c → heap1[a]? = some c) := by
  have hfold : mergeConfigsForInstance compile key G (some { Keys := R })
      = foldRules compile key G R := mergeRange_eq_foldRules compile key R G
  refine ⟨hfold, ?_, ?_, ?_, rfl, ?_, ?_⟩
  · rw [hfold]
    exact foldRules_field compile key (fun c => c.WindowMillis) (fun rule => rule.WindowMillis)
      (fun _ _ => rfl) R G
  · rw [hfold]
    exact foldRules_field compile key (fun c => c.MaxRequestsPerWindow)
      (fun rule => rule.MaxRequestsPerWindow) (fun _ _ => rfl) R G
  · rw [hfold]
    exact foldRules_field compile key (fun c => c.MaxRequestsInQueue)
      (fun rule => rule.MaxRequestsInQueue) (fun _ _ => rfl) R G
  · intro hno
    rw [hfold]
    exact foldRules_no_match compile key R G hno
  · intro heap g file hg
    have hkeep : ∀ (ext : ConfigHeap) (a : Nat) (c : Config),
        heap[a]? = some c → (heap ++ ext)[a]? = some c := by
      intro ext a c ha
      have hlt : a < heap.length := by
        by_contra hge
        rw [List.getElem?_eq_none (by omega)] at ha
        exact Option.noConfusion ha
      rw [List.getElem?_append_left hlt]
      exact ha
    cases file with
    | none =>
      exact ⟨heap, g, rfl, hg, hg, fun _ _ ha => ha⟩
    | some f =>
      obtain ⟨ext, result1, h1, h2⟩ := mergeRangeAlloc_spec compile key f.Keys heap g G hg
      exact ⟨heap ++ ext, result1, h1, h2, hkeep ext g G hg, fun a c ha => hkeep ext a c ha⟩

/-- C14 on a concrete file: a catch-all rule, an exact rule for `k1`, a rule for the keys
starting with `k`, a rule for another key and a rule whose pattern does not compile. -/
theorem C14_merge_configs_witness :
    mergeConfigsForInstance sampleCompile "k1"
        { WindowMillis := 1000, MaxRequestsPerWindow := 1, MaxRequestsInQueue := 0 }
        (some { Keys := [sampleRule ".*" true 5 0 0, sampleRule "k1" false 0 7 0,
          sampleRule "k.*" true 9 0 20, sampleRule "zz" false 1 1 1, sampleRule "(" true 3 3 3] })
      = { WindowMillis := 20, MaxRequestsPerWindow := 9, MaxRequestsInQueue := 7 }
    ∧ foldRules sampleCompile "k1"
        { WindowMillis := 1000, MaxRequestsPerWindow := 1, MaxRequestsInQueue := 0 }
        [sampleRule ".*" true 5 0 0, sampleRule "k1" false 0 7 0,
          sampleRule "k.*" true 9 0 20, sampleRule "zz" false 1 1 1, sampleRule "(" true 3 3 3]
      = { WindowMillis := 20, MaxRequestsPerWindow := 9, MaxRequestsInQueue := 7 }
    ∧ lastNonZero sampleCompile "k1" (fun rule => rule.MaxRequestsInQueue)
        [sampleRule ".*" true 5 0 0, sampleRule "k1" false 0 7 0,
          sampleRule "k.*" true 9 0 20, sampleRule "zz" false 1 1 1, sampleRule "(" true 3 3 3]
        0 = 7 :=
  ⟨by decide,
    (C14_merge_configs sampleCompile "k1"
      { WindowMillis := 1000, MaxRequestsPerWindow := 1, MaxRequestsInQueue := 0 }
      [sampleRule ".*" true 5 0 0, sampleRule "k1" false 0 7 0,
        sampleRule "k.*" true 9 0 20, sampleRule "zz" false 1 1 1,
        sampleRule "(" true 3 3 3]).1.symm.trans (by decide),
    by decide⟩

/-! ## The registry of a shard -/

theorem mapGet_mapSet_self {β : Type} (l : List (String × β)) (key : String) (v : β) :
    mapGet (mapSet l key v) key = some v := by
  induction l with
  | nil => simp [mapSet, mapGet]
  | cons e rest ih =>
    obtain ⟨k, w⟩ := e
    unfold mapSet
    by_cases hk : k = key
    · rw [if_pos hk]; unfold mapGet; rw [if_pos hk]
    · rw [if_neg hk]; unfold mapGet; rw [if_neg hk]; exact ih

theorem mapGet_mapSet_of_ne {β : Type} (l : List (String × β)) (key other : String) (v : β)
    (h : other ≠ key) : mapGet (mapSet l key v) other = mapGet l other := by
  induction l with
  | nil =>
    unfold mapSet mapGet
    rw [if_neg (fun hk => h hk.symm)]
    rfl
  | cons e rest ih =>
    obtain ⟨k, w⟩ := e
    unfold mapSet
    by_cases hk : k = key
    · rw [if_pos hk]
      unfold mapGet
      rw [if_neg (fun hko => h (hko.symm.trans hk)), if_neg (fun hko => h (hko.symm.trans hk))]
    · rw [if_neg hk]
      unfold mapGet
      by_cases hko : k = other
      · rw [if_pos hko, if_pos hko]
      · rw [if_neg hko, if_neg hko]; exact ih

theorem mapGet_mapDelete_self {β : Type} (l : List (String × β)) (key : String) :
    mapGet (mapDelete l key) key = none := by
  induction l with
  | nil => rfl
  | cons e rest ih =>
    obtain ⟨k, w⟩ := e
    unfold mapDelete
    by_cases hk : k = key
    · rw [if_pos hk]; exact ih
    · rw [if_neg hk]; unfold mapGet; rw [if_neg hk]; exact ih

theorem mapGet_mapDelete_of_ne {β : Type} (l : List (String × β)) (key other : String)
    (h : other ≠ key) : mapGet (mapDelete l key) other = mapGet l other := by
  induction l with
  | nil => rfl
  | cons e rest ih =>
    obtain ⟨k, w⟩ := e
    unfold mapDelete
    by_cases hk : k = key
    · rw [if_pos hk, ih]
      have hskip : mapGet ((k, w) :: rest) other = mapGet rest other := by
        simp only [mapGet]
        rw [if_neg (fun hko => h (hko.symm.trans hk))]
      exact hskip.symm
    · rw [if_neg hk]
      unfold mapGet
      by_cases hko : k = other
      · rw [if_pos hko, if_pos hko]
      · rw [if_neg hko, if_neg hko]; exact ih

/-- The registry after the shard has handled `InstanceExpired{key, mailbox}`. -/
theorem managerLoopStep_expired (compile : String → Option (String → Bool)) (ms : managerState)
    (key : String) (mailbox : Nat) (now : Int) (fresh : Nat)
    (gathered : List (Option InstanceDebugSnapshot)) (hrun : ms.returned = false) :
    managerLoopStep compile ms
        (ManagerEvent.recv (ManagerRequest.InstanceExpiredNotification key mailbox)
          now fresh gathered)
      = some ({ ms with registry :=
                  if mapGet ms.registry key = some mailbox then mapDelete ms.registry key
                  else ms.registry },
              [ManagerEffect.ToInstance mailbox Request.Kill]) := by
  unfold managerLoopStep
  rw [if_neg (by rw [hrun]; exact Bool.false_ne_true)]
  simp only
  cases hget : mapGet ms.registry key with
  | none => simp
  | some stored =>
    by_cases hs : stored = mailbox
    · simp [hs]
    · simp [hs]

/-- C19: a running shard handling `InstanceExpired{key, mailbox}`: if the registry maps
`key` to exactly `mailbox` the entry is removed; if `key` is registered with another
mailbox or is not registered the registry is left unchanged; the entries of all other keys
are never touched; and in every case exactly one message, a `Kill`, is sent, to the
mailbox reported in the notification.  Nothing else of the shard changes. -/
theorem C19_instance_expired (compile : String → Option (String → Bool)) (ms : managerState)
    (key : String) (mailbox : Nat) (now : Int) (fresh : Nat)
    (gathered : List (Option InstanceDebugSnapshot)) (hrun : ms.returned = false) :
    ∃ ms1,
      managerLoopStep compile ms
          (ManagerEvent.recv (ManagerRequest.InstanceExpiredNotification key mailbox)
            now fresh gathered)
        = some (ms1, [ManagerEffect.ToInstance mailbox Request.Kill])
      ∧ (mapGet ms.registry key = some mailbox →
          ms1.registry = mapDelete ms.registry key ∧ mapGet ms1.registry key = none)
      ∧ (mapGet ms.registry key ≠ some mailbox → ms1.registry = ms.registry)
      ∧ (∀ other, other ≠ key → mapGet ms1.registry other = mapGet ms.registry other)
      ∧ ms1.globalConfig = ms.globalConfig
      ∧ ms1.configFromFile = ms.configFromFile
      ∧ ms1.mailbox = ms.mailbox
      ∧ ms1.returned = false := by
  refine ⟨_, managerLoopStep_expired compile ms key mailbox now fresh gathered hrun,
    ?_, ?_, ?_, rfl, rfl, rfl, hrun⟩
  · intro h
    simp only
    rw [if_pos h]
    exact ⟨rfl, mapGet_mapDelete_self _ _⟩
  · intro h
    simp only
    rw [if_neg h]
  · intro other hne
    simp only
    by_cases h : mapGet ms.registry key = some mailbox
    · rw [if_pos h]; exact mapGet_mapDelete_of_ne _ _ _ hne
    · rw [if_neg h]

/-- C19 on a concrete registry with the keys `a`, `k` and `z`: the notification of the
registered instance of `k` removes its entry, a notification naming another mailbox and a
notification for an unknown key leave the registry alone, and each time one `Kill` goes to
the reported mailbox. -/
theorem C19_instance_expired_witness :
    managerLoopStep sampleCompile (sampleManager sampleGlobal none [("a", 3), ("k", 4), ("z", 5)])
        (ManagerEvent.recv (ManagerRequest.InstanceExpiredNotification "k" 4) 0 9 [])
      = some (sampleManager sampleGlobal none [("a", 3), ("z", 5)],
          [ManagerEffect.ToInstance 4 Request.Kill])
    ∧ managerLoopStep sampleCompile
        (sampleManager sampleGlobal none [("a", 3), ("k", 4), ("z", 5)])
        (ManagerEvent.recv (ManagerRequest.InstanceExpiredNotification "k" 8) 0 9 [])
      = some (sampleManager sampleGlobal none [("a", 3), ("k", 4), ("z", 5)],
          [ManagerEffect.ToInstance 8 Request.Kill])
    ∧ managerLoopStep sampleCompile
        (sampleManager sampleGlobal none [("a", 3), ("k", 4), ("z", 5)])
        (ManagerEvent.recv (ManagerRequest.InstanceExpiredNotification "q" 4) 0 9 [])
      = some (sampleManager sampleGlobal none [("a", 3), ("k", 4), ("z", 5)],
          [ManagerEffect.ToInstance 4 Request.Kill])
    ∧ ∃ ms1,
        managerLoopStep sampleCompile
            (sampleManager sampleGlobal none [("a", 3), ("k", 4), ("z", 5)])
            (ManagerEvent.recv (ManagerRequest.InstanceExpiredNotification "k" 4) 0 9 [])
          = some (ms1, [ManagerEffect.ToInstance 4 Request.Kill])
        ∧ mapGet ms1.registry "k" = none
        ∧ mapGet ms1.registry "a" = some 3 := by
  obtain ⟨ms1, h, hdel, _, hother, _⟩ := C19_instance_expired sampleCompile
    (sampleManager sampleGlobal none [("a", 3), ("k", 4), ("z", 5)]) "k" 4 0 9 [] rfl
  exact ⟨by decide, by decide, by decide, ms1, h, (hdel (by decide)).2,
    (hother "a" (by decide)).trans (by decide)⟩

/-! ## Routing in a shard -/

theorem New_of_valid (key : String) (config : Config) (parent mailbox : Nat) (now : Int)
    (hmax : 0 ≤ config.MaxRequestsPerWindow)
    (hcap : config.MaxRequestsPerWindow ≤ 35184372088832) (hw1 : 1 ≤ config.WindowMillis)
    (hw2 : config.WindowMillis ≤ 9223372036854) :
    New key config parent mailbox now = some {
      state := {
        key := key
        config := config
        nApprovedThisWindow := 0
        nDeniedThisWindow := 0
        timeLastUsed := now
        throttled := []
        mailbox := mailbox
        parent := parent }
      ticker := config.WindowMillis * 1000000
      expiryNotificationSent := false
      returned := false } := by
  obtain ⟨hd, hpos⟩ := durationOfMillis_of_range config.WindowMillis hw1 hw2
  unfold New maxAlloc
  rw [if_neg (by omega), if_neg (by omega), hd]

theorem managerLoopStep_running (compile : String → Option (String → Bool))
    (ms : managerState) (req : ManagerRequest) (now : Int) (fresh : Nat)
    (gathered : List (Option InstanceDebugSnapshot)) (hrun : ms.returned = false) :
    managerLoopStep compile ms (ManagerEvent.recv req now fresh gathered)
      = match req with
        | ManagerRequest.PermissionRequest r =>
          match mapGet ms.registry r.Key with
          | some inst => some (ms, [ManagerEffect.ToInstance inst (Request.PermissionRequest r)])
          | none =>
            match New r.Key
                (mergeConfigsForInstance compile r.Key ms.globalConfig ms.configFromFile)
                ms.mailbox fresh now with
            | none => none
            | some l =>
              some ({ ms with registry := mapSet ms.registry r.Key l.state.mailbox },
                [ManagerEffect.Spawn l,
                 ManagerEffect.ToInstance l.state.mailbox (Request.PermissionRequest r)])
        | ManagerRequest.ReleaseRequest ReqID Key =>
          match mapGet ms.registry Key with
          | some inst =>
            some (ms, [ManagerEffect.ToInstance inst (Request.ReleaseRequest ReqID Key)])
          | none => some (ms, [])
        | ManagerRequest.DebugSnapshotRequest Key RespChan =>
          match mapGet ms.registry Key with
          | none => some (ms, [ManagerEffect.DebugSnapshot RespChan notFoundSnapshot])
          | some inst =>
            some (ms,
              [ManagerEffect.ToInstance inst (Request.DebugSnapshotRequest Key RespChan)])
        | ManagerRequest.DebugSnapshotAllRequest RespChan =>
          some (ms,
            ms.registry.map (fun entry =>
              ManagerEffect.ToInstance entry.2 (Request.DebugSnapshotRequest entry.1 fresh))
            ++ [ManagerEffect.DebugSnapshotAll RespChan
                  (SliceToMap ((gathered.take ms.registry.length).filterMap id) [])])
        | ManagerRequest.ClientGaveUpNotification OriginalRequest =>
          match mapGet ms.registry OriginalRequest.Key with
          | some inst =>
            some (ms,
              [ManagerEffect.ToInstance inst
                (Request.ClientGaveUpNotification OriginalRequest)])
          | none => some (ms, [])
        | ManagerRequest.InstanceExpiredNotification Key InstanceMailbox =>
          some ({ ms with registry :=
                    if mapGet ms.registry Key = some InstanceMailbox then
                      mapDelete ms.registry Key
                    else ms.registry },
            [ManagerEffect.ToInstance InstanceMailbox Request.Kill])
        | ManagerRequest.Kill =>
          some ({ ms with returned := true },
            ms.registry.map (fun entry => ManagerEffect.ToInstance entry.2 Request.Kill))
        | ManagerRequest.InstanceDiedNotification _ => some (ms, []) := by
  cases req with
  | InstanceExpiredNotification key mailbox =>
    exact managerLoopStep_expired compile ms key mailbox now fresh gathered hrun
  | _ =>
    unfold managerLoopStep
    rw [if_neg (by rw [hrun]; exact Bool.false_ne_true)]

/-- C18, refuted as stated: with a file rule for `k` whose `max_requests_per_window` is
`-1`, a PermissionRequest for the unregistered key `k` creates and registers nothing and
forwards nothing: `New` panics in `make` with the negative capacity.  It is the same with a
rule whose `max_requests_per_window` is `2 ^ 45 + 1`: `make` panics with a capacity out of
range. -/
theorem C18_counterexample :
    (sampleManager sampleGlobal (some { Keys := [sampleRule "k" false (-1) 0 0] }) []).returned
      = false
    ∧ mapGet
        (sampleManager sampleGlobal (some { Keys := [sampleRule "k" false (-1) 0 0] }) []).registry
        (sampleRequest "a" false).Key = none
    ∧ managerLoopStep sampleCompile
        (sampleManager sampleGlobal (some { Keys := [sampleRule "k" false (-1) 0 0] }) [])
        (ManagerEvent.recv (ManagerRequest.PermissionRequest (sampleRequest "a" false)) 5 7 [])
      = none
    ∧ managerLoopStep sampleCompile
        (sampleManager sampleGlobal
          (some { Keys := [sampleRule "k" false 35184372088833 0 0] }) [])
        (ManagerEvent.recv (ManagerRequest.PermissionRequest (sampleRequest "a" false)) 5 7 [])
      = none := by
  decide

/-- C18, amended: routing in a running shard.  A PermissionRequest for a registered key is
forwarded to the registered instance, creates nothing and leaves the shard unchanged.  A
PermissionRequest for a key that is not registered, when the effective config
`mergeConfigsForInstance(key, global, latest file snapshot)` has a `MaxRequestsPerWindow`
from 0 to 35184372088832 (`2 ^ 45`) and a `WindowMillis` from 1 to 9223372036854 (so that
`New` does not panic), creates exactly one instance, fresh and configured with that
effective config, registers its mailbox under the key, leaves the other keys alone, and
forwards the request to the new instance.
ReleaseRequest, DebugSnapshot(key) and ClientGaveUp create nothing and leave the shard,
registry included, unchanged: for a registered key they are forwarded to its instance; for
an unknown key Release and ClientGaveUp are discarded and DebugSnapshot is answered with a
snapshot whose `Found` is false. -/
theorem C18_shard_routing (compile : String → Option (String → Bool)) (ms : managerState)
    (now : Int) (fresh : Nat) (gathered : List (Option InstanceDebugSnapshot))
    (hrun : ms.returned = false) :
    (∀ (r : PermissionRequest) (inst : Nat), mapGet ms.registry r.Key = some inst →
      managerLoopStep compile ms
          (ManagerEvent.recv (ManagerRequest.PermissionRequest r) now fresh gathered)
        = some (ms, [ManagerEffect.ToInstance inst (Request.PermissionRequest r)]))
    ∧ (∀ (r : PermissionRequest), mapGet ms.registry r.Key = none →
        0 ≤ (mergeConfigsForInstance compile r.Key ms.globalConfig
              ms.configFromFile).MaxRequestsPerWindow →
        (mergeConfigsForInstance compile r.Key ms.globalConfig
              ms.configFromFile).MaxRequestsPerWindow ≤ 35184372088832 →
        1 ≤ (mergeConfigsForInstance compile r.Key ms.globalConfig
              ms.configFromFile).WindowMillis →
        (mergeConfigsForInstance compile r.Key ms.globalConfig
              ms.configFromFile).WindowMillis ≤ 9223372036854 →
        ∃ l ms1,
          New r.Key (mergeConfigsForInstance compile r.Key ms.globalConfig ms.configFromFile)
              ms.mailbox fresh now = some l
          ∧ managerLoopStep compile ms
              (ManagerEvent.recv (ManagerRequest.PermissionRequest r) now fresh gathered)
            = some (ms1, [ManagerEffect.Spawn l,
                ManagerEffect.ToInstance fresh (Request.PermissionRequest r)])
          ∧ spawnCount [ManagerEffect.Spawn l,
                ManagerEffect.ToInstance fresh (Request.PermissionRequest r)] = 1
          ∧ l.state.key = r.Key
          ∧ l.state.config
              = mergeConfigsForInstance compile r.Key ms.globalConfig ms.configFromFile
          ∧ l.state.mailbox = fresh
          ∧ l.state.parent = ms.mailbox
          ∧ l.state.nApprovedThisWindow = 0
          ∧ l.state.nDeniedThisWindow = 0
          ∧ l.state.throttled = []
          ∧ l.returned = false
          ∧ ms1.registry = mapSet ms.registry r.Key fresh
          ∧ mapGet ms1.registry r.Key = some fresh
          ∧ (∀ other, other ≠ r.Key → mapGet ms1.registry other = mapGet ms.registry other)
          ∧ ms1.globalConfig = ms.globalConfig
          ∧ ms1.configFromFile = ms.configFromFile
          ∧ ms1.returned = false)
    ∧ (∀ (ReqID Key : String),
        (∀ inst, mapGet ms.registry Key = some inst →
          managerLoopStep compile ms
              (ManagerEvent.recv (ManagerRequest.ReleaseRequest ReqID Key) now fresh gathered)
            = some (ms, [ManagerEffect.ToInstance inst (Request.ReleaseRequest ReqID Key)]))
        ∧ (mapGet ms.registry Key = none →
          managerLoopStep compile ms
              (ManagerEvent.recv (ManagerRequest.ReleaseRequest ReqID Key) now fresh gathered)
            = some (ms, [])))
    ∧ (∀ (Key : String) (RespChan : Nat),
        (∀ inst, mapGet ms.registry Key = some inst →
          managerLoopStep compile ms
              (ManagerEvent.recv (ManagerRequest.DebugSnapshotRequest Key RespChan)
                now fresh gathered)
            = some (ms,
                [ManagerEffect.ToInstance inst (Request.DebugSnapshotRequest Key RespChan)]))
        ∧ (mapGet ms.registry Key = none →
          managerLoopStep compile ms
              (ManagerEvent.recv (ManagerRequest.DebugSnapshotRequest Key RespChan)
                now fresh gathered)
            = some (ms, [ManagerEffect.DebugSnapshot RespChan notFoundSnapshot])
          ∧ notFoundSnapshot.Found = false))
    ∧ (∀ (orig : PermissionRequest),
        (∀ inst, mapGet ms.registry orig.Key = some inst →
          managerLoopStep compile ms
              (ManagerEvent.recv (ManagerRequest.ClientGaveUpNotification orig)
                now fresh gathered)
            = some (ms, [ManagerEffect.ToInstance inst (Request.ClientGaveUpNotification orig)]))
        ∧ (mapGet ms.registry orig.Key = none →
          managerLoopStep compile ms
              (ManagerEvent.recv (ManagerRequest.ClientGaveUpNotification orig)
                now fresh gathered)
            = some (ms, []))) := by
  refine ⟨?_, ?_, ?_, ?_, ?_⟩
  · intro r inst hget
    rw [managerLoopStep_running compile ms _ now fresh gathered hrun]
    simp only [hget]
  · intro r hget hmax hcap hw1 hw2
    have hnew := New_of_valid r.Key
      (mergeConfigsForInstance compile r.Key ms.globalConfig ms.configFromFile)
      ms.mailbox fresh now hmax hcap hw1 hw2
    refine ⟨_, { ms with registry := mapSet ms.registry r.Key fresh }, hnew, ?_, rfl, rfl, rfl,
      rfl, rfl, rfl, rfl, rfl, rfl, rfl, mapGet_mapSet_self _ _ _,
      fun other hne => mapGet_mapSet_of_ne _ _ _ _ hne, rfl, rfl, hrun⟩
    rw [managerLoopStep_running compile ms _ now fresh gathered hrun]
    simp only [hget, hnew]
  · intro ReqID Key
    rw [managerLoopStep_running compile ms _ now fresh gathered hrun]
    exact ⟨fun inst hget => by simp only [hget], fun hget => by simp only [hget]⟩
  · intro Key RespChan
    rw [managerLoopStep_running compile ms _ now fresh gathered hrun]
    exact ⟨fun inst hget => by simp only [hget], fun hget => ⟨by simp only [hget], rfl⟩⟩
  · intro orig
    rw [managerLoopStep_running compile ms _ now fresh gathered hrun]
    exact ⟨fun inst hget => by simp only [hget], fun hget => by simp only [hget]⟩

/-- C18 (amended) on a concrete shard with the key `a` registered: a request for the
unknown key `k` creates, registers and addresses a new instance with the effective config
of `k`; a release for `a` is forwarded to its instance; a snapshot request for the unknown
key `q` is answered with `Found = false`. -/
theorem C18_shard_routing_witness :
    (sampleManager sampleGlobal (some { Keys := [sampleRule "k" false 3 2 0] })
      [("a", 3)]).returned = false
    ∧ managerLoopStep sampleCompile
        (sampleManager sampleGlobal (some { Keys := [sampleRule "k" false 3 2 0] }) [("a", 3)])
        (ManagerEvent.recv (ManagerRequest.PermissionRequest (sampleRequest "x" true)) 5 7 [])
      = some
          (sampleManager sampleGlobal (some { Keys := [sampleRule "k" false 3 2 0] })
            [("a", 3), ("k", 7)],
           [ManagerEffect.Spawn
              { state :=
                  { key := "k"
                    config :=
                      { WindowMillis := 1000, MaxRequestsPerWindow := 3, MaxRequestsInQueue := 2 }
                    nApprovedThisWindow := 0
                    nDeniedThisWindow := 0
                    timeLastUsed := 5
                    throttled := []
                    mailbox := 7
                    parent := 0 }
                ticker := 1000000000
                expiryNotificationSent := false
                returned := false },
            ManagerEffect.ToInstance 7 (Request.PermissionRequest (sampleRequest "x" true))])
    ∧ managerLoopStep sampleCompile
        (sampleManager sampleGlobal (some { Keys := [sampleRule "k" false 3 2 0] }) [("a", 3)])
        (ManagerEvent.recv (ManagerRequest.ReleaseRequest "1" "a") 5 7 [])
      = some
          (sampleManager sampleGlobal (some { Keys := [sampleRule "k" false 3 2 0] }) [("a", 3)],
           [ManagerEffect.ToInstance 3 (Request.ReleaseRequest "1" "a")])
    ∧ managerLoopStep sampleCompile
        (sampleManager sampleGlobal (some { Keys := [sampleRule "k" false 3 2 0] }) [("a", 3)])
        (ManagerEvent.recv (ManagerRequest.DebugSnapshotRequest "q" 11) 5 7 [])
      = some
          (sampleManager sampleGlobal (some { Keys := [sampleRule "k" false 3 2 0] }) [("a", 3)],
           [ManagerEffect.DebugSnapshot 11 notFoundSnapshot]) :=
  ⟨rfl, by decide,
    (C18_shard_routing sampleCompile
      (sampleManager sampleGlobal (some { Keys := [sampleRule "k" false 3 2 0] }) [("a", 3)])
      5 7 [] rfl).2.2.1 "1" "a" |>.1 3 (by decide),
    ((C18_shard_routing sampleCompile
      (sampleManager sampleGlobal (some { Keys := [sampleRule "k" false 3 2 0] }) [("a", 3)])
      5 7 [] rfl).2.2.2.1 "q" 11 |>.2 (by decide)).1⟩

/-! ## Fan-out of a file snapshot -/

theorem loopStep_configUpdate_valid (ls : loopState) (now : Int) (cfg : Config)
    (hrun : ls.returned = false)
    (hwin : cfg.WindowMillis = 0 ∨ cfg.WindowMillis = NoChange
      ∨ cfg.WindowMillis = ls.state.config.WindowMillis
      ∨ (1 ≤ cfg.WindowMillis ∧ cfg.WindowMillis ≤ 9223372036854)) :
    loopStep ls (Event.recv now (Request.ConfigUpdateNotification cfg))
      = some ({ ls with
                state := { ls.state with config := updatedConfig ls.state.config cfg }
                ticker :=
                  if cfg.WindowMillis ≠ 0 ∧ cfg.WindowMillis ≠ NoChange
                      ∧ ls.state.config.WindowMillis ≠ cfg.WindowMillis
                  then durationOfMillis cfg.WindowMillis else ls.ticker }, []) := by
  rw [loopStep_configUpdate ls now cfg hrun]
  apply loopConfigUpdate_eq
  intro hc
  rcases hwin with h | h | h | h
  · exact absurd h hc.1
  · exact absurd h hc.2.1
  · exact absurd h.symm hc.2.2
  · exact (durationOfMillis_of_range _ h.1 h.2).2

theorem mem_of_mapGet {β : Type} (l : List (String × β)) (key : String) (v : β)
    (h : mapGet l key = some v) : (key, v) ∈ l := by
  induction l with
  | nil => exact Option.noConfusion h
  | cons e rest ih =>
    obtain ⟨k, w⟩ := e
    simp only [mapGet] at h
    by_cases hk : k = key
    · rw [if_pos hk] at h
      simp only [Option.some.injEq] at h
      rw [hk, h]
      exact List.mem_cons_self _ _
    · rw [if_neg hk] at h
      exact List.mem_cons_of_mem _ (ih h)

theorem managerLoopStep_config (compile : String → Option (String → Bool)) (ms : managerState)
    (F : Option CfgFromFile) (hrun : ms.returned = false) :
    managerLoopStep compile ms (ManagerEvent.config F)
      = some ({ ms with configFromFile := F },
          ms.registry.map (fun entry =>
            ManagerEffect.ToInstance entry.2
              (Request.ConfigUpdateNotification
                (mergeConfigsForInstance compile entry.1 ms.globalConfig F)))) := by
  unfold managerLoopStep
  rw [if_neg (by rw [hrun]; exact Bool.false_ne_true)]

/-- C13, refuted as stated.  (1) A shard with global config `{1000, 1, 0}` and a file rule
giving `k` a queue of 5 creates the instance of `k` with config `{1000, 1, 5}`; a new
snapshot without rules arrives; the shard sends `ConfigUpdate{1000, 1, 0}`, the effective
config of `k`; the instance handles its request and then the update and keeps the queue
bound 5, because `0` means "unchanged" to it: its config is not the effective config.
(2) With a snapshot whose rule gives `k` the queue bound `NoChange` the effective config has
that bound and the instance keeps 5.  (3) With a snapshot giving `k` the window `-5` the instance does not adopt
the effective config either: recreating the ticker panics. -/
theorem C13_counterexample :
    managerLoopStep sampleCompile
        (sampleManager sampleGlobal (some { Keys := [sampleRule "k" false 0 5 0] }) [])
        (ManagerEvent.recv (ManagerRequest.PermissionRequest (sampleRequest "a" false)) 0 1 [])
      = some
          (sampleManager sampleGlobal (some { Keys := [sampleRule "k" false 0 5 0] }) [("k", 1)],
           [ManagerEffect.Spawn { sampleInstance 1 5 0 [] with
              state := { (sampleInstance 1 5 0 []).state with parent := 0 } },
            ManagerEffect.ToInstance 1 (Request.PermissionRequest (sampleRequest "a" false))])
    ∧ managerLoopStep sampleCompile
        (sampleManager sampleGlobal (some { Keys := [sampleRule "k" false 0 5 0] }) [("k", 1)])
        (ManagerEvent.config (some { Keys := [] }))
      = some
          (sampleManager sampleGlobal (some { Keys := [] }) [("k", 1)],
           [ManagerEffect.ToInstance 1 (Request.ConfigUpdateNotification sampleGlobal)])
    ∧ mergeConfigsForInstance sampleCompile "k" sampleGlobal (some { Keys := [] }) = sampleGlobal
    ∧ (loop { sampleInstance 1 5 0 [] with
            state := { (sampleInstance 1 5 0 []).state with parent := 0 } }
          [Event.recv 1 (Request.PermissionRequest (sampleRequest "a" false)),
           Event.recv 2 (Request.ConfigUpdateNotification sampleGlobal)]).map
        (fun res => res.1.state.config)
      = some { WindowMillis := 1000, MaxRequestsPerWindow := 1, MaxRequestsInQueue := 5 }
    ∧ ({ WindowMillis := 1000, MaxRequestsPerWindow := 1, MaxRequestsInQueue := 5 } : Config)
        ≠ sampleGlobal
    ∧ mergeConfigsForInstance sampleCompile "k" sampleGlobal
        (some { Keys := [sampleRule "k" false 0 NoChange 0] })
      = { WindowMillis := 1000, MaxRequestsPerWindow := 1, MaxRequestsInQueue := NoChange }
    ∧ (loopStep (sampleInstance 1 5 0 [])
          (Event.recv 2 (Request.ConfigUpdateNotification
            { WindowMillis := 1000, MaxRequestsPerWindow := 1,
              MaxRequestsInQueue := NoChange }))).map
        (fun res => res.1.state.config.MaxRequestsInQueue) = some 5
    ∧ mergeConfigsForInstance sampleCompile "k" sampleGlobal
        (some { Keys := [sampleRule "k" false 0 0 (-5)] })
      = { WindowMillis := -5, MaxRequestsPerWindow := 1, MaxRequestsInQueue := 0 }
    ∧ loopStep (sampleInstance 1 5 0 [])
        (Event.recv 2 (Request.ConfigUpdateNotification
          { WindowMillis := -5, MaxRequestsPerWindow := 1, MaxRequestsInQueue := 0 }))
      = none := by
  decide

/-- C13, amended: for every global config, every file snapshot `F` and every running
instance registered in a running shard under key `k`, whatever its current config: when the
shard receives `F` it keeps `F`, and sends every registered instance one ConfigUpdate, this
instance the effective config `E = mergeConfigsForInstance(k, G, F)`, the config a freshly
created instance for `k` would get.  Provided `E.WindowMillis` is `0`, `NoChange`, the
instance's current window or a value from 1 to 9223372036854, the instance handles the update
and afterwards each field of its config equals the field of `E` if that value is neither
`0` nor `NoChange`, and is what it was before otherwise.  In particular the instance's
config equals `E` whenever no field of `E` is `0` or `NoChange`. -/
theorem C13_config_fanout (compile : String → Option (String → Bool)) (ms : managerState)
    (F : Option CfgFromFile) (k : String) (ls : loopState) (now : Int)
    (hrun : ms.returned = false) (hlive : ls.returned = false)
    (hreg : mapGet ms.registry k = some ls.state.mailbox)
    (hwin : (mergeConfigsForInstance compile k ms.globalConfig F).WindowMillis = 0
      ∨ (mergeConfigsForInstance compile k ms.globalConfig F).WindowMillis = NoChange
      ∨ (mergeConfigsForInstance compile k ms.globalConfig F).WindowMillis
          = ls.state.config.WindowMillis
      ∨ (1 ≤ (mergeConfigsForInstance compile k ms.globalConfig F).WindowMillis
          ∧ (mergeConfigsForInstance compile k ms.globalConfig F).WindowMillis
              ≤ 9223372036854)) :
    ∃ ms1 effs ls1,
      managerLoopStep compile ms (ManagerEvent.config F) = some (ms1, effs)
      ∧ ms1.configFromFile = F
      ∧ ms1.registry = ms.registry
      ∧ ms1.globalConfig = ms.globalConfig
      ∧ effs = ms.registry.map (fun entry =>
          ManagerEffect.ToInstance entry.2
            (Request.ConfigUpdateNotification
              (mergeConfigsForInstance compile entry.1 ms.globalConfig F)))
      ∧ ManagerEffect.ToInstance ls.state.mailbox
          (Request.ConfigUpdateNotification
            (mergeConfigsForInstance compile k ms.globalConfig F)) ∈ effs
      ∧ (∀ parent mailbox t l,
          New k (mergeConfigsForInstance compile k ms.globalConfig F) parent mailbox t = some l →
          l.state.config = mergeConfigsForInstance compile k ms.globalConfig F)
      ∧ loopStep ls (Event.recv now (Request.ConfigUpdateNotification
            (mergeConfigsForInstance compile k ms.globalConfig F))) = some (ls1, [])
      ∧ ls1.state.config
          = updatedConfig ls.state.config (mergeConfigsForInstance compile k ms.globalConfig F)
      ∧ ls1.state.config.WindowMillis
          = (if (mergeConfigsForInstance compile k ms.globalConfig F).WindowMillis ≠ 0
              ∧ (mergeConfigsForInstance compile k ms.globalConfig F).WindowMillis ≠ NoChange
            then (mergeConfigsForInstance compile k ms.globalConfig F).WindowMillis
            else ls.state.config.WindowMillis)
      ∧ ls1.state.config.MaxRequestsPerWindow
          = (if (mergeConfigsForInstance compile k ms.globalConfig F).MaxRequestsPerWindow ≠ 0
              ∧ (mergeConfigsForInstance compile k ms.globalConfig F).MaxRequestsPerWindow
                  ≠ NoChange
            then (mergeConfigsForInstance compile k ms.globalConfig F).MaxRequestsPerWindow
            else ls.state.config.MaxRequestsPerWindow)
      ∧ ls1.state.config.MaxRequestsInQueue
          = (if (mergeConfigsForInstance compile k ms.globalConfig F).MaxRequestsInQueue ≠ 0
              ∧ (mergeConfigsForInstance compile k ms.globalConfig F).MaxRequestsInQueue
                  ≠ NoChange
            then (mergeConfigsForInstance compile k ms.globalConfig F).MaxRequestsInQueue
            else ls.state.config.MaxRequestsInQueue)
      ∧ (((mergeConfigsForInstance compile k ms.globalConfig F).WindowMillis ≠ 0
            ∧ (mergeConfigsForInstance compile k ms.globalConfig F).WindowMillis ≠ NoChange
            ∧ (mergeConfigsForInstance compile k ms.globalConfig F).MaxRequestsPerWindow ≠ 0
            ∧ (mergeConfigsForInstance compile k ms.globalConfig F).MaxRequestsPerWindow
                ≠ NoChange
            ∧ (mergeConfigsForInstance compile k ms.globalConfig F).MaxRequestsInQueue ≠ 0
            ∧ (mergeConfigsForInstance compile k ms.globalConfig F).MaxRequestsInQueue
                ≠ NoChange) →
          ls1.state.config = mergeConfigsForInstance compile k ms.globalConfig F) := by
  refine ⟨_, _, _, managerLoopStep_config compile ms F hrun, rfl, rfl, rfl, rfl, ?_, ?_,
    loopStep_configUpdate_valid ls now _ hlive hwin, rfl, rfl, rfl, rfl, ?_⟩
  · exact List.mem_map_of_mem _ (mem_of_mapGet _ _ _ hreg)
  · intro parent mailbox t l hnew
    unfold New at hnew
    split_ifs at hnew
    simp only [Option.some.injEq] at hnew
    rw [← hnew]
  · intro h
    obtain ⟨h1, h2, h3, h4, h5, h6⟩ := h
    simp only [updatedConfig]
    rw [if_pos ⟨h1, h2⟩, if_pos ⟨h3, h4⟩, if_pos ⟨h5, h6⟩]

/-- C13 (amended) on a concrete shard: the instance of `k` runs with `{1000, 1, 5}`; a
snapshot giving `k` the limit 3 and the queue bound 2 arrives; after the update the
instance's config is the effective config `{1000, 3, 2}`. -/
theorem C13_config_fanout_witness :
    (sampleManager sampleGlobal none [("k", 1)]).returned = false
    ∧ (sampleInstance 1 5 0 []).returned = false
    ∧ mapGet (sampleManager sampleGlobal none [("k", 1)]).registry "k"
        = some (sampleInstance 1 5 0 []).state.mailbox
    ∧ mergeConfigsForInstance sampleCompile "k" sampleGlobal
        (some { Keys := [sampleRule "k" false 3 2 0] })
      = { WindowMillis := 1000, MaxRequestsPerWindow := 3, MaxRequestsInQueue := 2 }
    ∧ ∃ ms1 effs ls1,
        managerLoopStep sampleCompile (sampleManager sampleGlobal none [("k", 1)])
            (ManagerEvent.config (some { Keys := [sampleRule "k" false 3 2 0] }))
          = some (ms1, effs)
        ∧ ManagerEffect.ToInstance 1
            (Request.ConfigUpdateNotification
              (mergeConfigsForInstance sampleCompile "k" sampleGlobal
                (some { Keys := [sampleRule "k" false 3 2 0] }))) ∈ effs
        ∧ loopStep (sampleInstance 1 5 0 [])
            (Event.recv 7 (Request.ConfigUpdateNotification
              (mergeConfigsForInstance sampleCompile "k" sampleGlobal
                (some { Keys := [sampleRule "k" false 3 2 0] })))) = some (ls1, [])
        ∧ ls1.state.config
            = mergeConfigsForInstance sampleCompile "k" sampleGlobal
                (some { Keys := [sampleRule "k" false 3 2 0] }) := by
  obtain ⟨ms1, effs, ls1, h1, _, _, _, _, h2, _, h3, _, _, _, _, h4⟩ :=
    C13_config_fanout sampleCompile (sampleManager sampleGlobal none [("k", 1)])
      (some { Keys := [sampleRule "k" false 3 2 0] }) "k" (sampleInstance 1 5 0 []) 7
      rfl rfl (by decide) (by decide)
  exact ⟨rfl, rfl, by decide, by decide, ms1, effs, ls1, h1, h2, h3, h4 (by decide)⟩

/-! ## Live instances of a key -/

theorem loopStep_identity (ls ls1 : loopState) (ev : Event) (sent : List Effect)
    (h : loopStep ls ev = some (ls1, sent)) :
    ls1.state.key = ls.state.key ∧ ls1.state.mailbox = ls.state.mailbox
    ∧ (ls1.returned = false → ls.returned = false)
    ∧ (∀ now, ev = Event.recv now Request.Kill → ls1.returned = true) := by
  rcases loopStep_cases ls ls1 ev sent h with
    ⟨hr, rfl, rfl⟩ | ⟨hr, tF, tC, b, rfl, rfl, _⟩ | ⟨hr, now, cfg, c, t, rfl, rfl, rfl⟩
    | ⟨hr, now, rfl, rfl, rfl⟩ | ⟨hr, now, orig, rfl, rfl, rfl⟩ | ⟨hr, now, r, rfl, rfl, rfl⟩
    | ⟨hr, now, id, key, rfl, rfl, rfl⟩ | ⟨hr, now, key, ch, rfl, rfl, rfl⟩
  · exact ⟨rfl, rfl, fun h => h, fun _ _ => hr⟩
  · refine ⟨?_, ?_, fun _ => hr, fun now he => Event.noConfusion he⟩
    · simp only [tickState]; split_ifs <;> rfl
    · simp only [tickState]; split_ifs <;> rfl
  · exact ⟨rfl, rfl, fun _ => hr, fun now he => by cases he⟩
  · refine ⟨?_, ?_, fun _ => hr, fun _ _ => rfl⟩
    · simp only; split_ifs <;> rfl
    · simp only; split_ifs <;> rfl
  · exact ⟨rfl, rfl, fun _ => hr, fun now he => by cases he⟩
  · refine ⟨?_, ?_, fun _ => hr, fun now he => by cases he⟩
    · simp only [handlePermissionRequest_eq]; split_ifs <;> rfl
    · simp only [handlePermissionRequest_eq]; split_ifs <;> rfl
  · exact ⟨rfl, rfl, fun _ => hr, fun now he => by cases he⟩
  · exact ⟨rfl, rfl, fun h => h, fun now he => by cases he⟩

theorem New_identity (key : String) (config : Config) (parent mailbox : Nat) (now : Int)
    (l : loopState) (h : New key config parent mailbox now = some l) :
    l.state.key = key ∧ l.state.mailbox = mailbox ∧ l.returned = false := by
  unfold New at h
  split_ifs at h
  simp only [Option.some.injEq] at h
  rw [← h]
  exact ⟨rfl, rfl, rfl⟩

/-- Effects that start no instance only append to the mailboxes. -/
theorem foldl_applyManagerEffect_map : ∀ (effects : List ManagerEffect)
    (procs : List instanceProc),
    (∀ e ∈ effects, ∀ l, e ≠ ManagerEffect.Spawn l) →
    ∃ g : instanceProc → instanceProc,
      (∀ p, (g p).ls = p.ls ∧ ∃ extra, (g p).pending = p.pending ++ extra)
      ∧ effects.foldl applyManagerEffect procs = procs.map g := by
  intro effects
  induction effects with
  | nil =>
    intro procs _
    exact ⟨id, fun p => ⟨rfl, [], (List.append_nil _).symm⟩, (List.map_id _).symm⟩
  | cons e rest ih =>
    intro procs hno
    have hfirst : ∃ g1 : instanceProc → instanceProc,
        (∀ p, (g1 p).ls = p.ls ∧ ∃ extra, (g1 p).pending = p.pending ++ extra)
        ∧ applyManagerEffect procs e = procs.map g1 := by
      cases e with
      | Spawn l => exact absurd rfl (hno _ (List.mem_cons_self _ _) l)
      | ToInstance mailbox req =>
        refine ⟨fun p => if p.ls.state.mailbox = mailbox then
            { p with pending := p.pending ++ [req] } else p, ?_, rfl⟩
        intro p
        by_cases hp : p.ls.state.mailbox = mailbox
        · exact ⟨by simp only [hp, if_true], [req], by simp only [hp, if_true]⟩
        · exact ⟨by simp only [hp, if_false], [], by simp only [hp, if_false, List.append_nil]⟩
      | DebugSnapshot c snap =>
        exact ⟨id, fun p => ⟨rfl, [], (List.append_nil _).symm⟩, (List.map_id _).symm⟩
      | DebugSnapshotAll c snaps =>
        exact ⟨id, fun p => ⟨rfl, [], (List.append_nil _).symm⟩, (List.map_id _).symm⟩
    obtain ⟨g1, hg1, h1⟩ := hfirst
    obtain ⟨g2, hg2, h2⟩ := ih (procs.map g1)
      (fun e he l => hno e (List.mem_cons_of_mem _ he) l)
    refine ⟨g2 ∘ g1, ?_, ?_⟩
    · intro p
      obtain ⟨e1, x1, hx1⟩ := hg1 p
      obtain ⟨e2, x2, hx2⟩ := hg2 (g1 p)
      refine ⟨by simp only [Function.comp]; rw [e2, e1], x1 ++ x2, ?_⟩
      simp only [Function.comp]
      rw [hx2, hx1, List.append_assoc]
    · rw [List.foldl_cons, h1, h2, List.map_map]

theorem systemInv_of_map (s : systemState) (g : instanceProc → instanceProc)
    (m : managerState) (mb : List ManagerRequest) (n : Nat)
    (hinv : systemInv s) (hg : ∀ p, (g p).ls = p.ls) (hn : s.nextChan ≤ n)
    (hreg : ∀ p ∈ s.procs, p.ls.returned = false →
      (mapGet s.manager.registry p.ls.state.key = some p.ls.state.mailbox
        ∨ Request.Kill ∈ p.pending) →
      (mapGet m.registry p.ls.state.key = some p.ls.state.mailbox
        ∨ Request.Kill ∈ (g p).pending)) :
    systemInv { manager := m, managerMailbox := mb, procs := s.procs.map g, nextChan := n } := by
  obtain ⟨ha, hb, hc⟩ := hinv
  refine ⟨?_, ?_, ?_⟩
  · intro q hq
    obtain ⟨p, hp, rfl⟩ := List.mem_map.mp hq
    rw [hg p]
    exact Nat.lt_of_lt_of_le (ha p hp) hn
  · have hmap : (s.procs.map g).map (fun p => p.ls.state.mailbox)
        = s.procs.map (fun p => p.ls.state.mailbox) := by
      rw [List.map_map]
      apply List.map_congr_left
      intro p _
      simp only [Function.comp, hg p]
    simp only
    rw [hmap]
    exact hb
  · intro q hq hlive
    obtain ⟨p, hp, rfl⟩ := List.mem_map.mp hq
    have hlive1 : p.ls.returned = false := by
      have := hlive
      unfold instanceProc.live at this
      rw [hg p] at this
      exact this
    have := hreg p hp hlive1 (hc p hp hlive1)
    simp only
    rw [hg p]
    exact this

theorem map_set_same {α β : Type} (f : α → β) : ∀ (l : List α) (i : Nat) (a b : α),
    l[i]? = some a → f b = f a → (l.set i b).map f = l.map f := by
  intro l
  induction l with
  | nil => intro i a b h _; simp at h
  | cons x rest ih =>
    intro i a b h hf
    cases i with
    | zero =>
      simp only [List.getElem?_cons_zero, Option.some.injEq] at h
      simp only [List.set_cons_zero, List.map_cons, hf, h]
    | succ i =>
      simp only [List.getElem?_cons_succ] at h
      simp only [List.set_cons_succ, List.map_cons, ih i a b h hf]

theorem systemInv_of_set (s : systemState) (i : Nat) (p q : instanceProc)
    (mb : List ManagerRequest) (hinv : systemInv s) (hp : s.procs[i]? = some p)
    (hkey : q.ls.state.key = p.ls.state.key)
    (hmb : q.ls.state.mailbox = p.ls.state.mailbox)
    (hlive : q.ls.returned = false →
      p.ls.returned = false ∧ (Request.Kill ∈ p.pending → Request.Kill ∈ q.pending)) :
    systemInv { s with procs := s.procs.set i q, managerMailbox := mb } := by
  obtain ⟨ha, hb, hc⟩ := hinv
  have hpmem : p ∈ s.procs := List.getElem?_mem hp
  refine ⟨?_, ?_, ?_⟩
  · intro x hx
    rcases List.mem_or_eq_of_mem_set hx with hx | rfl
    · exact ha x hx
    · simp only; rw [hmb]; exact ha p hpmem
  · simp only
    rw [map_set_same (fun p => p.ls.state.mailbox) s.procs i p q hp hmb]
    exact hb
  · intro x hx hxlive
    rcases List.mem_or_eq_of_mem_set hx with hx | rfl
    · exact hc x hx hxlive
    · obtain ⟨hplive, hkill⟩ := hlive hxlive
      simp only
      rw [hkey, hmb]
      rcases hc p hpmem hplive with h | h
      · exact Or.inl h
      · exact Or.inr (hkill h)

theorem systemInv_of_no_spawn (s : systemState) (m : managerState)
    (effects : List ManagerEffect) (mb : List ManagerRequest) (n : Nat)
    (hinv : systemInv s) (hn : s.nextChan ≤ n) (hreg : m.registry = s.manager.registry)
    (hno : ∀ e ∈ effects, ∀ l, e ≠ ManagerEffect.Spawn l) :
    systemInv { manager := m, managerMailbox := mb,
                procs := effects.foldl applyManagerEffect s.procs, nextChan := n } := by
  obtain ⟨g, hg, hfold⟩ := foldl_applyManagerEffect_map effects s.procs hno
  rw [hfold]
  apply systemInv_of_map s g m mb n hinv (fun p => (hg p).1) hn
  intro p _ _ hp
  rw [hreg]
  rcases hp with hp | hp
  · exact Or.inl hp
  · obtain ⟨extra, hextra⟩ := (hg p).2
    rw [hextra]
    exact Or.inr (List.mem_append_left _ hp)

theorem no_spawn_of_map {α : Type} (l : List α) (f : α → Nat × Request) :
    ∀ e ∈ l.map (fun x => ManagerEffect.ToInstance (f x).1 (f x).2),
      ∀ inst, e ≠ ManagerEffect.Spawn inst := by
  intro e he inst heq
  obtain ⟨x, _, hx⟩ := List.mem_map.mp he
  rw [heq] at hx
  exact ManagerEffect.noConfusion hx

theorem no_spawn_singleton (mailbox : Nat) (req : Request) :
    ∀ e ∈ [ManagerEffect.ToInstance mailbox req], ∀ inst, e ≠ ManagerEffect.Spawn inst := by
  intro e he inst heq
  rw [List.mem_singleton] at he
  rw [heq] at he
  exact ManagerEffect.noConfusion he

theorem systemInv_expired (s : systemState) (key : String) (mailbox : Nat)
    (mb : List ManagerRequest) (n : Nat) (hinv : systemInv s) (hn : s.nextChan ≤ n) :
    systemInv
      { manager :=
          { s.manager with
            registry :=
              (if mapGet s.manager.registry key = some mailbox then
                mapDelete s.manager.registry key
              else s.manager.registry) }
        managerMailbox := mb
        procs := [ManagerEffect.ToInstance mailbox Request.Kill].foldl applyManagerEffect s.procs
        nextChan := n } := by
  have hfold : [ManagerEffect.ToInstance mailbox Request.Kill].foldl applyManagerEffect s.procs
      = s.procs.map (fun p =>
          if p.ls.state.mailbox = mailbox then { p with pending := p.pending ++ [Request.Kill] }
          else p) := rfl
  rw [hfold]
  apply systemInv_of_map s _ _ mb n hinv _ hn
  · intro p _ _ hp
    simp only
    by_cases hpm : p.ls.state.mailbox = mailbox
    · right
      rw [if_pos hpm]
      exact List.mem_append_right _ (List.mem_singleton_self _)
    · rw [if_neg hpm]
      rcases hp with hp | hp
      · left
        by_cases hk : p.ls.state.key = key
        · have hne : ¬ mapGet s.manager.registry key = some mailbox := by
            rw [← hk, hp]
            intro hc
            exact hpm (Option.some.inj hc)
          rw [if_neg hne]
          exact hp
        · by_cases hdel : mapGet s.manager.registry key = some mailbox
          · rw [if_pos hdel, mapGet_mapDelete_of_ne _ _ _ hk]
            exact hp
          · rw [if_neg hdel]
            exact hp
      · exact Or.inr hp
  · intro p
    by_cases hpm : p.ls.state.mailbox = mailbox
    · simp only [hpm, if_true]
    · simp only [hpm, if_false]

theorem systemInv_spawn (s : systemState) (key : String) (l : loopState)
    (first : Request) (mb : List ManagerRequest) (hinv : systemInv s)
    (hnone : mapGet s.manager.registry key = none) (hkey : l.state.key = key)
    (hfresh : l.state.mailbox = s.nextChan) :
    systemInv
      { manager := { s.manager with registry := mapSet s.manager.registry key l.state.mailbox },
        managerMailbox := mb,
        procs := [ManagerEffect.Spawn l, ManagerEffect.ToInstance l.state.mailbox first].foldl
          applyManagerEffect s.procs,
        nextChan := s.nextChan + 1 } := by
  obtain ⟨ha, hb, hc⟩ := hinv
  have hmid : systemInv
      { manager := { s.manager with registry := mapSet s.manager.registry key l.state.mailbox },
        managerMailbox := mb,
        procs := s.procs ++ [({ ls := l, pending := [] } : instanceProc)],
        nextChan := s.nextChan + 1 } := by
    refine ⟨?_, ?_, ?_⟩
    · intro p hp
      rcases List.mem_append.mp hp with hp | hp
      · exact Nat.lt_succ_of_lt (ha p hp)
      · rw [List.mem_singleton] at hp
        rw [hp]
        simp only
        rw [hfresh]
        exact Nat.lt_succ_self _
    · simp only [List.map_append, List.map_cons, List.map_nil]
      rw [List.nodup_append]
      refine ⟨hb, List.nodup_singleton _, ?_⟩
      intro a ha1 ha2
      rw [List.mem_singleton] at ha2
      obtain ⟨p, hp, hpa⟩ := List.mem_map.mp ha1
      have := ha p hp
      rw [hpa, ha2, hfresh] at this
      exact Nat.lt_irrefl _ this
    · intro p hp hlive
      simp only
      rcases List.mem_append.mp hp with hp | hp
      · rcases hc p hp hlive with h | h
        · left
          have hk : p.ls.state.key ≠ key := by
            intro hk
            rw [hk, hnone] at h
            exact Option.noConfusion h
          rw [mapGet_mapSet_of_ne _ _ _ _ hk]
          exact h
        · exact Or.inr h
      · rw [List.mem_singleton] at hp
        left
        rw [hp]
        simp only
        rw [hkey]
        exact mapGet_mapSet_self _ _ _
  have hfold : [ManagerEffect.Spawn l, ManagerEffect.ToInstance l.state.mailbox first].foldl
        applyManagerEffect s.procs
      = (s.procs ++ [({ ls := l, pending := [] } : instanceProc)]).map (fun p =>
          if p.ls.state.mailbox = l.state.mailbox then { p with pending := p.pending ++ [first] }
          else p) := rfl
  rw [hfold]
  apply systemInv_of_map _ _ _ mb (s.nextChan + 1) hmid _ (Nat.le_refl _)
  · intro p _ _ hp
    rcases hp with hp | hp
    · exact Or.inl hp
    · right
      by_cases hpm : p.ls.state.mailbox = l.state.mailbox
      · rw [if_pos hpm]
        exact List.mem_append_left _ hp
      · rw [if_neg hpm]
        exact hp
  · intro p
    by_cases hpm : p.ls.state.mailbox = l.state.mailbox
    · simp only [hpm, if_true]
    · simp only [hpm, if_false]

theorem systemInv_managerRecv (compile : String → Option (String → Bool)) (s : systemState)
    (req : ManagerRequest) (rest : List ManagerRequest) (now : Int)
    (gathered : List (Option InstanceDebugSnapshot)) (m : managerState)
    (effects : List ManagerEffect) (hinv : systemInv s) (hrun : s.manager.returned = false)
    (h : managerLoopStep compile s.manager (ManagerEvent.recv req now s.nextChan gathered)
      = some (m, effects)) :
    systemInv { manager := m, managerMailbox := rest,
                procs := effects.foldl applyManagerEffect s.procs,
                nextChan := s.nextChan + 1 } := by
  rw [managerLoopStep_running compile s.manager req now s.nextChan gathered hrun] at h
  cases req with
  | PermissionRequest r =>
    simp only at h
    cases hget : mapGet s.manager.registry r.Key with
    | some inst =>
      simp only [hget, Option.some.injEq, Prod.mk.injEq] at h
      obtain ⟨rfl, rfl⟩ := h
      exact systemInv_of_no_spawn s _ _ rest _ hinv (Nat.le_succ _) rfl (no_spawn_singleton _ _)
    | none =>
      simp only [hget] at h
      cases hnew : New r.Key
          (mergeConfigsForInstance compile r.Key s.manager.globalConfig s.manager.configFromFile)
          s.manager.mailbox s.nextChan now with
      | none =>
        rw [hnew] at h
        exact Option.noConfusion h
      | some l =>
        rw [hnew] at h
        simp only [Option.some.injEq, Prod.mk.injEq] at h
        obtain ⟨rfl, rfl⟩ := h
        obtain ⟨hk, hm, _⟩ := New_identity _ _ _ _ _ l hnew
        exact systemInv_spawn s r.Key l _ rest hinv hget hk hm
  | ReleaseRequest id key =>
    simp only at h
    cases hget : mapGet s.manager.registry key with
    | some inst =>
      simp only [hget, Option.some.injEq, Prod.mk.injEq] at h
      obtain ⟨rfl, rfl⟩ := h
      exact systemInv_of_no_spawn s _ _ rest _ hinv (Nat.le_succ _) rfl (no_spawn_singleton _ _)
    | none =>
      simp only [hget, Option.some.injEq, Prod.mk.injEq] at h
      obtain ⟨rfl, rfl⟩ := h
      exact systemInv_of_no_spawn s _ _ rest _ hinv (Nat.le_succ _) rfl
        (fun e he => absurd he (List.not_mem_nil e))
  | DebugSnapshotRequest key chan =>
    simp only at h
    cases hget : mapGet s.manager.registry key with
    | some inst =>
      simp only [hget, Option.some.injEq, Prod.mk.injEq] at h
      obtain ⟨rfl, rfl⟩ := h
      exact systemInv_of_no_spawn s _ _ rest _ hinv (Nat.le_succ _) rfl (no_spawn_singleton _ _)
    | none =>
      simp only [hget, Option.some.injEq, Prod.mk.injEq] at h
      obtain ⟨rfl, rfl⟩ := h
      refine systemInv_of_no_spawn s _ _ rest _ hinv (Nat.le_succ _) rfl ?_
      intro e he inst heq
      rw [List.mem_singleton] at he
      rw [heq] at he
      exact ManagerEffect.noConfusion he
  | DebugSnapshotAllRequest chan =>
    simp only [Option.some.injEq, Prod.mk.injEq] at h
    obtain ⟨rfl, rfl⟩ := h
    refine systemInv_of_no_spawn s _ _ rest _ hinv (Nat.le_succ _) rfl ?_
    intro e he inst heq
    rcases List.mem_append.mp he with he | he
    · exact no_spawn_of_map s.manager.registry
        (fun entry => (entry.2, Request.DebugSnapshotRequest entry.1 s.nextChan)) e he inst heq
    · rw [List.mem_singleton] at he
      rw [heq] at he
      exact ManagerEffect.noConfusion he
  | ClientGaveUpNotification orig =>
    simp only at h
    cases hget : mapGet s.manager.registry orig.Key with
    | some inst =>
      simp only [hget, Option.some.injEq, Prod.mk.injEq] at h
      obtain ⟨rfl, rfl⟩ := h
      exact systemInv_of_no_spawn s _ _ rest _ hinv (Nat.le_succ _) rfl (no_spawn_singleton _ _)
    | none =>
      simp only [hget, Option.some.injEq, Prod.mk.injEq] at h
      obtain ⟨rfl, rfl⟩ := h
      exact systemInv_of_no_spawn s _ _ rest _ hinv (Nat.le_succ _) rfl
        (fun e he => absurd he (List.not_mem_nil e))
  | InstanceExpiredNotification key mailbox =>
    simp only [Option.some.injEq, Prod.mk.injEq] at h
    obtain ⟨rfl, rfl⟩ := h
    exact systemInv_expired s key mailbox rest _ hinv (Nat.le_succ _)
  | Kill =>
    simp only [Option.some.injEq, Prod.mk.injEq] at h
    obtain ⟨rfl, rfl⟩ := h
    exact systemInv_of_no_spawn s _ _ rest _ hinv (Nat.le_succ _) rfl
      (no_spawn_of_map s.manager.registry (fun entry => (entry.2, Request.Kill)))
  | InstanceDiedNotification key =>
    simp only [Option.some.injEq, Prod.mk.injEq] at h
    obtain ⟨rfl, rfl⟩ := h
    exact systemInv_of_no_spawn s _ _ rest _ hinv (Nat.le_succ _) rfl
      (fun e he => absurd he (List.not_mem_nil e))

theorem systemInv_instanceStep (s : systemState) (i : Nat) (p : instanceProc) (ev : Event)
    (ls1 : loopState) (sent : List Effect) (pending : List Request)
    (mb : List ManagerRequest) (hinv : systemInv s) (hp : s.procs[i]? = some p)
    (hstep : loopStep p.ls ev = some (ls1, sent))
    (hpending : (∃ now, ev = Event.recv now Request.Kill)
      ∨ (Request.Kill ∈ p.pending → Request.Kill ∈ pending)) :
    systemInv { s with procs := s.procs.set i { ls := ls1, pending := pending },
                       managerMailbox := mb } := by
  obtain ⟨hk, hm, hlive, hkill⟩ := loopStep_identity p.ls ls1 ev sent hstep
  apply systemInv_of_set s i p _ mb hinv hp hk hm
  intro hq
  refine ⟨hlive hq, ?_⟩
  rcases hpending with ⟨now, hev⟩ | hpend
  · have := hkill now hev
    simp only at hq
    rw [this] at hq
    exact Bool.noConfusion hq
  · exact hpend

theorem systemStep_inv (compile : String → Option (String → Bool)) (s s1 : systemState)
    (ev : SystemEvent) (hinv : systemInv s) (h : systemStep compile s ev = some s1) :
    systemInv s1 := by
  cases ev with
  | client req =>
    simp only [systemStep, Option.some.injEq] at h
    rw [← h]
    exact hinv
  | configFile cfg =>
    unfold systemStep at h
    rcases Bool.eq_false_or_eq_true s.manager.returned with hr | hr
    · simp only [hr, if_true, Option.some.injEq] at h
      rw [← h]
      exact hinv
    · simp only [hr, Bool.false_eq_true, if_false, managerLoopStep_config compile s.manager cfg hr,
        Option.some.injEq] at h
      rw [← h]
      exact systemInv_of_no_spawn s _ _ _ _ hinv (Nat.le_refl _) rfl
        (no_spawn_of_map s.manager.registry (fun entry => (entry.2,
          Request.ConfigUpdateNotification
            (mergeConfigsForInstance compile entry.1 s.manager.globalConfig cfg))))
  | managerRecv now gathered =>
    unfold systemStep at h
    rcases Bool.eq_false_or_eq_true s.manager.returned with hr | hr
    · simp only [hr, if_true, Option.some.injEq] at h
      rw [← h]
      exact hinv
    · simp only [hr, Bool.false_eq_true, if_false] at h
      cases hmb : s.managerMailbox with
      | nil =>
        simp only [hmb, Option.some.injEq] at h
        rw [← h]
        exact hinv
      | cons req rest =>
        simp only [hmb] at h
        cases hstep : managerLoopStep compile s.manager
            (ManagerEvent.recv req now s.nextChan gathered) with
        | none =>
          rw [hstep] at h
          exact Option.noConfusion h
        | some res =>
          obtain ⟨m, effects⟩ := res
          rw [hstep] at h
          simp only [Option.some.injEq] at h
          rw [← h]
          exact systemInv_managerRecv compile s req rest now gathered m effects hinv hr hstep
  | instanceRecv i now =>
    unfold systemStep at h
    cases hp : s.procs[i]? with
    | none =>
      simp only [hp, Option.some.injEq] at h
      rw [← h]
      exact hinv
    | some p =>
      simp only [hp] at h
      rcases Bool.eq_false_or_eq_true p.ls.returned with hr | hr
      · simp only [hr, if_true, Option.some.injEq] at h
        rw [← h]
        exact hinv
      · simp only [hr, Bool.false_eq_true, if_false] at h
        cases hpend : p.pending with
        | nil =>
          simp only [hpend, Option.some.injEq] at h
          rw [← h]
          exact hinv
        | cons req rest =>
          simp only [hpend] at h
          cases hstep : loopStep p.ls (Event.recv now req) with
          | none =>
            rw [hstep] at h
            exact Option.noConfusion h
          | some res =>
            obtain ⟨ls1, sent⟩ := res
            rw [hstep] at h
            simp only [Option.some.injEq] at h
            rw [← h]
            apply systemInv_instanceStep s i p (Event.recv now req) ls1 sent rest _ hinv hp hstep
            by_cases hreq : req = Request.Kill
            · exact Or.inl ⟨now, by rw [hreq]⟩
            · right
              intro hk
              rw [hpend] at hk
              rcases List.mem_cons.mp hk with hk | hk
              · exact absurd hk.symm hreq
              · exact hk
  | instanceTick i tFlush tCheck =>
    unfold systemStep at h
    cases hp : s.procs[i]? with
    | none =>
      simp only [hp, Option.some.injEq] at h
      rw [← h]
      exact hinv
    | some p =>
      simp only [hp] at h
      rcases Bool.eq_false_or_eq_true p.ls.returned with hr | hr
      · simp only [hr, if_true, Option.some.injEq] at h
        rw [← h]
        exact hinv
      · simp only [hr, Bool.false_eq_true, if_false] at h
        cases hstep : loopStep p.ls (Event.tick tFlush tCheck) with
        | none =>
          rw [hstep] at h
          exact Option.noConfusion h
        | some res =>
          obtain ⟨ls1, sent⟩ := res
          rw [hstep] at h
          simp only [Option.some.injEq] at h
          rw [← h]
          exact systemInv_instanceStep s i p (Event.tick tFlush tCheck) ls1 sent p.pending _ hinv
            hp hstep (Or.inr (fun hk => hk))

theorem systemRun_inv (compile : String → Option (String → Bool)) :
    ∀ (evs : List SystemEvent) (s s1 : systemState),
      systemInv s → systemRun compile s evs = some s1 → systemInv s1 := by
  intro evs
  induction evs with
  | nil =>
    intro s s1 hinv h
    simp only [systemRun, Option.some.injEq] at h
    rw [← h]
    exact hinv
  | cons ev rest ih =>
    intro s s1 hinv h
    unfold systemRun at h
    cases hstep : systemStep compile s ev with
    | none =>
      rw [hstep] at h
      exact Option.noConfusion h
    | some s2 =>
      rw [hstep] at h
      exact ih s2 s1 (systemStep_inv compile s s2 ev hinv hstep) h

theorem systemInit_inv (globalConfig : Config) (configFromFile : Option CfgFromFile)
    (mailbox : Nat) : systemInv (systemInit globalConfig configFromFile mailbox) :=
  ⟨fun p hp => absurd hp (List.not_mem_nil p), List.nodup_nil,
    fun p hp => absurd hp (List.not_mem_nil p)⟩

/-- C20, refuted as stated: on the run `sampleHandshake` of a shard with a window of 10 ms
(a request creates the instance of `k`, the instance answers it, stays idle for more than
three windows and notifies its expiry, the shard deregisters it and sends `Kill`, a second
request for `k` is routed before the first instance has received its `Kill`) the final state
has two instances of key `k`, with the mailboxes 1 and 3, neither of which has
terminated. -/
theorem C20_counterexample :
    systemRun sampleCompile
        (systemInit { WindowMillis := 10, MaxRequestsPerWindow := 1, MaxRequestsInQueue := 0 }
          none 0)
        sampleHandshake
      = some sampleTwoLive
    ∧ sampleTwoLive.procs.map
        (fun p => (p.ls.state.key, p.ls.state.mailbox, p.ls.returned, p.pending))
      = [("k", 1, false, [Request.Kill]),
         ("k", 3, false, [Request.PermissionRequest (sampleRequest "b" false)])]
    ∧ ∃ p q, sampleTwoLive.procs[0]? = some p ∧ sampleTwoLive.procs[1]? = some q
        ∧ p.live ∧ q.live ∧ p.ls.state.key = q.ls.state.key
        ∧ p.ls.state.mailbox ≠ q.ls.state.mailbox :=
  ⟨by decide, by decide, _, _, rfl, rfl, rfl, rfl, rfl, by decide⟩

/-- C20, amended: in every state reached by a shard together with its instances from the
start of the shard, under any interleaving of messages sent to the shard, file snapshots,
shard steps, instance steps and ticks (the expiry, deregister, Kill, died handshake followed
by new requests for the same key included): every live instance (created, not yet
terminated) is the instance registered under its key or has a `Kill` waiting in its mailbox;
instance mailboxes are pairwise distinct; hence of two live instances for the same key at
least one has a `Kill` waiting in its mailbox, and at most one live instance per key has
none. -/
theorem C20_live_instances (compile : String → Option (String → Bool)) (globalConfig : Config)
    (configFromFile : Option CfgFromFile) (mailbox : Nat) (evs : List SystemEvent)
    (s : systemState)
    (hrun : systemRun compile (systemInit globalConfig configFromFile mailbox) evs = some s) :
    (∀ p ∈ s.procs, p.live →
      mapGet s.manager.registry p.ls.state.key = some p.ls.state.mailbox
      ∨ Request.Kill ∈ p.pending)
    ∧ (∀ (i j : Nat) (p q : instanceProc), s.procs[i]? = some p → s.procs[j]? = some q →
        p.ls.state.mailbox = q.ls.state.mailbox → i = j)
    ∧ (∀ (i j : Nat) (p q : instanceProc), i ≠ j →
        s.procs[i]? = some p → s.procs[j]? = some q → p.live → q.live →
        p.ls.state.key = q.ls.state.key →
        Request.Kill ∈ p.pending ∨ Request.Kill ∈ q.pending)
    ∧ (∀ (i j : Nat) (p q : instanceProc),
        s.procs[i]? = some p → s.procs[j]? = some q → p.live → q.live →
        p.ls.state.key = q.ls.state.key →
        Request.Kill ∉ p.pending → Request.Kill ∉ q.pending → i = j) := by
  obtain ⟨_, hb, hc⟩ := systemRun_inv compile evs _ s
    (systemInit_inv globalConfig configFromFile mailbox) hrun
  have hdistinct : ∀ (i j : Nat) (p q : instanceProc), s.procs[i]? = some p →
      s.procs[j]? = some q → p.ls.state.mailbox = q.ls.state.mailbox → i = j := by
    intro i j p q hp hq hm
    have hi : i < (s.procs.map (fun p => p.ls.state.mailbox)).length := by
      rw [List.length_map]
      exact (List.getElem?_eq_some.mp hp).1
    apply List.getElem?_inj hi hb
    rw [List.getElem?_map, List.getElem?_map, hp, hq]
    simp only [Option.map_some', hm]
  have hpair : ∀ (i j : Nat) (p q : instanceProc),
      s.procs[i]? = some p → s.procs[j]? = some q → p.live → q.live →
      p.ls.state.key = q.ls.state.key →
      Request.Kill ∉ p.pending → Request.Kill ∉ q.pending → i = j := by
    intro i j p q hp hq hpl hql hkey hpk hqk
    rcases hc p (List.getElem?_mem hp) hpl with h1 | h1
    · rcases hc q (List.getElem?_mem hq) hql with h2 | h2
      · rw [hkey, h2] at h1
        exact hdistinct i j p q hp hq (Option.some.inj h1).symm
      · exact absurd h2 hqk
    · exact absurd h1 hpk
  refine ⟨hc, hdistinct, ?_, hpair⟩
  intro i j p q hij hp hq hpl hql hkey
  by_contra hnot
  rw [not_or] at hnot
  exact hij (hpair i j p q hp hq hpl hql hkey hnot.1 hnot.2)

/-- C20 (amended) on the run `sampleHandshake`: of the two live instances of `k` the first
one, deregistered, has its `Kill` waiting; the second one is the registered instance. -/
theorem C20_live_instances_witness :
    systemRun sampleCompile
        (systemInit { WindowMillis := 10, MaxRequestsPerWindow := 1, MaxRequestsInQueue := 0 }
          none 0)
        sampleHandshake
      = some sampleTwoLive
    ∧ mapGet sampleTwoLive.manager.registry "k" = some 3
    ∧ ∀ (p q : instanceProc), sampleTwoLive.procs[0]? = some p →
        sampleTwoLive.procs[1]? = some q →
        Request.Kill ∈ p.pending ∨ Request.Kill ∈ q.pending := by
  refine ⟨by decide, by decide, ?_⟩
  intro p q hp hq
  have hp0 := hp
  have hq0 := hq
  simp only [sampleTwoLive, List.getElem?_cons_zero, List.getElem?_cons_succ,
    Option.some.injEq] at hp0 hq0
  exact (C20_live_instances sampleCompile
    { WindowMillis := 10, MaxRequestsPerWindow := 1, MaxRequestsInQueue := 0 } none 0
    sampleHandshake sampleTwoLive (by decide)).2.2.1 0 1 p q (by decide) hp hq
    (by rw [← hp0]; rfl) (by rw [← hq0]; rfl) (by rw [← hp0, ← hq0])

/-! ## Debug snapshots and the full window -/

/-- C25: a running instance handling a DebugSnapshot request, in any state and whatever key
the request names, sends exactly one message, on the response channel of the request: the
snapshot with the instance's key, a copy of its current config, its two counters, the
length of its wait queue and `Found = true`; the instance state (config, counters, wait
queue, `timeLastUsed` and everything else) is unchanged. -/
theorem C25_debug_snapshot (ls : loopState) (now : Int) (key : String) (respChan : Nat)
    (hrun : ls.returned = false) :
    loopStep ls (Event.recv now (Request.DebugSnapshotRequest key respChan))
      = some (ls,
          [Effect.DebugSnapshot respChan
            { Key := ls.state.key
              Config := ls.state.config
              NumApprovedThisWindow := ls.state.nApprovedThisWindow
              NumDeniedThisWindow := ls.state.nDeniedThisWindow
              NumWaiting := (ls.state.throttled.length : Int)
              Found := true }]) := by
  rw [loopStep_debug ls now key respChan hrun]
  rfl

/-- C25 at a concrete state: limit 2, queue bound 5, one approval, two waiters. -/
theorem C25_debug_snapshot_witness :
    (sampleInstance 2 5 1 [sampleRequest "a" true, sampleRequest "b" true]).returned = false
    ∧ loopStep (sampleInstance 2 5 1 [sampleRequest "a" true, sampleRequest "b" true])
        (Event.recv 7 (Request.DebugSnapshotRequest "other" 9))
      = some (sampleInstance 2 5 1 [sampleRequest "a" true, sampleRequest "b" true],
          [Effect.DebugSnapshot 9
            { Key := "k"
              Config :=
                { WindowMillis := 1000, MaxRequestsPerWindow := 2, MaxRequestsInQueue := 5 }
              NumApprovedThisWindow := 1
              NumDeniedThisWindow := 0
              NumWaiting := 2
              Found := true }]) :=
  ⟨rfl, C25_debug_snapshot
    (sampleInstance 2 5 1 [sampleRequest "a" true, sampleRequest "b" true]) 7 "other" 9 rfl⟩

/-- C26: for every running instance whose config has `MaxRequestsInQueue = 0` and whose
window is full (`nApprovedThisWindow >= MaxRequestsPerWindow`), and every PermissionRequest
with `NoChange` overrides: handled with `CanWait = true` and handled with `CanWait = false`
the request gets the same reply, `Denied`, and the instance ends in the same state: only
`timeLastUsed` is set and `nDeniedThisWindow` is incremented; nothing is queued. -/
theorem C26_zero_queue_can_wait (ls : loopState) (now : Int) (r : PermissionRequest)
    (hrun : ls.returned = false) (hq : ls.state.config.MaxRequestsInQueue = 0)
    (hfull : ls.state.nApprovedThisWindow ≥ ls.state.config.MaxRequestsPerWindow)
    (hm : r.MaxRequests = NoChange) (hmq : r.MaxRequestsInQueue = NoChange) :
    loopStep ls (Event.recv now (Request.PermissionRequest { r with CanWait := true }))
      = some ({ ls with state := { ls.state with
                  timeLastUsed := now
                  nDeniedThisWindow := ls.state.nDeniedThisWindow + 1 } },
          [Effect.PermissionResponse { r with CanWait := true } ExtRespCode.Denied])
    ∧ loopStep ls (Event.recv now (Request.PermissionRequest { r with CanWait := false }))
      = some ({ ls with state := { ls.state with
                  timeLastUsed := now
                  nDeniedThisWindow := ls.state.nDeniedThisWindow + 1 } },
          [Effect.PermissionResponse { r with CanWait := false } ExtRespCode.Denied]) := by
  have hcfg : ∀ c : Bool, overrideConfig ls.state.config { r with CanWait := c }
      = ls.state.config := by
    intro c
    obtain ⟨w, m, q⟩ := ls.state.config
    simp only [overrideConfig, hm, hmq, if_true]
  have hlen : ¬ ((ls.state.throttled.length : Int) < ls.state.config.MaxRequestsInQueue) := by
    rw [hq]
    omega
  constructor
  · rw [loopStep_permission ls now _ hrun, handlePermissionRequest_eq, hcfg true,
      if_neg (by omega), if_neg (fun h => hlen h.2)]
    rfl
  · rw [loopStep_permission ls now _ hrun, handlePermissionRequest_eq, hcfg false,
      if_neg (by omega), if_neg (fun h => Bool.noConfusion h.1)]
    rfl

/-- C26 at a concrete state: limit 1 already used, no queue. -/
theorem C26_zero_queue_can_wait_witness :
    (sampleInstance 1 0 1 []).returned = false
    ∧ (sampleInstance 1 0 1 []).state.config.MaxRequestsInQueue = 0
    ∧ loopStep (sampleInstance 1 0 1 [])
        (Event.recv 3 (Request.PermissionRequest (sampleRequest "a" true)))
      = some ({ sampleInstance 1 0 1 [] with state := { (sampleInstance 1 0 1 []).state with
                  timeLastUsed := 3
                  nDeniedThisWindow := 1 } },
          [Effect.PermissionResponse (sampleRequest "a" true) ExtRespCode.Denied])
    ∧ loopStep (sampleInstance 1 0 1 [])
        (Event.recv 3 (Request.PermissionRequest (sampleRequest "a" false)))
      = some ({ sampleInstance 1 0 1 [] with state := { (sampleInstance 1 0 1 []).state with
                  timeLastUsed := 3
                  nDeniedThisWindow := 1 } },
          [Effect.PermissionResponse (sampleRequest "a" false) ExtRespCode.Denied]) :=
  ⟨rfl, rfl,
    (C26_zero_queue_can_wait (sampleInstance 1 0 1 []) 3 (sampleRequest "a" true) rfl rfl
      (by decide) rfl rfl).1,
    (C26_zero_queue_can_wait (sampleInstance 1 0 1 []) 3 (sampleRequest "a" true) rfl rfl
      (by decide) rfl rfl).2⟩

/-! ## Bursts on a fresh instance -/

/-- A burst of requests with one `CanWait` flag and no overrides on a freshly created
instance, followed by a debug snapshot. -/
theorem fresh_burst (key : String) (config : Config) (parent mailbox : Nat)
    (t0 : Int) (ls0 : loopState) (c : Bool) (reqs : List (Int × PermissionRequest))
    (tSnap : Int) (respChan : Nat) (a w : Nat)
    (hnew : New key config parent mailbox t0 = some ls0)
    (hreqs : ∀ p ∈ reqs, p.2.CanWait = c ∧ p.2.MaxRequests = NoChange
      ∧ p.2.MaxRequestsInQueue = NoChange)
    (ha : a = min reqs.length config.MaxRequestsPerWindow.toNat)
    (hw : w = if c = true then min (reqs.length - a) config.MaxRequestsInQueue.toNat else 0) :
    ∃ ls1,
      loop ls0 (permissionEvents reqs
          ++ [Event.recv tSnap (Request.DebugSnapshotRequest key respChan)])
        = some (ls1,
            (reqs.take a).map (fun p => Effect.PermissionResponse p.2 ExtRespCode.Approved)
            ++ (reqs.drop (a + w)).map (fun p => Effect.PermissionResponse p.2 ExtRespCode.Denied)
            ++ [Effect.DebugSnapshot respChan {
                  Key := key
                  Config := config
                  NumApprovedThisWindow := (a : Int)
                  NumDeniedThisWindow := ((reqs.length - a - w : Nat) : Int)
                  NumWaiting := (w : Int)
                  Found := true }])
      ∧ ls1.state.throttled = ((reqs.drop a).take w).map (fun p => p.2)
      ∧ ls1.state.nApprovedThisWindow = (a : Int) := by
  unfold New at hnew
  split_ifs at hnew
  simp only [Option.some.injEq] at hnew
  have e1 : ls0.returned = false := by rw [← hnew]
  have e2 : ls0.state.config = config := by rw [← hnew]
  have e3 : ls0.state.key = key := by rw [← hnew]
  have e4 : ls0.state.nApprovedThisWindow = 0 := by rw [← hnew]
  have e5 : ls0.state.nDeniedThisWindow = 0 := by rw [← hnew]
  have e6 : ls0.state.throttled = [] := by rw [← hnew]
  obtain ⟨ls1, hl, hr1, hc1, hk1, hn1, ht1, hd1⟩ := loop_burst c reqs ls0 a w e1 hreqs
    (by rw [e2, e4, sub_zero]; exact ha)
    (by intro hct; rw [hw, if_pos hct, e2, e6]; simp)
    (by intro hcf; rw [hw, hcf]; simp)
  rw [e2] at hc1
  rw [e3] at hk1
  rw [e4, zero_add] at hn1
  rw [e5, zero_add] at hd1
  rw [e6, List.nil_append] at ht1
  refine ⟨ls1, ?_, ht1, hn1⟩
  rw [loop_append, hl]
  simp only [loop_cons, loop, loopStep_debug ls1 tSnap key respChan hr1,
    handleDebugSnapshotRequest, List.append_nil, hc1, hk1, hn1, hd1, ht1, List.length_map,
    List.length_take, List.length_drop]
  have hlen : min w (reqs.length - a) = w := by
    rw [hw]; split_ifs <;> omega
  rw [hlen]

theorem sampleBurst_length (n : Nat) : (sampleBurst n).length = n := by
  simp [sampleBurst]

theorem sampleBurst_can_wait (n : Nat) : ∀ p ∈ sampleBurst n,
    p.2.CanWait = true ∧ p.2.MaxRequests = NoChange ∧ p.2.MaxRequestsInQueue = NoChange := by
  intro p hp
  obtain ⟨i, _, rfl⟩ := List.mem_map.mp hp
  exact ⟨rfl, rfl, rfl⟩

/-- C27, refuted as stated: a freshly created instance with config
`{WindowMillis = 10000, MaxRequestsPerWindow = 1, MaxRequestsInQueue = 100}` that has handled
the 1001 requests of `sampleBurst 1001` (all with `CanWait = true` and `NoChange` overrides,
no tick in between) holds 100 waiters, not 1000: its snapshot shows one approval, 100
waiting and 900 denied. -/
theorem C27_counterexample :
    New "k" { WindowMillis := 10000, MaxRequestsPerWindow := 1, MaxRequestsInQueue := 100 } 2 1 0
      = some (sampleFresh
          { WindowMillis := 10000, MaxRequestsPerWindow := 1, MaxRequestsInQueue := 100 })
    ∧ (sampleBurst 1001).length = 1001
    ∧ ∃ ls1 replies,
        loop (sampleFresh
            { WindowMillis := 10000, MaxRequestsPerWindow := 1, MaxRequestsInQueue := 100 })
          (permissionEvents (sampleBurst 1001)
            ++ [Event.recv 2000 (Request.DebugSnapshotRequest "k" 9)])
          = some (ls1, replies ++ [Effect.DebugSnapshot 9 {
                  Key := "k"
                  Config :=
                    { WindowMillis := 10000, MaxRequestsPerWindow := 1,
                      MaxRequestsInQueue := 100 }
                  NumApprovedThisWindow := 1
                  NumDeniedThisWindow := 900
                  NumWaiting := 100
                  Found := true }])
        ∧ ls1.state.throttled.length = 100
        ∧ (100 : Int) ≠ 1000 := by
  have hnew : New "k"
      { WindowMillis := 10000, MaxRequestsPerWindow := 1, MaxRequestsInQueue := 100 } 2 1 0
      = some (sampleFresh
          { WindowMillis := 10000, MaxRequestsPerWindow := 1, MaxRequestsInQueue := 100 }) := by
    decide
  obtain ⟨ls1, h1, h2, _⟩ := fresh_burst "k"
    { WindowMillis := 10000, MaxRequestsPerWindow := 1, MaxRequestsInQueue := 100 } 2 1 0
    (sampleFresh { WindowMillis := 10000, MaxRequestsPerWindow := 1, MaxRequestsInQueue := 100 })
    true (sampleBurst 1001) 2000 9 1 100 hnew (sampleBurst_can_wait 1001)
    (by rw [sampleBurst_length]; decide) (by rw [sampleBurst_length]; decide)
  refine ⟨hnew, sampleBurst_length 1001, ls1,
    ((sampleBurst 1001).take 1).map
        (fun p => Effect.PermissionResponse p.2 ExtRespCode.Approved)
      ++ ((sampleBurst 1001).drop (1 + 100)).map
        (fun p => Effect.PermissionResponse p.2 ExtRespCode.Denied), ?_, ?_, by decide⟩
  · rw [h1, sampleBurst_length]
    rfl
  · rw [h2]
    simp [sampleBurst_length]

/-- C27, amended: for a freshly created instance with config `{WindowMillis = 10000,
MaxRequestsPerWindow = 1, MaxRequestsInQueue = q}`, after 1001 PermissionRequests with
`CanWait = true` and `NoChange` overrides have been handled within one window (no tick in
between), exactly one request, the first, has been approved, `NumWaiting` is `min(1000, q)`
and the other `1000 - min(1000, q)` requests have been denied.  With `q = 1000`, the config
of `TestNew_approves_can_queue_a_lot`, `NumWaiting` is 1000 and nothing is denied. -/
theorem C27_queue_a_lot (key : String) (q : Int) (parent mailbox : Nat) (t0 : Int)
    (ls0 : loopState) (reqs : List (Int × PermissionRequest)) (tSnap : Int) (respChan : Nat)
    (hnew : New key
      { WindowMillis := 10000, MaxRequestsPerWindow := 1, MaxRequestsInQueue := q }
      parent mailbox t0 = some ls0)
    (hlen : reqs.length = 1001)
    (hreqs : ∀ p ∈ reqs, p.2.CanWait = true ∧ p.2.MaxRequests = NoChange
      ∧ p.2.MaxRequestsInQueue = NoChange) :
    ∃ ls1,
      loop ls0 (permissionEvents reqs
          ++ [Event.recv tSnap (Request.DebugSnapshotRequest key respChan)])
        = some (ls1,
            (reqs.take 1).map (fun p => Effect.PermissionResponse p.2 ExtRespCode.Approved)
            ++ (reqs.drop (1 + min 1000 q.toNat)).map
                (fun p => Effect.PermissionResponse p.2 ExtRespCode.Denied)
            ++ [Effect.DebugSnapshot respChan {
                  Key := key
                  Config :=
                    { WindowMillis := 10000, MaxRequestsPerWindow := 1, MaxRequestsInQueue := q }
                  NumApprovedThisWindow := 1
                  NumDeniedThisWindow := ((1000 - min 1000 q.toNat : Nat) : Int)
                  NumWaiting := ((min 1000 q.toNat : Nat) : Int)
                  Found := true }])
      ∧ ls1.state.throttled = ((reqs.drop 1).take (min 1000 q.toNat)).map (fun p => p.2)
      ∧ ls1.state.throttled.length = min 1000 q.toNat
      ∧ ls1.state.nApprovedThisWindow = 1
      ∧ (q = 1000 → ls1.state.throttled.length = 1000) := by
  obtain ⟨ls1, h1, h2, h3⟩ := fresh_burst key
    { WindowMillis := 10000, MaxRequestsPerWindow := 1, MaxRequestsInQueue := q }
    parent mailbox t0 ls0 true reqs tSnap respChan 1 (min 1000 q.toNat) hnew hreqs
    (by simp [hlen]) (by simp [hlen])
  have hl : ls1.state.throttled.length = min 1000 q.toNat := by
    rw [h2]
    simp only [List.length_map, List.length_take, List.length_drop, hlen]
    omega
  refine ⟨ls1, ?_, h2, hl, ?_, ?_⟩
  · rw [h1, hlen]
    have e : 1001 - 1 - min 1000 q.toNat = 1000 - min 1000 q.toNat := by omega
    rw [e]
    rfl
  · rw [h3]
    rfl
  · intro hq
    rw [hl, hq]
    decide

/-- C27 (amended) on the burst `sampleBurst 1001` with the queue bound 1000 of the test. -/
theorem C27_queue_a_lot_witness :
    New "k" { WindowMillis := 10000, MaxRequestsPerWindow := 1, MaxRequestsInQueue := 1000 } 2 1 0
      = some (sampleFresh
          { WindowMillis := 10000, MaxRequestsPerWindow := 1, MaxRequestsInQueue := 1000 })
    ∧ (sampleBurst 1001).length = 1001
    ∧ ∃ ls1 replies,
        loop (sampleFresh
            { WindowMillis := 10000, MaxRequestsPerWindow := 1, MaxRequestsInQueue := 1000 })
          (permissionEvents (sampleBurst 1001)
            ++ [Event.recv 2000 (Request.DebugSnapshotRequest "k" 9)])
          = some (ls1, replies ++ [Effect.DebugSnapshot 9 {
                  Key := "k"
                  Config :=
                    { WindowMillis := 10000, MaxRequestsPerWindow := 1,
                      MaxRequestsInQueue := 1000 }
                  NumApprovedThisWindow := 1
                  NumDeniedThisWindow := 0
                  NumWaiting := 1000
                  Found := true }])
        ∧ ls1.state.throttled.length = 1000 := by
  have hnew : New "k"
      { WindowMillis := 10000, MaxRequestsPerWindow := 1, MaxRequestsInQueue := 1000 } 2 1 0
      = some (sampleFresh
          { WindowMillis := 10000, MaxRequestsPerWindow := 1, MaxRequestsInQueue := 1000 }) := by
    decide
  obtain ⟨ls1, h1, _, _, _, h5⟩ := C27_queue_a_lot "k" 1000 2 1 0
    (sampleFresh { WindowMillis := 10000, MaxRequestsPerWindow := 1, MaxRequestsInQueue := 1000 })
    (sampleBurst 1001) 2000 9 hnew (sampleBurst_length 1001) (sampleBurst_can_wait 1001)
  exact ⟨hnew, sampleBurst_length 1001, ls1, _, h1, h5 rfl⟩

/-! ## The slice helpers cannot panic inside the loop -/

theorem FindIndexOf_found {α : Type} (p : α → Bool) (l : List α) (idx : Int)
    (h : FindIndexOf l p = (idx, true)) :
    ∃ j : Nat, idx = (j : Int) ∧ j < l.length := by
  unfold FindIndexOf at h
  rcases FindIndexOf_scan_spec p l 0 with ⟨j, hj, hs, _⟩ | ⟨hs, _⟩
  · rw [hs] at h
    simp only [Prod.mk.injEq, and_true] at h
    exact ⟨j, by rw [← h]; simp, hj⟩
  · rw [hs] at h
    simp only [Prod.mk.injEq] at h
    exact Bool.noConfusion h.2

theorem loopStep_tick_kill_gaveUp_isSome (ls : loopState) (ev : Event)
    (h : (∃ tFlush tCheck, ev = Event.tick tFlush tCheck)
      ∨ (∃ now, ev = Event.recv now Request.Kill)
      ∨ (∃ now orig, ev = Event.recv now (Request.ClientGaveUpNotification orig))) :
    ∃ res, loopStep ls ev = some res := by
  apply (fun hs => by obtain ⟨ls1, sent, hx⟩ := hs; exact ⟨(ls1, sent), hx⟩ :
    (∃ ls1 sent, loopStep ls ev = some (ls1, sent)) → ∃ res, loopStep ls ev = some res)
  apply loopStep_isSome
  intro now cfg hev
  rcases h with ⟨a, b, rfl⟩ | ⟨a, rfl⟩ | ⟨a, b, rfl⟩
  · exact Event.noConfusion hev
  · simp only [Event.recv.injEq] at hev
    exact Request.noConfusion hev.2
  · simp only [Event.recv.injEq] at hev
    exact Request.noConfusion hev.2

/-- C30: the panics of the slice helpers are unreachable from the instance loop.  (1) For
every instance state and every `nMax` (the limit at a tick, zero or negative included, or the
queue length at Kill), `flushQueued` returns, and when it calls `discardFirstItems` its
argument `numToFlush` satisfies `0 <= numToFlush <= len(queue)`.  (2) For every instance
state and every ClientGaveUp, the handler returns, and when it calls `discardItemAt` the
index found by `FindIndexOf` satisfies `0 <= idx < len(queue)`.  (3) Hence every tick, Kill
and ClientGaveUp iteration of the loop returns, in every state.  (4) Outside those
preconditions the helpers panic.  (5) Inside them `discardFirstItems(s, n)` is `s` without
its first `n` elements and `discardItemAt(s, i)` is `s` without its element at index `i`,
order preserved. -/
theorem C30_slice_helpers_never_panic :
    (∀ (st : internalState) (now nMax : Int),
      (∃ res, flushQueued st now nMax = some res)
      ∧ (min nMax (st.throttled.length : Int) > 0 →
          0 ≤ min (st.throttled.length : Int) (min nMax (st.throttled.length : Int))
          ∧ min (st.throttled.length : Int) (min nMax (st.throttled.length : Int))
              ≤ (st.throttled.length : Int)
          ∧ discardFirstItems st.throttled
              (min (st.throttled.length : Int) (min nMax (st.throttled.length : Int)))
            = some (st.throttled.drop
                (min (st.throttled.length : Int) (min nMax (st.throttled.length : Int))).toNat)))
    ∧ (∀ (ls : loopState) (orig : PermissionRequest),
        (∃ res, loopClientGaveUp ls orig = some res)
        ∧ ∀ idx, FindIndexOf ls.state.throttled (fun item => item.ReqID == orig.ReqID)
            = (idx, true) →
          0 ≤ idx ∧ idx < (ls.state.throttled.length : Int)
          ∧ discardItemAt ls.state.throttled idx
            = some (ls.state.throttled.eraseIdx idx.toNat))
    ∧ (∀ (ls : loopState) (tFlush tCheck : Int),
        ∃ res, loopStep ls (Event.tick tFlush tCheck) = some res)
    ∧ (∀ (ls : loopState) (now : Int), ∃ res, loopStep ls (Event.recv now Request.Kill) = some res)
    ∧ (∀ (ls : loopState) (now : Int) (orig : PermissionRequest),
        ∃ res, loopStep ls (Event.recv now (Request.ClientGaveUpNotification orig)) = some res)
    ∧ (∀ (slice : List PermissionRequest) (n : Int),
        n < 0 ∨ n > (slice.length : Int) → discardFirstItems slice n = none)
    ∧ (∀ (slice : List PermissionRequest) (i : Int),
        i < 0 ∨ i ≥ (slice.length : Int) → discardItemAt slice i = none)
    ∧ (∀ (slice : List PermissionRequest) (n : Int), 0 ≤ n → n ≤ (slice.length : Int) →
        discardFirstItems slice n = some (slice.drop n.toNat))
    ∧ (∀ (slice : List PermissionRequest) (i : Int), 0 ≤ i → i < (slice.length : Int) →
        discardItemAt slice i = some (slice.eraseIdx i.toNat)) := by
  have hitem : ∀ (slice : List PermissionRequest) (i : Int), 0 ≤ i → i < (slice.length : Int) →
      discardItemAt slice i = some (slice.eraseIdx i.toNat) := by
    intro slice i h0 h1
    have hi : ((i.toNat : Nat) : Int) = i := Int.toNat_of_nonneg h0
    have hat := discardItemAt_eq slice i.toNat (by omega)
    rw [hi] at hat
    exact hat
  refine ⟨?_, ?_, ?_, ?_, ?_, ?_, ?_, ?_, hitem⟩
  · intro st now nMax
    refine ⟨⟨_, flushQueued_eq st now nMax⟩, ?_⟩
    intro hpos
    refine ⟨by omega, by omega, ?_⟩
    exact discardFirstItems_eq _ _ (by omega) (by omega)
  · intro ls orig
    refine ⟨⟨_, loopClientGaveUp_eq ls orig⟩, ?_⟩
    intro idx hfound
    obtain ⟨j, hj, hlt⟩ := FindIndexOf_found _ _ idx hfound
    exact ⟨by omega, by omega, hitem _ idx (by omega) (by omega)⟩
  · intro ls tFlush tCheck
    exact loopStep_tick_kill_gaveUp_isSome ls _ (Or.inl ⟨tFlush, tCheck, rfl⟩)
  · intro ls now
    exact loopStep_tick_kill_gaveUp_isSome ls _ (Or.inr (Or.inl ⟨now, rfl⟩))
  · intro ls now orig
    exact loopStep_tick_kill_gaveUp_isSome ls _ (Or.inr (Or.inr ⟨now, orig, rfl⟩))
  · intro slice n h
    unfold discardFirstItems
    rcases h with h | h
    · rw [if_neg (by omega), if_pos h]
    · rw [if_neg (by omega), if_neg (by omega), if_pos h]
  · intro slice i h
    unfold discardItemAt
    rcases h with h | h
    · rw [if_pos h]
    · rw [if_neg (by omega), if_pos h]
  · intro slice n h0 h1
    exact discardFirstItems_eq slice n h0 h1

/-- C30 at concrete values: a tick with the negative limit `-3` left by an override, a Kill
and a ClientGaveUp on a queue of three waiters return; the helpers drop the first two and
the middle element and panic on `-1` and on an index past the end. -/
theorem C30_slice_helpers_never_panic_witness :
    loopStep (sampleInstance (-3) 5 0
          [sampleRequest "a" true, sampleRequest "b" true, sampleRequest "c" true])
        (Event.tick 5 5)
      = some (sampleInstance (-3) 5 0
          [sampleRequest "a" true, sampleRequest "b" true, sampleRequest "c" true], [])
    ∧ (∃ res, loopStep (sampleInstance (-3) 5 0
          [sampleRequest "a" true, sampleRequest "b" true, sampleRequest "c" true])
        (Event.recv 6 Request.Kill) = some res)
    ∧ discardFirstItems [sampleRequest "a" true, sampleRequest "b" true, sampleRequest "c" true] 2
      = some [sampleRequest "c" true]
    ∧ discardItemAt [sampleRequest "a" true, sampleRequest "b" true, sampleRequest "c" true] 1
      = some [sampleRequest "a" true, sampleRequest "c" true]
    ∧ discardFirstItems [sampleRequest "a" true] (-1) = none
    ∧ discardItemAt [sampleRequest "a" true] 1 = none :=
  ⟨by decide,
    C30_slice_helpers_never_panic.2.2.2.1 _ 6,
    by decide, by decide,
    C30_slice_helpers_never_panic.2.2.2.2.2.1 [sampleRequest "a" true] (-1) (Or.inl (by decide)),
    C30_slice_helpers_never_panic.2.2.2.2.2.2.1 [sampleRequest "a" true] 1
      (Or.inr (by decide))⟩

/-! ## The shard of a key -/

theorem Write_eq_foldl : ∀ (data : List Nat) (h : Nat),
    sum32a.Write h data = data.foldl (fun h b => ((h ^^^ b) * 16777619) % 2 ^ 32) h := by
  intro data
  induction data with
  | nil => intro h; rfl
  | cons c rest ih =>
    intro h
    unfold sum32a.Write
    rw [List.foldl_cons, ih]
    rfl

theorem Write_lt : ∀ (data : List Nat) (h : Nat), h < 2 ^ 32 → sum32a.Write h data < 2 ^ 32 := by
  intro data
  induction data with
  | nil => intro h hh; exact hh
  | cons c rest ih =>
    intro h _
    unfold sum32a.Write
    exact ih _ (Nat.mod_lt _ (by decide))

theorem hash_lt (s : String) : hash s < 2 ^ 32 :=
  Write_lt _ _ (by decide)

theorem GetShardIndex_eq (mgr : LimiterManagerSet) (key : String)
    (hn : 1 ≤ mgr.mailboxes.length) :
    GetShardIndex mgr key = some ((hash key % mgr.mailboxes.length : Nat) : Int) := by
  unfold GetShardIndex
  rw [if_neg (by omega)]
  have hlt := hash_lt key
  have hwrap : wrapInt64 (hash key : Int) = (hash key : Int) :=
    wrapInt64_of_range _ (by omega) (by omega)
  rw [hwrap, Int.tmod_eq_emod (by omega) (by omega)]
  rfl

theorem NewManagerSet_length (sharding : Int) (fresh : Nat) (mgr : LimiterManagerSet)
    (h : NewManagerSet sharding fresh = some mgr) :
    (mgr.mailboxes.length : Int) = sharding ∧ 1 ≤ mgr.mailboxes.length
    ∧ mgr.mailboxes.length ≤ 100 := by
  unfold NewManagerSet at h
  split_ifs at h with h1 h2
  simp only [Option.some.injEq] at h
  rw [← h]
  simp only [List.length_map, List.length_range]
  omega

/-- C22: for every key and every manager set with `n` shards, `1 <= n`, in particular every
set made by `NewManagerSet` (which has `1 <= n <= 100` shards): `GetShardIndex(key)` returns
the 32-bit FNV-1a hash of the key's UTF-8 bytes (offset basis 2166136261, then for each byte
xor followed by multiplication by 16777619 modulo `2 ^ 32`) taken modulo `n`; two sets with
the same number of shards give the same index; the index satisfies `0 <= index < n`, and
`getShardMailbox` returns the mailbox at that index without going out of bounds. -/
theorem C22_shard_index :
    (∀ (mgr : LimiterManagerSet) (key : String), 1 ≤ mgr.mailboxes.length →
      hash key = fnv1a32 (bytesOf key)
      ∧ GetShardIndex mgr key
          = some ((fnv1a32 (bytesOf key) % mgr.mailboxes.length : Nat) : Int)
      ∧ (∀ mgr1 : LimiterManagerSet, mgr1.mailboxes.length = mgr.mailboxes.length →
          GetShardIndex mgr1 key = GetShardIndex mgr key)
      ∧ (∃ index : Int, GetShardIndex mgr key = some index ∧ 0 ≤ index
          ∧ index < (mgr.mailboxes.length : Int)
          ∧ ∃ mailbox, getShardMailbox mgr key = some mailbox
              ∧ mgr.mailboxes[index.toNat]? = some mailbox))
    ∧ (∀ (sharding : Int) (fresh : Nat) (mgr : LimiterManagerSet),
        NewManagerSet sharding fresh = some mgr →
        (mgr.mailboxes.length : Int) = sharding ∧ 1 ≤ mgr.mailboxes.length
        ∧ mgr.mailboxes.length ≤ 100)
    ∧ (∀ (sharding : Int) (fresh : Nat), 1 ≤ sharding → sharding ≤ 100 →
        ∃ mgr, NewManagerSet sharding fresh = some mgr) := by
  refine ⟨?_, NewManagerSet_length, ?_⟩
  · intro mgr key hn
    have hspec : hash key = fnv1a32 (bytesOf key) := Write_eq_foldl _ _
    have hidx := GetShardIndex_eq mgr key hn
    have hmod : hash key % mgr.mailboxes.length < mgr.mailboxes.length :=
      Nat.mod_lt _ (by omega)
    refine ⟨hspec, by rw [hidx, hspec], ?_, ?_⟩
    · intro mgr1 hlen
      rw [hidx, GetShardIndex_eq mgr1 key (by omega), hlen]
    · refine ⟨_, hidx, by omega, by omega, mgr.mailboxes[hash key % mgr.mailboxes.length], ?_, ?_⟩
      · unfold getShardMailbox
        rw [hidx]
        simp only [Int.toNat_ofNat]
        rw [if_neg (by omega)]
        exact List.getElem?_eq_getElem hmod
      · simp only [Int.toNat_ofNat]
        exact List.getElem?_eq_getElem hmod
  · intro sharding fresh h1 h2
    unfold NewManagerSet
    rw [if_neg (by omega), if_neg (by omega)]
    exact ⟨_, rfl⟩

/-- C22 on the default set of 25 shards: the key `a` has the hash `0xe40c292c` and goes to
shard 20, the mailbox at index 20; the key `key-0` goes to shard 7. -/
theorem C22_shard_index_witness :
    NewManagerSet 25 10
      = some { reqIdGen := 0, mailboxes := (List.range 25).map (fun i => 10 + i) }
    ∧ hash "a" = 3826002220
    ∧ GetShardIndex { reqIdGen := 0, mailboxes := (List.range 25).map (fun i => 10 + i) } "a"
      = some 20
    ∧ getShardMailbox { reqIdGen := 0, mailboxes := (List.range 25).map (fun i => 10 + i) } "a"
      = some 30
    ∧ GetShardIndex { reqIdGen := 0, mailboxes := (List.range 25).map (fun i => 10 + i) }
        "key-0" = some 7
    ∧ GetShardIndex { reqIdGen := 0, mailboxes := (List.range 25).map (fun i => 10 + i) } "a"
      = some ((fnv1a32 (bytesOf "a") % 25 : Nat) : Int) :=
  ⟨by decide, by decide, by decide, by decide, by decide,
    (C22_shard_index.1 { reqIdGen := 0, mailboxes := (List.range 25).map (fun i => 10 + i) }
      "a" (by decide)).2.1⟩

/-! ## Combining the snapshots of the shards -/

theorem range_none_of_mem : ∀ (rest : List (Option DebugSnapshotAll))
    (combined : Option DebugSnapshotAll), none ∈ rest →
    GetDebugSnapshotsAll.range combined rest = none := by
  intro rest
  induction rest with
  | nil => intro _ h; cases h
  | cons snap rest ih =>
    intro combined h
    unfold GetDebugSnapshotsAll.range
    cases snap with
    | none => rfl
    | some s =>
      have hrest : none ∈ rest := by
        rcases List.mem_cons.mp h with h | h
        · exact Option.noConfusion h
        · exact h
      simp only
      cases GetDebugSnapshotsAll.copy combined s.Instances with
      | none => rfl
      | some c1 => exact ih c1 hrest

theorem copy_nil_of_ne_nil (entries : List (String × InstanceDebugSnapshot))
    (h : entries ≠ []) : GetDebugSnapshotsAll.copy none entries = none := by
  cases entries with
  | nil => exact absurd rfl h
  | cons e rest => rfl

theorem copy_nil_nil : GetDebugSnapshotsAll.copy none [] = some none := rfl

theorem range_nil_of_entries : ∀ (rest : List (Option DebugSnapshotAll)),
    (∃ s, some s ∈ rest ∧ s.Instances ≠ []) → GetDebugSnapshotsAll.range none rest = none := by
  intro rest
  induction rest with
  | nil => intro h; obtain ⟨s, hs, _⟩ := h; cases hs
  | cons snap rest ih =>
    intro h
    obtain ⟨s, hs, hne⟩ := h
    unfold GetDebugSnapshotsAll.range
    cases snap with
    | none => rfl
    | some s1 =>
      simp only
      by_cases h1 : s1.Instances = []
      · rw [h1, copy_nil_nil]
        simp only
        apply ih
        rcases List.mem_cons.mp hs with hs | hs
        · simp only [Option.some.injEq] at hs
          rw [hs] at hne
          exact absurd h1 hne
        · exact ⟨s, hs, hne⟩
      · rw [copy_nil_of_ne_nil _ h1]

/-- C24 evaluated on the code: the combination step of `GetDebugSnapshotsAll` panics on a
timeout.  (1) With two shards of which the second timed out the call panics (`snap.Instances`
on a nil `snap`) instead of returning the first shard's snapshots.  (2) With two shards of
which the first timed out and the second reports one instance the call panics
(`combined.Instances[key] = val` on a nil `combined`).  (3) In general: whenever a shard
after the first timed out the call panics, whatever the other shards answered, and whenever
the first shard timed out and a later shard reports an instance the call panics.  (4) Only
when the first shard timed out and every other shard answered with an empty map does the
call return, and it returns nil. -/
theorem C24_timeout_panics :
    GetDebugSnapshotsAll sampleSet
        (fun mailbox =>
          if mailbox = 10 then some { Instances := [("a", sampleSnapshot "a")] } else none)
      = none
    ∧ GetDebugSnapshotsAll sampleSet
        (fun mailbox =>
          if mailbox = 11 then some { Instances := [("b", sampleSnapshot "b")] } else none)
      = none
    ∧ (∀ (mgr : LimiterManagerSet) (respond : Nat → Option DebugSnapshotAll),
        (∃ mailbox ∈ mgr.mailboxes.tail, respond mailbox = none) →
        GetDebugSnapshotsAll mgr respond = none)
    ∧ (∀ (mgr : LimiterManagerSet) (respond : Nat → Option DebugSnapshotAll),
        mgr.mailboxes.head?.bind respond = none →
        (∃ mailbox ∈ mgr.mailboxes.tail, ∃ s, respond mailbox = some s ∧ s.Instances ≠ []) →
        GetDebugSnapshotsAll mgr respond = none)
    ∧ GetDebugSnapshotsAll sampleSet
        (fun mailbox => if mailbox = 11 then some { Instances := [] } else none)
      = some none := by
  refine ⟨by decide, by decide, ?_, ?_, by decide⟩
  · intro mgr respond h
    obtain ⟨mailbox, hm, hnone⟩ := h
    unfold GetDebugSnapshotsAll
    cases hmb : mgr.mailboxes with
    | nil => rfl
    | cons first rest =>
      rw [hmb] at hm
      simp only [List.map_cons]
      apply range_none_of_mem
      rw [← hnone]
      exact List.mem_map_of_mem _ hm
  · intro mgr respond hfirst h
    obtain ⟨mailbox, hm, s, hs, hne⟩ := h
    unfold GetDebugSnapshotsAll
    cases hmb : mgr.mailboxes with
    | nil => rfl
    | cons first rest =>
      rw [hmb] at hm hfirst
      simp only [List.head?_cons, Option.some_bind] at hfirst
      simp only [List.map_cons, hfirst]
      apply range_nil_of_entries
      refine ⟨s, ?_, hne⟩
      rw [← hs]
      exact List.mem_map_of_mem _ hm

/-! ## Snapshots of all instances -/

theorem mapSet_of_not_mem {β : Type} : ∀ (l : List (String × β)) (key : String) (v : β),
    key ∉ l.map Prod.fst → mapSet l key v = l ++ [(key, v)] := by
  intro l
  induction l with
  | nil => intro key v _; rfl
  | cons e rest ih =>
    intro key v h
    obtain ⟨k, w⟩ := e
    simp only [List.map_cons, List.mem_cons, not_or] at h
    unfold mapSet
    rw [if_neg (fun hk => h.1 hk.symm), ih key v h.2]
    rfl

theorem mapGet_iff_mem {β : Type} : ∀ (l : List (String × β)) (key : String) (v : β),
    (l.map Prod.fst).Nodup → (mapGet l key = some v ↔ (key, v) ∈ l) := by
  intro l
  induction l with
  | nil => intro key v _; simp [mapGet]
  | cons e rest ih =>
    intro key v h
    obtain ⟨k, w⟩ := e
    simp only [List.map_cons, List.nodup_cons] at h
    simp only [mapGet]
    by_cases hk : k = key
    · rw [if_pos hk]
      subst hk
      constructor
      · intro hv
        simp only [Option.some.injEq] at hv
        rw [hv]
        exact List.mem_cons_self _ _
      · intro hm
        rcases List.mem_cons.mp hm with hm | hm
        · simp only [Prod.mk.injEq, true_and] at hm
          rw [hm]
        · exact absurd (List.mem_map_of_mem Prod.fst hm) h.1
    · rw [if_neg hk, ih key v h.2]
      constructor
      · intro hm; exact List.mem_cons_of_mem _ hm
      · intro hm
        rcases List.mem_cons.mp hm with hm | hm
        · simp only [Prod.mk.injEq] at hm
          exact absurd hm.1.symm hk
        · exact hm

theorem SliceToMap_eq : ∀ (snaps : List InstanceDebugSnapshot)
    (acc : List (String × InstanceDebugSnapshot)),
    (acc.map Prod.fst ++ snaps.map (fun s => s.Key)).Nodup →
    SliceToMap snaps acc = acc ++ snaps.map (fun s => (s.Key, s)) := by
  intro snaps
  induction snaps with
  | nil => intro acc _; simp [SliceToMap]
  | cons s rest ih =>
    intro acc h
    have hs : s.Key ∉ acc.map Prod.fst := by
      intro hmem
      rw [List.nodup_append] at h
      exact h.2.2 hmem (List.mem_cons_self _ _)
    unfold SliceToMap
    rw [mapSet_of_not_mem acc s.Key s hs, ih]
    · simp
    · simpa [List.map_append] using h

theorem copy_eq : ∀ (entries : List (String × InstanceDebugSnapshot))
    (acc : List (String × InstanceDebugSnapshot)),
    (acc.map Prod.fst ++ entries.map Prod.fst).Nodup →
    GetDebugSnapshotsAll.copy (some { Instances := acc }) entries
      = some (some { Instances := acc ++ entries }) := by
  intro entries
  induction entries with
  | nil => intro acc _; simp [GetDebugSnapshotsAll.copy]
  | cons e rest ih =>
    intro acc h
    obtain ⟨key, val⟩ := e
    have hs : key ∉ acc.map Prod.fst := by
      intro hmem
      rw [List.nodup_append] at h
      exact h.2.2 hmem (List.mem_cons_self _ _)
    unfold GetDebugSnapshotsAll.copy
    simp only
    rw [mapSet_of_not_mem acc key val hs, ih]
    · simp
    · simpa [List.map_append] using h

theorem range_eq : ∀ (maps : List (List (String × InstanceDebugSnapshot)))
    (acc : List (String × InstanceDebugSnapshot)),
    ((acc ++ maps.flatten).map Prod.fst).Nodup →
    GetDebugSnapshotsAll.range (some { Instances := acc })
        (maps.map (fun m => some { Instances := m }))
      = some (some { Instances := acc ++ maps.flatten }) := by
  intro maps
  induction maps with
  | nil => intro acc _; simp [GetDebugSnapshotsAll.range]
  | cons m rest ih =>
    intro acc h
    simp only [List.flatten_cons, List.map_append] at h
    simp only [List.map_cons]
    unfold GetDebugSnapshotsAll.range
    simp only
    rw [copy_eq m acc]
    · simp only
      rw [ih (acc ++ m)]
      · simp
      · simpa [List.map_append] using h
    · rw [← List.append_assoc] at h
      exact (List.nodup_append.mp h).1

theorem nodup_flatten_of_label {γ α : Type} (keys : γ → List α) (lab : α → Nat) :
    ∀ (L : List γ) (off : Nat), (∀ x ∈ L, (keys x).Nodup) →
      (∀ i x, L[i]? = some x → ∀ k ∈ keys x, lab k = off + i) →
      ((L.map keys).flatten).Nodup ∧ ∀ k ∈ (L.map keys).flatten, off ≤ lab k := by
  intro L
  induction L with
  | nil => intro off _ _; simp
  | cons x rest ih =>
    intro off hnodup hlab
    obtain ⟨h1, h2⟩ := ih (off + 1)
      (fun y hy => hnodup y (List.mem_cons_of_mem _ hy))
      (fun i y hy k hk => by
        have := hlab (i + 1) y (by simpa using hy) k hk
        omega)
    have hx : ∀ k ∈ keys x, lab k = off := fun k hk => by
      have := hlab 0 x (by simp) k hk
      omega
    simp only [List.map_cons, List.flatten_cons]
    refine ⟨?_, ?_⟩
    · rw [List.nodup_append]
      refine ⟨hnodup x (List.mem_cons_self _ _), h1, ?_⟩
      intro k hk1 hk2
      have := hx k hk1
      have := h2 k hk2
      omega
    · intro k hk
      rcases List.mem_append.mp hk with hk | hk
      · have := hx k hk
        omega
      · have := h2 k hk
        omega

theorem snapshotAllReply_eq (registry : List (String × Nat))
    (states : String → internalState) (ans : List InstanceDebugSnapshot)
    (hmap : (registry.map Prod.fst).Nodup)
    (hkey : ∀ e ∈ registry, (states e.1).key = e.1)
    (hperm : ans.Perm (registry.map (fun e => snapshotOf (states e.1)))) :
    snapshotAllReply registry (ans.map some)
        = { Instances := ans.map (fun s => (s.Key, s)) }
    ∧ (ans.map (fun s => s.Key)).Perm (registry.map Prod.fst) := by
  have hkeys : (ans.map (fun s => s.Key)).Perm (registry.map Prod.fst) := by
    have h1 := hperm.map (fun s => s.Key)
    rw [List.map_map] at h1
    have h2 : registry.map ((fun s => s.Key) ∘ fun e => snapshotOf (states e.1))
        = registry.map Prod.fst := by
      apply List.map_congr_left
      intro e he
      simp only [Function.comp, snapshotOf]
      exact hkey e he
    rw [h2] at h1
    exact h1
  refine ⟨?_, hkeys⟩
  have hlen : ans.length = registry.length := by
    rw [hperm.length_eq, List.length_map]
  unfold snapshotAllReply
  have htake : (ans.map some).take registry.length = ans.map some := by
    apply List.take_of_length_le
    rw [List.length_map, hlen]
  rw [htake, List.filterMap_map]
  have hid : List.filterMap (id ∘ some) ans = ans := List.filterMap_some ans
  rw [hid, SliceToMap_eq ans [] (by simpa using hkeys.nodup_iff.mpr hmap)]
  rfl

theorem managerLoopStep_snapshotAll (compile : String → Option (String → Bool))
    (ms : managerState) (c : Nat) (now : Int) (fresh : Nat)
    (gathered : List (Option InstanceDebugSnapshot)) (hrun : ms.returned = false) :
    managerLoopStep compile ms
        (ManagerEvent.recv (ManagerRequest.DebugSnapshotAllRequest c) now fresh gathered)
      = some (ms,
          ms.registry.map (fun entry =>
            ManagerEffect.ToInstance entry.2 (Request.DebugSnapshotRequest entry.1 fresh))
          ++ [ManagerEffect.DebugSnapshotAll c (snapshotAllReply ms.registry gathered).Instances])
    := by
  rw [managerLoopStep_running compile ms _ now fresh gathered hrun]
  rfl
theorem shardLabel_of_route (mgr : LimiterManagerSet) (k : String) (i : Nat)
    (h : GetShardIndex mgr k = some (i : Int)) :
    ((GetShardIndex mgr k).getD 0).toNat = 0 + i := by
  rw [h]
  simp

/-- The combination of the answers of all shards, when every shard and every instance has
answered: the concatenation of the per-shard maps. -/
theorem snapshotsAll_combined (mgr : LimiterManagerSet)
    (shardAnswers : List (managerState × List InstanceDebugSnapshot))
    (states : String → internalState) (respond : Nat → Option DebugSnapshotAll)
    (hne : shardAnswers ≠ [])
    (hmap : ∀ p ∈ shardAnswers, (p.1.registry.map Prod.fst).Nodup)
    (hroute : ∀ (i : Nat) (p : managerState × List InstanceDebugSnapshot),
      shardAnswers[i]? = some p →
      ∀ e ∈ p.1.registry, GetShardIndex mgr e.1 = some (i : Int))
    (hkey : ∀ p ∈ shardAnswers, ∀ e ∈ p.1.registry, (states e.1).key = e.1)
    (hanswers : ∀ p ∈ shardAnswers,
      p.2.Perm (p.1.registry.map (fun e => snapshotOf (states e.1))))
    (hrespond : mgr.mailboxes.map respond
      = shardAnswers.map (fun p => some (snapshotAllReply p.1.registry (p.2.map some)))) :
    GetDebugSnapshotsAll mgr respond
      = some (some { Instances :=
          (shardAnswers.map (fun p => p.2.map (fun s => (s.Key, s)))).flatten })
    ∧ (((shardAnswers.map (fun p => p.2.map (fun s => (s.Key, s)))).flatten).map
        Prod.fst).Nodup
    ∧ ((shardAnswers.map (fun p => p.1.registry.map Prod.fst)).flatten).Nodup := by
  have hreply : ∀ p ∈ shardAnswers,
      snapshotAllReply p.1.registry (p.2.map some)
          = { Instances := p.2.map (fun s => (s.Key, s)) }
      ∧ (p.2.map (fun s => s.Key)).Perm (p.1.registry.map Prod.fst) :=
    fun p hp => snapshotAllReply_eq p.1.registry states p.2 (hmap p hp) (hkey p hp)
      (hanswers p hp)
  have hkeys : ((shardAnswers.map (fun p => p.2.map (fun s => s.Key))).flatten).Nodup := by
    refine (nodup_flatten_of_label (fun p : managerState × List InstanceDebugSnapshot =>
      p.2.map (fun s => s.Key)) (fun k => ((GetShardIndex mgr k).getD 0).toNat)
      shardAnswers 0 ?_ ?_).1
    · intro p hp
      exact (hreply p hp).2.nodup_iff.mpr (hmap p hp)
    · intro i p hp k hk
      have hpm : p ∈ shardAnswers := List.getElem?_mem hp
      have hk1 : k ∈ p.1.registry.map Prod.fst := ((hreply p hpm).2.mem_iff).mp hk
      obtain ⟨e, he, rfl⟩ := List.mem_map.mp hk1
      exact shardLabel_of_route mgr e.1 i (hroute i p hp e he)
  have hregs : ((shardAnswers.map (fun p => p.1.registry.map Prod.fst)).flatten).Nodup := by
    refine (nodup_flatten_of_label (fun p : managerState × List InstanceDebugSnapshot =>
      p.1.registry.map Prod.fst) (fun k => ((GetShardIndex mgr k).getD 0).toNat)
      shardAnswers 0 (fun p hp => hmap p hp) ?_).1
    intro i p hp k hk
    obtain ⟨e, he, rfl⟩ := List.mem_map.mp hk
    exact shardLabel_of_route mgr e.1 i (hroute i p hp e he)
  have hfst : ((shardAnswers.map (fun p => p.2.map (fun s => (s.Key, s)))).flatten).map Prod.fst
      = (shardAnswers.map (fun p => p.2.map (fun s => s.Key))).flatten := by
    rw [List.map_flatten, List.map_map]
    congr 1
    apply List.map_congr_left
    intro p _
    simp only [Function.comp, List.map_map]
    rfl
  refine ⟨?_, by rw [hfst]; exact hkeys, hregs⟩
  have hmany : mgr.mailboxes.map respond
      = (shardAnswers.map (fun p => p.2.map (fun s => (s.Key, s)))).map
          (fun m => some ({ Instances := m } : DebugSnapshotAll)) := by
    rw [hrespond, List.map_map]
    apply List.map_congr_left
    intro p hp
    simp only [Function.comp, (hreply p hp).1]
  unfold GetDebugSnapshotsAll
  simp only [hmany]
  obtain ⟨p0, rest, hsa⟩ := List.exists_cons_of_ne_nil hne
  rw [hsa] at hkeys hfst
  rw [hsa]
  simp only [List.map_cons, List.flatten_cons]
  apply range_eq
  simp only [List.map_cons, List.flatten_cons] at hkeys hfst
  rw [hfst]
  exact hkeys

theorem registeredKeys_map_fst (shardAnswers : List (managerState × List InstanceDebugSnapshot)) :
    registeredKeys (shardAnswers.map Prod.fst)
      = (shardAnswers.map (fun p => p.1.registry.map Prod.fst)).flatten := by
  unfold registeredKeys
  rw [List.map_map]
  rfl

/-- What `GetDebugSnapshotsAll` returns when every shard and every instance has answered. -/
theorem snapshotsAll_spec (mgr : LimiterManagerSet)
    (shardAnswers : List (managerState × List InstanceDebugSnapshot))
    (states : String → internalState) (respond : Nat → Option DebugSnapshotAll)
    (hne : shardAnswers ≠ [])
    (hmap : ∀ p ∈ shardAnswers, (p.1.registry.map Prod.fst).Nodup)
    (hroute : ∀ (i : Nat) (p : managerState × List InstanceDebugSnapshot),
      shardAnswers[i]? = some p →
      ∀ e ∈ p.1.registry, GetShardIndex mgr e.1 = some (i : Int))
    (hkey : ∀ p ∈ shardAnswers, ∀ e ∈ p.1.registry, (states e.1).key = e.1)
    (hanswers : ∀ p ∈ shardAnswers,
      p.2.Perm (p.1.registry.map (fun e => snapshotOf (states e.1))))
    (hrespond : mgr.mailboxes.map respond
      = shardAnswers.map (fun p => some (snapshotAllReply p.1.registry (p.2.map some)))) :
    ∃ combined : DebugSnapshotAll,
      GetDebugSnapshotsAll mgr respond = some (some combined)
      ∧ (combined.Instances.map Prod.fst).Nodup
      ∧ (∀ k snap, mapGet combined.Instances k = some snap
          ↔ (k ∈ registeredKeys (shardAnswers.map Prod.fst) ∧ snap = snapshotOf (states k)))
      ∧ combined.Instances.length = (registeredKeys (shardAnswers.map Prod.fst)).length
      ∧ (registeredKeys (shardAnswers.map Prod.fst)).Nodup := by
  obtain ⟨hres, hnodup, hregs⟩ := snapshotsAll_combined mgr shardAnswers states respond hne
    hmap hroute hkey hanswers hrespond
  rw [registeredKeys_map_fst]
  refine ⟨_, hres, hnodup, ?_, ?_, hregs⟩
  · intro k snap
    rw [mapGet_iff_mem _ _ _ hnodup]
    simp only [List.mem_flatten, List.mem_map]
    constructor
    · rintro ⟨l, ⟨p, hp, rfl⟩, hmem⟩
      obtain ⟨s, hs, heq⟩ := List.mem_map.mp hmem
      simp only [Prod.mk.injEq] at heq
      obtain ⟨hk, rfl⟩ := heq
      have hs1 := ((hanswers p hp).mem_iff).mp hs
      obtain ⟨e, he, hse⟩ := List.mem_map.mp hs1
      have hek : e.1 = k := by
        rw [← hk, ← hse]
        exact (hkey p hp e he).symm
      refine ⟨⟨_, ⟨p, hp, rfl⟩, List.mem_map.mpr ⟨e, he, hek⟩⟩, ?_⟩
      rw [← hse, hek]
    · rintro ⟨⟨l, ⟨p, hp, rfl⟩, hmem⟩, rfl⟩
      obtain ⟨e, he, hek⟩ := List.mem_map.mp hmem
      have hs : snapshotOf (states k) ∈ p.2 := by
        apply ((hanswers p hp).mem_iff).mpr
        exact List.mem_map.mpr ⟨e, he, by rw [hek]⟩
      refine ⟨_, ⟨p, hp, rfl⟩, List.mem_map.mpr ⟨_, hs, ?_⟩⟩
      simp only [Prod.mk.injEq, and_true]
      show (states k).key = k
      rw [← hek]
      exact hkey p hp e he
  · rw [List.length_flatten, List.length_flatten, List.map_map, List.map_map]
    congr 1
    apply List.map_congr_left
    intro p hp
    simp only [Function.comp, List.length_map]
    rw [(hanswers p hp).length_eq, List.length_map]

theorem length_flatten_set {α : Type} : ∀ (L : List (List α)) (i : Nat) (l : List α) (x : α),
    L[i]? = some l → ((L.set i (l ++ [x])).flatten).length = L.flatten.length + 1 := by
  intro L
  induction L with
  | nil => intro i l x h; simp at h
  | cons a rest ih =>
    intro i l x h
    cases i with
    | zero =>
      simp only [List.getElem?_cons_zero, Option.some.injEq] at h
      subst h
      simp only [List.set_cons_zero, List.flatten_cons, List.length_append, List.length_cons,
        List.length_nil]
      omega
    | succ i =>
      simp only [List.getElem?_cons_succ] at h
      simp only [List.set_cons_succ, List.flatten_cons, List.length_append, ih i l x h]
      omega

theorem mem_flatten_set {α : Type} : ∀ (L : List (List α)) (i : Nat) (l : List α) (x a : α),
    L[i]? = some l → (a ∈ (L.set i (l ++ [x])).flatten ↔ a ∈ L.flatten ∨ a = x) := by
  intro L
  induction L with
  | nil => intro i l x a h; simp at h
  | cons b rest ih =>
    intro i l x a h
    cases i with
    | zero =>
      simp only [List.getElem?_cons_zero, Option.some.injEq] at h
      subst h
      simp only [List.set_cons_zero, List.flatten_cons, List.mem_append, List.mem_singleton]
      tauto
    | succ i =>
      simp only [List.getElem?_cons_succ] at h
      simp only [List.set_cons_succ, List.flatten_cons, List.mem_append, ih i l x a h]
      tauto

theorem startShards_hold (mgr : LimiterManagerSet) (globalConfig : Config)
    (configFromFile : Option CfgFromFile) :
    shardsHold mgr globalConfig configFromFile
      (startShards mgr globalConfig configFromFile) [] := by
  have hreg : ∀ ms ∈ startShards mgr globalConfig configFromFile, ms.registry = [] := by
    intro ms hms
    obtain ⟨mb, _, rfl⟩ := List.mem_map.mp hms
    rfl
  have hkeys : ∀ k, k ∉ registeredKeys (startShards mgr globalConfig configFromFile) := by
    intro k hk
    unfold registeredKeys at hk
    obtain ⟨l, hl, hkl⟩ := List.mem_flatten.mp hk
    obtain ⟨ms, hms, rfl⟩ := List.mem_map.mp hl
    rw [hreg ms hms] at hkl
    cases hkl
  refine ⟨by simp [startShards], ?_, ?_, ?_, ?_⟩
  · intro ms hms
    obtain ⟨mb, _, rfl⟩ := List.mem_map.mp hms
    exact ⟨rfl, rfl, rfl, List.nodup_nil⟩
  · intro i ms hi e he
    rw [hreg ms (List.getElem?_mem hi)] at he
    cases he
  · intro k
    constructor
    · intro hk; exact absurd hk (hkeys k)
    · intro hk; cases hk
  · cases hl : registeredKeys (startShards mgr globalConfig configFromFile) with
    | nil => rfl
    | cons k rest => exact absurd (by rw [hl]; exact List.mem_cons_self _ _) (hkeys k)

theorem deliver_step (compile : String → Option (String → Bool)) (mgr : LimiterManagerSet)
    (globalConfig : Config) (configFromFile : Option CfgFromFile)
    (shards : List managerState) (keys : List String) (r : PermissionRequest) (now : Int)
    (fresh : Nat) (hn : 1 ≤ mgr.mailboxes.length)
    (hold : shardsHold mgr globalConfig configFromFile shards keys)
    (hnew : r.Key ∉ keys)
    (hmax : 0 ≤ (mergeConfigsForInstance compile r.Key globalConfig
      configFromFile).MaxRequestsPerWindow)
    (hcap : (mergeConfigsForInstance compile r.Key globalConfig
      configFromFile).MaxRequestsPerWindow ≤ 35184372088832)
    (hw1 : 1 ≤ (mergeConfigsForInstance compile r.Key globalConfig configFromFile).WindowMillis)
    (hw2 : (mergeConfigsForInstance compile r.Key globalConfig configFromFile).WindowMillis
      ≤ 9223372036854) :
    ∃ shards1, deliverPermissionRequest compile mgr shards r now fresh = some shards1
      ∧ shardsHold mgr globalConfig configFromFile shards1 (keys ++ [r.Key]) := by
  obtain ⟨hlen, hall, hroute, hmem, hcount⟩ := hold
  have hidx := GetShardIndex_eq mgr r.Key hn
  have hj : hash r.Key % mgr.mailboxes.length < shards.length := by
    rw [hlen]
    exact Nat.mod_lt _ (by omega)
  obtain ⟨ms, hms⟩ : ∃ ms, shards[hash r.Key % mgr.mailboxes.length]? = some ms :=
    ⟨_, List.getElem?_eq_getElem hj⟩
  have hin : ms ∈ shards := List.getElem?_mem hms
  obtain ⟨hrun, hg, hf, hnodup⟩ := hall _ hin
  have hnotin : r.Key ∉ ms.registry.map Prod.fst := by
    intro hk
    apply hnew
    apply (hmem r.Key).mp
    unfold registeredKeys
    exact List.mem_flatten.mpr ⟨_, List.mem_map_of_mem _ hin, hk⟩
  have hget : mapGet ms.registry r.Key = none := by
    cases hg1 : mapGet ms.registry r.Key with
    | none => rfl
    | some v =>
      exact absurd (List.mem_map_of_mem Prod.fst (mem_of_mapGet _ _ _ hg1)) hnotin
  have hcreate := New_of_valid r.Key
    (mergeConfigsForInstance compile r.Key ms.globalConfig ms.configFromFile)
    ms.mailbox fresh now (by rw [hg, hf]; exact hmax) (by rw [hg, hf]; exact hcap)
    (by rw [hg, hf]; exact hw1) (by rw [hg, hf]; exact hw2)
  have hreg : mapSet ms.registry r.Key fresh = ms.registry ++ [(r.Key, fresh)] :=
    mapSet_of_not_mem _ _ _ hnotin
  have hstep : ∃ effects, managerLoopStep compile ms
        (ManagerEvent.recv (ManagerRequest.PermissionRequest r) now fresh [])
      = some ({ ms with registry := ms.registry ++ [(r.Key, fresh)] }, effects) := by
    rw [managerLoopStep_running compile ms (ManagerRequest.PermissionRequest r) now fresh []
      hrun]
    simp only [hget, hcreate, hreg]
    exact ⟨_, rfl⟩
  obtain ⟨effects, hstep⟩ := hstep
  refine ⟨shards.set (hash r.Key % mgr.mailboxes.length)
    { ms with registry := ms.registry ++ [(r.Key, fresh)] }, ?_, ?_⟩
  · unfold deliverPermissionRequest
    rw [hidx]
    simp only [Int.toNat_ofNat]
    rw [if_neg (by omega), hms]
    simp only [hstep]
  · have hkeys1 : registeredKeys (shards.set (hash r.Key % mgr.mailboxes.length)
          { ms with registry := ms.registry ++ [(r.Key, fresh)] })
        = ((shards.map (fun ms => ms.registry.map Prod.fst)).set
            (hash r.Key % mgr.mailboxes.length)
            (ms.registry.map Prod.fst ++ [r.Key])).flatten := by
      unfold registeredKeys
      rw [List.map_set]
      simp only [List.map_append, List.map_cons, List.map_nil]
    have hold1 : (shards.map (fun ms => ms.registry.map Prod.fst))[
          hash r.Key % mgr.mailboxes.length]?
        = some (ms.registry.map Prod.fst) := by
      rw [List.getElem?_map, hms]
      rfl
    refine ⟨by rw [List.length_set]; exact hlen, ?_, ?_, ?_, ?_⟩
    · intro ms1 hmsin
      rcases List.mem_or_eq_of_mem_set hmsin with hold | rfl
      · exact hall ms1 hold
      · refine ⟨hrun, hg, hf, ?_⟩
        simp only [List.map_append, List.map_cons, List.map_nil]
        rw [List.nodup_append]
        refine ⟨hnodup, List.nodup_singleton _, ?_⟩
        intro a ha1 ha2
        rw [List.mem_singleton] at ha2
        rw [ha2] at ha1
        exact hnotin ha1
    · intro i ms1 hi e he
      rw [List.getElem?_set] at hi
      by_cases hij : hash r.Key % mgr.mailboxes.length = i
      · rw [if_pos hij, if_pos hj] at hi
        simp only [Option.some.injEq] at hi
        rw [← hi] at he
        simp only at he
        rcases List.mem_append.mp he with he | he
        · rw [← hij]
          exact hroute _ _ hms e he
        · rw [List.mem_singleton] at he
          rw [he, ← hij]
          exact hidx
      · rw [if_neg hij] at hi
        exact hroute i ms1 hi e he
    · intro k
      rw [hkeys1, mem_flatten_set _ _ _ _ _ hold1, List.mem_append, List.mem_singleton]
      have := hmem k
      unfold registeredKeys at this
      rw [this]
    · rw [hkeys1, length_flatten_set _ _ _ _ hold1, List.length_append]
      have := hcount
      unfold registeredKeys at this
      rw [this]
      rfl

theorem deliverAll_hold (compile : String → Option (String → Bool)) (mgr : LimiterManagerSet)
    (globalConfig : Config) (configFromFile : Option CfgFromFile)
    (hn : 1 ≤ mgr.mailboxes.length) :
    ∀ (reqs : List (Int × PermissionRequest)) (shards : List managerState)
      (keys : List String) (fresh : Nat),
      shardsHold mgr globalConfig configFromFile shards keys →
      (keys ++ reqs.map (fun p => p.2.Key)).Nodup →
      (∀ p ∈ reqs,
        0 ≤ (mergeConfigsForInstance compile p.2.Key globalConfig
              configFromFile).MaxRequestsPerWindow
        ∧ (mergeConfigsForInstance compile p.2.Key globalConfig
              configFromFile).MaxRequestsPerWindow ≤ 35184372088832
        ∧ 1 ≤ (mergeConfigsForInstance compile p.2.Key globalConfig
              configFromFile).WindowMillis
        ∧ (mergeConfigsForInstance compile p.2.Key globalConfig
              configFromFile).WindowMillis ≤ 9223372036854) →
      ∃ shards1, deliverAll compile mgr shards reqs fresh = some shards1
        ∧ shardsHold mgr globalConfig configFromFile shards1
            (keys ++ reqs.map (fun p => p.2.Key)) := by
  intro reqs
  induction reqs with
  | nil =>
    intro shards keys fresh hold _ _
    exact ⟨shards, rfl, by simpa using hold⟩
  | cons p rest ih =>
    intro shards keys fresh hold hnodup hvalid
    obtain ⟨now, r⟩ := p
    have hnodup1 : ((keys ++ [r.Key]) ++ rest.map (fun p => p.2.Key)).Nodup := by
      simpa using hnodup
    have hnew : r.Key ∉ keys := by
      intro hk
      simp only [List.map_cons] at hnodup
      exact (List.nodup_append.mp hnodup).2.2 hk (List.mem_cons_self _ _)
    obtain ⟨h1, hc, h2, h3⟩ := hvalid (now, r) (List.mem_cons_self _ _)
    obtain ⟨shards1, hd, hold1⟩ := deliver_step compile mgr globalConfig configFromFile
      shards keys r now fresh hn hold hnew h1 hc h2 h3
    obtain ⟨shards2, hd2, hold2⟩ := ih shards1 (keys ++ [r.Key]) (fresh + 1) hold1 hnodup1
      (fun q hq => hvalid q (List.mem_cons_of_mem _ hq))
    refine ⟨shards2, ?_, by simpa using hold2⟩
    unfold deliverAll
    rw [hd]
    exact hd2

/-- C23: when every shard and every instance answers in time, `GetDebugSnapshotsAll`
returns a map with exactly one entry per key known to any shard.  (1) For a manager set
whose shards (running, every registry holding only keys that hash to its shard, every
registered instance having the key it is registered under) each gather the snapshots of
all their instances, in any order of arrival: every shard replies to the
`DebugSnapshotAllRequest` with the map of its gathered snapshots, and the call returns a
map in which no key occurs twice, whose key set is the union of the registries, in which
each key maps to the snapshot of that key's instance, and whose number of entries is the
number of registered keys, all of them distinct.  (2) After one PermissionRequest to each
key of a list of distinct keys, sent to freshly started shards with a configuration under
which `New` creates the instances (a limit from 0 to `2 ^ 45` and a window from 1 ms to
9223372036854 ms for each key), the registries hold exactly those keys, and the call
returns as many entries as there are keys and an entry for exactly those keys: 1000
entries after one request to each of 1000 distinct keys on 25 shards. -/
theorem C23_snapshots_all :
    (∀ (compile : String → Option (String → Bool)) (mgr : LimiterManagerSet)
        (shardAnswers : List (managerState × List InstanceDebugSnapshot))
        (states : String → internalState) (respond : Nat → Option DebugSnapshotAll),
      shardAnswers ≠ [] →
      (∀ p ∈ shardAnswers, p.1.returned = false) →
      (∀ p ∈ shardAnswers, (p.1.registry.map Prod.fst).Nodup) →
      (∀ (i : Nat) (p : managerState × List InstanceDebugSnapshot),
        shardAnswers[i]? = some p →
        ∀ e ∈ p.1.registry, GetShardIndex mgr e.1 = some (i : Int)) →
      (∀ p ∈ shardAnswers, ∀ e ∈ p.1.registry, (states e.1).key = e.1) →
      (∀ p ∈ shardAnswers, p.2.Perm (p.1.registry.map (fun e => snapshotOf (states e.1)))) →
      mgr.mailboxes.map respond
        = shardAnswers.map (fun p => some (snapshotAllReply p.1.registry (p.2.map some))) →
      (∀ p ∈ shardAnswers, ∀ (c : Nat) (now : Int) (fresh : Nat),
        managerLoopStep compile p.1
            (ManagerEvent.recv (ManagerRequest.DebugSnapshotAllRequest c) now fresh
              (p.2.map some))
          = some (p.1,
              p.1.registry.map (fun entry =>
                ManagerEffect.ToInstance entry.2 (Request.DebugSnapshotRequest entry.1 fresh))
              ++ [ManagerEffect.DebugSnapshotAll c
                    (snapshotAllReply p.1.registry (p.2.map some)).Instances]))
      ∧ ∃ combined : DebugSnapshotAll,
          GetDebugSnapshotsAll mgr respond = some (some combined)
          ∧ (combined.Instances.map Prod.fst).Nodup
          ∧ (∀ k snap, mapGet combined.Instances k = some snap
              ↔ (k ∈ registeredKeys (shardAnswers.map Prod.fst)
                  ∧ snap = snapshotOf (states k)))
          ∧ combined.Instances.length = (registeredKeys (shardAnswers.map Prod.fst)).length
          ∧ (registeredKeys (shardAnswers.map Prod.fst)).Nodup)
    ∧ (∀ (compile : String → Option (String → Bool)) (mgr : LimiterManagerSet)
        (globalConfig : Config) (configFromFile : Option CfgFromFile)
        (reqs : List (Int × PermissionRequest)) (fresh : Nat),
      1 ≤ mgr.mailboxes.length →
      (reqs.map (fun p => p.2.Key)).Nodup →
      (∀ p ∈ reqs,
        0 ≤ (mergeConfigsForInstance compile p.2.Key globalConfig
              configFromFile).MaxRequestsPerWindow
        ∧ (mergeConfigsForInstance compile p.2.Key globalConfig
              configFromFile).MaxRequestsPerWindow ≤ 35184372088832
        ∧ 1 ≤ (mergeConfigsForInstance compile p.2.Key globalConfig
              configFromFile).WindowMillis
        ∧ (mergeConfigsForInstance compile p.2.Key globalConfig
              configFromFile).WindowMillis ≤ 9223372036854) →
      ∃ shards,
        deliverAll compile mgr (startShards mgr globalConfig configFromFile) reqs fresh
          = some shards
        ∧ (∀ k, k ∈ registeredKeys shards ↔ k ∈ reqs.map (fun p => p.2.Key))
        ∧ ∀ (shardAnswers : List (managerState × List InstanceDebugSnapshot))
            (states : String → internalState) (respond : Nat → Option DebugSnapshotAll),
          shardAnswers.map Prod.fst = shards →
          (∀ p ∈ shardAnswers, ∀ e ∈ p.1.registry, (states e.1).key = e.1) →
          (∀ p ∈ shardAnswers,
            p.2.Perm (p.1.registry.map (fun e => snapshotOf (states e.1)))) →
          mgr.mailboxes.map respond
            = shardAnswers.map
                (fun p => some (snapshotAllReply p.1.registry (p.2.map some))) →
          ∃ combined : DebugSnapshotAll,
            GetDebugSnapshotsAll mgr respond = some (some combined)
            ∧ combined.Instances.length = reqs.length
            ∧ (∀ k, (∃ snap, mapGet combined.Instances k = some snap)
                ↔ k ∈ reqs.map (fun p => p.2.Key))
            ∧ (mgr.mailboxes.length = 25 → reqs.length = 1000 →
                combined.Instances.length = 1000)) := by
  constructor
  · intro compile mgr shardAnswers states respond hne hrun hmap hroute hkey hanswers hrespond
    exact ⟨fun p hp c now fresh =>
        managerLoopStep_snapshotAll compile p.1 c now fresh (p.2.map some) (hrun p hp),
      snapshotsAll_spec mgr shardAnswers states respond hne hmap hroute hkey hanswers hrespond⟩
  · intro compile mgr globalConfig configFromFile reqs fresh hn hnodup hvalid
    obtain ⟨shards, hd, hold⟩ := deliverAll_hold compile mgr globalConfig configFromFile hn
      reqs (startShards mgr globalConfig configFromFile) [] fresh
      (startShards_hold mgr globalConfig configFromFile) (by simpa using hnodup) hvalid
    simp only [List.nil_append] at hold
    obtain ⟨hlen, hall, hroute, hmem, hcount⟩ := hold
    refine ⟨shards, hd, hmem, ?_⟩
    intro shardAnswers states respond hfst hkey hanswers hrespond
    have hin : ∀ p ∈ shardAnswers, p.1 ∈ shards := by
      intro p hp
      rw [← hfst]
      exact List.mem_map_of_mem Prod.fst hp
    have hne : shardAnswers ≠ [] := by
      intro hnil
      rw [hnil] at hfst
      rw [← hfst] at hlen
      simp only [List.map_nil, List.length_nil] at hlen
      omega
    obtain ⟨combined, hres, _, hget, hlength, _⟩ := snapshotsAll_spec mgr shardAnswers states
      respond hne (fun p hp => (hall p.1 (hin p hp)).2.2.2)
      (fun i p hi e he => hroute i p.1 (by rw [← hfst, List.getElem?_map, hi]; rfl) e he)
      hkey hanswers hrespond
    rw [hfst] at hget hlength
    have hlength1 : combined.Instances.length = reqs.length := by
      rw [hlength, hcount, List.length_map]
    refine ⟨combined, hres, hlength1, ?_, ?_⟩
    · intro k
      rw [← hmem k]
      constructor
      · rintro ⟨snap, hs⟩
        exact ((hget k snap).mp hs).1
      · intro hk
        exact ⟨_, (hget k _).mpr ⟨hk, rfl⟩⟩
    · intro _ h1000
      rw [hlength1, h1000]

/-- C23 on the two shards of `sampleSet`, with the instance of `a` on the first and the
instance of `b` on the second: both answer, and the call returns the two snapshots; and
after one request for `a` and one for `b` to the freshly started shards the registries
hold `a` and `b`. -/
theorem C23_snapshots_all_witness :
    GetShardIndex sampleSet "a" = some 0
    ∧ GetShardIndex sampleSet "b" = some 1
    ∧ sampleSet.mailboxes.map sampleRespond
        = sampleShardAnswers.map
            (fun p => some (snapshotAllReply p.1.registry (p.2.map some)))
    ∧ GetDebugSnapshotsAll sampleSet sampleRespond
        = some (some { Instances := [("a", snapshotOf (sampleState "a")),
                                     ("b", snapshotOf (sampleState "b"))] })
    ∧ ∃ combined : DebugSnapshotAll,
        GetDebugSnapshotsAll sampleSet sampleRespond = some (some combined)
        ∧ combined.Instances.length = 2
        ∧ mapGet combined.Instances "b" = some (snapshotOf (sampleState "b"))
        ∧ ∃ shards : List managerState,
            deliverAll sampleCompile sampleSet (startShards sampleSet sampleGlobal none)
                [(1, sampleRequestFor "a" "1"), (2, sampleRequestFor "b" "2")] 20
              = some shards
            ∧ ∀ k, k ∈ registeredKeys shards ↔ k ∈ ["a", "b"] := by
  have hroute : ∀ (i : Nat) (p : managerState × List InstanceDebugSnapshot),
      sampleShardAnswers[i]? = some p →
      ∀ e ∈ p.1.registry, GetShardIndex sampleSet e.1 = some (i : Int) := by
    intro i p hi e he
    match i, hi with
    | 0, hi =>
      simp only [sampleShardAnswers, List.getElem?_cons_zero, Option.some.injEq] at hi
      rw [← hi] at he
      simp only [List.mem_singleton] at he
      rw [he]
      decide
    | 1, hi =>
      simp only [sampleShardAnswers, List.getElem?_cons_succ, List.getElem?_cons_zero,
        Option.some.injEq] at hi
      rw [← hi] at he
      simp only [List.mem_singleton] at he
      rw [he]
      decide
    | n + 2, hi =>
      simp [sampleShardAnswers] at hi
  obtain ⟨_, combined, hres, _, hget, hlength, _⟩ := C23_snapshots_all.1 sampleCompile
    sampleSet sampleShardAnswers sampleState sampleRespond (by decide) (by decide) (by decide)
    hroute (by decide)
    (by
      intro p hp
      simp only [sampleShardAnswers, List.mem_cons, List.mem_singleton, List.not_mem_nil,
        or_false] at hp
      rcases hp with rfl | rfl <;> exact List.Perm.refl _)
    (by decide)
  obtain ⟨shards, hd, hkeys, _⟩ := C23_snapshots_all.2 sampleCompile sampleSet sampleGlobal
    none [(1, sampleRequestFor "a" "1"), (2, sampleRequestFor "b" "2")] 20 (by decide)
    (by decide) (by decide)
  refine ⟨by decide, by decide, by decide, by decide, combined, hres, ?_, ?_, shards, hd,
    hkeys⟩
  · rw [hlength]
    decide
  · exact (hget "b" _).mpr ⟨by decide, rfl⟩

/-! ## Independent keys -/

/-- The shape of a shard iteration that handles a request routed by key. -/
theorem managerStep_keyed (compile : String → Option (String → Bool)) (ms ms1 : managerState)
    (req : ManagerRequest) (k : String) (now : Int) (fresh : Nat)
    (gathered : List (Option InstanceDebugSnapshot)) (effects : List ManagerEffect)
    (hrun : ms.returned = false) (hkey : requestKey req = some k)
    (h : managerLoopStep compile ms (ManagerEvent.recv req now fresh gathered)
      = some (ms1, effects)) :
    (∃ r l, req = ManagerRequest.PermissionRequest r ∧ r.Key = k
        ∧ mapGet ms.registry k = none
        ∧ New k (mergeConfigsForInstance compile k ms.globalConfig ms.configFromFile)
            ms.mailbox fresh now = some l
        ∧ ms1 = { ms with registry := mapSet ms.registry k l.state.mailbox }
        ∧ effects = [ManagerEffect.Spawn l,
            ManagerEffect.ToInstance l.state.mailbox (Request.PermissionRequest r)])
    ∨ (ms1 = ms
        ∧ ((∃ mailbox m, mapGet ms.registry k = some mailbox
              ∧ effects = [ManagerEffect.ToInstance mailbox m])
          ∨ (mapGet ms.registry k = none
              ∧ (effects = []
                ∨ ∃ c, effects = [ManagerEffect.DebugSnapshot c notFoundSnapshot])))) := by
  rw [managerLoopStep_running compile ms req now fresh gathered hrun] at h
  cases req with
  | PermissionRequest r =>
    simp only [requestKey, Option.some.injEq] at hkey
    subst hkey
    simp only at h
    cases hget : mapGet ms.registry r.Key with
    | some inst =>
      simp only [hget, Option.some.injEq, Prod.mk.injEq] at h
      exact Or.inr ⟨h.1.symm, Or.inl ⟨inst, _, rfl, h.2.symm⟩⟩
    | none =>
      simp only [hget] at h
      cases hnew : New r.Key
          (mergeConfigsForInstance compile r.Key ms.globalConfig ms.configFromFile)
          ms.mailbox fresh now with
      | none =>
        rw [hnew] at h
        exact Option.noConfusion h
      | some l =>
        rw [hnew] at h
        simp only [Option.some.injEq, Prod.mk.injEq] at h
        exact Or.inl ⟨r, l, rfl, rfl, rfl, rfl, h.1.symm, h.2.symm⟩
  | ReleaseRequest id key =>
    simp only [requestKey, Option.some.injEq] at hkey
    subst hkey
    simp only at h
    cases hget : mapGet ms.registry key with
    | some inst =>
      simp only [hget, Option.some.injEq, Prod.mk.injEq] at h
      exact Or.inr ⟨h.1.symm, Or.inl ⟨inst, _, rfl, h.2.symm⟩⟩
    | none =>
      simp only [hget, Option.some.injEq, Prod.mk.injEq] at h
      exact Or.inr ⟨h.1.symm, Or.inr ⟨rfl, Or.inl h.2.symm⟩⟩
  | DebugSnapshotRequest key c =>
    simp only [requestKey, Option.some.injEq] at hkey
    subst hkey
    simp only at h
    cases hget : mapGet ms.registry key with
    | some inst =>
      simp only [hget, Option.some.injEq, Prod.mk.injEq] at h
      exact Or.inr ⟨h.1.symm, Or.inl ⟨inst, _, rfl, h.2.symm⟩⟩
    | none =>
      simp only [hget, Option.some.injEq, Prod.mk.injEq] at h
      exact Or.inr ⟨h.1.symm, Or.inr ⟨rfl, Or.inr ⟨c, h.2.symm⟩⟩⟩
  | ClientGaveUpNotification orig =>
    simp only [requestKey, Option.some.injEq] at hkey
    subst hkey
    simp only at h
    cases hget : mapGet ms.registry orig.Key with
    | some inst =>
      simp only [hget, Option.some.injEq, Prod.mk.injEq] at h
      exact Or.inr ⟨h.1.symm, Or.inl ⟨inst, _, rfl, h.2.symm⟩⟩
    | none =>
      simp only [hget, Option.some.injEq, Prod.mk.injEq] at h
      exact Or.inr ⟨h.1.symm, Or.inr ⟨rfl, Or.inl h.2.symm⟩⟩
  | DebugSnapshotAllRequest c => exact Option.noConfusion hkey
  | InstanceExpiredNotification key mb => exact Option.noConfusion hkey
  | Kill => exact Option.noConfusion hkey
  | InstanceDiedNotification key => exact Option.noConfusion hkey

/-- A keyed request is handled without a panic unless the instance has to be created from a
config that `New` rejects. -/
theorem managerStep_keyed_isSome (compile : String → Option (String → Bool))
    (ms : managerState) (req : ManagerRequest) (k : String) (now : Int) (fresh : Nat)
    (gathered : List (Option InstanceDebugSnapshot))
    (hrun : ms.returned = false) (hkey : requestKey req = some k)
    (hvalid : (∃ r, req = ManagerRequest.PermissionRequest r) → mapGet ms.registry k = none →
      0 ≤ (mergeConfigsForInstance compile k ms.globalConfig
            ms.configFromFile).MaxRequestsPerWindow
      ∧ (mergeConfigsForInstance compile k ms.globalConfig
            ms.configFromFile).MaxRequestsPerWindow ≤ 35184372088832
      ∧ 1 ≤ (mergeConfigsForInstance compile k ms.globalConfig ms.configFromFile).WindowMillis
      ∧ (mergeConfigsForInstance compile k ms.globalConfig ms.configFromFile).WindowMillis
          ≤ 9223372036854) :
    ∃ ms1 effects, managerLoopStep compile ms (ManagerEvent.recv req now fresh gathered)
      = some (ms1, effects) := by
  rw [managerLoopStep_running compile ms req now fresh gathered hrun]
  cases req with
  | PermissionRequest r =>
    simp only [requestKey, Option.some.injEq] at hkey
    subst hkey
    simp only
    cases hget : mapGet ms.registry r.Key with
    | some inst => exact ⟨_, _, rfl⟩
    | none =>
      obtain ⟨h1, hc, h2, h3⟩ := hvalid ⟨r, rfl⟩ hget
      simp only [New_of_valid r.Key _ ms.mailbox fresh now h1 hc h2 h3]
      exact ⟨_, _, rfl⟩
  | ReleaseRequest id key =>
    simp only
    cases mapGet ms.registry key <;> exact ⟨_, _, rfl⟩
  | DebugSnapshotRequest key c =>
    simp only
    cases mapGet ms.registry key <;> exact ⟨_, _, rfl⟩
  | ClientGaveUpNotification orig =>
    simp only
    cases mapGet ms.registry orig.Key <;> exact ⟨_, _, rfl⟩
  | DebugSnapshotAllRequest c => exact Option.noConfusion hkey
  | InstanceExpiredNotification key mb => exact Option.noConfusion hkey
  | Kill => exact Option.noConfusion hkey
  | InstanceDiedNotification key => exact Option.noConfusion hkey

/-- What a shard sends for a keyed request depends on the registry only through the entry
of the request's key. -/
theorem managerStep_effects_congr (compile : String → Option (String → Bool))
    (ms ms1 : managerState) (req : ManagerRequest) (k : String) (now : Int) (fresh : Nat)
    (gathered : List (Option InstanceDebugSnapshot))
    (hrun : ms.returned = false) (hrun1 : ms1.returned = false)
    (hkey : requestKey req = some k)
    (hg : ms1.globalConfig = ms.globalConfig) (hf : ms1.configFromFile = ms.configFromFile)
    (hm : ms1.mailbox = ms.mailbox)
    (hreg : mapGet ms1.registry k = mapGet ms.registry k) :
    (managerLoopStep compile ms1 (ManagerEvent.recv req now fresh gathered)).map Prod.snd
      = (managerLoopStep compile ms (ManagerEvent.recv req now fresh gathered)).map Prod.snd := by
  rw [managerLoopStep_running compile ms req now fresh gathered hrun,
    managerLoopStep_running compile ms1 req now fresh gathered hrun1]
  cases req with
  | PermissionRequest r =>
    simp only [requestKey, Option.some.injEq] at hkey
    subst hkey
    simp only [hreg, hg, hf, hm]
    cases mapGet ms.registry r.Key with
    | some inst => rfl
    | none =>
      simp only
      cases New r.Key (mergeConfigsForInstance compile r.Key ms.globalConfig ms.configFromFile)
          ms.mailbox fresh now <;> rfl
  | ReleaseRequest id key =>
    simp only [requestKey, Option.some.injEq] at hkey
    subst hkey
    simp only [hreg]
    cases mapGet ms.registry key <;> rfl
  | DebugSnapshotRequest key c =>
    simp only [requestKey, Option.some.injEq] at hkey
    subst hkey
    simp only [hreg]
    cases mapGet ms.registry key <;> rfl
  | ClientGaveUpNotification orig =>
    simp only [requestKey, Option.some.injEq] at hkey
    subst hkey
    simp only [hreg]
    cases mapGet ms.registry orig.Key <;> rfl
  | DebugSnapshotAllRequest c => exact Option.noConfusion hkey
  | InstanceExpiredNotification key mb => exact Option.noConfusion hkey
  | Kill => exact Option.noConfusion hkey
  | InstanceDiedNotification key => exact Option.noConfusion hkey

/-- The shape of any shard iteration that receives a message: it creates one instance for
an unregistered key, or it creates none and registers nothing new. -/
theorem managerStep_shape (compile : String → Option (String → Bool)) (ms m : managerState)
    (req : ManagerRequest) (now : Int) (fresh : Nat)
    (gathered : List (Option InstanceDebugSnapshot)) (effects : List ManagerEffect)
    (hrun : ms.returned = false)
    (h : managerLoopStep compile ms (ManagerEvent.recv req now fresh gathered)
      = some (m, effects)) :
    (∃ r l, req = ManagerRequest.PermissionRequest r ∧ mapGet ms.registry r.Key = none
        ∧ l.state.key = r.Key ∧ l.state.mailbox = fresh
        ∧ m.registry = mapSet ms.registry r.Key fresh
        ∧ effects = [ManagerEffect.Spawn l,
            ManagerEffect.ToInstance fresh (Request.PermissionRequest r)])
    ∨ ((∀ e ∈ effects, ∀ l, e ≠ ManagerEffect.Spawn l)
        ∧ ∀ key mailbox, mapGet m.registry key = some mailbox →
            mapGet ms.registry key = some mailbox) := by
  cases hk : requestKey req with
  | some k =>
    rcases managerStep_keyed compile ms m req k now fresh gathered effects hrun hk h with
      ⟨r, l, rfl, hrk, hnone, hnew, hm, heff⟩ | ⟨hm, hcase⟩
    · obtain ⟨hlk, hlm, _⟩ := New_identity _ _ _ _ _ l hnew
      left
      refine ⟨r, l, rfl, by rw [hrk]; exact hnone, by rw [hlk, hrk], hlm, ?_, ?_⟩
      · rw [hm, hrk, hlm]
      · rw [heff, hlm]
    · right
      rw [hm]
      refine ⟨?_, fun _ _ hx => hx⟩
      rcases hcase with ⟨mb, msg, _, heff⟩ | ⟨_, heff | ⟨c, heff⟩⟩
      · rw [heff]; exact no_spawn_singleton _ _
      · rw [heff]; exact fun e he => absurd he (List.not_mem_nil e)
      · rw [heff]
        intro e he l heq
        rw [List.mem_singleton] at he
        rw [heq] at he
        exact ManagerEffect.noConfusion he
  | none =>
    right
    rw [managerLoopStep_running compile ms req now fresh gathered hrun] at h
    cases req with
    | PermissionRequest r => exact Option.noConfusion hk
    | ReleaseRequest id key => exact Option.noConfusion hk
    | DebugSnapshotRequest key c => exact Option.noConfusion hk
    | ClientGaveUpNotification orig => exact Option.noConfusion hk
    | DebugSnapshotAllRequest c =>
      simp only [Option.some.injEq, Prod.mk.injEq] at h
      obtain ⟨rfl, rfl⟩ := h
      refine ⟨?_, fun _ _ hx => hx⟩
      intro e he inst heq
      rcases List.mem_append.mp he with he | he
      · exact no_spawn_of_map ms.registry
          (fun entry => (entry.2, Request.DebugSnapshotRequest entry.1 fresh)) e he inst heq
      · rw [List.mem_singleton] at he
        rw [heq] at he
        exact ManagerEffect.noConfusion he
    | InstanceExpiredNotification key mailbox =>
      simp only [Option.some.injEq, Prod.mk.injEq] at h
      obtain ⟨rfl, rfl⟩ := h
      refine ⟨no_spawn_singleton _ _, ?_⟩
      intro key1 mb1 hget
      simp only at hget
      by_cases hdel : mapGet ms.registry key = some mailbox
      · rw [if_pos hdel] at hget
        by_cases hkk : key1 = key
        · rw [hkk, mapGet_mapDelete_self] at hget
          exact Option.noConfusion hget
        · rw [mapGet_mapDelete_of_ne _ _ _ hkk] at hget
          exact hget
      · rw [if_neg hdel] at hget
        exact hget
    | Kill =>
      simp only [Option.some.injEq, Prod.mk.injEq] at h
      obtain ⟨rfl, rfl⟩ := h
      exact ⟨no_spawn_of_map ms.registry (fun entry => (entry.2, Request.Kill)),
        fun _ _ hx => hx⟩
    | InstanceDiedNotification key =>
      simp only [Option.some.injEq, Prod.mk.injEq] at h
      obtain ⟨rfl, rfl⟩ := h
      exact ⟨fun e he => absurd he (List.not_mem_nil e), fun _ _ hx => hx⟩

theorem routingInv_of_map (s : systemState) (g : instanceProc → instanceProc)
    (m : managerState) (mb : List ManagerRequest) (n : Nat)
    (hr : routingInv s) (hg : ∀ p, (g p).ls = p.ls) (hn : s.nextChan ≤ n)
    (hreg : ∀ key mailbox, mapGet m.registry key = some mailbox →
      mapGet s.manager.registry key = some mailbox) :
    routingInv { manager := m, managerMailbox := mb, procs := s.procs.map g, nextChan := n } := by
  intro key mailbox hget
  obtain ⟨h1, h2⟩ := hr key mailbox (hreg key mailbox hget)
  refine ⟨Nat.lt_of_lt_of_le h1 hn, ?_⟩
  intro q hq hqm
  obtain ⟨p, hp, rfl⟩ := List.mem_map.mp hq
  rw [hg p] at hqm ⊢
  exact h2 p hp hqm

theorem routingInv_managerRecv (compile : String → Option (String → Bool)) (s : systemState)
    (req : ManagerRequest) (rest : List ManagerRequest) (now : Int)
    (gathered : List (Option InstanceDebugSnapshot)) (m : managerState)
    (effects : List ManagerEffect) (hinv : systemInv s) (hr : routingInv s)
    (hrun : s.manager.returned = false)
    (h : managerLoopStep compile s.manager (ManagerEvent.recv req now s.nextChan gathered)
      = some (m, effects)) :
    routingInv { manager := m, managerMailbox := rest,
                 procs := effects.foldl applyManagerEffect s.procs,
                 nextChan := s.nextChan + 1 } := by
  rcases managerStep_shape compile s.manager m req now s.nextChan gathered effects hrun h with
    ⟨r, l, _, hnone, hlk, hlm, hreg, heff⟩ | ⟨hno, hreg⟩
  · have hfold : effects.foldl applyManagerEffect s.procs
        = (s.procs ++ [({ ls := l, pending := [] } : instanceProc)]).map (fun p =>
            if p.ls.state.mailbox = s.nextChan then
              { p with pending := p.pending ++ [Request.PermissionRequest r] }
            else p) := by
      rw [heff]
      rfl
    rw [hfold]
    intro key mailbox hget
    simp only at hget
    rw [hreg] at hget
    have hls : ∀ q ∈ (s.procs ++ [({ ls := l, pending := [] } : instanceProc)]).map (fun p =>
          if p.ls.state.mailbox = s.nextChan then
            { p with pending := p.pending ++ [Request.PermissionRequest r] }
          else p),
        (q.ls = l) ∨ ∃ p ∈ s.procs, q.ls = p.ls := by
      intro q hq
      obtain ⟨p, hp, rfl⟩ := List.mem_map.mp hq
      have hsame : (if p.ls.state.mailbox = s.nextChan then
            ({ p with pending := p.pending ++ [Request.PermissionRequest r] } : instanceProc)
          else p).ls = p.ls := by
        split_ifs <;> rfl
      rw [hsame]
      rcases List.mem_append.mp hp with hp | hp
      · exact Or.inr ⟨p, hp, rfl⟩
      · rw [List.mem_singleton] at hp
        rw [hp]
        exact Or.inl rfl
    by_cases hk : key = r.Key
    · rw [hk, mapGet_mapSet_self] at hget
      simp only [Option.some.injEq] at hget
      refine ⟨by rw [← hget]; exact Nat.lt_succ_self _, ?_⟩
      intro q hq hqm
      rcases hls q hq with hl | ⟨p, hp, hl⟩
      · rw [hl, hk]; exact hlk
      · rw [hl] at hqm
        have := hinv.1 p hp
        rw [hqm, ← hget] at this
        exact absurd this (Nat.lt_irrefl _)
    · rw [mapGet_mapSet_of_ne _ _ _ _ hk] at hget
      obtain ⟨h1, h2⟩ := hr key mailbox hget
      refine ⟨Nat.lt_succ_of_lt h1, ?_⟩
      intro q hq hqm
      rcases hls q hq with hl | ⟨p, hp, hl⟩
      · rw [hl, hlm] at hqm
        rw [← hqm] at h1
        exact absurd h1 (Nat.lt_irrefl _)
      · rw [hl] at hqm ⊢
        exact h2 p hp hqm
  · obtain ⟨g, hg, hfold⟩ := foldl_applyManagerEffect_map effects s.procs hno
    rw [hfold]
    exact routingInv_of_map s g m rest _ hr (fun p => (hg p).1) (Nat.le_succ _) hreg

theorem routingInv_of_set (s : systemState) (i : Nat) (p q : instanceProc)
    (mb : List ManagerRequest) (hr : routingInv s) (hp : s.procs[i]? = some p)
    (hkey : q.ls.state.key = p.ls.state.key)
    (hmb : q.ls.state.mailbox = p.ls.state.mailbox) :
    routingInv { s with procs := s.procs.set i q, managerMailbox := mb } := by
  intro key mailbox hget
  obtain ⟨h1, h2⟩ := hr key mailbox hget
  refine ⟨h1, ?_⟩
  intro x hx hxm
  rcases List.mem_or_eq_of_mem_set hx with hx | rfl
  · exact h2 x hx hxm
  · rw [hkey]
    rw [hmb] at hxm
    exact h2 p (List.getElem?_mem hp) hxm

theorem systemStep_routing (compile : String → Option (String → Bool)) (s s1 : systemState)
    (ev : SystemEvent) (hinv : systemInv s) (hr : routingInv s)
    (h : systemStep compile s ev = some s1) : routingInv s1 := by
  cases ev with
  | client req =>
    simp only [systemStep, Option.some.injEq] at h
    rw [← h]
    exact hr
  | configFile cfg =>
    unfold systemStep at h
    rcases Bool.eq_false_or_eq_true s.manager.returned with hret | hret
    · simp only [hret, if_true, Option.some.injEq] at h
      rw [← h]
      exact hr
    · simp only [hret, Bool.false_eq_true, if_false,
        managerLoopStep_config compile s.manager cfg hret, Option.some.injEq] at h
      rw [← h]
      obtain ⟨g, hg, hfold⟩ := foldl_applyManagerEffect_map
        (s.manager.registry.map (fun entry =>
          ManagerEffect.ToInstance entry.2
            (Request.ConfigUpdateNotification
              (mergeConfigsForInstance compile entry.1 s.manager.globalConfig cfg))))
        s.procs
        (no_spawn_of_map s.manager.registry (fun entry => (entry.2,
          Request.ConfigUpdateNotification
            (mergeConfigsForInstance compile entry.1 s.manager.globalConfig cfg))))
      rw [hfold]
      exact routingInv_of_map s g _ _ _ hr (fun p => (hg p).1) (Nat.le_refl _)
        (fun _ _ hx => hx)
  | managerRecv now gathered =>
    unfold systemStep at h
    rcases Bool.eq_false_or_eq_true s.manager.returned with hret | hret
    · simp only [hret, if_true, Option.some.injEq] at h
      rw [← h]
      exact hr
    · simp only [hret, Bool.false_eq_true, if_false] at h
      cases hmb : s.managerMailbox with
      | nil =>
        simp only [hmb, Option.some.injEq] at h
        rw [← h]
        exact hr
      | cons req rest =>
        simp only [hmb] at h
        cases hstep : managerLoopStep compile s.manager
            (ManagerEvent.recv req now s.nextChan gathered) with
        | none =>
          rw [hstep] at h
          exact Option.noConfusion h
        | some res =>
          obtain ⟨m, effects⟩ := res
          rw [hstep] at h
          simp only [Option.some.injEq] at h
          rw [← h]
          exact routingInv_managerRecv compile s req rest now gathered m effects hinv hr hret
            hstep
  | instanceRecv i now =>
    unfold systemStep at h
    cases hp : s.procs[i]? with
    | none =>
      simp only [hp, Option.some.injEq] at h
      rw [← h]
      exact hr
    | some p =>
      simp only [hp] at h
      rcases Bool.eq_false_or_eq_true p.ls.returned with hret | hret
      · simp only [hret, if_true, Option.some.injEq] at h
        rw [← h]
        exact hr
      · simp only [hret, Bool.false_eq_true, if_false] at h
        cases hpend : p.pending with
        | nil =>
          simp only [hpend, Option.some.injEq] at h
          rw [← h]
          exact hr
        | cons req rest =>
          simp only [hpend] at h
          cases hstep : loopStep p.ls (Event.recv now req) with
          | none =>
            rw [hstep] at h
            exact Option.noConfusion h
          | some res =>
            obtain ⟨ls1, sent⟩ := res
            rw [hstep] at h
            simp only [Option.some.injEq] at h
            rw [← h]
            obtain ⟨hk, hm, _, _⟩ := loopStep_identity p.ls ls1 _ sent hstep
            exact routingInv_of_set s i p _ _ hr hp hk hm
  | instanceTick i tFlush tCheck =>
    unfold systemStep at h
    cases hp : s.procs[i]? with
    | none =>
      simp only [hp, Option.some.injEq] at h
      rw [← h]
      exact hr
    | some p =>
      simp only [hp] at h
      rcases Bool.eq_false_or_eq_true p.ls.returned with hret | hret
      · simp only [hret, if_true, Option.some.injEq] at h
        rw [← h]
        exact hr
      · simp only [hret, Bool.false_eq_true, if_false] at h
        cases hstep : loopStep p.ls (Event.tick tFlush tCheck) with
        | none =>
          rw [hstep] at h
          exact Option.noConfusion h
        | some res =>
          obtain ⟨ls1, sent⟩ := res
          rw [hstep] at h
          simp only [Option.some.injEq] at h
          rw [← h]
          obtain ⟨hk, hm, _, _⟩ := loopStep_identity p.ls ls1 _ sent hstep
          exact routingInv_of_set s i p _ _ hr hp hk hm

theorem systemRun_invariants (compile : String → Option (String → Bool)) :
    ∀ (evs : List SystemEvent) (s s1 : systemState),
      systemInv s → routingInv s → systemRun compile s evs = some s1 →
      systemInv s1 ∧ routingInv s1 := by
  intro evs
  induction evs with
  | nil =>
    intro s s1 hinv hr h
    simp only [systemRun, Option.some.injEq] at h
    rw [← h]
    exact ⟨hinv, hr⟩
  | cons ev rest ih =>
    intro s s1 hinv hr h
    unfold systemRun at h
    cases hstep : systemStep compile s ev with
    | none =>
      rw [hstep] at h
      exact Option.noConfusion h
    | some s2 =>
      rw [hstep] at h
      exact ih s2 s1 (systemStep_inv compile s s2 ev hinv hstep)
        (systemStep_routing compile s s2 ev hinv hr hstep) h

theorem systemInit_routing (globalConfig : Config) (configFromFile : Option CfgFromFile)
    (mailbox : Nat) : routingInv (systemInit globalConfig configFromFile mailbox) := by
  intro key mb hget
  exact Option.noConfusion hget

/-- An instance that gets none of the messages of a shard iteration is left as it is, at
its position. -/
theorem foldl_frame : ∀ (effects : List ManagerEffect) (procs : List instanceProc) (i : Nat)
    (p : instanceProc), procs[i]? = some p →
    (∀ mb m, ManagerEffect.ToInstance mb m ∈ effects → mb ≠ p.ls.state.mailbox) →
    (effects.foldl applyManagerEffect procs)[i]? = some p := by
  intro effects
  induction effects with
  | nil => intro procs i p hp _; exact hp
  | cons e rest ih =>
    intro procs i p hp hto
    rw [List.foldl_cons]
    apply ih
    · cases e with
      | Spawn inst =>
        have hlt : i < procs.length := (List.getElem?_eq_some.mp hp).1
        simp only [applyManagerEffect]
        rw [List.getElem?_append_left hlt]
        exact hp
      | ToInstance mb m =>
        have hne : ¬ p.ls.state.mailbox = mb :=
          fun h => hto mb m (List.mem_cons_self _ _) h.symm
        simp only [applyManagerEffect, deliverToInstance, List.getElem?_map, hp,
          Option.map_some', if_neg hne]
      | DebugSnapshot c snap => exact hp
      | DebugSnapshotAll c snap => exact hp
    · intro mb m hmem
      exact hto mb m (List.mem_cons_of_mem _ hmem)

/-- Conversely: when a shard iteration creates instances of key `k` only and sends messages
to instances of key `k` only, an instance of another key was there before, as it is. -/
theorem foldl_frame_conv (k : String) : ∀ (effects : List ManagerEffect)
    (procs : List instanceProc),
    (∀ l, ManagerEffect.Spawn l ∈ effects → l.state.key = k) →
    (∀ mb m, ManagerEffect.ToInstance mb m ∈ effects →
      ∀ p ∈ procs, p.ls.state.mailbox = mb → p.ls.state.key = k) →
    ∀ (i : Nat) (q : instanceProc), (effects.foldl applyManagerEffect procs)[i]? = some q →
      q.ls.state.key ≠ k → procs[i]? = some q := by
  intro effects
  induction effects with
  | nil => intro procs _ _ i q hq _; exact hq
  | cons e rest ih =>
    intro procs hspawn hto i q hq hkey
    rw [List.foldl_cons] at hq
    cases e with
    | Spawn inst =>
      have hik : inst.state.key = k := hspawn inst (List.mem_cons_self _ _)
      have h1 := ih (procs ++ [({ ls := inst, pending := [] } : instanceProc)])
        (fun l hl => hspawn l (List.mem_cons_of_mem _ hl))
        (fun mb m hm p hp hpm => by
          rcases List.mem_append.mp hp with hp | hp
          · exact hto mb m (List.mem_cons_of_mem _ hm) p hp hpm
          · rw [List.mem_singleton] at hp
            rw [hp]
            exact hik)
        i q hq hkey
      by_cases hlt : i < procs.length
      · rw [List.getElem?_append_left hlt] at h1
        exact h1
      · have hmem := List.getElem?_mem h1
        have hge : procs.length ≤ i := Nat.le_of_not_lt hlt
        rw [List.getElem?_append_right hge] at h1
        have hq2 : q ∈ [({ ls := inst, pending := [] } : instanceProc)] :=
          List.getElem?_mem h1
        rw [List.mem_singleton] at hq2
        rw [hq2] at hkey
        exact absurd hik hkey
    | ToInstance mb m =>
      have hsame : ∀ p : instanceProc,
          (if p.ls.state.mailbox = mb then
            ({ p with pending := p.pending ++ [m] } : instanceProc) else p).ls = p.ls := by
        intro p
        split_ifs <;> rfl
      have h1 := ih (deliverToInstance mb m procs)
        (fun l hl => hspawn l (List.mem_cons_of_mem _ hl))
        (fun mb1 m1 hm p hp hpm => by
          obtain ⟨p0, hp0, rfl⟩ := List.mem_map.mp hp
          rw [hsame p0] at hpm ⊢
          exact hto mb1 m1 (List.mem_cons_of_mem _ hm) p0 hp0 hpm)
        i q hq hkey
      simp only [deliverToInstance, List.getElem?_map] at h1
      cases hp : procs[i]? with
      | none =>
        rw [hp] at h1
        exact Option.noConfusion h1
      | some p =>
        rw [hp, Option.map_some', Option.some.injEq] at h1
        have hls : q.ls = p.ls := by rw [← h1]; exact hsame p
        have hne : ¬ p.ls.state.mailbox = mb := by
          intro hpm
          have := hto mb m (List.mem_cons_self _ _) p (List.getElem?_mem hp) hpm
          rw [← hls] at this
          exact hkey this
        rw [if_neg hne] at h1
        rw [h1]
    | DebugSnapshot c snap =>
      exact ih procs (fun l hl => hspawn l (List.mem_cons_of_mem _ hl))
        (fun mb m hm => hto mb m (List.mem_cons_of_mem _ hm)) i q hq hkey
    | DebugSnapshotAll c snap =>
      exact ih procs (fun l hl => hspawn l (List.mem_cons_of_mem _ hl))
        (fun mb m hm => hto mb m (List.mem_cons_of_mem _ hm)) i q hq hkey

/-- The registry after a shard iteration on a request routed by key `k`, at another key. -/
theorem managerStep_registry_frame (compile : String → Option (String → Bool))
    (ms ms1 : managerState) (req : ManagerRequest) (k : String) (now : Int) (fresh : Nat)
    (gathered : List (Option InstanceDebugSnapshot)) (effects : List ManagerEffect)
    (hrun : ms.returned = false) (hk : requestKey req = some k)
    (h : managerLoopStep compile ms (ManagerEvent.recv req now fresh gathered)
      = some (ms1, effects)) :
    (∀ k1, k1 ≠ k → mapGet ms1.registry k1 = mapGet ms.registry k1)
    ∧ ms1.globalConfig = ms.globalConfig ∧ ms1.configFromFile = ms.configFromFile
    ∧ ms1.mailbox = ms.mailbox ∧ ms1.returned = false
    ∧ (∀ mb m, ManagerEffect.ToInstance mb m ∈ effects → mapGet ms1.registry k = some mb)
    ∧ (∀ l, ManagerEffect.Spawn l ∈ effects →
        l.state.key = k ∧ l.state.mailbox = fresh ∧ mapGet ms.registry k = none) := by
  rcases managerStep_keyed compile ms ms1 req k now fresh gathered effects hrun hk h with
    ⟨r, l, rfl, hrk, hnone, hnew, hm, heff⟩ | ⟨hm, hcase⟩
  · obtain ⟨hlk, hlm, _⟩ := New_identity _ _ _ _ _ l hnew
    rw [hm, heff]
    refine ⟨?_, rfl, rfl, rfl, hrun, ?_, ?_⟩
    · intro k1 hne
      exact mapGet_mapSet_of_ne _ _ _ _ hne
    · intro mb m hmem
      simp only [List.mem_cons, List.mem_singleton, ManagerEffect.ToInstance.injEq,
        List.not_mem_nil, or_false] at hmem
      rcases hmem with hmem | hmem
      · exact ManagerEffect.noConfusion hmem
      · rw [hmem.1]
        exact mapGet_mapSet_self _ _ _
    · intro l1 hmem
      simp only [List.mem_cons, List.mem_singleton, ManagerEffect.Spawn.injEq,
        List.not_mem_nil, or_false] at hmem
      rcases hmem with hmem | hmem
      · rw [hmem]
        exact ⟨hlk, hlm, hnone⟩
      · exact ManagerEffect.noConfusion hmem
  · rw [hm]
    refine ⟨fun _ _ => rfl, rfl, rfl, rfl, hrun, ?_, ?_⟩
    · intro mb m hmem
      rcases hcase with ⟨mb1, m1, hget, heff⟩ | ⟨_, heff | ⟨c, heff⟩⟩
      · rw [heff, List.mem_singleton, ManagerEffect.ToInstance.injEq] at hmem
        rw [hmem.1]
        exact hget
      · rw [heff] at hmem
        exact absurd hmem (List.not_mem_nil _)
      · rw [heff, List.mem_singleton] at hmem
        exact ManagerEffect.noConfusion hmem
    · intro l hmem
      rcases hcase with ⟨mb1, m1, hget, heff⟩ | ⟨_, heff | ⟨c, heff⟩⟩
      · rw [heff, List.mem_singleton] at hmem
        exact ManagerEffect.noConfusion hmem
      · rw [heff] at hmem
        exact absurd hmem (List.not_mem_nil _)
      · rw [heff, List.mem_singleton] at hmem
        exact ManagerEffect.noConfusion hmem

/-- The instances of the other keys after a shard iteration on a request routed by key
`k`, in a state that satisfies the two invariants. -/
theorem systemStep_manager_frame (compile : String → Option (String → Bool))
    (s s1 : systemState) (req : ManagerRequest) (rest : List ManagerRequest) (k : String)
    (now : Int) (gathered : List (Option InstanceDebugSnapshot))
    (hinv : systemInv s) (hr : routingInv s)
    (hmb : s.managerMailbox = req :: rest) (hk : requestKey req = some k)
    (h : systemStep compile s (SystemEvent.managerRecv now gathered) = some s1) :
    (∀ k1, k1 ≠ k → mapGet s1.manager.registry k1 = mapGet s.manager.registry k1)
    ∧ ∀ (i : Nat) (p : instanceProc), p.ls.state.key ≠ k →
        (s1.procs[i]? = some p ↔ s.procs[i]? = some p) := by
  unfold systemStep at h
  rcases Bool.eq_false_or_eq_true s.manager.returned with hret | hret
  · simp only [hret, if_true, Option.some.injEq] at h
    rw [← h]
    exact ⟨fun _ _ => rfl, fun _ _ _ => Iff.rfl⟩
  · simp only [hret, Bool.false_eq_true, if_false, hmb] at h
    cases hstep : managerLoopStep compile s.manager
        (ManagerEvent.recv req now s.nextChan gathered) with
    | none =>
      rw [hstep] at h
      exact Option.noConfusion h
    | some res =>
      obtain ⟨m, effects⟩ := res
      rw [hstep] at h
      simp only [Option.some.injEq] at h
      rw [← h]
      obtain ⟨hreg, _, _, _, _, hto, hspawn⟩ := managerStep_registry_frame compile s.manager m
        req k now s.nextChan gathered effects hret hk hstep
      have htoOld : ∀ mb msg, ManagerEffect.ToInstance mb msg ∈ effects →
          ∀ p ∈ s.procs, p.ls.state.mailbox = mb → p.ls.state.key = k := by
        intro mb msg hmem p hp hpm
        rcases managerStep_keyed compile s.manager m req k now s.nextChan gathered effects
            hret hk hstep with ⟨r, l, _, _, _, hnew, _, heff⟩ | ⟨hm, _⟩
        · obtain ⟨_, hlm, _⟩ := New_identity _ _ _ _ _ l hnew
          rw [heff] at hmem
          simp only [List.mem_cons, List.mem_singleton, ManagerEffect.ToInstance.injEq,
            List.not_mem_nil, or_false] at hmem
          rcases hmem with hmem | hmem
          · exact ManagerEffect.noConfusion hmem
          · have hlt := hinv.1 p hp
            rw [hpm, hmem.1, hlm] at hlt
            exact absurd hlt (Nat.lt_irrefl _)
        · have hget := hto mb msg hmem
          rw [hm] at hget
          exact (hr k mb hget).2 p hp hpm
      refine ⟨hreg, ?_⟩
      intro i p hkey
      constructor
      · intro hp
        exact foldl_frame_conv k effects s.procs (fun l hl => (hspawn l hl).1) htoOld i p hp
          hkey
      · intro hp
        apply foldl_frame effects s.procs i p hp
        intro mb msg hmem heq
        exact hkey (htoOld mb msg hmem p (List.getElem?_mem hp) heq.symm)

/-- The registry and the instances of the other keys after an instance of key `k` has
received a message or a tick. -/
theorem systemStep_instance_frame (compile : String → Option (String → Bool))
    (s s1 : systemState) (i : Nat) (p : instanceProc) (k : String) (ev : SystemEvent)
    (hp : s.procs[i]? = some p) (hk : p.ls.state.key = k)
    (hev : (∃ now, ev = SystemEvent.instanceRecv i now)
      ∨ ∃ tFlush tCheck, ev = SystemEvent.instanceTick i tFlush tCheck)
    (h : systemStep compile s ev = some s1) :
    s1.manager = s.manager
    ∧ ∀ (j : Nat) (q : instanceProc), q.ls.state.key ≠ k →
        (s1.procs[j]? = some q ↔ s.procs[j]? = some q) := by
  have hset : ∀ (x : instanceProc), x.ls.state.key = k →
      ∀ (j : Nat) (q : instanceProc), q.ls.state.key ≠ k →
        ((s.procs.set i x)[j]? = some q ↔ s.procs[j]? = some q) := by
    intro x hx j q hq
    by_cases hij : i = j
    · subst hij
      have hlt : i < s.procs.length := (List.getElem?_eq_some.mp hp).1
      rw [List.getElem?_set_self hlt, hp]
      constructor
      · intro hxq
        rw [Option.some.injEq] at hxq
        rw [← hxq] at hq
        exact absurd hx hq
      · intro hpq
        rw [Option.some.injEq] at hpq
        rw [← hpq] at hq
        exact absurd hk hq
    · rw [List.getElem?_set_ne hij]
  rcases hev with ⟨now, rfl⟩ | ⟨tFlush, tCheck, rfl⟩
  · unfold systemStep at h
    simp only [hp] at h
    rcases Bool.eq_false_or_eq_true p.ls.returned with hret | hret
    · simp only [hret, if_true, Option.some.injEq] at h
      rw [← h]
      exact ⟨rfl, fun _ _ _ => Iff.rfl⟩
    · simp only [hret, Bool.false_eq_true, if_false] at h
      cases hpend : p.pending with
      | nil =>
        simp only [hpend, Option.some.injEq] at h
        rw [← h]
        exact ⟨rfl, fun _ _ _ => Iff.rfl⟩
      | cons req rest =>
        simp only [hpend] at h
        cases hstep : loopStep p.ls (Event.recv now req) with
        | none =>
          rw [hstep] at h
          exact Option.noConfusion h
        | some res =>
          obtain ⟨ls1, sent⟩ := res
          rw [hstep] at h
          simp only [Option.some.injEq] at h
          rw [← h]
          obtain ⟨hk1, _, _, _⟩ := loopStep_identity p.ls ls1 _ sent hstep
          exact ⟨rfl, hset _ (by rw [← hk]; exact hk1)⟩
  · unfold systemStep at h
    simp only [hp] at h
    rcases Bool.eq_false_or_eq_true p.ls.returned with hret | hret
    · simp only [hret, if_true, Option.some.injEq] at h
      rw [← h]
      exact ⟨rfl, fun _ _ _ => Iff.rfl⟩
    · simp only [hret, Bool.false_eq_true, if_false] at h
      cases hstep : loopStep p.ls (Event.tick tFlush tCheck) with
      | none =>
        rw [hstep] at h
        exact Option.noConfusion h
      | some res =>
        obtain ⟨ls1, sent⟩ := res
        rw [hstep] at h
        simp only [Option.some.injEq] at h
        rw [← h]
        obtain ⟨hk1, _, _, _⟩ := loopStep_identity p.ls ls1 _ sent hstep
        exact ⟨rfl, hset _ (by rw [← hk]; exact hk1)⟩

/-- C21, refuted as stated: a shard is started with a file snapshot that gives key `k` the
limit `-1`.  After a request for key `q` has been approved, the registry maps `q` to the
one instance, which is live and has counted the request, and a PermissionRequest for `k`
waits in the mailbox of the shard.  When the shard receives it, `New` panics for the limit
`-1`: the shard and with it the instance of `q` are gone, whereas without the request for
`k` the next request for `q` is received and answered. -/
theorem C21_counterexample :
    (systemRun sampleCompile (systemInit sampleGlobal (some sampleBadFile) 0)
        (sampleBadRuleRun.take 4)).map (fun s => mapGet s.manager.registry "q")
      = some (some 1)
    ∧ (systemRun sampleCompile (systemInit sampleGlobal (some sampleBadFile) 0)
        (sampleBadRuleRun.take 4)).map
      (fun s => s.procs.map (fun p => (p.ls.state.key, p.ls.returned,
                   p.ls.state.nApprovedThisWindow)))
      = some [("q", false, 1)]
    ∧ (systemRun sampleCompile (systemInit sampleGlobal (some sampleBadFile) 0)
        (sampleBadRuleRun.take 4)).map (fun s => s.managerMailbox)
      = some [ManagerRequest.PermissionRequest (sampleRequestFor "k" "2")]
    ∧ (systemRun sampleCompile (systemInit sampleGlobal (some sampleBadFile) 0)
        (sampleBadRuleRun.take 4)).bind
      (fun s => systemStep sampleCompile s (SystemEvent.managerRecv 2 [])) = none
    ∧ systemRun sampleCompile (systemInit sampleGlobal (some sampleBadFile) 0)
        sampleBadRuleRun = none
    ∧ (systemRun sampleCompile (systemInit sampleGlobal (some sampleBadFile) 0)
        (sampleBadRuleRun.take 3
          ++ [SystemEvent.client (ManagerRequest.PermissionRequest (sampleRequestFor "q" "3")),
              SystemEvent.managerRecv 3 [],
              SystemEvent.instanceRecv 0 4])).map
      (fun s => s.procs.map (fun p => (p.ls.state.key, p.ls.returned,
                   p.ls.state.nApprovedThisWindow, p.ls.state.nDeniedThisWindow)))
      = some [("q", false, 1, 1)] := by
  refine ⟨by decide, by decide, by decide, by decide, by decide, by decide⟩

/-- C21 (amended): independent keys do not interfere, for requests that the shard handles
without panicking.  (1) For every running shard state and every PermissionRequest,
ReleaseRequest, ClientGaveUp or DebugSnapshot for key `k` on which the iteration of the
shard returns: the registry entry of every other key is unchanged, messages go only to the
mailbox registered under `k`, an instance that is created has key `k`, and what the shard
sends for a request for another key afterwards is what it sends for it in the state
before.  (2) In every reachable state of a shard with its instances, when the shard
receives such a request for `k`, or an instance of key `k` receives a message, and the
step returns: the registry entry of every other key is unchanged, and the instances of
every other key are the same before and after, at the same positions, with their
configuration, counters, wait queue and pending messages.  (3) The iteration of the shard
returns whenever the request is not a PermissionRequest for an unregistered key, or the
configuration for `k` has a limit from 0 to 35184372088832 (`2 ^ 45`) and a window from
1 ms to 9223372036854 ms; the step of an instance on one of the four kinds of message
always returns. -/
theorem C21_independent_keys (compile : String → Option (String → Bool)) :
    (∀ (ms ms1 : managerState) (req : ManagerRequest) (k : String) (now : Int) (fresh : Nat)
        (gathered : List (Option InstanceDebugSnapshot)) (effects : List ManagerEffect),
        ms.returned = false → requestKey req = some k →
        managerLoopStep compile ms (ManagerEvent.recv req now fresh gathered)
          = some (ms1, effects) →
        (∀ k1, k1 ≠ k → mapGet ms1.registry k1 = mapGet ms.registry k1)
        ∧ (∀ mb m, ManagerEffect.ToInstance mb m ∈ effects →
            mapGet ms1.registry k = some mb)
        ∧ (∀ l, ManagerEffect.Spawn l ∈ effects → l.state.key = k)
        ∧ ∀ (req1 : ManagerRequest) (k1 : String) (now1 : Int) (fresh1 : Nat)
            (gathered1 : List (Option InstanceDebugSnapshot)),
            requestKey req1 = some k1 → k1 ≠ k →
            (managerLoopStep compile ms1
                (ManagerEvent.recv req1 now1 fresh1 gathered1)).map Prod.snd
              = (managerLoopStep compile ms
                  (ManagerEvent.recv req1 now1 fresh1 gathered1)).map Prod.snd)
    ∧ (∀ (globalConfig : Config) (configFromFile : Option CfgFromFile) (mailbox : Nat)
        (evs : List SystemEvent) (s s1 : systemState) (k : String) (ev : SystemEvent),
        systemRun compile (systemInit globalConfig configFromFile mailbox) evs = some s →
        ((∃ now gathered req rest, ev = SystemEvent.managerRecv now gathered
            ∧ s.managerMailbox = req :: rest ∧ requestKey req = some k)
          ∨ ∃ i now p, ev = SystemEvent.instanceRecv i now ∧ s.procs[i]? = some p
              ∧ p.ls.state.key = k) →
        systemStep compile s ev = some s1 →
        (∀ k1, k1 ≠ k → mapGet s1.manager.registry k1 = mapGet s.manager.registry k1)
        ∧ ∀ (i : Nat) (p : instanceProc), p.ls.state.key ≠ k →
            (s1.procs[i]? = some p ↔ s.procs[i]? = some p))
    ∧ (∀ (ms : managerState) (req : ManagerRequest) (k : String) (now : Int) (fresh : Nat)
        (gathered : List (Option InstanceDebugSnapshot)),
        ms.returned = false → requestKey req = some k →
        ((∃ r, req = ManagerRequest.PermissionRequest r) → mapGet ms.registry k = none →
          0 ≤ (mergeConfigsForInstance compile k ms.globalConfig
                ms.configFromFile).MaxRequestsPerWindow
          ∧ (mergeConfigsForInstance compile k ms.globalConfig
                ms.configFromFile).MaxRequestsPerWindow ≤ 35184372088832
          ∧ 1 ≤ (mergeConfigsForInstance compile k ms.globalConfig
                  ms.configFromFile).WindowMillis
          ∧ (mergeConfigsForInstance compile k ms.globalConfig
                ms.configFromFile).WindowMillis ≤ 9223372036854) →
        ∃ ms1 effects, managerLoopStep compile ms (ManagerEvent.recv req now fresh gathered)
          = some (ms1, effects))
    ∧ ∀ (s : systemState) (i : Nat) (now : Int) (p : instanceProc) (m : Request)
        (rest : List Request),
        s.procs[i]? = some p → p.pending = m :: rest → m.isKeyed = true →
        ∃ s1, systemStep compile s (SystemEvent.instanceRecv i now) = some s1 := by
  refine ⟨?_, ?_, ?_, ?_⟩
  · intro ms ms1 req k now fresh gathered effects hrun hk hstep
    obtain ⟨hreg, hg, hf, hm, hrun1, hto, hspawn⟩ := managerStep_registry_frame compile ms ms1
      req k now fresh gathered effects hrun hk hstep
    refine ⟨hreg, hto, fun l hl => (hspawn l hl).1, ?_⟩
    intro req1 k1 now1 fresh1 gathered1 hk1 hne
    exact managerStep_effects_congr compile ms ms1 req1 k1 now1 fresh1 gathered1 hrun hrun1
      hk1 hg hf hm (hreg k1 hne)
  · intro globalConfig configFromFile mailbox evs s s1 k ev hrunS hev hstep
    obtain ⟨hinv, hr⟩ := systemRun_invariants compile evs _ s
      (systemInit_inv globalConfig configFromFile mailbox)
      (systemInit_routing globalConfig configFromFile mailbox) hrunS
    rcases hev with ⟨now, gathered, req, rest, rfl, hmb, hk⟩ | ⟨i, now, p, rfl, hp, hk⟩
    · exact systemStep_manager_frame compile s s1 req rest k now gathered hinv hr hmb hk hstep
    · obtain ⟨hman, hprocs⟩ := systemStep_instance_frame compile s s1 i p k _ hp hk
        (Or.inl ⟨now, rfl⟩) hstep
      exact ⟨fun _ _ => by rw [hman], hprocs⟩
  · intro ms req k now fresh gathered hrun hk hvalid
    exact managerStep_keyed_isSome compile ms req k now fresh gathered hrun hk hvalid
  · intro s i now p m rest hp hpend hkeyed
    unfold systemStep
    simp only [hp]
    rcases Bool.eq_false_or_eq_true p.ls.returned with hret | hret
    · exact ⟨s, by simp only [hret, if_true]⟩
    · simp only [hret, Bool.false_eq_true, if_false, hpend]
      obtain ⟨ls1, sent, hls⟩ := loopStep_isSome p.ls (Event.recv now m) (by
        intro now1 cfg he
        simp only [Event.recv.injEq] at he
        rw [he.2] at hkeyed
        exact Bool.noConfusion hkeyed)
      rw [hls]
      exact ⟨_, rfl⟩

/-- C21 (amended) on a run: after a request for key `q` has been approved, the shard
receives a request for key `j` and creates the instance of `j`; the registry entry and the
instance of `q` are the same before and after. -/
theorem C21_independent_keys_witness :
    ∃ s s1 : systemState,
      systemRun sampleCompile (systemInit sampleGlobal none 0)
          (sampleBadRuleRun.take 3
            ++ [SystemEvent.client
                  (ManagerRequest.PermissionRequest (sampleRequestFor "j" "2"))]) = some s
      ∧ systemStep sampleCompile s (SystemEvent.managerRecv 2 []) = some s1
      ∧ s.procs.map (fun p => p.ls.state.key) = ["q"]
      ∧ s1.procs.map (fun p => p.ls.state.key) = ["q", "j"]
      ∧ mapGet s.manager.registry "q" = some 1
      ∧ (∀ k1, k1 ≠ "j" → mapGet s1.manager.registry k1 = mapGet s.manager.registry k1)
      ∧ ∀ (i : Nat) (p : instanceProc), p.ls.state.key ≠ "j" →
          (s1.procs[i]? = some p ↔ s.procs[i]? = some p) := by
  have h1 : (systemRun sampleCompile (systemInit sampleGlobal none 0)
      (sampleBadRuleRun.take 3
        ++ [SystemEvent.client
              (ManagerRequest.PermissionRequest (sampleRequestFor "j" "2"))])).isSome
      = true := by decide
  obtain ⟨s, hs⟩ := Option.isSome_iff_exists.mp h1
  have h2 : ((systemRun sampleCompile (systemInit sampleGlobal none 0)
      (sampleBadRuleRun.take 3
        ++ [SystemEvent.client
              (ManagerRequest.PermissionRequest (sampleRequestFor "j" "2"))])).bind
      (fun s => systemStep sampleCompile s (SystemEvent.managerRecv 2 []))).isSome
      = true := by decide
  rw [hs, Option.some_bind] at h2
  obtain ⟨s1, hs1⟩ := Option.isSome_iff_exists.mp h2
  have h3 : (systemRun sampleCompile (systemInit sampleGlobal none 0)
      (sampleBadRuleRun.take 3
        ++ [SystemEvent.client
              (ManagerRequest.PermissionRequest (sampleRequestFor "j" "2"))])).map
      (fun s => (s.procs.map (fun p => p.ls.state.key), mapGet s.manager.registry "q",
        s.managerMailbox))
      = some (["q"], some 1,
          [ManagerRequest.PermissionRequest (sampleRequestFor "j" "2")]) := by decide
  rw [hs, Option.map_some', Option.some.injEq, Prod.mk.injEq, Prod.mk.injEq] at h3
  have h4 : ((systemRun sampleCompile (systemInit sampleGlobal none 0)
      (sampleBadRuleRun.take 3
        ++ [SystemEvent.client
              (ManagerRequest.PermissionRequest (sampleRequestFor "j" "2"))])).bind
      (fun s => systemStep sampleCompile s (SystemEvent.managerRecv 2 []))).map
      (fun s => s.procs.map (fun p => p.ls.state.key)) = some ["q", "j"] := by decide
  rw [hs, Option.some_bind, hs1, Option.map_some', Option.some.injEq] at h4
  have hframe := (C21_independent_keys sampleCompile).2.1 sampleGlobal none 0 _ s s1 "j"
    (SystemEvent.managerRecv 2 []) hs
    (Or.inl ⟨2, [], _, [], rfl, h3.2.2, rfl⟩) hs1
  exact ⟨s, s1, hs, hs1, h3.1, h4, h3.2.1, hframe.1, hframe.2⟩

/-! ## The rate endpoint -/

theorem minMax_isSome (min max t : Int) :
    (minMax min max t).isSome = true ↔ (t < min ∨ max < t) := by
  unfold minMax
  by_cases h1 : t < min
  · simp [h1]
  · by_cases h2 : t > max
    · simp [h1, h2]
    · have h3 : ¬ (t < min ∨ max < t) := by omega
      simp only [h1, h2, if_false, Option.isSome_none, Bool.false_eq_true, h3, or_self]

/-- A well-formed request passes the checks of the handler. -/
theorem HandleRateRequest_of_wellFormed (cfg : GlobalCfgValidated)
    (AskPermission : String → Bool → Int → Int → ExtRespCode × String)
    (Do : String → String → Option Int) (c : Context) (canWait : Bool) (maxRequests : Int)
    (maxRequestsInQueue : Int) (h : wellFormed cfg c canWait maxRequests maxRequestsInQueue) :
    HandleRateRequest cfg AskPermission Do c
      = match maybeForwardToCorrectInstance Do c cfg (TrimSpace c.key) with
        | none => none
        | some (some forwarded) => some forwarded
        | some none =>
          match AskPermission (TrimSpace c.key) canWait maxRequests maxRequestsInQueue with
          | (ExtRespCode.Approved, requestID) =>
            some (writeString 200 requestID,
              [HandlerCall.AskPermission (TrimSpace c.key) canWait maxRequests
                maxRequestsInQueue])
          | (ExtRespCode.Denied, _) =>
            some (writeNoContent 429,
              [HandlerCall.AskPermission (TrimSpace c.key) canWait maxRequests
                maxRequestsInQueue])
          | (ExtRespCode.ClientGaveUp, _) =>
            some (writeNoContent 499,
              [HandlerCall.AskPermission (TrimSpace c.key) canWait maxRequests
                maxRequestsInQueue]) := by
  obtain ⟨hkey, hcw, hmr, hmq, hrate, hqueue⟩ := h
  have h1 : ¬ (maxRequests ≠ NoChange ∧ cfg.RequestsCanSetRate = false) := by
    rintro ⟨hne, hf⟩
    rcases hrate with hr | ⟨hr, _⟩
    · exact hne hr
    · rw [hf] at hr
      exact Bool.noConfusion hr
  have h2 : ¬ (maxRequestsInQueue ≠ NoChange ∧ cfg.RequestsCanModQueue = false) := by
    rintro ⟨hne, hf⟩
    rcases hqueue with hr | ⟨hr, _⟩
    · exact hne hr
    · rw [hf] at hr
      exact Bool.noConfusion hr
  have h3 : ¬ (maxRequests ≠ NoChange
      ∧ (cfg.MaxRequestsValidator maxRequests).isSome = true) := by
    rintro ⟨hne, hv⟩
    rcases hrate with hr | ⟨_, hlo, hhi⟩
    · exact hne hr
    · rcases (minMax_isSome 1 1000000000 maxRequests).mp hv with hv | hv
      · exact absurd hlo (not_le.mpr hv)
      · exact absurd hhi (not_le.mpr hv)
  have h4 : ¬ (maxRequestsInQueue ≠ NoChange
      ∧ (cfg.MaxRequestsInQueueValidator maxRequestsInQueue).isSome = true) := by
    rintro ⟨hne, hv⟩
    rcases hqueue with hr | ⟨_, hlo, hhi⟩
    · exact hne hr
    · rcases (minMax_isSome 0 1000000000 maxRequestsInQueue).mp hv with hv | hv
      · exact absurd hlo (not_le.mpr hv)
      · exact absurd hhi (not_le.mpr hv)
  unfold HandleRateRequest
  simp only [if_neg hkey, hcw, hmr, hmq, if_neg h1, if_neg h2, if_neg h3, if_neg h4]

/-- The two results of `maybeForwardToCorrectInstance`: the request is served here when
the instance is not in distributed mode, the request is marked with `ik=true`, or the
owning peer has the host name of the request; otherwise it is forwarded. -/
theorem maybeForward_cases (Do : String → String → Option Int) (c : Context)
    (cfg : GlobalCfgValidated) (key : String) :
    (maybeForwardToCorrectInstance Do c cfg key = some none
      ∧ (cfg.DistributedMode = false ∨ c.QueryParam "ik" = "true"
          ∨ ∃ inst, getInstance cfg key = some inst ∧ inst.Hostname = splitHostPort c.Host))
    ∨ (∃ inst, cfg.DistributedMode = true ∧ c.QueryParam "ik" ≠ "true"
        ∧ getInstance cfg key = some inst ∧ inst.Hostname ≠ splitHostPort c.Host
        ∧ maybeForwardToCorrectInstance Do c cfg key
          = some (some
              (match Do c.Method (inst.Scheme ++ "://" ++ inst.Host ++ c.Path
                  ++ maybeForwardToCorrectInstance.query c) with
               | none => writeString 502 "failed to forward request to correct instance"
               | some StatusCode => writeNoContent StatusCode,
               [HandlerCall.Do c.Method (inst.Scheme ++ "://" ++ inst.Host ++ c.Path
                  ++ maybeForwardToCorrectInstance.query c)]))) := by
  unfold maybeForwardToCorrectInstance
  by_cases hd : cfg.DistributedMode = true ∧ c.QueryParam "ik" ≠ "true"
  · rw [if_pos hd]
    have hlen : 0 < cfg.Instances.length := by
      have := hd.1
      unfold GlobalCfgValidated.DistributedMode at this
      exact of_decide_eq_true this
    have hget : ∃ inst, getInstance cfg key = some inst := by
      unfold getInstance
      rw [if_neg (by rw [hd.1]; exact Bool.noConfusion)]
      have hlt : hashKey key % cfg.Instances.length < cfg.Instances.length :=
        Nat.mod_lt _ hlen
      exact ⟨cfg.Instances[hashKey key % cfg.Instances.length],
        List.getElem?_eq_getElem hlt⟩
    obtain ⟨inst, hinst⟩ := hget
    simp only [hinst]
    by_cases hh : inst.Hostname ≠ splitHostPort c.Host
    · right
      refine ⟨inst, hd.1, hd.2, rfl, hh, ?_⟩
      rw [if_pos hh]
      cases Do c.Method (inst.Scheme ++ "://" ++ inst.Host ++ c.Path
          ++ maybeForwardToCorrectInstance.query c) <;> rfl
    · left
      rw [if_neg hh]
      exact ⟨rfl, Or.inr (Or.inr ⟨inst, rfl, not_not.mp hh⟩)⟩
  · left
    rw [if_neg hd]
    refine ⟨rfl, ?_⟩
    by_cases h1 : cfg.DistributedMode = true
    · right; left
      by_contra h2
      exact hd ⟨h1, h2⟩
    · left
      exact Bool.eq_false_iff.mpr h1
theorem maybeForward_local (Do : String → String → Option Int) (c : Context)
    (cfg : GlobalCfgValidated) (key : String)
    (h : cfg.DistributedMode = false ∨ c.QueryParam "ik" = "true"
      ∨ ∃ inst, getInstance cfg key = some inst ∧ inst.Hostname = splitHostPort c.Host) :
    maybeForwardToCorrectInstance Do c cfg key = some none := by
  rcases maybeForward_cases Do c cfg key with ⟨hloc, _⟩ | ⟨inst, hd, hik, hget, hne, _⟩
  · exact hloc
  · rcases h with h | h | ⟨inst1, hget1, heq⟩
    · rw [h] at hd
      exact Bool.noConfusion hd
    · exact absurd h hik
    · rw [hget] at hget1
      rw [Option.some.injEq] at hget1
      rw [← hget1] at heq
      exact absurd heq hne

theorem maybeForward_forwarded (Do : String → String → Option Int) (c : Context)
    (cfg : GlobalCfgValidated) (key : String) (inst : URL)
    (hd : cfg.DistributedMode = true) (hik : c.QueryParam "ik" ≠ "true")
    (hget : getInstance cfg key = some inst) (hne : inst.Hostname ≠ splitHostPort c.Host) :
    maybeForwardToCorrectInstance Do c cfg key
      = some (some
          (match Do c.Method (inst.Scheme ++ "://" ++ inst.Host ++ c.Path
              ++ maybeForwardToCorrectInstance.query c) with
           | none => writeString 502 "failed to forward request to correct instance"
           | some StatusCode => writeNoContent StatusCode,
           [HandlerCall.Do c.Method (inst.Scheme ++ "://" ++ inst.Host ++ c.Path
              ++ maybeForwardToCorrectInstance.query c)])) := by
  rcases maybeForward_cases Do c cfg key with ⟨_, h⟩ | ⟨inst1, _, _, hget1, _, hfw⟩
  · rcases h with h | h | ⟨inst1, hget1, heq⟩
    · rw [h] at hd
      exact Bool.noConfusion hd
    · exact absurd h hik
    · rw [hget] at hget1
      rw [Option.some.injEq] at hget1
      rw [← hget1] at heq
      exact absurd heq hne
  · rw [hget] at hget1
    rw [Option.some.injEq] at hget1
    rw [hget1]
    exact hfw

/-- The response of the handler to a well-formed request that is served here. -/
theorem HandleRateRequest_local (cfg : GlobalCfgValidated)
    (AskPermission : String → Bool → Int → Int → ExtRespCode × String)
    (Do : String → String → Option Int) (c : Context) (canWait : Bool) (maxRequests : Int)
    (maxRequestsInQueue : Int) (h : wellFormed cfg c canWait maxRequests maxRequestsInQueue)
    (hloc : cfg.DistributedMode = false ∨ c.QueryParam "ik" = "true"
      ∨ ∃ inst, getInstance cfg (TrimSpace c.key) = some inst
          ∧ inst.Hostname = splitHostPort c.Host)
    (code : ExtRespCode) (requestID : String)
    (hask : AskPermission (TrimSpace c.key) canWait maxRequests maxRequestsInQueue
      = (code, requestID)) :
    HandleRateRequest cfg AskPermission Do c
      = some (match code with
              | ExtRespCode.Approved => writeString 200 requestID
              | ExtRespCode.Denied => writeNoContent 429
              | ExtRespCode.ClientGaveUp => writeNoContent 499,
              [HandlerCall.AskPermission (TrimSpace c.key) canWait maxRequests
                maxRequestsInQueue]) := by
  rw [HandleRateRequest_of_wellFormed cfg AskPermission Do c canWait maxRequests
    maxRequestsInQueue h, maybeForward_local Do c cfg (TrimSpace c.key) hloc]
  simp only [hask]
  cases code <;> rfl

/-- The response of the handler to a well-formed request that is forwarded. -/
theorem HandleRateRequest_forwarded (cfg : GlobalCfgValidated)
    (AskPermission : String → Bool → Int → Int → ExtRespCode × String)
    (Do : String → String → Option Int) (c : Context) (canWait : Bool) (maxRequests : Int)
    (maxRequestsInQueue : Int) (h : wellFormed cfg c canWait maxRequests maxRequestsInQueue)
    (inst : URL) (hd : cfg.DistributedMode = true) (hik : c.QueryParam "ik" ≠ "true")
    (hget : getInstance cfg (TrimSpace c.key) = some inst)
    (hne : inst.Hostname ≠ splitHostPort c.Host) :
    HandleRateRequest cfg AskPermission Do c
      = some (match Do c.Method (inst.Scheme ++ "://" ++ inst.Host ++ c.Path
                  ++ maybeForwardToCorrectInstance.query c) with
              | none => writeString 502 "failed to forward request to correct instance"
              | some StatusCode => writeNoContent StatusCode,
              [HandlerCall.Do c.Method (inst.Scheme ++ "://" ++ inst.Host ++ c.Path
                  ++ maybeForwardToCorrectInstance.query c)]) := by
  rw [HandleRateRequest_of_wellFormed cfg AskPermission Do c canWait maxRequests
    maxRequestsInQueue h,
    maybeForward_forwarded Do c cfg (TrimSpace c.key) inst hd hik hget hne]

/-- The responses of the rate endpoint to a well-formed request.  The handler writes a
response, and (1) when the request is served by the local limiter (the instance is not in
distributed mode, the request is marked `ik=true`, or the owning peer has the host name of
the request): 200 with the request id as the body for Approved, 429 for Denied and 499 for
ClientGaveUp, each with an empty body; (2) when the request is forwarded to the owning
peer: the status code of the peer's response with an empty body, and 502 if the peer
cannot be reached; the local limiter is not asked; (3) hence, when the peer serves the
forwarded request with its own limiter and its response arrives: 200, 429 or 499 for the
outcomes Approved, Denied and ClientGaveUp of the peer's limiter, with an empty body. -/
theorem HandleRateRequest_response (cfg : GlobalCfgValidated)
    (AskPermission : String → Bool → Int → Int → ExtRespCode × String)
    (Do : String → String → Option Int) (c : Context) (canWait : Bool) (maxRequests : Int)
    (maxRequestsInQueue : Int)
    (hwf : wellFormed cfg c canWait maxRequests maxRequestsInQueue) :
    (∃ r, HandleRateRequest cfg AskPermission Do c = some r)
    ∧ ((cfg.DistributedMode = false ∨ c.QueryParam "ik" = "true"
          ∨ ∃ inst, getInstance cfg (TrimSpace c.key) = some inst
              ∧ inst.Hostname = splitHostPort c.Host) →
        ∀ (code : ExtRespCode) (requestID : String),
          AskPermission (TrimSpace c.key) canWait maxRequests maxRequestsInQueue
            = (code, requestID) →
          HandleRateRequest cfg AskPermission Do c
            = some (match code with
                    | ExtRespCode.Approved => { Status := 200, Body := requestID }
                    | ExtRespCode.Denied => { Status := 429, Body := "" }
                    | ExtRespCode.ClientGaveUp => { Status := 499, Body := "" },
                    [HandlerCall.AskPermission (TrimSpace c.key) canWait maxRequests
                      maxRequestsInQueue]))
    ∧ (∀ inst : URL, cfg.DistributedMode = true → c.QueryParam "ik" ≠ "true" →
        getInstance cfg (TrimSpace c.key) = some inst →
        inst.Hostname ≠ splitHostPort c.Host →
        (∀ StatusCode : Int,
          Do c.Method (inst.Scheme ++ "://" ++ inst.Host ++ c.Path
            ++ maybeForwardToCorrectInstance.query c) = some StatusCode →
          HandleRateRequest cfg AskPermission Do c
            = some ({ Status := StatusCode, Body := "" },
                [HandlerCall.Do c.Method (inst.Scheme ++ "://" ++ inst.Host ++ c.Path
                  ++ maybeForwardToCorrectInstance.query c)]))
        ∧ (Do c.Method (inst.Scheme ++ "://" ++ inst.Host ++ c.Path
              ++ maybeForwardToCorrectInstance.query c) = none →
            HandleRateRequest cfg AskPermission Do c
              = some ({ Status := 502,
                        Body := "failed to forward request to correct instance" },
                  [HandlerCall.Do c.Method (inst.Scheme ++ "://" ++ inst.Host ++ c.Path
                    ++ maybeForwardToCorrectInstance.query c)]))
        ∧ ∀ (peerCfg : GlobalCfgValidated)
            (peerAsk : String → Bool → Int → Int → ExtRespCode × String)
            (peerDo : String → String → Option Int) (c1 : Context) (canWait1 : Bool)
            (maxRequests1 : Int) (maxRequestsInQueue1 : Int) (code : ExtRespCode)
            (requestID : String),
            wellFormed peerCfg c1 canWait1 maxRequests1 maxRequestsInQueue1 →
            (peerCfg.DistributedMode = false ∨ c1.QueryParam "ik" = "true"
              ∨ ∃ inst1, getInstance peerCfg (TrimSpace c1.key) = some inst1
                  ∧ inst1.Hostname = splitHostPort c1.Host) →
            peerAsk (TrimSpace c1.key) canWait1 maxRequests1 maxRequestsInQueue1
              = (code, requestID) →
            Do c.Method (inst.Scheme ++ "://" ++ inst.Host ++ c.Path
                ++ maybeForwardToCorrectInstance.query c)
              = (HandleRateRequest peerCfg peerAsk peerDo c1).map (fun r => r.1.Status) →
            HandleRateRequest cfg AskPermission Do c
              = some ({ Status := match code with
                                  | ExtRespCode.Approved => 200
                                  | ExtRespCode.Denied => 429
                                  | ExtRespCode.ClientGaveUp => 499,
                        Body := "" },
                  [HandlerCall.Do c.Method (inst.Scheme ++ "://" ++ inst.Host ++ c.Path
                    ++ maybeForwardToCorrectInstance.query c)])) := by
  refine ⟨?_, ?_, ?_⟩
  · rcases maybeForward_cases Do c cfg (TrimSpace c.key) with
      ⟨_, hloc⟩ | ⟨inst, hd, hik, hget, hne, _⟩
    · exact ⟨_, HandleRateRequest_local cfg AskPermission Do c canWait maxRequests
        maxRequestsInQueue hwf hloc _ _ rfl⟩
    · exact ⟨_, HandleRateRequest_forwarded cfg AskPermission Do c canWait maxRequests
        maxRequestsInQueue hwf inst hd hik hget hne⟩
  · intro hloc code requestID hask
    rw [HandleRateRequest_local cfg AskPermission Do c canWait maxRequests
      maxRequestsInQueue hwf hloc code requestID hask]
    cases code <;> rfl
  · intro inst hd hik hget hne
    have hfw := HandleRateRequest_forwarded cfg AskPermission Do c canWait maxRequests
      maxRequestsInQueue hwf inst hd hik hget hne
    refine ⟨?_, ?_, ?_⟩
    · intro StatusCode hDo
      rw [hfw, hDo]
      rfl
    · intro hDo
      rw [hfw, hDo]
      rfl
    · intro peerCfg peerAsk peerDo c1 canWait1 maxRequests1 maxRequestsInQueue1 code requestID
        hwf1 hloc1 hask1 hDo
      rw [HandleRateRequest_local peerCfg peerAsk peerDo c1 canWait1 maxRequests1
        maxRequestsInQueue1 hwf1 hloc1 code requestID hask1] at hDo
      rw [hfw, hDo]
      cases code <;> rfl

/-- C28 evaluated on the code: a forwarded request that the owner's limiter approves is
answered 200 without the request id.  (1) Of the two peers of `sampleCfg` the second owns
key `b`.  Its handler, asked with `ik=true`, answers 200 with the request id `1` when its
limiter approves.  The first peer forwards a well-formed request for `b`, receives that
response and answers 200 with an empty body.  (2) In general, for every well-formed
GET|POST /rate/{key} request the handler writes a response; when the request is served by
the local limiter the response is 200 with the request id as the body for Approved, 429 for
Denied and 499 for ClientGaveUp; when it is forwarded to the owning peer the response has
the status code of the peer's response (200, 429 or 499 for the outcomes Approved, Denied
and ClientGaveUp of the peer's limiter) and an empty body, whatever the request id, and it
is 502 if the peer cannot be reached. -/
theorem C28_forwarded_drops_request_id :
    (wellFormed sampleCfg (sampleContext "a.example:8080" "b" []) false NoChange NoChange
    ∧ getInstance sampleCfg "b" = some { Scheme := "http", Host := "b.example:8080" }
    ∧ HandleRateRequest sampleCfg sampleApprove (fun _ _ => none)
        { Method := "POST", Host := "b.example:8080", Path := "/rate/b", key := "b",
          RawQuery := "ik=true", Query := [("ik", ["true"])] }
      = some ({ Status := 200, Body := "1" },
          [HandlerCall.AskPermission "b" false NoChange NoChange])
    ∧ samplePeerDo "POST" "http://b.example:8080/rate/b?ik=true" = some 200
    ∧ HandleRateRequest sampleCfg sampleApprove samplePeerDo
        (sampleContext "a.example:8080" "b" [])
      = some ({ Status := 200, Body := "" },
          [HandlerCall.Do "POST" "http://b.example:8080/rate/b?ik=true"]))
    ∧ ∀ (cfg : GlobalCfgValidated)
        (AskPermission : String → Bool → Int → Int → ExtRespCode × String)
        (Do : String → String → Option Int) (c : Context) (canWait : Bool)
        (maxRequests : Int) (maxRequestsInQueue : Int),
        wellFormed cfg c canWait maxRequests maxRequestsInQueue →
        (∃ r, HandleRateRequest cfg AskPermission Do c = some r)
        ∧ ((cfg.DistributedMode = false ∨ c.QueryParam "ik" = "true"
              ∨ ∃ inst, getInstance cfg (TrimSpace c.key) = some inst
                  ∧ inst.Hostname = splitHostPort c.Host) →
            ∀ (code : ExtRespCode) (requestID : String),
              AskPermission (TrimSpace c.key) canWait maxRequests maxRequestsInQueue
                = (code, requestID) →
              HandleRateRequest cfg AskPermission Do c
                = some (match code with
                        | ExtRespCode.Approved => { Status := 200, Body := requestID }
                        | ExtRespCode.Denied => { Status := 429, Body := "" }
                        | ExtRespCode.ClientGaveUp => { Status := 499, Body := "" },
                        [HandlerCall.AskPermission (TrimSpace c.key) canWait maxRequests
                          maxRequestsInQueue]))
        ∧ (∀ inst : URL, cfg.DistributedMode = true → c.QueryParam "ik" ≠ "true" →
            getInstance cfg (TrimSpace c.key) = some inst →
            inst.Hostname ≠ splitHostPort c.Host →
            (∀ StatusCode : Int,
              Do c.Method (inst.Scheme ++ "://" ++ inst.Host ++ c.Path
                ++ maybeForwardToCorrectInstance.query c) = some StatusCode →
              HandleRateRequest cfg AskPermission Do c
                = some ({ Status := StatusCode, Body := "" },
                    [HandlerCall.Do c.Method (inst.Scheme ++ "://" ++ inst.Host ++ c.Path
                      ++ maybeForwardToCorrectInstance.query c)]))
            ∧ (Do c.Method (inst.Scheme ++ "://" ++ inst.Host ++ c.Path
                  ++ maybeForwardToCorrectInstance.query c) = none →
                HandleRateRequest cfg AskPermission Do c
                  = some ({ Status := 502,
                            Body := "failed to forward request to correct instance" },
                      [HandlerCall.Do c.Method (inst.Scheme ++ "://" ++ inst.Host ++ c.Path
                        ++ maybeForwardToCorrectInstance.query c)]))
            ∧ ∀ (peerCfg : GlobalCfgValidated)
                (peerAsk : String → Bool → Int → Int → ExtRespCode × String)
                (peerDo : String → String → Option Int) (c1 : Context) (canWait1 : Bool)
                (maxRequests1 : Int) (maxRequestsInQueue1 : Int) (code : ExtRespCode)
                (requestID : String),
                wellFormed peerCfg c1 canWait1 maxRequests1 maxRequestsInQueue1 →
                (peerCfg.DistributedMode = false ∨ c1.QueryParam "ik" = "true"
                  ∨ ∃ inst1, getInstance peerCfg (TrimSpace c1.key) = some inst1
                      ∧ inst1.Hostname = splitHostPort c1.Host) →
                peerAsk (TrimSpace c1.key) canWait1 maxRequests1 maxRequestsInQueue1
                  = (code, requestID) →
                Do c.Method (inst.Scheme ++ "://" ++ inst.Host ++ c.Path
                    ++ maybeForwardToCorrectInstance.query c)
                  = (HandleRateRequest peerCfg peerAsk peerDo c1).map (fun r => r.1.Status) →
                HandleRateRequest cfg AskPermission Do c
                  = some ({ Status := match code with
                                      | ExtRespCode.Approved => 200
                                      | ExtRespCode.Denied => 429
                                      | ExtRespCode.ClientGaveUp => 499,
                            Body := "" },
                      [HandlerCall.Do c.Method (inst.Scheme ++ "://" ++ inst.Host ++ c.Path
                        ++ maybeForwardToCorrectInstance.query c)])) := by
  refine ⟨⟨?_, by decide, by decide, by decide, by decide⟩, ?_⟩
  · unfold wellFormed
    decide
  · intro cfg AskPermission Do c canWait maxRequests maxRequestsInQueue hwf
    exact HandleRateRequest_response cfg AskPermission Do c canWait maxRequests
      maxRequestsInQueue hwf

theorem ParseInt_nonempty (s : String) (bitSize : Nat) (v : Int)
    (h : ParseInt s bitSize = some v) : s.length > 0 := by
  unfold ParseInt at h
  cases hd : s.data with
  | nil =>
    rw [hd] at h
    exact Option.noConfusion h
  | cons c rest =>
    have : s.length = (c :: rest).length := by rw [← hd]; rfl
    rw [this]
    exact Nat.succ_pos _

theorem ParseInt_range_core (neg : Bool) (un : Nat) (v : Int)
    (h : (if neg = false ∧ un ≥ 2 ^ (32 - 1) then none
          else if neg = true ∧ un > 2 ^ (32 - 1) then none
          else some (if neg then -(un : Int) else (un : Int))) = some v) :
    -2147483648 ≤ v ∧ v ≤ 2147483647 := by
  have hpow : (2 : Nat) ^ (32 - 1) = 2147483648 := by norm_num
  rw [hpow] at h
  cases neg with
  | false =>
    by_cases h1 : un ≥ 2147483648
    · rw [if_pos ⟨rfl, h1⟩] at h
      exact Option.noConfusion h
    · rw [if_neg (fun hc => h1 hc.2), if_neg (fun hc => Bool.noConfusion hc.1)] at h
      simp only [Bool.false_eq_true, if_false, Option.some.injEq] at h
      omega
  | true =>
    by_cases h1 : un > 2147483648
    · rw [if_neg (fun hc => Bool.noConfusion hc.1), if_pos ⟨rfl, h1⟩] at h
      exact Option.noConfusion h
    · rw [if_neg (fun hc => Bool.noConfusion hc.1), if_neg (fun hc => h1 hc.2)] at h
      simp only [if_true, Option.some.injEq] at h
      omega

theorem ParseInt_range (s : String) (v : Int) (h : ParseInt s 32 = some v) :
    -2147483648 ≤ v ∧ v ≤ 2147483647 := by
  unfold ParseInt at h
  cases hd : s.data with
  | nil =>
    rw [hd] at h
    exact Option.noConfusion h
  | cons c rest =>
    rw [hd] at h
    simp only at h
    generalize (if c = '+' ∨ c = '-' then rest else c :: rest) = digits at h
    generalize decide (c = '-') = neg at h
    by_cases hnil : digits = []
    · rw [if_pos hnil] at h
      exact Option.noConfusion h
    · rw [if_neg hnil] at h
      cases hl : ParseUint.loop 0 digits with
      | none =>
        rw [hl] at h
        exact Option.noConfusion h
      | some un =>
        rw [hl] at h
        exact ParseInt_range_core neg un v h

/-- The parameter `raw` parses to the value that `strconv.ParseInt` gives for it. -/
theorem parseOptionalInt32Param_of_ParseInt (raw : String) (defaultValue v : Int)
    (h : ParseInt (TrimSpace raw) 32 = some v) :
    parseOptionalInt32Param raw defaultValue = some v := by
  unfold parseOptionalInt32Param
  simp only [if_pos (ParseInt_nonempty _ _ _ h), h]

/-- C29, refuted as stated: an instance that allows no overrides is asked for key `k` with
`maxRequests=-1000000000`, the value of `NoChange`: the limiter is asked and the response
is its 200.  With `maxRequests=3000000000`, which does not fit in 32 bits, the response is
400.  For `maxRequestsInQueue` it is the same.  With `maxRequests=5` for a key that
consists of a space, the response is 400. -/
theorem C29_counterexample :
    sampleLocalCfg.RequestsCanSetRate = false ∧ sampleLocalCfg.RequestsCanModQueue = false
    ∧ HandleRateRequest sampleLocalCfg sampleApprove (fun _ _ => none)
        (sampleContext "a.example:8080" "k" [("maxRequests", ["-1000000000"])])
      = some ({ Status := 200, Body := "1" },
          [HandlerCall.AskPermission "k" false NoChange NoChange])
    ∧ HandleRateRequest sampleLocalCfg sampleApprove (fun _ _ => none)
        (sampleContext "a.example:8080" "k" [("maxRequests", ["3000000000"])])
      = some ({ Status := 400, Body := "failed to parse maxRequests query parameter" }, [])
    ∧ HandleRateRequest sampleLocalCfg sampleApprove (fun _ _ => none)
        (sampleContext "a.example:8080" "k" [("maxRequestsInQueue", ["-1000000000"])])
      = some ({ Status := 200, Body := "1" },
          [HandlerCall.AskPermission "k" false NoChange NoChange])
    ∧ HandleRateRequest sampleLocalCfg sampleApprove (fun _ _ => none)
        (sampleContext "a.example:8080" "k" [("maxRequestsInQueue", ["3000000000"])])
      = some ({ Status := 400,
                Body := "failed to parse maxRequestsInQueue query parameter" }, [])
    ∧ HandleRateRequest sampleLocalCfg sampleApprove (fun _ _ => none)
        (sampleContext "a.example:8080" " " [("maxRequests", ["5"])])
      = some ({ Status := 400, Body := "empty key provided" }, []) := by
  refine ⟨rfl, rfl, by decide, by decide, by decide, by decide, by decide⟩

/-- C29 (amended): for every /rate/{key} request with a key that is not empty after
trimming white space and a well-formed `canWait`: (1) if the `maxRequests` parameter is
present with an integer value that fits in 32 bits and is not `NoChange` (-1000000000)
while RequestsCanSetRate is false, the response is 403 and the limiter is not asked (no
call is made); (2) if `maxRequests` is well-formed and the `maxRequestsInQueue` parameter
is present with an integer value that fits in 32 bits and is not `NoChange` while
RequestsCanModQueue is false, the response is 403 and the limiter is not asked.  (3) The
values that the parameters can have are those from -2147483648 to 2147483647. -/
theorem C29_override_policy (cfg : GlobalCfgValidated)
    (AskPermission : String → Bool → Int → Int → ExtRespCode × String)
    (Do : String → String → Option Int) (c : Context) (canWait : Bool)
    (hkey : (TrimSpace c.key).length ≠ 0)
    (hcw : parseOptionalBoolParam (c.QueryParam "canWait") false = some canWait) :
    (∀ v : Int, ParseInt (TrimSpace (c.QueryParam "maxRequests")) 32 = some v →
        v ≠ NoChange → cfg.RequestsCanSetRate = false →
        HandleRateRequest cfg AskPermission Do c
          = some ({ Status := 403, Body := "maxRequests query parameter is disabled" }, []))
    ∧ (∀ (maxRequests v : Int),
        parseOptionalInt32Param (c.QueryParam "maxRequests") NoChange = some maxRequests →
        ParseInt (TrimSpace (c.QueryParam "maxRequestsInQueue")) 32 = some v →
        v ≠ NoChange → cfg.RequestsCanModQueue = false →
        ∃ body, HandleRateRequest cfg AskPermission Do c
          = some ({ Status := 403, Body := body }, []))
    ∧ ∀ (s : String) (v : Int), ParseInt s 32 = some v →
        -2147483648 ≤ v ∧ v ≤ 2147483647 := by
  refine ⟨?_, ?_, ParseInt_range⟩
  · intro v hv hne hpol
    have hmr := parseOptionalInt32Param_of_ParseInt (c.QueryParam "maxRequests") NoChange v hv
    unfold HandleRateRequest
    simp only [if_neg hkey, hcw, hmr, if_pos (And.intro hne hpol)]
    rfl
  · intro maxRequests v hmr hv hne hpol
    have hmq := parseOptionalInt32Param_of_ParseInt (c.QueryParam "maxRequestsInQueue")
      NoChange v hv
    unfold HandleRateRequest
    simp only [if_neg hkey, hcw, hmr]
    by_cases h1 : maxRequests ≠ NoChange ∧ cfg.RequestsCanSetRate = false
    · rw [if_pos h1]
      exact ⟨_, rfl⟩
    · rw [if_neg h1]
      simp only [hmq, if_pos (And.intro hne hpol)]
      exact ⟨_, rfl⟩

/-- C29 (amended) on a request with `maxRequests=5` to an instance that allows no
overrides. -/
theorem C29_override_policy_witness :
    HandleRateRequest sampleLocalCfg sampleApprove (fun _ _ => none)
        (sampleContext "a.example:8080" "k" [("maxRequests", ["5"])])
      = some ({ Status := 403, Body := "maxRequests query parameter is disabled" }, []) :=
  (C29_override_policy sampleLocalCfg sampleApprove (fun _ _ => none)
    (sampleContext "a.example:8080" "k" [("maxRequests", ["5"])]) false (by decide)
    (by decide)).1 5 (by decide) (by decide) rfl

end GoCC
